import Mathlib

/-!
# Verification development for the `cache` library

A shallow embedding of the metadata envelope codec (`protocol.go`,
`internal/headerproto/header.pb.go`, `internal/compression/compression.go`),
of the operations of the cache wrapper (`cache_wrapper.go`), of the in-memory storage
adapter (`inmemory_inner.go`, `internal/client/inmemory/ristretto.go`) and of the
singleflight group (`internal/group/group.go`).

Conventions of the embedding:

* a Go `[]byte` is a `List Byte`; a slice expression is checked against the
  length of the list (capacity equals length);
* Go `int`, `int64` and `time.Duration` values are `Int`, unsigned words are `Nat`;
  conversions between widths are written out with `%`;
* a Go pointer that may be `nil` is an `Option`;
* a Go map that is ranged over is the list of its entries in the order of the visit;
* a Go function that may panic returns an `Outcome`; loops whose termination
  argument is not structural carry a step budget.
-/

namespace Cache

/-! ## Bytes, results -/

/-- One octet. -/
abbrev Byte := Fin 256

/-- Go conversion `uint8(n)` of an unsigned word. -/
def toByte (n : Nat) : Byte := ⟨n % 256, Nat.mod_lt _ (by decide)⟩

/-- Run-time panics that the embedded code can raise. -/
inductive Fault where
  | sliceBounds
  | indexOutOfRange
  | nilDereference
  /-- The panic "sync: negative WaitGroup counter". -/
  | negativeWaitGroupCounter
  /-- A panic raised by the library with an error value, by its message. -/
  | logic (msg : String)
deriving DecidableEq, Repr

/-- Result of running a Go function: it returns, it panics, or the step budget of
the model is exhausted. -/
inductive Outcome (α : Type) where
  | ret (a : α)
  | fault (f : Fault)
  | outOfFuel
deriving DecidableEq, Repr

/-- Sequencing of outcomes. -/
def Outcome.bind {α β : Type} (x : Outcome α) (f : α → Outcome β) : Outcome β :=
  match x with
  | .ret a => f a
  | .fault e => .fault e
  | .outOfFuel => .outOfFuel

instance : Monad Outcome where
  pure := Outcome.ret
  bind := Outcome.bind

/-- Error values (Go `error`) produced by the library. -/
inductive Err where
  /-- The value `cache.Error{Message: msg}` built by `cacheErr`. -/
  | cacheErr (msg : String)
  /-- The value `errEncodingNotMatch` of `protocol.go`. -/
  | encodingNotMatch
  /-- The value `errCompressionNotSupported` of the compression package. -/
  | compressionNotSupported
  /-- The value `ErrIntOverflowHeader`. -/
  | intOverflowHeader
  /-- The value `io.ErrUnexpectedEOF`. -/
  | unexpectedEOF
  /-- The value `ErrInvalidLengthHeader`. -/
  | invalidLengthHeader
  /-- The value `ErrUnexpectedEndOfGroupHeader`. -/
  | unexpectedEndOfGroupHeader
  /-- The error "proto: Header: wiretype end group for non-group". -/
  | wiretypeEndGroup
  /-- The error "proto: Header: illegal tag %d (wire type %d)". -/
  | illegalTag (fieldNum : Int) (wire : Nat)
  /-- The error "proto: wrong wireType = %d for field ...", the field given by its number. -/
  | wrongWireType (wireType : Nat) (field : Nat)
  /-- The error "proto: illegal wireType %d". -/
  | illegalWireType (wireType : Nat)
  /-- The value `codec.ErrCodecNotSupported`. -/
  | codecNotSupported
  /-- An error of `reflect`-based helper code, by its message. -/
  | other (msg : String)
  /-- An error raised inside an external library (snappy, gzip, a codec). -/
  | external (code : Nat)
deriving DecidableEq, Repr

/-- Slice expression `byt[lo:hi]` on a slice whose capacity is its length (Go checks
`hi` against the capacity, so that with spare capacity the expression reads the array
behind the slice instead of panicking). -/
def slice (byt : List Byte) (lo hi : Nat) : Outcome (List Byte) :=
  if lo ≤ hi ∧ hi ≤ byt.length then .ret ((byt.drop lo).take (hi - lo))
  else .fault .sliceBounds

/-- Function `binary.LittleEndian.PutUint32` on a fresh 4-byte buffer. -/
def putUint32 (v : Nat) : List Byte :=
  [toByte v, toByte (v >>> 8), toByte (v >>> 16), toByte (v >>> 24)]

/-- Function `binary.LittleEndian.Uint32`. -/
def Uint32 (b : List Byte) : Outcome Nat :=
  match b with
  | b0 :: b1 :: b2 :: b3 :: _ =>
    .ret (b0.val ||| (b1.val <<< 8) ||| (b2.val <<< 16) ||| (b3.val <<< 24))
  | _ => .fault .indexOutOfRange

/-- Conversion `int64(x)` of a 64-bit pattern. -/
def toInt64 (n : Nat) : Int :=
  if n % 2 ^ 64 < 2 ^ 63 then (n % 2 ^ 64 : Nat) else (n % 2 ^ 64 : Nat) - 2 ^ 64

/-- Conversion `int32(x)` of an unsigned word. -/
def toInt32 (n : Nat) : Int :=
  if n % 2 ^ 32 < 2 ^ 31 then (n % 2 ^ 32 : Nat) else (n % 2 ^ 32 : Nat) - 2 ^ 32

/-- Conversion `uint64(x)` of a signed integer. -/
def toUint64 (x : Int) : Nat := (x % 2 ^ 64).toNat

/-- Conversion `uint32(x)` of a signed integer. -/
def toUint32 (x : Int) : Nat := (x % 2 ^ 32).toNat

/-- Range of the Go type `int64`. -/
def isInt64 (x : Int) : Prop := -(2 ^ 63) ≤ x ∧ x < 2 ^ 63

instance (x : Int) : Decidable (isInt64 x) := by unfold isInt64; infer_instance

/-! ## Compression (`internal/compression/compression.go`) -/

/-- Type `compression.AlgoType`. -/
abbrev AlgoType := Int

/-- Constant `compression.Snappy`. -/
def Snappy : AlgoType := 0
/-- Constant `compression.Gzip`. -/
def Gzip : AlgoType := 1
/-- Constant `compression.None`. -/
def None : AlgoType := 2

/-- Constant `compression.DefaultMinLenForCompression`. -/
def DefaultMinLenForCompression : Int := 512

/-- The external compression libraries used by `Compress` and `Decompress`
(`github.com/golang/snappy`, `compress/gzip`), taken as parameters. -/
structure CompressionLib where
  /-- Function `snappy.Encode(nil, byt)`. -/
  snappyEncode : List Byte → List Byte
  /-- Function `snappy.Decode(nil, byt)`. -/
  snappyDecode : List Byte → Except Err (List Byte)
  /-- Writing `byt` through a gzip writer and closing it. -/
  gzipWrite : List Byte → Except Err (List Byte)
  /-- Reading all of `byt` through a gzip reader. -/
  gzipRead : List Byte → Except Err (List Byte)

/-- Go pair `([]byte, error)`. -/
abbrev BytesResult := Option (List Byte) × Option Err

/-- Turn a library result into a Go pair. -/
def ofExcept (r : Except Err (List Byte)) : BytesResult :=
  match r with
  | .ok b => (some b, none)
  | .error e => (none, some e)

/-- Function `compression.Compress`. -/
def Compress (lib : CompressionLib) (byt : List Byte) (compressionType : AlgoType) : BytesResult :=
  if compressionType = Snappy then (some (lib.snappyEncode byt), none)
  else if compressionType = Gzip then ofExcept (lib.gzipWrite byt)
  else if compressionType = None then (some byt, none)
  else (none, some .compressionNotSupported)

/-- Function `compression.Decompress`. -/
def Decompress (lib : CompressionLib) (byt : List Byte) (compressionType : AlgoType) : BytesResult :=
  if compressionType = Snappy then ofExcept (lib.snappyDecode byt)
  else if compressionType = Gzip then ofExcept (lib.gzipRead byt)
  else if compressionType = None then (some byt, none)
  else (none, some .compressionNotSupported)

/-! ## Header record (`internal/headerproto/header.pb.go`) -/

/-- Type `headerproto.Header`; `XXX_unrecognized` is `[]` when nil. -/
structure Header where
  CompressionType : Option Int := none
  SoftTimeoutTs : Option Int := none
  HardTimeoutTs : Option Int := none
  XXX_unrecognized : List Byte := []
deriving DecidableEq, Repr

/-- The number of binary digits of `x`, counted over at most `fuel` digits. -/
def lenBits : Nat → Nat → Nat
  | 0, _ => 0
  | fuel + 1, x => if x = 0 then 0 else lenBits fuel (x / 2) + 1

/-- Function `bits.Len64` of the standard library: the number of bits needed to
write a `uint64`, zero for 0. -/
def Len64 (x : Nat) : Nat := lenBits 64 x

/-- Function `sovHeader`: `(bits.Len64(x|1) + 6) / 7`. -/
def sovHeader (x : Nat) : Nat := (Len64 (x ||| 1) + 6) / 7

/-- Assignment `dAtA[i] = b`. -/
def writeAt (dAtA : List Byte) (i : Int) (b : Byte) : Outcome (List Byte) :=
  if 0 ≤ i ∧ i < dAtA.length then .ret (dAtA.set i.toNat b) else .fault .indexOutOfRange

/-- The loop of `encodeVarintHeader`, followed by its last write. -/
def encodeVarintLoop : Nat → List Byte → Int → Nat → Outcome (List Byte)
  | 0, _, _, _ => .outOfFuel
  | fuel + 1, dAtA, offset, v =>
    if v ≥ 1 <<< 7 then
      (writeAt dAtA offset (toByte (v &&& 0x7f ||| 0x80))).bind fun d =>
        encodeVarintLoop fuel d (offset + 1) (v >>> 7)
    else writeAt dAtA offset (toByte v)

/-- Function `encodeVarintHeader`: the buffer after the writes, and `base`. -/
def encodeVarintHeader (dAtA : List Byte) (offset : Int) (v : Nat) : Outcome (List Byte × Int) :=
  let base := offset - sovHeader v
  (encodeVarintLoop 10 dAtA base v).bind fun d => .ret (d, base)

/-- Method `Header.Size`. -/
def Header.Size (m : Header) : Nat :=
  (match m.CompressionType with | some c => 1 + sovHeader (toUint64 c) | none => 0)
  + (match m.SoftTimeoutTs with | some s => 1 + sovHeader (toUint64 s) | none => 0)
  + (match m.HardTimeoutTs with | some h => 1 + sovHeader (toUint64 h) | none => 0)
  + m.XXX_unrecognized.length

/-- Statement `copy(dAtA[i:], src)`. -/
def copyAt (dAtA : List Byte) (i : Int) (src : List Byte) : Outcome (List Byte) :=
  if 0 ≤ i ∧ i ≤ dAtA.length then
    .ret (dAtA.take i.toNat ++ src.take (dAtA.length - i.toNat)
      ++ dAtA.drop (i.toNat + min src.length (dAtA.length - i.toNat)))
  else .fault .sliceBounds

/-- One tagged field of `MarshalToSizedBuffer`: the varint, then the tag byte below it. -/
def marshalField (field : Option Int) (tag : Byte) (st : List Byte × Int) : Outcome (List Byte × Int) :=
  match field with
  | none => .ret st
  | some x =>
    (encodeVarintHeader st.1 st.2 (toUint64 x)).bind fun st1 =>
      (writeAt st1.1 (st1.2 - 1) tag).bind fun d => .ret (d, st1.2 - 1)

/-- Method `Header.MarshalToSizedBuffer`: the buffer after the writes and the count
`len(dAtA) - i`. -/
def Header.MarshalToSizedBuffer (m : Header) (dAtA : List Byte) : Outcome (List Byte × Int) :=
  let i : Int := dAtA.length
  (if m.XXX_unrecognized ≠ [] then
      (copyAt dAtA (i - m.XXX_unrecognized.length) m.XXX_unrecognized).bind fun d =>
        .ret (d, i - m.XXX_unrecognized.length)
    else .ret (dAtA, i)).bind fun st0 =>
  (marshalField m.HardTimeoutTs 0x18 st0).bind fun st1 =>
  (marshalField m.SoftTimeoutTs 0x10 st1).bind fun st2 =>
  (marshalField m.CompressionType 0x8 st2).bind fun st3 =>
  .ret (st3.1, (dAtA.length : Int) - st3.2)

/-- Method `Header.Marshal`. -/
def Header.Marshal (m : Header) : Outcome BytesResult :=
  let size := m.Size
  let dAtA : List Byte := List.replicate size 0
  (m.MarshalToSizedBuffer dAtA).bind fun r =>
    if 0 ≤ r.2 then (slice r.1 0 r.2.toNat).bind fun b => .ret (some b, none)
    else .fault .sliceBounds

/-- The varint loop of `Unmarshal` (`for shift := uint(0); ; shift += 7`), run on the
bytes from `iNdEx` on: the 64-bit pattern read and the number of bytes consumed. -/
def readVarint : List Byte → Nat → Nat → Nat → Except Err (Nat × Nat)
  | rest, shift, acc, n =>
    if shift ≥ 64 then .error .intOverflowHeader
    else match rest with
      | [] => .error .unexpectedEOF
      | b :: rest1 =>
        let acc1 := acc ||| (((b.val &&& 0x7F) <<< shift) % 2 ^ 64)
        if b.val < 0x80 then .ok (acc1, n + 1)
        else readVarint rest1 (shift + 7) acc1 (n + 1)

/-- The varint loop of `skipHeader` for wire type 0: the number of bytes consumed. -/
def skipVarint : List Byte → Nat → Nat → Except Err Nat
  | rest, shift, n =>
    if shift ≥ 64 then .error .intOverflowHeader
    else match rest with
      | [] => .error .unexpectedEOF
      | b :: rest1 =>
        if b.val < 0x80 then .ok (n + 1)
        else skipVarint rest1 (shift + 7) (n + 1)

/-- The loop of `skipHeader`, with the position `iNdEx` and the group `depth`. -/
def skipHeaderLoop (dAtA : List Byte) : Nat → Int → Nat → Outcome (Int × Option Err)
  | 0, _, _ => .outOfFuel
  | fuel + 1, iNdEx, depth =>
    if iNdEx < dAtA.length then
      match readVarint (dAtA.drop iNdEx.toNat) 0 0 0 with
      | .error e => .ret (0, some e)
      | .ok (wire, n) =>
        let iNdEx1 : Int := iNdEx + n
        let wireType := wire &&& 0x7
        let step : Except Err (Int × Nat) :=
          if wireType = 0 then
            match skipVarint (dAtA.drop iNdEx1.toNat) 0 0 with
            | .error e => .error e
            | .ok k => .ok (iNdEx1 + k, depth)
          else if wireType = 1 then .ok (iNdEx1 + 8, depth)
          else if wireType = 2 then
            match readVarint (dAtA.drop iNdEx1.toNat) 0 0 0 with
            | .error e => .error e
            | .ok (bits, k) =>
              let length := toInt64 bits
              if length < 0 then .error .invalidLengthHeader
              else .ok (toInt64 (toUint64 (iNdEx1 + k + length)), depth)
          else if wireType = 3 then .ok (iNdEx1, depth + 1)
          else if wireType = 4 then
            if depth = 0 then .error .unexpectedEndOfGroupHeader else .ok (iNdEx1, depth - 1)
          else if wireType = 5 then .ok (iNdEx1 + 4, depth)
          else .error (.illegalWireType wireType)
        match step with
        | .error e => .ret (0, some e)
        | .ok (iNdEx2, depth2) =>
          if iNdEx2 < 0 then .ret (0, some .invalidLengthHeader)
          else if depth2 = 0 then .ret (iNdEx2, none)
          else skipHeaderLoop dAtA fuel iNdEx2 depth2
    else .ret (0, some .unexpectedEOF)

/-- Function `skipHeader`. -/
def skipHeader (dAtA : List Byte) : Outcome (Int × Option Err) :=
  skipHeaderLoop dAtA (dAtA.length + 1) 0 0

/-- The `for iNdEx < l` loop of `Header.Unmarshal` and the statements after it:
the receiver as left by the call, and the error returned. The slice expressions
`dAtA[iNdEx:]` and `dAtA[iNdEx:iNdEx+skippy]` of the default branch panic when they
leave the buffer. -/
def unmarshalLoop (dAtA : List Byte) : Nat → Nat → Header → Outcome (Header × Option Err)
  | 0, _, _ => .outOfFuel
  | fuel + 1, iNdEx, m =>
    if iNdEx < dAtA.length then
      let preIndex := iNdEx
      match readVarint (dAtA.drop iNdEx) 0 0 0 with
      | .error e => .ret (m, some e)
      | .ok (wire, n) =>
        let iNdEx1 := iNdEx + n
        let fieldNum := toInt32 (wire >>> 3)
        let wireType := wire &&& 0x7
        if wireType = 4 then .ret (m, some .wiretypeEndGroup)
        else if fieldNum ≤ 0 then .ret (m, some (.illegalTag fieldNum wire))
        else if fieldNum = 1 ∨ fieldNum = 2 ∨ fieldNum = 3 then
          if wireType ≠ 0 then .ret (m, some (.wrongWireType wireType fieldNum.toNat))
          else match readVarint (dAtA.drop iNdEx1) 0 0 0 with
            | .error e => .ret (m, some e)
            | .ok (bits, k) =>
              let v := toInt64 bits
              let m1 : Header :=
                if fieldNum = 1 then { m with CompressionType := some v }
                else if fieldNum = 2 then { m with SoftTimeoutTs := some v }
                else { m with HardTimeoutTs := some v }
              unmarshalLoop dAtA fuel (iNdEx1 + k) m1
        else
          (slice dAtA preIndex dAtA.length).bind fun rest =>
          (skipHeader rest).bind fun r =>
            match r.2 with
            | some e => .ret (m, some e)
            | none =>
              let skippy := r.1
              if skippy < 0 ∨ toInt64 (toUint64 (preIndex + skippy)) < 0 then
                .ret (m, some .invalidLengthHeader)
              else if preIndex + skippy > dAtA.length then .ret (m, some .unexpectedEOF)
              else
                (slice dAtA preIndex (preIndex + skippy.toNat)).bind fun unrecognized =>
                  unmarshalLoop dAtA fuel (preIndex + skippy.toNat)
                    { m with XXX_unrecognized := m.XXX_unrecognized ++ unrecognized }
    else if iNdEx > dAtA.length then .ret (m, some .unexpectedEOF)
    else .ret (m, none)

/-- Method `Header.Unmarshal` on the receiver `m`. -/
def Header.Unmarshal (m : Header) (dAtA : List Byte) : Outcome (Header × Option Err) :=
  unmarshalLoop dAtA (dAtA.length + 1) 0 m

/-! ## Envelope (`protocol.go`) -/

def magixPrefixLen : Nat := 4
def attrReservedLen : Nat := 4
def headerLenReservedLen : Nat := 4
def dataLenReservedLen : Nat := 4
def hardTimeoutForeverIndicator : Int := 1

def typeNone : Nat := 0
def typeSnappy : Nat := 1
def typeGzip : Nat := 2

/-- Constant `magicPrefix`, the bytes of the string "_@@_". -/
def magicPrefix : List Byte := [0x5F, 0x40, 0x40, 0x5F]

/-- Constant `headerFlag`. -/
def headerFlag : Nat := 8

/-- Type `reservedBytes`, a `uint32`. -/
abbrev reservedBytes := Nat

/-- Method `reservedBytes.getCompressionType`. -/
def getCompressionType (i : reservedBytes) : AlgoType :=
  let compressionTypeMask : Nat := 0x07
  let typeFlag := i &&& compressionTypeMask
  if typeFlag = typeNone then None
  else if typeFlag = typeSnappy then Snappy
  else if typeFlag = typeGzip then Gzip
  else (typeFlag : Int)

/-- Method `reservedBytes.readHeaderFlag`. -/
def readHeaderFlag (i : reservedBytes) : Bool := i &&& headerFlag = headerFlag

/-- Method `reservedBytes.writeHeaderFlag`. -/
def writeHeaderFlag (i : reservedBytes) : reservedBytes := i ||| headerFlag

/-- Type `metaHeader`. -/
structure metaHeader where
  SoftTimeoutTs : Int := 0
  HardTimeoutTs : Int := 0
deriving DecidableEq, Repr

/-- Type `protocolOption`. -/
structure protocolOption where
  softTimeoutTs : Int := 0
  hardTimeoutTs : Int := 0
deriving DecidableEq, Repr

/-- Function `newProtocolOption`. -/
def newProtocolOption : protocolOption := { softTimeoutTs := 0, hardTimeoutTs := 0 }

/-- Type `bytesProtocolOption`. -/
abbrev bytesProtocolOption := protocolOption → protocolOption

/-- Function `withSoftTimeoutTs`. -/
def withSoftTimeoutTs (timeoutTs : Int) : bytesProtocolOption :=
  fun option => { option with softTimeoutTs := timeoutTs }

/-- Function `withHardTimeoutTs`. -/
def withHardTimeoutTs (timeoutTs : Int) : bytesProtocolOption :=
  fun option => { option with hardTimeoutTs := timeoutTs }

/-- The loop `for _, opt := range opts { opt(option) }`. -/
def applyOpts {σ : Type} (opts : List (σ → σ)) (option : σ) : σ :=
  opts.foldl (fun o opt => opt o) option

/-- Function `appendReservedBytes`. -/
def appendReservedBytes (byt : List Byte) (flag : reservedBytes) : List Byte :=
  byt ++ putUint32 flag

/-- Function `appendHeaderLenBytes`. -/
def appendHeaderLenBytes (byt : List Byte) (headerLen : Int) : List Byte :=
  byt ++ putUint32 (toUint32 headerLen)

/-- Function `appendDataLenBytes`. -/
def appendDataLenBytes (byt : List Byte) (dataLen : Int) : List Byte :=
  byt ++ putUint32 (toUint32 dataLen)

/-- Function `bytesEncode`. -/
def bytesEncode (lib : CompressionLib) (byt : List Byte) (compressionType : AlgoType)
    (opts : List bytesProtocolOption) : Outcome BytesResult :=
  let option := applyOpts opts newProtocolOption
  match Compress lib byt compressionType with
  | (_, some err) => .ret (none, some err)
  | (compressed, none) =>
    let compressedBytes := compressed.getD []
    let softTimoutTs := option.softTimeoutTs
    let hardTimeoutTs := option.hardTimeoutTs
    let algoType : Int := compressionType
    let curHeader : Header :=
      { CompressionType := some algoType, SoftTimeoutTs := some softTimoutTs,
        HardTimeoutTs := some hardTimeoutTs }
    curHeader.Marshal.bind fun r =>
      match r with
      | (_, some err) => .ret (none, some err)
      | (marshalled, none) =>
        let headerBytes := marshalled.getD []
        let flag : reservedBytes := writeHeaderFlag 0
        let finalBytes : List Byte := []
        let finalBytes := finalBytes ++ magicPrefix
        let finalBytes := appendReservedBytes finalBytes flag
        let finalBytes := appendHeaderLenBytes finalBytes headerBytes.length
        let finalBytes := finalBytes ++ headerBytes
        let finalBytes := appendDataLenBytes finalBytes compressedBytes.length
        let finalBytes := finalBytes ++ compressedBytes
        .ret (some finalBytes, none)

/-- Function `isBytesEncoded`. -/
def isBytesEncoded (byt : List Byte) : Bool :=
  let l := byt.length
  l ≥ magixPrefixLen + attrReservedLen ∧ byt.take magixPrefixLen = magicPrefix

/-- Method `reservedBytes.readHeaderLen`: the length read and the advanced index. -/
def readHeaderLen (byt : List Byte) (curIdx : Nat) : Outcome (Nat × Nat) :=
  (slice byt curIdx (curIdx + headerLenReservedLen)).bind fun b =>
    (Uint32 b).bind fun headerLength => .ret (headerLength, curIdx + headerLenReservedLen)

/-- Method `reservedBytes.readDataLen`: the length read and the advanced index. -/
def readDataLen (byt : List Byte) (curIdx : Nat) : Outcome (Nat × Nat) :=
  (slice byt curIdx (curIdx + dataLenReservedLen)).bind fun b =>
    (Uint32 b).bind fun dataLength => .ret (dataLength, curIdx + dataLenReservedLen)

/-- Dereference `*p` of a pointer. -/
def deref {α : Type} (p : Option α) : Outcome α :=
  match p with
  | some a => .ret a
  | none => .fault .nilDereference

/-- Go triple `([]byte, metaHeader, error)` returned by `bytesDecode`. -/
structure DecodeResult where
  data : Option (List Byte)
  header : metaHeader
  err : Option Err
deriving DecidableEq, Repr

/-- Function `bytesDecode`. -/
def bytesDecode (lib : CompressionLib) (byt : List Byte) : Outcome DecodeResult :=
  let curHeader : metaHeader := {}
  if isBytesEncoded byt then
    (slice byt magixPrefixLen (magixPrefixLen + attrReservedLen)).bind fun w =>
    (Uint32 w).bind fun rbi =>
    let idx := magixPrefixLen + attrReservedLen
    let headerFlag := readHeaderFlag rbi
    (if headerFlag then
        (readHeaderLen byt idx).bind fun hl =>
        let headerLength := hl.1
        let idx := hl.2
        (slice byt idx (idx + headerLength)).bind fun hb =>
        (Header.Unmarshal {} hb).bind fun u =>
        let receiver := u.1
        match u.2 with
        | some err => .ret (Sum.inl (⟨none, {}, some err⟩ : DecodeResult))
        | none =>
          let idx := idx + headerLength
          (readDataLen byt idx).bind fun dl =>
          let dataLength := dl.1
          let idx := dl.2
          (deref receiver.CompressionType).bind fun ct =>
          let compressionType : AlgoType := ct
          (slice byt idx (idx + dataLength)).bind fun dataByt =>
          (deref receiver.HardTimeoutTs).bind fun hard =>
          let curHeader := { curHeader with HardTimeoutTs := hard }
          (deref receiver.SoftTimeoutTs).bind fun soft =>
          let curHeader := { curHeader with SoftTimeoutTs := soft }
          .ret (Sum.inr (dataByt, compressionType, curHeader))
      else
        let compressionType := getCompressionType rbi
        (slice byt idx byt.length).bind fun dataByt =>
        .ret (Sum.inr (dataByt, compressionType, curHeader))).bind fun r =>
    match r with
    | Sum.inl early => .ret early
    | Sum.inr (dataByt, compressionType, curHeader) =>
      match Decompress lib dataByt compressionType with
      | (_, some err) => .ret ⟨none, {}, some err⟩
      | (decompressedBytes, none) => .ret ⟨decompressedBytes, curHeader, none⟩
  else .ret ⟨none, curHeader, some .encodingNotMatch⟩

/-! ## Time (`time` of the standard library) -/

/-- Type `time.Duration`: a count of nanoseconds, written `Int` in the signatures below. -/
abbrev Duration := Int

/-- Constant `time.Second`. -/
def Second : Int := 1000000000

/-- The multiplication of two `int64` values, with wrap-around. -/
def mulInt64 (a b : Int) : Int := toInt64 (toUint64 (a * b))

/-- An instant `time.Time`, given by the nanoseconds elapsed since the Unix epoch. -/
structure Time where
  nanos : Int
deriving DecidableEq, Repr

/-- Method `Time.Add`. -/
def Time.Add (t : Time) (d : Int) : Time := ⟨t.nanos + d⟩

/-- Method `Time.Unix`: whole seconds since the epoch, rounded down. -/
def Time.Unix (t : Time) : Int := t.nanos / 1000000000

/-- Method `Time.After`. -/
def Time.After (t u : Time) : Bool := u.nanos < t.nanos

/-! ## Values, codecs, receivers -/

/-- Constant `NoExpiration` of `cache.go`. -/
def NoExpiration : Int := -1

/-- Constant `DefaultExpiration` of `cache.go`. -/
def DefaultExpiration : Int := 0

/-- A Go value of type `interface{}` as the cache handles it: the nil interface, a
`[]byte`, an `inMemoryItem`, or any other value (pointer-free, named by a tag). -/
inductive Value where
  | nil
  | bytes (b : List Byte)
  | obj (tag : Nat)
  | item (Header : metaHeader) (Val : Value)
deriving DecidableEq, Repr

/-- A receiver passed to `Get`, by what `reflect` reports of it: whether the variable
behind the pointers can be set, which values are assignable to it, its zero value. -/
structure Receiver where
  canSet : Bool
  assignable : Value → Bool
  zero : Value

/-- Function `utils.GetValue`; values of the model carry no pointers, so that
`DeductPointerVal` leaves them as they are, and the nil interface is invalid. -/
def GetValue (value : Value) : Value :=
  match value with
  | .nil => .nil
  | v => v

/-- Function `utils.SetValue`: the error returned and the value the receiver holds
after the call, when it was set. -/
def SetValue (val : Value) (receiver : Receiver) : Option Err × Option Value :=
  if receiver.canSet then
    if val ≠ .nil then
      if receiver.assignable val then (none, some val)
      else (some (.other "cache:value_not_assignable"), none)
    else (none, some receiver.zero)
  else (some (.other "cache:receiver_not_pointer"), none)

/-- Interface `codec.CustomCodec`; `Unmarshal` gives the value put into the receiver. -/
structure CustomCodec where
  Marshal : Value → Except Err (List Byte)
  Unmarshal : List Byte → Except Err Value

/-- The package `codec`, of which only `config.go` is at hand, taken as a parameter. -/
structure CodecLib where
  /-- Method `codec.Type.Validate`. -/
  Validate : Int → Bool
  /-- Constant `codec.UnsetCodec`. -/
  UnsetCodec : Int
  /-- Constant `codec.Jsoniter`. -/
  Jsoniter : Int
  /-- Function `codec.Marshal`. -/
  Marshal : Value → Int → Except Err (List Byte)
  /-- Function `codec.Unmarshal`; it gives the value put into the receiver. -/
  Unmarshal : List Byte → Int → Except Err Value

/-! ## Operation options (`cache_operation_option.go`) -/

/-- Type `NonExistKeyStrategy`. -/
abbrev NonExistKeyStrategy := Int
def FillNil : NonExistKeyStrategy := 0
def RemoveKey : NonExistKeyStrategy := 1

/-- Type `cacheOperationOptions`. -/
structure cacheOperationOptions where
  noReply : Bool
  initNonExistKey : Bool
  skipEncodeDecode : Bool
  skipCodec : Bool
  waitRistretto : Bool
  codecType : Int
  customCodec : Option CustomCodec
  nonExistKeyStrategy : NonExistKeyStrategy
  onErrExpiration : Int
  hardExpiration : Int
  softExpiration : Int
  hardTimeoutTs : Int
  softTimeoutTs : Int
  expirationMap : Option (List (String × Int))
  hardExpirationMultiLayer : Option (List Int)
  softExpirationMultiLayer : Option (List Int)

/-- Type `OperationOption`. -/
abbrev OperationOption := cacheOperationOptions → cacheOperationOptions

/-- Method `cacheOperationOptions.reset`; the constant `loadDefaultOnErrExpiration`
is a parameter. -/
def cacheOperationOptions.reset (codecs : CodecLib) (loadDefaultOnErrExpiration : Int)
    (p : cacheOperationOptions) : cacheOperationOptions :=
  { p with
    noReply := true
    initNonExistKey := true
    skipEncodeDecode := false
    skipCodec := false
    waitRistretto := false
    codecType := codecs.Jsoniter
    nonExistKeyStrategy := FillNil
    hardExpiration := 0
    softExpiration := 0
    onErrExpiration := loadDefaultOnErrExpiration
    softTimeoutTs := 0
    hardTimeoutTs := 0
    expirationMap := none
    softExpirationMultiLayer := none
    hardExpirationMultiLayer := none }

/-- Function `WithSkipCodec`. -/
def WithSkipCodec : OperationOption := fun option => { option with skipCodec := true }

/-- Function `WithSoftExpiration`. -/
def WithSoftExpiration (softExpiration : Int) : OperationOption :=
  fun option => { option with softExpiration := softExpiration }

/-- Function `WithSkipEncoding`. -/
def WithSkipEncoding : OperationOption := fun option => { option with skipEncodeDecode := true }

/-- Function `WithWaitRistretto`. -/
def WithWaitRistretto : OperationOption := fun option => { option with waitRistretto := true }

/-! ## Handlers (`handler.go`) -/

/-- Type `encodingHandler`. -/
structure encodingHandler where
  compressionAlgo : AlgoType
  minLenForCompression : Int
  disableEncoding : Bool
deriving DecidableEq, Repr

/-- Method `encodingHandler.encode`. -/
def encodingHandler.encode (lib : CompressionLib) (h : encodingHandler) (byt : List Byte)
    (opts : List bytesProtocolOption) : Outcome BytesResult :=
  if h.disableEncoding then .ret (some byt, none)
  else
    let option := applyOpts opts newProtocolOption
    let algo := if (byt.length : Int) < h.minLenForCompression then None else h.compressionAlgo
    bytesEncode lib byt algo
      [withSoftTimeoutTs option.softTimeoutTs, withHardTimeoutTs option.hardTimeoutTs]

/-- Method `encodingHandler.decode`. -/
def encodingHandler.decode (lib : CompressionLib) (h : encodingHandler) (byt : List Byte) :
    Outcome DecodeResult :=
  if h.disableEncoding then .ret ⟨some byt, {}, none⟩
  else
    (bytesDecode lib byt).bind fun r =>
      match r.err with
      | some decodeErr => .ret ⟨none, {}, some decodeErr⟩
      | none => .ret r

/-- Type `codecHandler`. -/
structure codecHandler where
  defaultCodecType : Int
deriving DecidableEq, Repr

/-- Method `codecHandler.unmarshal`; the value put into the receiver is returned. -/
def codecHandler.unmarshal (codecs : CodecLib) (h : codecHandler) (rawBytes : List Byte)
    (codecType : Int) (customCodec : Option CustomCodec) : Except Err Value :=
  match customCodec with
  | some c => c.Unmarshal rawBytes
  | none =>
    if codecs.Validate codecType then codecs.Unmarshal rawBytes codecType
    else if codecType = codecs.UnsetCodec then codecs.Unmarshal rawBytes h.defaultCodecType
    else .error .codecNotSupported

/-- Method `codecHandler.marshal`. -/
def codecHandler.marshal (codecs : CodecLib) (h : codecHandler) (value : Value)
    (codecType : Int) (customCodec : Option CustomCodec) : Except Err (List Byte) :=
  match customCodec with
  | some c => c.Marshal value
  | none =>
    if codecs.Validate codecType then codecs.Marshal value codecType
    else if codecType = codecs.UnsetCodec then codecs.Marshal value h.defaultCodecType
    else .error .codecNotSupported

/-! ## In-memory record (`protocol.go`) -/

/-- Function `inMemoryEncode`. -/
def inMemoryEncode (val : Value) (opts : List bytesProtocolOption) : Value × Option Err :=
  let option := applyOpts opts newProtocolOption
  let header : metaHeader := {}
  let header := if option.softTimeoutTs ≠ 0 then
    { header with SoftTimeoutTs := option.softTimeoutTs } else header
  let header := if option.hardTimeoutTs ≠ 0 then
    { header with HardTimeoutTs := option.hardTimeoutTs } else header
  (.item header val, none)

/-- Function `inMemoryDecode`. -/
def inMemoryDecode (value : Value) : Value × metaHeader × Option Err :=
  match value with
  | .item h v => (v, h, none)
  | _ => (.nil, {}, some (.cacheErr "unknown_data_from_inMemoryCache"))

/-! ## Storage adapter (`internal/client/inmemory/ristretto.go`, `inmemory_inner.go`) -/

/-- An item held by the store: the value and the instant after which it is expired
(`none`: no time to live). -/
structure StoreItem where
  value : Value
  expiration : Option Time
deriving DecidableEq, Repr

/-- The state of the store `ristretto.Cache` (an external library), as a map with
immediately visible writes that keeps every item it is given. -/
abbrev Store := String → Option StoreItem

/-- Method `ristretto.Cache.Get` at the instant `now`. -/
def ristrettoGet (s : Store) (now : Time) (key : String) : Value × Bool :=
  match s key with
  | none => (.nil, false)
  | some it =>
    match it.expiration with
    | none => (it.value, true)
    | some e => if now.After e then (.nil, false) else (it.value, true)

/-- Method `ristretto.Cache.SetWithTTL` at the instant `now`. -/
def ristrettoSetWithTTL (s : Store) (now : Time) (key : String) (value : Value) (ttl : Int) :
    Store :=
  if ttl < 0 then s
  else if ttl = 0 then fun k => if k = key then some ⟨value, none⟩ else s k
  else fun k => if k = key then some ⟨value, some (now.Add ttl)⟩ else s k

/-- Method `RistrettoCache.Get`. -/
def RistrettoCache.Get (s : Store) (now : Time) (key : String) : Value × Bool :=
  ristrettoGet s now key

/-- Method `RistrettoCache.setInner`. -/
def RistrettoCache.setInner (s : Store) (now : Time) (key : String) (value : Value)
    (expire : Int) : Store :=
  let expire := if expire ≤ 0 then 0 else expire
  ristrettoSetWithTTL s now key value expire

/-- Method `RistrettoCache.Set`. -/
def RistrettoCache.Set (s : Store) (now : Time) (key : String) (value : Value)
    (expire : Int) : Store :=
  RistrettoCache.setInner s now key value expire

/-- Type `innerCacheOperationOptions` of `cache_inner.go`. -/
structure innerCacheOperationOptions where
  noReply : Bool
  initNonExistKey : Bool
  waitRistretto : Bool
  expirationMap : Option (List (String × Int))

/-- Function `newInnerCacheOperationOptions`. -/
def newInnerCacheOperationOptions : innerCacheOperationOptions :=
  { noReply := true, initNonExistKey := true, waitRistretto := false, expirationMap := none }

/-- Type `innerOperationOption`. -/
abbrev innerOperationOption := innerCacheOperationOptions → innerCacheOperationOptions

/-- Function `withWaitRistretto`. -/
def withWaitRistretto (waitRistretto : Bool) : innerOperationOption :=
  fun opts => { opts with waitRistretto := waitRistretto }

/-- Constant `ErrCacheMiss`. -/
def ErrCacheMiss : Err := .cacheErr "cache_miss"
/-- Constant `ErrNotStored`. -/
def ErrNotStored : Err := .cacheErr "not_stored"
/-- Constant `ErrCacheClosed`. -/
def ErrCacheClosed : Err := .cacheErr "cache_closed"
/-- Constant `errPassNonBytesToCodec`. -/
def errPassNonBytesToCodec : Err := .cacheErr "pass_non_bytes_to_codec"
/-- Constant `errNilReceiver`. -/
def errNilReceiver : Err := .cacheErr "receiver_is_nil"

/-- Method `inMemoryCacheInner.get`. -/
def inMemoryCacheInner.get (s : Store) (now : Time) (key : String) : Value × Option Err :=
  let r := RistrettoCache.Get s now key
  if ¬ r.2 then (.nil, some ErrCacheMiss) else (r.1, none)

/-- Method `inMemoryCacheInner.set`; `Wait` leaves the modelled store as it is. -/
def inMemoryCacheInner.set (s : Store) (now : Time) (key : String) (value : Value)
    (expire : Int) (opts : List innerOperationOption) : Store × Option Err :=
  let _options := applyOpts opts newInnerCacheOperationOptions
  let expire := if expire = NoExpiration then 0 else expire
  (RistrettoCache.Set s now key value expire, none)

/-! ## Configuration (`config.go`, `config_common.go`, `inmemory_config.go`) -/

/-- Type `cache.Type`. -/
abbrev CacheKind := Int
def Redis : CacheKind := 1
def InMemory : CacheKind := 2
def MultiLayer : CacheKind := 3

/-- Type `StampedeMitigationStrategy`. -/
abbrev StampedeMitigationStrategy := Int
def NoProtection : StampedeMitigationStrategy := 0
def InProcessSignal : StampedeMitigationStrategy := 1
def AcrossInstanceSignal : StampedeMitigationStrategy := 2

/-- Type `AcrossInstanceSignalConfig`. -/
structure AcrossInstanceSignalConfig where
  RetryIntervalMillis : Int := 0
  DlockUnitExpirationMillis : Int := 0
deriving DecidableEq, Repr

/-- Type `ManufacturerConfig`. -/
structure ManufacturerConfig where
  CacheStampedeMitigation : StampedeMitigationStrategy := 0
  AcrossInstanceSignalConfig : AcrossInstanceSignalConfig := {}
deriving DecidableEq, Repr

/-- Type `InMemoryCacheType`. -/
abbrev InMemoryCacheType := Int
def Ristretto : InMemoryCacheType := 1

/-- Type `RistrettoCacheConfig`; the cost function is given by its address (what
`reflect.ValueOf(f).Pointer()` returns), 0 for a nil function. -/
structure RistrettoCacheConfig where
  Capacity : Int := 0
  NumCounters : Int := 0
  UseInternalCost : Bool := false
  CostFunc : Nat := 0
deriving DecidableEq, Repr

/-- Method `RistrettoCacheConfig.Validate`. -/
def RistrettoCacheConfig.Validate (c : RistrettoCacheConfig) : Option Err :=
  if c.Capacity < 0 then some (.cacheErr ("invalid_config_capacity: " ++ toString c.Capacity))
  else if c.NumCounters < 0 then
    some (.cacheErr ("invalid_config_num_counters: " ++ toString c.NumCounters))
  else none

/-- Type `InMemoryCacheConfig`; `CodecConfig` is given by its `Type`. -/
structure InMemoryCacheConfig where
  DefaultExpirationSecs : Int := 0
  MaxExpirationSecs : Int := 0
  CacheType : InMemoryCacheType := 0
  CodecConfig : Int := 0
  ManufacturerConfig : ManufacturerConfig := {}
  RistrettoCacheConfig : RistrettoCacheConfig := {}
deriving DecidableEq, Repr

/-- Constant `errInMemoryConfigCacheTypeNotSupported`. -/
def errInMemoryConfigCacheTypeNotSupported : Err :=
  .cacheErr "inmemory_config_cache_type_not_supported"

/-- Constant `errorConfigTypeNotSupported`. -/
def errorConfigTypeNotSupported : Err := .cacheErr "config_type_not_supported"

/-- Method `InMemoryCacheConfig.Validate`. -/
def InMemoryCacheConfig.Validate (c : InMemoryCacheConfig) : Option Err :=
  if c.DefaultExpirationSecs < 0 then
    some (.cacheErr ("invalid_config_default_expiration_secs: " ++ toString c.DefaultExpirationSecs))
  else if c.MaxExpirationSecs < 0 then
    some (.cacheErr ("invalid_config_max_expiration_secs: " ++ toString c.MaxExpirationSecs))
  else if c.CacheType ≠ Ristretto then some errInMemoryConfigCacheTypeNotSupported
  else match c.RistrettoCacheConfig.Validate with
    | some err => some err
    | none => none

/-- Constant `defaultInMemoryExpiration`. -/
def defaultInMemoryExpiration : Int := mulInt64 86400 Second

/-- Method `InMemoryCacheConfig.defaultExpiration`. -/
def InMemoryCacheConfig.defaultExpiration (c : InMemoryCacheConfig) : Int :=
  let configDefaultExpire := mulInt64 c.DefaultExpirationSecs Second
  if configDefaultExpire = DefaultExpiration then defaultInMemoryExpiration
  else configDefaultExpire

/-- Type `Config`; its field `Type` is written `Type_`. -/
structure Config where
  Type_ : CacheKind
  InMemory : InMemoryCacheConfig := {}
deriving DecidableEq, Repr

/-- Method `Config.Validate`. -/
def Config.Validate (c : Config) : Option Err :=
  if c.Type_ = Cache.InMemory then c.InMemory.Validate else some errorConfigTypeNotSupported

/-! ## Cache wrapper (`cache_wrapper.go`) -/

/-- Type `cacheType`. -/
abbrev cacheType := Int
def redis : cacheType := 1
def inMemory : cacheType := 2

/-- Type `cacheWrapperInner`, the immutable snapshot; the store it owns is passed
along as a `Store`, the singleflight group is left out. -/
structure cacheWrapperInner where
  name : String := ""
  cacheType : cacheType := 0
  cacheHostName : String := ""
  codecHandler : codecHandler := ⟨0⟩
  encodingHandler : encodingHandler := ⟨0, 0, false⟩
  defaultExpiration : Int := 0
  maxExpiration : Int := 0
  isDisabled : Bool := false
  isClosed : Nat := 0
deriving DecidableEq, Repr

/-- Function `newCodecHandler`. -/
def newCodecHandler (configType : Int) : codecHandler := ⟨configType⟩

/-- Function `fillCacheWrapperInnerFieldsWithInMemConfig`. -/
def fillCacheWrapperInnerFieldsWithInMemConfig (config : InMemoryCacheConfig)
    (newInner : cacheWrapperInner) : cacheWrapperInner :=
  { newInner with
    cacheType := inMemory
    defaultExpiration := config.defaultExpiration
    maxExpiration := mulInt64 config.MaxExpirationSecs Second
    codecHandler := newCodecHandler config.CodecConfig }

/-- Function `newCacheWrapperInner`, for a store created without error. -/
def newCacheWrapperInner (name : String) (config : Config) : Option cacheWrapperInner × Option Err :=
  match config.Validate with
  | some err => (none, some err)
  | none =>
    let newInner : cacheWrapperInner := { name := name, isClosed := 0 }
    if config.Type_ = InMemory then
      (some (fillCacheWrapperInnerFieldsWithInMemConfig config.InMemory newInner), none)
    else (none, some errorConfigTypeNotSupported)

/-- Method `cacheWrapperInner.isCacheClosed`. -/
def cacheWrapperInner.isCacheClosed (c : cacheWrapperInner) : Bool := c.isClosed = 1

/-- Method `cacheWrapperInner.isDisabledCtxOrConfig`. -/
def cacheWrapperInner.isDisabledCtxOrConfig (c : cacheWrapperInner) : Bool :=
  if c.isDisabled then true else false

/-- Method `cacheWrapperInner.getFixedKeys`. -/
def cacheWrapperInner.getFixedKeys (_c : cacheWrapperInner) (keys : List String) :
    List String × Nat :=
  (keys, (keys.map String.utf8ByteSize).sum)

/-- Method `cacheWrapperInner.getFixedKey`. -/
def cacheWrapperInner.getFixedKey (c : cacheWrapperInner) (key : String) : String :=
  (c.getFixedKeys [key]).1.headD key

/-- Method `cacheWrapperInner.translateExpire`. -/
def cacheWrapperInner.translateExpire (c : cacheWrapperInner) (expire : Int) : Int :=
  let expire :=
    if expire = DefaultExpiration then c.defaultExpiration
    else if expire = NoExpiration then NoExpiration
    else expire
  if c.maxExpiration ≠ 0 ∧ expire > c.maxExpiration then c.maxExpiration else expire

/-- The soft timestamp computed by `cacheWrapperInner.encode`. -/
def encodeSoftTimeoutTs (now : Time) (option : cacheOperationOptions) : Int :=
  if option.softTimeoutTs > 0 then option.softTimeoutTs
  else if option.softExpiration > 0 then (now.Add option.softExpiration).Unix
  else 0

/-- The hard timestamp computed by `cacheWrapperInner.encode`. -/
def encodeHardTimeoutTs (now : Time) (option : cacheOperationOptions) : Int :=
  if option.hardTimeoutTs > 0 then option.hardTimeoutTs
  else if option.hardExpiration > 0 then (now.Add option.hardExpiration).Unix
  else if option.hardExpiration = NoExpiration then hardTimeoutForeverIndicator
  else 0

/-- A Go pair `([]byte, error)` seen as `(interface{}, error)`. -/
def bytesAsValue (r : BytesResult) : Value × Option Err :=
  match r.1 with
  | some b => (.bytes b, r.2)
  | none => (.bytes [], r.2)

/-- Method `cacheWrapperInner.encode`, run at the instant `now`. -/
def cacheWrapperInner.encode (lib : CompressionLib) (c : cacheWrapperInner) (now : Time)
    (val : Value) (option : cacheOperationOptions) : Outcome (Value × Option Err) :=
  if option.skipEncodeDecode then .ret (val, none)
  else
    let softTimeoutTs := encodeSoftTimeoutTs now option
    let hardTimeoutTs := encodeHardTimeoutTs now option
    if c.cacheType = inMemory then
      .ret (inMemoryEncode val [withSoftTimeoutTs softTimeoutTs, withHardTimeoutTs hardTimeoutTs])
    else
      match val with
      | .bytes b =>
        (c.encodingHandler.encode lib b
          [withSoftTimeoutTs softTimeoutTs, withHardTimeoutTs hardTimeoutTs]).bind fun r =>
            .ret (bytesAsValue r)
      | _ => .ret (.nil, some (.cacheErr "data_from_input_is_not_bytes"))

/-- Method `cacheWrapperInner.decode`. -/
def cacheWrapperInner.decode (lib : CompressionLib) (c : cacheWrapperInner) (val : Value)
    (skip : Bool) : Outcome (Value × metaHeader × Option Err) :=
  if skip then .ret (val, {}, none)
  else if c.cacheType = inMemory then .ret (inMemoryDecode val)
  else
    match val with
    | .bytes b =>
      (c.encodingHandler.decode lib b).bind fun r =>
        .ret ((bytesAsValue (r.data, r.err)).1, r.header, r.err)
    | _ => .ret (.nil, {}, some (.cacheErr "data_from_cache_is_not_bytes"))

/-- Method `cacheWrapperInner.convertValueToCacheData`. -/
def cacheWrapperInner.convertValueToCacheData (codecs : CodecLib) (c : cacheWrapperInner)
    (value : Value) (option : cacheOperationOptions) : Value × Option Err :=
  if c.cacheType = inMemory ∧ option.skipCodec then (GetValue value, none)
  else
    match c.codecHandler.marshal codecs value option.codecType option.customCodec with
    | .error err => (.nil, some err)
    | .ok bytesData => (.bytes bytesData, none)

/-- Method `cacheWrapperInner.setCacheDataToReceiver`: the error returned and the
value the receiver holds after the call, when it was set. -/
def cacheWrapperInner.setCacheDataToReceiver (codecs : CodecLib) (c : cacheWrapperInner)
    (data : Value) (receiver : Option Receiver) (option : cacheOperationOptions) :
    Option Err × Option Value :=
  match receiver with
  | none => (some errNilReceiver, none)
  | some r =>
    if c.cacheType = inMemory ∧ option.skipCodec then SetValue data r
    else
      match data with
      | .bytes b =>
        match c.codecHandler.unmarshal codecs b option.codecType option.customCodec with
        | .error err => (some err, none)
        | .ok v => (none, some v)
      | _ => (some errPassNonBytesToCodec, none)

/-- The libraries and constants the wrapper depends on. -/
structure Env where
  lib : CompressionLib
  codecs : CodecLib
  loadDefaultOnErrExpiration : Int

/-- Function `newCacheOperationOptions`: a record taken from the pool, then reset. -/
def newCacheOperationOptions (env : Env) (pooled : cacheOperationOptions) : cacheOperationOptions :=
  pooled.reset env.codecs env.loadDefaultOnErrExpiration

/-- Method `cacheWrapper.get` on the snapshot `inner`, run at the instant `now`: the
error returned and the value the receiver holds after the call, when it was set. -/
def cacheWrapper.get (env : Env) (inner : cacheWrapperInner) (s : Store) (now : Time)
    (pooled : cacheOperationOptions) (key : String) (receiver : Option Receiver)
    (opts : List OperationOption) : Outcome (Option Err × Option Value) :=
  if inner.isCacheClosed then .ret (some ErrCacheClosed, none)
  else if inner.isDisabledCtxOrConfig then .ret (some ErrCacheMiss, none)
  else
    let option := applyOpts opts (newCacheOperationOptions env pooled)
    let fixedKey := inner.getFixedKey key
    match inMemoryCacheInner.get s now fixedKey with
    | (_, some err) => .ret (some err, none)
    | (value, none) =>
      (inner.decode env.lib value option.skipEncodeDecode).bind fun d =>
        match d.2.2 with
        | some err => .ret (some err, none)
        | none => .ret (inner.setCacheDataToReceiver env.codecs d.1 receiver option)

/-- Method `cacheWrapper.set` on the snapshot `inner`, run at the instant `now`: the
store after the call and the error returned. -/
def cacheWrapper.set (env : Env) (inner : cacheWrapperInner) (s : Store) (now : Time)
    (pooled : cacheOperationOptions) (key : String) (value : Value) (expire : Int)
    (opts : List OperationOption) : Outcome (Store × Option Err) :=
  if inner.isCacheClosed then .ret (s, some ErrCacheClosed)
  else if inner.isDisabledCtxOrConfig then .ret (s, none)
  else
    let option := applyOpts opts (newCacheOperationOptions env pooled)
    let fixedKey := inner.getFixedKey key
    match inner.convertValueToCacheData env.codecs value option with
    | (_, some err) => .ret (s, some err)
    | (data, none) =>
      let expire := inner.translateExpire expire
      let option := { option with hardExpiration := expire }
      (inner.encode env.lib now data option).bind fun e =>
        match e.2 with
        | some err => .ret (s, some err)
        | none =>
          .ret (inMemoryCacheInner.set s now fixedKey e.1 expire
            [withWaitRistretto option.waitRistretto])

/-! ## Wire format in the words of the specification -/

/-- The base-128 little-endian encoding of an unsigned word with at most `n`
continuation bytes: seven bits per byte, low group first, the high bit set on every
byte but the last. -/
def varintN : Nat → Nat → List Byte
  | 0, v => [toByte v]
  | n + 1, v => if v < 128 then [toByte v] else toByte (v % 128 + 128) :: varintN n (v / 128)

/-- The varint of a `uint64`: at most ten bytes. -/
def varint (v : Nat) : List Byte := varintN 9 v

/-- The little-endian encoding in four bytes of the low 32 bits of a length, that is
of the length converted to `uint32`. -/
def LE32 (v : Nat) : List Byte :=
  [toByte (v % 256), toByte (v / 256 % 256), toByte (v / 65536 % 256), toByte (v / 16777216 % 256)]

/-- The serialised header in the words of the specification: tag `0x08` and the
varint of the compression id, tag `0x10` and the varint of the soft timestamp, tag
`0x18` and the varint of the hard timestamp, each value taken as a `uint64`. -/
def headerBytes (compression soft hard : Int) : List Byte :=
  0x08 :: varint (toUint64 compression) ++ (0x10 :: varint (toUint64 soft)
    ++ (0x18 :: varint (toUint64 hard)))

/-- The envelope in the words of the specification: magic, the attrs word, the
length-prefixed header, the length-prefixed data. -/
def frame (attrs : Nat) (header data : List Byte) : List Byte :=
  magicPrefix ++ LE32 attrs ++ LE32 header.length ++ header ++ LE32 data.length ++ data

/-! ## Compositions and instances used in the statements -/

/-- Encoding a payload with the two timestamps, then decoding the bytes obtained. -/
def roundTrip (lib : CompressionLib) (payload : List Byte) (c : AlgoType) (soft hard : Int) :
    Outcome DecodeResult :=
  (bytesEncode lib payload c [withSoftTimeoutTs soft, withHardTimeoutTs hard]).bind fun r =>
    match r.2 with
    | some err => .ret ⟨none, {}, some err⟩
    | none => bytesDecode lib (r.1.getD [])

/-- The header record found in an envelope: the bytes between the two length fields,
parsed by `Header.Unmarshal`. -/
def envelopeHeader (byt : List Byte) : Outcome (Header × Option Err) :=
  (readHeaderLen byt (magixPrefixLen + attrReservedLen)).bind fun hl =>
    (slice byt hl.2 (hl.2 + hl.1)).bind fun hb => Header.Unmarshal {} hb

/-- A pair of compressors that store their input behind one marker byte; each
decompressor gives back what its compressor was given. -/
def storedLib : CompressionLib where
  snappyEncode := fun b => 0 :: b
  snappyDecode := fun b =>
    match b with
    | 0 :: rest => .ok rest
    | _ => .error (.external 1)
  gzipWrite := fun b => .ok (1 :: b)
  gzipRead := fun b =>
    match b with
    | 1 :: rest => .ok rest
    | _ => .error (.external 2)

/-- A payload of `2^32 - 1` zero bytes. -/
def bigPayload : List Byte := List.replicate (2 ^ 32 - 1) 0

/-- An envelope with the header flag set, an empty header and no data. -/
def emptyHeaderEnvelope : List Byte :=
  [0x5F, 0x40, 0x40, 0x5F, 8, 0, 0, 0, 0, 0, 0, 0, 0, 0, 0, 0]

/-- An envelope that ends after the attrs word although the header flag is set. -/
def truncatedEnvelope : List Byte := [0x5F, 0x40, 0x40, 0x5F, 8, 0, 0, 0]

/-- The envelope of the payload `[1, 2, 3]` stored uncompressed with both
timestamps zero. -/
def envelopeOfNone : List Byte :=
  [0x5F, 0x40, 0x40, 0x5F, 8, 0, 0, 0, 6, 0, 0, 0, 0x08, 0x02, 0x10, 0x00, 0x18, 0x00,
    3, 0, 0, 0, 1, 2, 3]

/-- An options record with every flag unset and every number zero. -/
def zeroOptions : cacheOperationOptions :=
  { noReply := false, initNonExistKey := false, skipEncodeDecode := false, skipCodec := false,
    waitRistretto := false, codecType := 0, customCodec := none, nonExistKeyStrategy := 0,
    onErrExpiration := 0, hardExpiration := 0, softExpiration := 0, hardTimeoutTs := 0,
    softTimeoutTs := 0, expirationMap := none, hardExpirationMultiLayer := none,
    softExpirationMultiLayer := none }

/-- An in-memory configuration that passes `Validate`: no default expiration given,
expirations capped at 3600 seconds. -/
def cappedConfig : Config :=
  { Type_ := InMemory, InMemory := { MaxExpirationSecs := 3600, CacheType := Ristretto } }

/-- The snapshot that `newCacheWrapperInner` builds from `cappedConfig`. -/
def cappedInner : cacheWrapperInner :=
  fillCacheWrapperInnerFieldsWithInMemConfig cappedConfig.InMemory { name := "c", isClosed := 0 }

/-- A codec package whose codecs 1 to 3 write a `[]byte` value as it is and read
bytes back as a `[]byte` value. -/
def bytesCodecs : CodecLib where
  Validate := fun t => decide (1 ≤ t ∧ t ≤ 3)
  UnsetCodec := 0
  Jsoniter := 2
  Marshal := fun v _ =>
    match v with
    | .bytes b => .ok b
    | _ => .error (.external 3)
  Unmarshal := fun b _ => .ok (.bytes b)

/-- The libraries used in the examples. -/
def sampleEnv : Env := { lib := storedLib, codecs := bytesCodecs, loadDefaultOnErrExpiration := 3 * Second }

/-- A store without items. -/
def emptyStore : Store := fun _ => none

/-- A receiver that can be set and accepts every value. -/
def anyReceiver : Receiver := { canSet := true, assignable := fun _ => true, zero := .nil }

/-! ## Go maps -/

/-- A Go `map[string]T`: its entries, each key once, in the order in which a `range`
loop visits them. -/
abbrev GoMap (α : Type) := List (String × α)

/-- Map read `v, ok := m[key]`. -/
def GoMap.lookup {α : Type} (m : GoMap α) (key : String) : Option α :=
  (m.find? fun e => decide (e.1 = key)).map Prod.snd

/-- Map write `m[key] = v`. -/
def GoMap.store {α : Type} (m : GoMap α) (key : String) (v : α) : GoMap α :=
  if m.any (fun e => decide (e.1 = key)) then m.map fun e => if e.1 = key then (key, v) else e
  else m ++ [(key, v)]

/-- Statement `delete(m, key)`. -/
def GoMap.remove {α : Type} (m : GoMap α) (key : String) : GoMap α :=
  m.filter fun e => decide (e.1 ≠ key)

/-- The keys of a map, in the order in which `range` visits them. -/
def GoMap.keys {α : Type} (m : GoMap α) : List String := m.map Prod.fst

/-! ## Storage adapter, the other methods (`ristretto.go`, `inmemory_inner.go`) -/

/-- Method `ristretto.Cache.Del`. -/
def ristrettoDel (s : Store) (key : String) : Store := fun k => if k = key then none else s k

/-- Method `ristretto.Cache.Clear`. -/
def ristrettoClear (_s : Store) : Store := fun _ => none

/-- Method `RistrettoCache.GetMany`. -/
def RistrettoCache.GetMany (s : Store) (now : Time) (keys : List String) : List Value :=
  keys.map fun key =>
    let r := ristrettoGet s now key
    if r.2 then r.1 else .nil

/-- Method `RistrettoCache.SetMany`. -/
def RistrettoCache.SetMany (s : Store) (now : Time) (valueMap : GoMap Value) (expire : Int)
    (expirationMap : Option (GoMap Int)) : Store :=
  valueMap.foldl (fun st kv =>
    let expiration :=
      match expirationMap.bind fun m => GoMap.lookup m kv.1 with
      | some exp => exp
      | none => expire
    RistrettoCache.setInner st now kv.1 kv.2 expiration) s

/-- Method `RistrettoCache.Delete`. -/
def RistrettoCache.Delete (s : Store) (now : Time) (key : String) : Store × Bool :=
  let r := ristrettoGet s now key
  if ¬ r.2 then (s, false) else (ristrettoDel s key, true)

/-- Method `RistrettoCache.DeleteMany`. -/
def RistrettoCache.DeleteMany (s : Store) (keys : List String) : Store :=
  keys.foldl ristrettoDel s

/-- Method `RistrettoCache.Flush`. -/
def RistrettoCache.Flush (s : Store) : Store := ristrettoClear s

/-- Function `withNoReply`. -/
def withNoReply (noReply : Bool) : innerOperationOption :=
  fun opts => { opts with noReply := noReply }

/-- Function `withInitNonExistKey`. -/
def withInitNonExistKey (initNonExistKey : Bool) : innerOperationOption :=
  fun opts => { opts with initNonExistKey := initNonExistKey }

/-- Function `withExpirationMap`. -/
def withExpirationMap (expirationMap : Option (GoMap Int)) : innerOperationOption :=
  fun opts => { opts with expirationMap := expirationMap }

/-- Method `inMemoryCacheInner.getMany`. -/
def inMemoryCacheInner.getMany (s : Store) (now : Time) (keys : List String) :
    List Value × Option Err :=
  (RistrettoCache.GetMany s now keys, none)

/-- Method `inMemoryCacheInner.setMany`; `Wait` leaves the modelled store as it is. -/
def inMemoryCacheInner.setMany (s : Store) (now : Time) (valueMap : GoMap Value) (expire : Int)
    (opts : List innerOperationOption) : Store × Option Err :=
  let options := applyOpts opts newInnerCacheOperationOptions
  (RistrettoCache.SetMany s now valueMap expire options.expirationMap, none)

/-- Method `inMemoryCacheInner.add`, which does nothing. -/
def inMemoryCacheInner.add (_key : String) (_value : Value) (_expire : Int) : Option Err := none

/-- Method `inMemoryCacheInner.replace`, which does nothing. -/
def inMemoryCacheInner.replace (_key : String) (_value : Value) (_expire : Int) : Option Err :=
  none

/-- Method `inMemoryCacheInner.delete`. -/
def inMemoryCacheInner.delete (s : Store) (now : Time) (key : String) : Store × Option Err :=
  let r := RistrettoCache.Delete s now key
  if ¬ r.2 then (r.1, some ErrCacheMiss) else (r.1, none)

/-- Method `inMemoryCacheInner.deleteMany`. -/
def inMemoryCacheInner.deleteMany (s : Store) (keys : List String)
    (_opts : List innerOperationOption) : Store × Option Err :=
  (RistrettoCache.DeleteMany s keys, none)

/-- Method `inMemoryCacheInner.increment`, which does nothing. -/
def inMemoryCacheInner.increment (_key : String) (_delta : Nat)
    (_opts : List innerOperationOption) : Int × Option Err := (0, none)

/-- Method `inMemoryCacheInner.decrement`, which does nothing. -/
def inMemoryCacheInner.decrement (_key : String) (_delta : Nat)
    (_opts : List innerOperationOption) : Int × Option Err := (0, none)

/-- Method `inMemoryCacheInner.expire`, which does nothing. -/
def inMemoryCacheInner.expire (_key : String) (_expire : Int) : Option Err := none

/-- Method `inMemoryCacheInner.ping`. -/
def inMemoryCacheInner.ping : Option Err := none

/-- Method `inMemoryCacheInner.flush`. -/
def inMemoryCacheInner.flush (s : Store) : Store × Option Err := (RistrettoCache.Flush s, none)

/-! ## Cache wrapper, the other operations (`cache_wrapper.go`, `constant.go`) -/

def cmdAdd : String := "Add"
def cmdReplace : String := "Replace"
def cmdIncrement : String := "Increment"
def cmdDecrement : String := "Decrement"

/-- The receiver map of `GetMany`: a receiver, or nil, for each key. -/
abbrev ReceiverMap := GoMap (Option Receiver)

/-- What `getMany` leaves behind: the error returned, the receiver map, and the values
that the receivers hold after the call, by key, in the order in which they were set. -/
structure GetManyResult where
  err : Option Err
  receiverMap : ReceiverMap
  filled : List (String × Value)

/-- Function `handleMissingKey`. -/
def handleMissingKey (nonExistKeyStrategy : NonExistKeyStrategy) (receiverMap : ReceiverMap)
    (originalKey : String) : ReceiverMap :=
  if nonExistKeyStrategy = FillNil then GoMap.store receiverMap originalKey none
  else GoMap.remove receiverMap originalKey

/-- The loop `for idx := range values` of `cacheWrapper.getManyInner`, from the index
`idx` on. -/
def getManyLoop (env : Env) (inner : cacheWrapperInner) (option : cacheOperationOptions)
    (originalKeys : List String) :
    List Value → Nat → ReceiverMap → List (String × Value) → Outcome GetManyResult
  | [], _, receiverMap, filled => .ret ⟨none, receiverMap, filled⟩
  | value :: rest, idx, receiverMap, filled =>
    match originalKeys.get? idx with
    | none => .fault .indexOutOfRange
    | some originalKey =>
      if value = .nil then
        getManyLoop env inner option originalKeys rest (idx + 1)
          (handleMissingKey option.nonExistKeyStrategy receiverMap originalKey) filled
      else
        (inner.decode env.lib value option.skipEncodeDecode).bind fun d =>
          match d.2.2 with
          | some err => .ret ⟨some err, receiverMap, filled⟩
          | none =>
            match inner.setCacheDataToReceiver env.codecs d.1
                ((GoMap.lookup receiverMap originalKey).join) option with
            | (some err, _) => .ret ⟨some err, receiverMap, filled⟩
            | (none, v) =>
              getManyLoop env inner option originalKeys rest (idx + 1) receiverMap
                (filled ++ (v.map fun x => (originalKey, x)).toList)

/-- Method `cacheWrapper.getManyInner`, run at the instant `now`. -/
def cacheWrapper.getManyInner (env : Env) (inner : cacheWrapperInner) (s : Store) (now : Time)
    (originalKeys fixedKeys : List String) (receiverMap : ReceiverMap)
    (option : cacheOperationOptions) : Outcome GetManyResult :=
  match inMemoryCacheInner.getMany s now fixedKeys with
  | (_, some err) => .ret ⟨some err, receiverMap, []⟩
  | (values, none) => getManyLoop env inner option originalKeys values 0 receiverMap []

/-- Method `cacheWrapper.getMany` on the snapshot `inner`, run at the instant `now`. -/
def cacheWrapper.getMany (env : Env) (inner : cacheWrapperInner) (s : Store) (now : Time)
    (pooled : cacheOperationOptions) (receiverMap : ReceiverMap) (opts : List OperationOption) :
    Outcome GetManyResult :=
  if inner.isCacheClosed then .ret ⟨some ErrCacheClosed, receiverMap, []⟩
  else if receiverMap.length = 0 then .ret ⟨none, receiverMap, []⟩
  else
    let option := applyOpts opts (newCacheOperationOptions env pooled)
    if inner.isDisabledCtxOrConfig then
      .ret ⟨none, (GoMap.keys receiverMap).foldl (handleMissingKey option.nonExistKeyStrategy)
        receiverMap, []⟩
    else
      let keys := GoMap.keys receiverMap
      let fixedKeys := (inner.getFixedKeys keys).1
      cacheWrapper.getManyInner env inner s now keys fixedKeys receiverMap option

/-- What the loop of `cacheWrapper.setManyInner` has built. -/
structure SetManyLoop where
  err : Option Err
  option : cacheOperationOptions
  newValueMap : GoMap Value
  expirationMap : GoMap Int

/-- The loop `for idx, fixedKey := range fixedKeys` of `cacheWrapper.setManyInner`, from
the index `idx` on. -/
def setManyLoop (env : Env) (inner : cacheWrapperInner) (now : Time) (valueMap : GoMap Value)
    (expire : Int) (keys : List String) :
    List String → Nat → SetManyLoop → Outcome SetManyLoop
  | [], _, st => .ret st
  | fixedKey :: rest, idx, st =>
    match keys.get? idx with
    | none => .fault .indexOutOfRange
    | some originalKey =>
      let value := (GoMap.lookup valueMap originalKey).getD .nil
      match inner.convertValueToCacheData env.codecs value st.option with
      | (_, some err) => .ret { st with err := some err }
      | (data, none) =>
        let exp := st.option.expirationMap.bind fun m => GoMap.lookup m originalKey
        let expiration :=
          match exp with
          | some exp => inner.translateExpire exp
          | none => expire
        let expirationMap :=
          match exp with
          | some _ => GoMap.store st.expirationMap fixedKey expiration
          | none => st.expirationMap
        let option := { st.option with hardExpiration := expiration }
        (inner.encode env.lib now data option).bind fun e =>
          match e.2 with
          | some err =>
            .ret { st with err := some err, option := option, expirationMap := expirationMap }
          | none =>
            setManyLoop env inner now valueMap expire keys rest (idx + 1)
              { err := none, option := option,
                newValueMap := GoMap.store st.newValueMap fixedKey e.1,
                expirationMap := expirationMap }

/-- Method `cacheWrapper.setManyInner`, run at the instant `now`. -/
def cacheWrapper.setManyInner (env : Env) (inner : cacheWrapperInner) (s : Store) (now : Time)
    (valueMap : GoMap Value) (expire : Int) (option : cacheOperationOptions) :
    Outcome (Store × Option Err) :=
  let keys := GoMap.keys valueMap
  let fixedKeys := (inner.getFixedKeys keys).1
  (setManyLoop env inner now valueMap expire keys fixedKeys 0
      { err := none, option := option, newValueMap := [], expirationMap := [] }).bind fun st =>
    match st.err with
    | some err => .ret (s, some err)
    | none =>
      .ret (inMemoryCacheInner.setMany s now st.newValueMap expire
        [withNoReply st.option.noReply, withExpirationMap (some st.expirationMap),
          withWaitRistretto st.option.waitRistretto])

/-- Method `cacheWrapper.setMany` on the snapshot `inner`, run at the instant `now`. -/
def cacheWrapper.setMany (env : Env) (inner : cacheWrapperInner) (s : Store) (now : Time)
    (pooled : cacheOperationOptions) (valueMap : GoMap Value) (expire : Int)
    (opts : List OperationOption) : Outcome (Store × Option Err) :=
  if inner.isCacheClosed then .ret (s, some ErrCacheClosed)
  else if inner.isDisabledCtxOrConfig then .ret (s, none)
  else if valueMap.length = 0 then .ret (s, none)
  else
    let option := applyOpts opts (newCacheOperationOptions env pooled)
    let expire := inner.translateExpire expire
    cacheWrapper.setManyInner env inner s now valueMap expire option

/-- Method `cacheWrapper.delete` on the snapshot `inner`, run at the instant `now`. -/
def cacheWrapper.delete (env : Env) (inner : cacheWrapperInner) (s : Store) (now : Time)
    (pooled : cacheOperationOptions) (key : String) (opts : List OperationOption) :
    Store × Option Err :=
  if inner.isCacheClosed then (s, some ErrCacheClosed)
  else if inner.isDisabledCtxOrConfig then (s, none)
  else
    let _option := applyOpts opts (newCacheOperationOptions env pooled)
    let fixedKey := inner.getFixedKey key
    inMemoryCacheInner.delete s now fixedKey

/-- Method `cacheWrapper.deleteManyInner`: `fixedKeys` is made of `len(shardedKeys)`
empty strings and is not written to. -/
def cacheWrapper.deleteManyInner (s : Store) (shardedKeys : List String)
    (option : cacheOperationOptions) : Store × Option Err :=
  let fixedKeys := List.replicate shardedKeys.length ""
  inMemoryCacheInner.deleteMany s fixedKeys [withNoReply option.noReply]

/-- Method `cacheWrapper.deleteMany` on the snapshot `inner`. -/
def cacheWrapper.deleteMany (env : Env) (inner : cacheWrapperInner) (s : Store)
    (pooled : cacheOperationOptions) (keys : List String) (opts : List OperationOption) :
    Store × Option Err :=
  if inner.isCacheClosed then (s, some ErrCacheClosed)
  else if inner.isDisabledCtxOrConfig then (s, none)
  else if keys.length = 0 then (s, none)
  else
    let option := applyOpts opts (newCacheOperationOptions env pooled)
    cacheWrapper.deleteManyInner s keys option

/-- Method `cacheWrapper.addOrReplaceInner`, run at the instant `now`. -/
def cacheWrapper.addOrReplaceInner (env : Env) (inner : cacheWrapperInner) (s : Store)
    (now : Time) (pooled : cacheOperationOptions) (key : String) (value : Value) (expire : Int)
    (command : String) (opts : List OperationOption) : Outcome (Store × Option Err) :=
  let option := applyOpts opts (newCacheOperationOptions env pooled)
  match inner.convertValueToCacheData env.codecs value option with
  | (_, some err) => .ret (s, some err)
  | (data, none) =>
    let expire := inner.translateExpire expire
    let option := { option with hardExpiration := expire }
    (inner.encode env.lib now data option).bind fun e =>
      match e.2 with
      | some err => .ret (s, some err)
      | none =>
        let fixedKey := inner.getFixedKey key
        if command = cmdReplace then .ret (s, inMemoryCacheInner.replace fixedKey e.1 expire)
        else if command = cmdAdd then .ret (s, inMemoryCacheInner.add fixedKey e.1 expire)
        else .fault (.logic "unknown_operation")

/-- Method `cacheWrapper.add` on the snapshot `inner`, run at the instant `now`. -/
def cacheWrapper.add (env : Env) (inner : cacheWrapperInner) (s : Store) (now : Time)
    (pooled : cacheOperationOptions) (key : String) (value : Value) (expire : Int)
    (opts : List OperationOption) : Outcome (Store × Option Err) :=
  if inner.isCacheClosed then .ret (s, some ErrCacheClosed)
  else if inner.isDisabledCtxOrConfig then .ret (s, none)
  else cacheWrapper.addOrReplaceInner env inner s now pooled key value expire cmdAdd opts

/-- Method `cacheWrapper.replace` on the snapshot `inner`, run at the instant `now`. -/
def cacheWrapper.replace (env : Env) (inner : cacheWrapperInner) (s : Store) (now : Time)
    (pooled : cacheOperationOptions) (key : String) (value : Value) (expire : Int)
    (opts : List OperationOption) : Outcome (Store × Option Err) :=
  if inner.isCacheClosed then .ret (s, some ErrCacheClosed)
  else if inner.isDisabledCtxOrConfig then .ret (s, some ErrNotStored)
  else cacheWrapper.addOrReplaceInner env inner s now pooled key value expire cmdReplace opts

/-- Method `cacheWrapper.incrDecrInner` on the snapshot `inner`. -/
def cacheWrapper.incrDecrInner (env : Env) (inner : cacheWrapperInner)
    (pooled : cacheOperationOptions) (key : String) (delta : Nat) (command : String)
    (opts : List OperationOption) : Outcome (Int × Option Err) :=
  if inner.isCacheClosed then .ret (0, some ErrCacheClosed)
  else if inner.isDisabledCtxOrConfig then .ret (0, some ErrCacheMiss)
  else
    let option := applyOpts opts (newCacheOperationOptions env pooled)
    let fixedKey := inner.getFixedKey key
    if command = cmdIncrement then
      .ret (inMemoryCacheInner.increment fixedKey delta [withInitNonExistKey option.initNonExistKey])
    else if command = cmdDecrement then
      .ret (inMemoryCacheInner.decrement fixedKey delta [withInitNonExistKey option.initNonExistKey])
    else .fault (.logic "unknown_operation")

/-- Method `cacheWrapper.increment`. -/
def cacheWrapper.increment (env : Env) (inner : cacheWrapperInner)
    (pooled : cacheOperationOptions) (key : String) (delta : Nat)
    (opts : List OperationOption) : Outcome (Int × Option Err) :=
  cacheWrapper.incrDecrInner env inner pooled key delta cmdIncrement opts

/-- Method `cacheWrapper.decrement`. -/
def cacheWrapper.decrement (env : Env) (inner : cacheWrapperInner)
    (pooled : cacheOperationOptions) (key : String) (delta : Nat)
    (opts : List OperationOption) : Outcome (Int × Option Err) :=
  cacheWrapper.incrDecrInner env inner pooled key delta cmdDecrement opts

/-- Method `cacheWrapper.expireInner`, run at the instant `now`. -/
def cacheWrapper.expireInner (env : Env) (inner : cacheWrapperInner) (s : Store) (now : Time)
    (fixedKey : String) (expire : Int) (option : cacheOperationOptions) :
    Outcome (Store × Option Err) :=
  if option.skipEncodeDecode then .ret (s, inMemoryCacheInner.expire fixedKey expire)
  else
    match inMemoryCacheInner.get s now fixedKey with
    | (_, some err) => .ret (s, some err)
    | (result, none) =>
      (inner.decode env.lib result false).bind fun d =>
        match d.2.2 with
        | some err => .ret (s, some err)
        | none =>
          let option :=
            { option with hardExpiration := expire, softTimeoutTs := d.2.1.SoftTimeoutTs }
          (inner.encode env.lib now d.1 option).bind fun e =>
            match e.2 with
            | some err => .ret (s, some err)
            | none => .ret (inMemoryCacheInner.set s now fixedKey e.1 expire [])

/-- Method `cacheWrapper.expire` on the snapshot `inner`, run at the instant `now`. -/
def cacheWrapper.expire (env : Env) (inner : cacheWrapperInner) (s : Store) (now : Time)
    (pooled : cacheOperationOptions) (key : String) (expire : Int)
    (opts : List OperationOption) : Outcome (Store × Option Err) :=
  if inner.isCacheClosed then .ret (s, some ErrCacheClosed)
  else if inner.isDisabledCtxOrConfig then .ret (s, some ErrCacheMiss)
  else
    let option := applyOpts opts (newCacheOperationOptions env pooled)
    let expire := inner.translateExpire expire
    cacheWrapper.expireInner env inner s now key expire option

/-- Method `cacheWrapper.flush` on the snapshot `inner`. -/
def cacheWrapper.flush (inner : cacheWrapperInner) (s : Store) : Store × Option Err :=
  if inner.isCacheClosed then (s, some ErrCacheClosed)
  else if inner.isDisabledCtxOrConfig then (s, none)
  else inMemoryCacheInner.flush s

/-- Method `cacheWrapper.ping` on the snapshot `inner`. -/
def cacheWrapper.ping (inner : cacheWrapperInner) : Option Err :=
  if inner.isCacheClosed then some ErrCacheClosed
  else if inner.isDisabledCtxOrConfig then none
  else inMemoryCacheInner.ping

/-! ## The wrapper object: `close` and `updateConfig` -/

def defaultCapacity : Int := 1000000
def defaultNumCounters : Int := 10000000

/-- The address of the function `size.CostOne`: some address other than 0. -/
def CostOne : Nat := 1

/-- Method `RistrettoCacheConfig.setDefaultValue`. -/
def RistrettoCacheConfig.setDefaultValue (c : RistrettoCacheConfig) : RistrettoCacheConfig :=
  let c := if c.Capacity = 0 then { c with Capacity := defaultCapacity } else c
  let c := if c.NumCounters = 0 then { c with NumCounters := defaultNumCounters } else c
  if c.CostFunc = 0 then { c with CostFunc := CostOne } else c

/-- Type `inmemory.RistrettoCache`: the three fields kept for `updateConfig` and, for
the `ristretto.Cache` behind `inner`, its items, its `MaxCost` and whether `Close` was
called on it. -/
structure RistrettoCache where
  items : Store
  MaxCost : Int
  closed : Bool
  NumCounters : Int
  UseInternalCost : Bool
  CostFunc : Nat

/-- Function `inmemory.NewRistrettoCache`, for a configuration that `ristretto.NewCache`
accepts (it has non-zero `NumCounters` and `MaxCost`, as a validated configuration has
after `setDefaultValue`). -/
def NewRistrettoCache (ristrettoConfig : RistrettoCacheConfig) : RistrettoCache :=
  { items := fun _ => none, MaxCost := ristrettoConfig.Capacity, closed := false,
    NumCounters := ristrettoConfig.NumCounters,
    UseInternalCost := ristrettoConfig.UseInternalCost, CostFunc := ristrettoConfig.CostFunc }

/-- Method `RistrettoCache.Close`. -/
def RistrettoCache.Close (c : RistrettoCache) : RistrettoCache := { c with closed := true }

/-- Method `RistrettoCache.UpdateMaxCost`. -/
def RistrettoCache.UpdateMaxCost (c : RistrettoCache) (maxCost : Int) : RistrettoCache :=
  { c with MaxCost := maxCost }

/-- The objects behind a `cacheWrapper`: the snapshot that `c.inner` points to, the
`RistrettoCache` that the `inMemoryCacheInner` shared by all snapshots points to, and the
number of calls of `Close` made on a ristretto cache so far. -/
structure WrapperState where
  inner : cacheWrapperInner
  cacheImpl : RistrettoCache
  closeCalls : Nat

/-- Function `newInMemoryCache` for the cache type `Ristretto`. -/
def newInMemoryCache (config : InMemoryCacheConfig) : RistrettoCache :=
  NewRistrettoCache config.RistrettoCacheConfig.setDefaultValue

/-- Function `newCacheWrapper`. -/
def newCacheWrapper (name : String) (config : Config) : Option WrapperState × Option Err :=
  match newCacheWrapperInner name config with
  | (some inner, none) =>
    (some { inner := inner, cacheImpl := newInMemoryCache config.InMemory, closeCalls := 0 }, none)
  | (_, err) => (none, err)

/-- Method `inMemoryCacheInner.close`. -/
def inMemoryCacheInner.close (w : WrapperState) : WrapperState × Option Err :=
  ({ w with cacheImpl := w.cacheImpl.Close, closeCalls := w.closeCalls + 1 }, none)

/-- Method `cacheWrapper.close`: the compare-and-swap of `isClosed` from 0 to 1, then
the store's `close` when the swap took place. -/
def cacheWrapper.close (w : WrapperState) : WrapperState × Option Err :=
  if w.inner.isClosed = 0 then
    inMemoryCacheInner.close { w with inner := { w.inner with isClosed := 1 } }
  else (w, none)

/-- Function `genCacheWrapperInnerCopy`: `isDisabled` and `isClosed` are not among the
fields copied and keep their zero values. -/
def genCacheWrapperInnerCopy (oldInner : cacheWrapperInner) : cacheWrapperInner :=
  { name := oldInner.name
    cacheType := oldInner.cacheType
    cacheHostName := oldInner.cacheHostName
    defaultExpiration := oldInner.defaultExpiration
    maxExpiration := oldInner.maxExpiration
    codecHandler := oldInner.codecHandler
    encodingHandler := oldInner.encodingHandler
    isDisabled := false
    isClosed := 0 }

/-- Function `needCreateNewRistrettoCache`. -/
def needCreateNewRistrettoCache (impl : RistrettoCache) (ristrettoConfig : RistrettoCacheConfig) :
    Bool :=
  impl.NumCounters ≠ ristrettoConfig.NumCounters
    ∨ impl.UseInternalCost ≠ ristrettoConfig.UseInternalCost
    ∨ impl.CostFunc ≠ ristrettoConfig.CostFunc

/-- Function `replaceCurImplWithNewRistrettoCache`: `Close` is called on the current
cache, which is counted, then a new cache takes its place. -/
def replaceCurImplWithNewRistrettoCache (w : WrapperState) (cfg : InMemoryCacheConfig) :
    WrapperState × Option Err :=
  let closeCalls := w.closeCalls + 1
  let ristrettoConfig := cfg.RistrettoCacheConfig.setDefaultValue
  ({ w with cacheImpl := NewRistrettoCache ristrettoConfig, closeCalls := closeCalls }, none)

/-- Function `updateCurImplRistrettoMaxCost`. -/
def updateCurImplRistrettoMaxCost (w : WrapperState) (newCapacity : Int) :
    WrapperState × Option Err :=
  ({ w with cacheImpl := w.cacheImpl.UpdateMaxCost newCapacity }, none)

/-- Method `inMemoryCacheInner.updateConfig`. -/
def inMemoryCacheInner.updateConfig (w : WrapperState) (newConfig : InMemoryCacheConfig) :
    WrapperState × Option Err :=
  if needCreateNewRistrettoCache w.cacheImpl newConfig.RistrettoCacheConfig then
    replaceCurImplWithNewRistrettoCache w newConfig
  else updateCurImplRistrettoMaxCost w newConfig.RistrettoCacheConfig.Capacity

/-- Function `updateInMemCacheWrapperInner`: the state of the store afterwards, the
snapshot under construction, the error. -/
def updateInMemCacheWrapperInner (w : WrapperState) (inner : cacheWrapperInner)
    (config : InMemoryCacheConfig) : WrapperState × cacheWrapperInner × Option Err :=
  match inMemoryCacheInner.updateConfig w config with
  | (w1, some err) => (w1, inner, some err)
  | (w1, none) => (w1, fillCacheWrapperInnerFieldsWithInMemConfig config inner, none)

/-- Method `cacheWrapper.updateConfig`. -/
def cacheWrapper.updateConfig (w : WrapperState) (config : Config) : WrapperState × Option Err :=
  match config.Validate with
  | some err => (w, some err)
  | none =>
    let curInner := w.inner
    let newInner := genCacheWrapperInnerCopy curInner
    if config.Type_ = InMemory then
      match updateInMemCacheWrapperInner w newInner config.InMemory with
      | (w1, _, some err) => (w1, some err)
      | (w1, newInner, none) => ({ w1 with inner := newInner }, none)
    else (w, some errorConfigTypeNotSupported)

/-! ## Singleflight group (`internal/group/group.go`, `handler.go`) -/

/-- A pointer `*Call`: the number of the allocation that made the object. -/
abbrev CallPtr := Nat

/-- Type `Call`; `wg` is the counter of its `sync.WaitGroup`. -/
structure Call where
  wg : Int := 0
  val : Value := .nil
  err : Option Err := none
deriving DecidableEq, Repr

/-- A Go `map[string]*Call`, by what a read of each key gives. -/
abbrev CallMap := String → Option CallPtr

/-- Type `Group` with the `Call` objects it has allocated: `calls p` is the object
behind the pointer `p`, and `next` is the pointer that the next allocation returns. -/
structure Group where
  m : CallMap
  calls : CallPtr → Call
  next : CallPtr

/-- Function `NewGroup`. -/
def NewGroup : Group := { m := fun _ => none, calls := fun _ => {}, next := 0 }

/-- What `AddCalls` has built so far: the group, `waitingCallsMap`, `toHandleKeys`. -/
structure AddCallsState where
  g : Group
  waitingCallsMap : CallMap
  toHandleKeys : List String

/-- One round of the loop of `Group.AddCalls`. -/
def Group.addCall (st : AddCallsState) (key : String) : AddCallsState :=
  match st.g.m key with
  | some curCall =>
    { st with waitingCallsMap := fun k => if k = key then some curCall else st.waitingCallsMap k }
  | none =>
    let newCall := st.g.next
    { g :=
        { m := fun k => if k = key then some newCall else st.g.m k
          calls := fun p => if p = newCall then { wg := 0 + 1 } else st.g.calls p
          next := st.g.next + 1 }
      waitingCallsMap := st.waitingCallsMap
      toHandleKeys := st.toHandleKeys ++ [key] }

/-- Method `Group.AddCalls`. -/
def Group.AddCalls (g : Group) (keys : List String) : AddCallsState :=
  keys.foldl Group.addCall { g := g, waitingCallsMap := fun _ => none, toHandleKeys := [] }

/-- One round of the loop of `Group.CompleteCalls`: `g.m[key].val = val`, then
`g.m[key].wg.Done()`, then `delete(g.m, key)`. -/
def Group.completeCall (g : Group) (kv : String × Value) : Outcome Group :=
  match g.m kv.1 with
  | none => .fault .nilDereference
  | some p =>
    let c : Call := { g.calls p with val := kv.2 }
    if c.wg - 1 < 0 then .fault .negativeWaitGroupCounter
    else
      .ret
        { m := fun k => if k = kv.1 then none else g.m k
          calls := fun q => if q = p then { c with wg := c.wg - 1 } else g.calls q
          next := g.next }

/-- Method `Group.CompleteCalls`; the map `valueMap` is visited in the order of its
entries. -/
def Group.CompleteCalls : Group → GoMap Value → Outcome Group
  | g, [] => .ret g
  | g, kv :: rest => (g.completeCall kv).bind fun g1 => Group.CompleteCalls g1 rest

/-- Method `Group.WaitCall` in a state of the group: `none` while the counter of the
call is not zero, when `Wait` blocks. -/
def Group.WaitCall (g : Group) (call : CallPtr) : Option (Value × Option Err) :=
  let c := g.calls call
  if c.wg = 0 then some (c.val, c.err) else none

/-- Type `manufacturerHandler`, without the settings of the distributed lock; the group
it points to is passed along. -/
structure manufacturerHandler where
  strategy : StampedeMitigationStrategy

/-- Method `manufacturerHandler.add`: the group afterwards, `toHandleKeys`,
`waitingInProcessSignalCallsMap`. -/
def manufacturerHandler.add (h : manufacturerHandler) (g : Group) (keys : List String) :
    Group × List String × CallMap :=
  if h.strategy = NoProtection then (g, keys, fun _ => none)
  else if h.strategy = InProcessSignal ∨ h.strategy = AcrossInstanceSignal then
    let r := g.AddCalls keys
    (r.g, r.toHandleKeys, r.waitingCallsMap)
  else (g, [], fun _ => none)

/-- Method `manufacturerHandler.complete`. -/
def manufacturerHandler.complete (h : manufacturerHandler) (g : Group) (valueMap : GoMap Value) :
    Outcome Group :=
  if h.strategy = NoProtection then .ret g
  else if h.strategy = InProcessSignal ∨ h.strategy = AcrossInstanceSignal then
    g.CompleteCalls valueMap
  else .ret g

/-- Method `manufacturerHandler.wait`. -/
def manufacturerHandler.wait (h : manufacturerHandler) (g : Group) (call : CallPtr) :
    Option (Value × Option Err) :=
  if h.strategy = InProcessSignal ∨ h.strategy = AcrossInstanceSignal then g.WaitCall call
  else some (.nil, none)

/-- A call made on a group. -/
inductive GroupStep where
  | add (keys : List String)
  | complete (valueMap : GoMap Value)

/-- A sequence of calls of `AddCalls` and `CompleteCalls` on one group, each run
under the mutex of the group. -/
def Group.run : Group → List GroupStep → Outcome Group
  | g, [] => .ret g
  | g, .add keys :: rest => Group.run (g.AddCalls keys).g rest
  | g, .complete valueMap :: rest => (g.CompleteCalls valueMap).bind fun g1 => Group.run g1 rest

/-- The first occurrences of the elements of a list, in the order of the list. -/
def firstOccurrences : List String → List String
  | [] => []
  | k :: ks => k :: (firstOccurrences ks).filter fun x => decide (x ≠ k)

/-! ## Load pipeline, phase 1 -/

/-- What phase 1 of the Load pipeline does with a key. -/
inductive LoadClass where
  | missing
  | success
  | successToRefresh
deriving DecidableEq, Repr

/-- Modelled from the spec: the classification of one key by `getManyForLoad`, which
is not among the sources, as section 4.G describes it. `entry` is `none` for a key
absent from storage, and else the stored envelope decoded to
`(payload, soft_ts, hard_ts)`; `now` is the current unix second. -/
def classifyForLoad (now : Int) (entry : Option (Value × Int × Int)) : LoadClass :=
  match entry with
  | none => .missing
  | some (_, soft_ts, hard_ts) =>
    if hard_ts ≠ 0 ∧ hard_ts ≠ 1 ∧ hard_ts ≤ now then .missing
    else if soft_ts ≠ 0 ∧ soft_ts ≤ now then .successToRefresh
    else .success

/-- What `getManyForLoad` hands to `loadMany`: the missing keys, the keys to update,
the payloads served, by key. -/
structure LoadClassification where
  missingKeys : List String
  toUpdateKeys : List String
  successKeyResultMap : GoMap Value

/-- Modelled from the spec: phase 1 of the Load pipeline (`getManyForLoad`) on the
requested keys, each with what storage holds for it. -/
def getManyForLoad (now : Int) : List (String × Option (Value × Int × Int)) → LoadClassification
  | [] => ⟨[], [], []⟩
  | (key, entry) :: rest =>
    let r := getManyForLoad now rest
    match entry with
    | none => { r with missingKeys := key :: r.missingKeys }
    | some (payload, soft_ts, hard_ts) =>
      match classifyForLoad now (some (payload, soft_ts, hard_ts)) with
      | .missing => { r with missingKeys := key :: r.missingKeys }
      | .successToRefresh =>
        { r with toUpdateKeys := key :: r.toUpdateKeys
                 successKeyResultMap := (key, payload) :: r.successKeyResultMap }
      | .success => { r with successKeyResultMap := (key, payload) :: r.successKeyResultMap }

/-- The value an outcome returns, or `d` when it did not return. -/
def Outcome.retD {α : Type} (x : Outcome α) (d : α) : α :=
  match x with
  | .ret a => a
  | _ => d

/-- The states of a group in which every key of the map points to an allocated call
whose counter is 1, no two keys point to the same call, and no call holds an error. -/
def Group.Inv (g : Group) : Prop :=
  (∀ k p, g.m k = some p → p < g.next ∧ (g.calls p).wg = 1)
    ∧ (∀ k1 k2 p, g.m k1 = some p → g.m k2 = some p → k1 = k2)
    ∧ ∀ p, (g.calls p).err = none

/-- Function `WithNonExistKeyStrategy`. -/
def WithNonExistKeyStrategy (strategy : NonExistKeyStrategy) : OperationOption :=
  fun option => { option with nonExistKeyStrategy := strategy }

/-- The snapshot `cappedInner` with `isDisabled` set. -/
def disabledInner : cacheWrapperInner := { cappedInner with isDisabled := true }

/-- A store that holds the in-memory record of the bytes `[7]` under the key "a",
without time to live, and nothing else. -/
def storeOfA : Store :=
  fun k => if k = "a" then some ⟨.item ⟨0, 0⟩ (.bytes [7]), none⟩ else none

/-- A receiver map visited in the order "b", "a", "c", with a receiver for each key. -/
def threeReceivers : ReceiverMap :=
  [("b", some anyReceiver), ("a", some anyReceiver), ("c", some anyReceiver)]

/-- The objects behind the wrapper that `newCacheWrapper` builds from `cappedConfig`. -/
def cappedWrapper : WrapperState :=
  { inner := cappedInner, cacheImpl := newInMemoryCache cappedConfig.InMemory, closeCalls := 0 }

/-- The group after `AddCalls(a, b)` on a new group. -/
def groupAB : Group := (Group.run NewGroup [.add ["a", "b"]]).retD NewGroup

/-! ## Encoding configuration (`internal/compression/config.go`, `config_common.go`, `handler.go`) -/

/-- Type `compression.Config`. -/
structure CompressionConfig where
  CompressionAlgo : AlgoType := 0
  MinLenForCompression : Int := 0
deriving DecidableEq, Repr

/-- Type `EncodingConfig`. -/
structure EncodingConfig where
  DisableEncoding : Bool := false
  CompressionConfig : CompressionConfig := {}
deriving DecidableEq, Repr

/-- Function `newEncodingHandler`. -/
def newEncodingHandler (config : EncodingConfig) : encodingHandler :=
  let minLenForCompression :=
    if config.CompressionConfig.MinLenForCompression = 0 then DefaultMinLenForCompression
    else config.CompressionConfig.MinLenForCompression
  { compressionAlgo := config.CompressionConfig.CompressionAlgo
    minLenForCompression := minLenForCompression
    disableEncoding := config.DisableEncoding }

/-! ## Error texts and retryability (`error.go`) -/

/-- What lies outside the sources in the text of an error: the function
`unicode.ToLower` on the characters outside ASCII, the message of
`codec.ErrCodecNotSupported`, the messages of the errors of external libraries. -/
structure ErrorText where
  toLowerNonASCII : Char → Char
  codecNotSupported : String
  external : Nat → String

/-- The name of the field of `Header` with the given number, as the messages of
`Header.Unmarshal` spell it. -/
def headerFieldName (fieldNum : Nat) : String :=
  if fieldNum = 1 then "CompressionType"
  else if fieldNum = 2 then "SoftTimeoutTs"
  else if fieldNum = 3 then "HardTimeoutTs"
  else ""

/-- Method `Error` of an error value: its message. -/
def Err.Error (t : ErrorText) : Err → String
  | .cacheErr msg => "cache:" ++ msg
  | .encodingNotMatch => "cache:encoding: not match bytes protocol"
  | .compressionNotSupported => "cache:compression: not support this compression type"
  | .intOverflowHeader => "proto: integer overflow"
  | .unexpectedEOF => "unexpected EOF"
  | .invalidLengthHeader => "proto: negative length found during unmarshaling"
  | .unexpectedEndOfGroupHeader => "proto: unexpected end of group"
  | .wiretypeEndGroup => "proto: Header: wiretype end group for non-group"
  | .illegalTag fieldNum wire =>
    "proto: Header: illegal tag " ++ toString fieldNum ++ " (wire type " ++ toString wire ++ ")"
  | .wrongWireType wireType field =>
    "proto: wrong wireType = " ++ toString wireType ++ " for field " ++ headerFieldName field
  | .illegalWireType wireType => "proto: illegal wireType " ++ toString wireType
  | .codecNotSupported => t.codecNotSupported
  | .other msg => msg
  | .external code => t.external code

/-- Function `unicode.ToLower`. -/
def unicodeToLower (t : ErrorText) (c : Char) : Char :=
  if c.val < 128 then c.toLower else t.toLowerNonASCII c

/-- Function `strings.ToLower`. -/
def ToLower (t : ErrorText) (s : String) : String := ⟨s.data.map (unicodeToLower t)⟩

/-- Whether `substr` occurs in `s`, both given by their characters. -/
def containsChars : List Char → List Char → Bool
  | [], substr => substr.isEmpty
  | c :: cs, substr => substr.isPrefixOf (c :: cs) || containsChars cs substr

/-- Function `strings.Contains`. -/
def Contains (s substr : String) : Bool := containsChars s.data substr.data

/-- Constant `errContextTimeout`. -/
def errContextTimeout : Err := .cacheErr "cache_context_timeout_err"

/-- Function `isTimeoutError`. -/
def isTimeoutError (t : ErrorText) (err : Err) : Bool :=
  Contains (ToLower t (err.Error t)) "timeout"

/-- Function `isRetryableError`. -/
def isRetryableError (t : ErrorText) (err : Err) : Bool :=
  err ≠ ErrCacheMiss ∧ err ≠ ErrCacheClosed ∧ ¬ isTimeoutError t err

/-! ## Further notions and instances used in the statements -/

/-- The effective expiration of the key `k` in `setMany`, in the words of the
specification: the translated entry of the option's `expirationMap` when `k` is in
that map, the translated shared `expire` otherwise. -/
def effectiveExpiration (inner : cacheWrapperInner) (expirationMap : Option (GoMap Int))
    (expire : Int) (k : String) : Int :=
  match expirationMap.bind fun m => GoMap.lookup m k with
  | some exp => inner.translateExpire exp
  | none => inner.translateExpire expire

/-- Function `WithExpirationMap`. -/
def WithExpirationMap (expirationMap : Option (GoMap Int)) : OperationOption :=
  fun option => { option with expirationMap := expirationMap }

/-- Error texts used in the examples: ASCII lowering only, fixed messages. -/
def sampleErrorText : ErrorText :=
  { toLowerNonASCII := fun c => c, codecNotSupported := "codec not supported",
    external := fun _ => "external" }

/-- A custom codec that writes nothing and reads nil. -/
def sampleCustomCodec : CustomCodec :=
  { Marshal := fun _ => .ok [], Unmarshal := fun _ => .ok .nil }

/-- A store that holds under the key "k" the in-memory record of the bytes `[7]` with
no soft timestamp and the hard timestamp 100, without time to live, and nothing else. -/
def storeOfK : Store :=
  fun k => if k = "k" then some ⟨.item ⟨0, 100⟩ (.bytes [7]), none⟩ else none

/-! ## Manufacturer configuration (`config_common.go`) -/

/-- Method `ManufacturerConfig.validateAcrossInstanceSignalConfig`. -/
def ManufacturerConfig.validateAcrossInstanceSignalConfig (c : ManufacturerConfig)
    (cacheType : CacheKind) : Option Err :=
  if c.CacheStampedeMitigation ≠ AcrossInstanceSignal then
    if c.AcrossInstanceSignalConfig.RetryIntervalMillis ≠ 0
        ∨ c.AcrossInstanceSignalConfig.DlockUnitExpirationMillis ≠ 0 then
      some (.cacheErr ("across_instance_signal_config_invalid_for_the_other_strategy: "
        ++ toString c.CacheStampedeMitigation))
    else none
  else if cacheType = InMemory then
    some (.cacheErr
      "across_instance_strategy_does_not_support_inmemory_or_multilayer_with_outermost_inmemory")
  else if c.AcrossInstanceSignalConfig.RetryIntervalMillis < 0 then
    some (.cacheErr ("manufacturer_config_retry_interval_millis_invalid: "
      ++ toString c.AcrossInstanceSignalConfig.RetryIntervalMillis))
  else if c.AcrossInstanceSignalConfig.DlockUnitExpirationMillis < 0 then
    some (.cacheErr ("manufacturer_config_dlock_unit_expiration_millis_invalid: "
      ++ toString c.AcrossInstanceSignalConfig.DlockUnitExpirationMillis))
  else none

/-- Method `ManufacturerConfig.Validate`, on a receiver that may be the nil pointer. -/
def ManufacturerConfig.Validate (c : Option ManufacturerConfig) (cacheType : CacheKind) :
    Option Err :=
  match c with
  | some c =>
    if c.CacheStampedeMitigation ≠ NoProtection ∧ c.CacheStampedeMitigation ≠ InProcessSignal
        ∧ c.CacheStampedeMitigation ≠ AcrossInstanceSignal then
      some (.cacheErr ("manufacturer_config_strategy_invalid: "
        ++ toString c.CacheStampedeMitigation))
    else c.validateAcrossInstanceSignalConfig cacheType
  | none => none

/-- Method `InMemoryCacheConfig.Config`. -/
def InMemoryCacheConfig.Config (c : InMemoryCacheConfig) : Config :=
  { Type_ := InMemory, InMemory := c }

/-- Function `NewInMemoryCache`: the wrapper behind the cache it returns, and the
error. -/
def NewInMemoryCache (name : String) (config : InMemoryCacheConfig) :
    Option WrapperState × Option Err :=
  match newCacheWrapper name config.Config with
  | (_, some err) => (none, some err)
  | (sc, none) => (sc, none)

/-- Method `InMemoryCache.UpdateConfig`. -/
def InMemoryCache.UpdateConfig (w : WrapperState) (config : InMemoryCacheConfig) :
    WrapperState × Option Err :=
  cacheWrapper.updateConfig w { Type_ := InMemory, InMemory := config }

/-! ## The unified client (`unified_cache_client.go`, `internal/utils/get_set.go`) -/

/-- A receiver passed to `SetValueByJSON`, by what `reflect` reports of it: whether it
is a pointer, and whether the variable it points to can be set. -/
structure PtrReceiver where
  isPtr : Bool
  elemCanSet : Bool
  zero : Value

/-- The package `encoding/json`, taken as a parameter; `Unmarshal` gives the value the
receiver holds afterwards. -/
structure JSONLib where
  Marshal : Value → Except Err (List Byte)
  Unmarshal : List Byte → Except Err Value

/-- Function `utils.SetValueByJSON`: the error returned and the value the receiver holds
after the call, when it was set. `reflect.ValueOf` of a nil interface is the zero
`Value`, on which `Type` panics. -/
def SetValueByJSON (json : JSONLib) (val : Value) (receiver : Option PtrReceiver) :
    Outcome (Option Err × Option Value) :=
  match receiver with
  | none => .fault (.logic "reflect: call of reflect.Value.Type on zero Value")
  | some r =>
    if r.isPtr = false then .ret (some (.other "cache:receiver_not_pointer"), none)
    else if r.elemCanSet then
      if val ≠ .nil then
        match json.Marshal val with
        | .error _ => .ret (some (.other "cache:val_marshal_err"), none)
        | .ok valBytes =>
          match json.Unmarshal valBytes with
          | .error _ => .ret (some (.other "cache:val_unmarshal_err"), none)
          | .ok v => .ret (none, some v)
      else .ret (none, some r.zero)
    else .ret (some (.other "cache:receiver_not_pointer"), none)

/-- Type `DataLoader`, a function of the caller, with the state `L` it works on: the
state after the call, the values and the error it returns. -/
abbrev DataLoader (L : Type) := L → List String → L × List Value × Option Err

/-- What a call of `Load` leaves behind: the state of the loader, the store, the value
put into the receiver (when it was set), the error returned. -/
structure LoadResult (L : Type) where
  loaderState : L
  store : Store
  received : Option Value
  err : Option Err

/-- Interface `Cache`, of which the client uses the method `Load`. -/
structure CacheClient (L : Type) where
  Load : DataLoader L → L → Store → String → Option PtrReceiver → Int →
    List OperationOption → Outcome (LoadResult L)

/-- Method `internalUnifiedCacheClient.LoadWithExpiration`, on the loader state `l` and
the store `s`. -/
def internalUnifiedCacheClient.LoadWithExpiration {L : Type} (json : JSONLib)
    (CacheClient : CacheClient L) (l : L) (s : Store) (loader : DataLoader L) (key : String)
    (receiver : Option PtrReceiver) (softExpirationSecTime hardExpirationSecTime : Int) :
    Outcome (LoadResult L) :=
  let hardExpiration := mulInt64 hardExpirationSecTime Second
  let softExpirationOpt := WithSoftExpiration (mulInt64 softExpirationSecTime Second)
  if key = "" then
    match loader l [""] with
    | (l1, value, err) =>
      if err = none ∧ value.length > 0 ∧ value.head? ≠ some .nil then
        (SetValueByJSON json (value.headD .nil) receiver).bind fun r =>
          match r.1 with
          | some err => .ret ⟨l1, s, r.2, some err⟩
          | none => .ret ⟨l1, s, r.2, none⟩
      else .ret ⟨l1, s, none, none⟩
  else CacheClient.Load loader l s key receiver hardExpiration [softExpirationOpt]

/-- Method `internalUnifiedCacheClient.LoadWithDefaultExpiration`. -/
def internalUnifiedCacheClient.LoadWithDefaultExpiration {L : Type} (json : JSONLib)
    (CacheClient : CacheClient L) (l : L) (s : Store) (loader : DataLoader L) (key : String)
    (receiver : Option PtrReceiver) : Outcome (LoadResult L) :=
  internalUnifiedCacheClient.LoadWithExpiration json CacheClient l s loader key receiver 10 60

/-! ## Distributed lock (`dlock.go`) -/

/-- Constant `dlockPrefix`. -/
def dlockPrefix : String := "dlock."

/-- Function `addDlockPrefix`. -/
def addDlockPrefix (key : String) : String := dlockPrefix ++ key

/-- Method `add` of the interface `innerCache`, on a store of type `σ`. -/
abbrev InnerAdd (σ : Type) := σ → String → Value → Int → σ × Option Err

/-- The loop of `acquireDlock` on the keys still to visit, with the entries of
`isAcquire` set so far: the store afterwards, `isAcquire` (nil when an error is
returned), the error. -/
def acquireDlockLoop {σ : Type} (add : InnerAdd σ) (value : List Byte) (expire : Int) :
    List String → σ → List Bool → σ × List Bool × Option Err
  | [], s, isAcquire => (s, isAcquire, none)
  | key :: keys, s, isAcquire =>
    match add s (addDlockPrefix key) (.bytes value) expire with
    | (s1, err) =>
      if err ≠ none ∧ err ≠ some ErrNotStored then (s1, [], err)
      else acquireDlockLoop add value expire keys s1 (isAcquire ++ [decide (err = none)])

/-- Function `acquireDlock`. -/
def acquireDlock {σ : Type} (add : InnerAdd σ) (s : σ) (keys : List String) (value : List Byte)
    (expire : Int) : σ × List Bool × Option Err :=
  acquireDlockLoop add value expire keys s []

/-- The loop of `reclassifyToHandleKeys`, `for idx := len(toHandleKeys) - 1; idx >= 0;
idx--`, entered with `idx + 1` rounds to go. -/
def reclassifyLoop (isAcquire : List Bool) :
    Nat → List String → List String → Outcome (List String × List String)
  | 0, toHandleKeys, waitingAcrossInstanceKeys => .ret (toHandleKeys, waitingAcrossInstanceKeys)
  | idx + 1, toHandleKeys, waitingAcrossInstanceKeys =>
    match isAcquire.get? idx with
    | none => .fault .indexOutOfRange
    | some true => reclassifyLoop isAcquire idx toHandleKeys waitingAcrossInstanceKeys
    | some false =>
      match toHandleKeys.get? idx, toHandleKeys.getLast? with
      | some key, some last =>
        reclassifyLoop isAcquire idx ((toHandleKeys.set idx last).dropLast)
          (waitingAcrossInstanceKeys ++ [key])
      | _, _ => .fault .indexOutOfRange

/-- Function `reclassifyToHandleKeys`: the store afterwards, the two key lists and the
error. -/
def reclassifyToHandleKeys {σ : Type} (add : InnerAdd σ) (s : σ) (toHandleKeys : List String)
    (value : List Byte) (expire : Int) : Outcome (σ × List String × List String × Option Err) :=
  match acquireDlock add s toHandleKeys value expire with
  | (s1, _, some err) => .ret (s1, toHandleKeys, [], some err)
  | (s1, isAcquire, none) =>
    (reclassifyLoop isAcquire toHandleKeys.length toHandleKeys []).bind fun r =>
      .ret (s1, r.1, r.2, none)

/-! ## Notions and instances for the statements on validation, loading and locks -/

/-- The keys of `ks` whose entry in `acq` is `b`, in the order of `ks`. -/
def keysWith (b : Bool) (ks : List String) (acq : List Bool) : List String :=
  ((ks.zip acq).filter fun p => p.2 = b).map Prod.fst

/-- A byte with the continuation bit of a varint set. -/
def isContinuation (b : Byte) : Prop := 0x80 ≤ b.val

instance (b : Byte) : Decidable (isContinuation b) := by unfold isContinuation; infer_instance

/-- An in-memory configuration that passes `Config.Validate` and selects the strategy
`AcrossInstanceSignal`. -/
def acrossInstanceConfig : InMemoryCacheConfig :=
  { CacheType := Ristretto, ManufacturerConfig := { CacheStampedeMitigation := AcrossInstanceSignal } }

/-- A loader that records the key lists it is called with and returns the object 1. -/
def recordingLoader : DataLoader (List (List String)) :=
  fun l keys => (l ++ [keys], [.obj 1], none)

/-- A loader that records the key lists it is called with and fails. -/
def failingLoader : DataLoader (List (List String)) :=
  fun l keys => (l ++ [keys], [.obj 1], some (.external 1))

/-- A JSON library that writes every value as the empty text and reads the object 2. -/
def sampleJSON : JSONLib := { Marshal := fun _ => .ok [], Unmarshal := fun _ => .ok (.obj 2) }

/-- A client whose `Load` panics: a call of it shows in the outcome. -/
def noClient : CacheClient (List (List String)) :=
  { Load := fun _ _ _ _ _ _ _ => .fault (.logic "Load called") }

/-- A pointer to a variable that can be set. -/
def settablePtr : PtrReceiver := { isPtr := true, elemCanSet := true, zero := .nil }

/-- An adapter whose store is the list of the keys it holds: `add` stores a key it
does not hold and answers `not_stored` for a key it holds. -/
def lockAdd : InnerAdd (List String) :=
  fun held key _ _ => if key ∈ held then (held, some ErrNotStored) else (key :: held, none)

/-- An adapter whose `add` fails with an error of the network on the key "dlock.b". -/
def brokenAdd : InnerAdd (List String) :=
  fun held key _ _ =>
    if key = "dlock.b" then (held, some (.external 7)) else (key :: held, none)

/-! ## The varint loop on indices (`internal/headerproto/header.pb.go`) -/

/-- The varint loop of `Unmarshal` as the source writes it, on the index `iNdEx` into
the buffer (`for shift := uint(0); ; shift += 7`): the panic of the read `dAtA[iNdEx]`
is kept as a fault. It returns the 64-bit pattern read and the index after the varint;
`fuel` bounds the rounds, of which there are at most eleven. -/
def readVarintAt (dAtA : List Byte) : Nat → Nat → Nat → Nat → Outcome (Except Err (Nat × Nat))
  | 0, _, _, _ => .outOfFuel
  | fuel + 1, iNdEx, shift, acc =>
    if shift ≥ 64 then .ret (.error .intOverflowHeader)
    else if iNdEx ≥ dAtA.length then .ret (.error .unexpectedEOF)
    else
      match dAtA.get? iNdEx with
      | none => .fault .indexOutOfRange
      | some b =>
        let acc1 := acc ||| (((b.val &&& 0x7F) <<< shift) % 2 ^ 64)
        if b.val < 0x80 then .ret (.ok (acc1, iNdEx + 1))
        else readVarintAt dAtA fuel (iNdEx + 1) (shift + 7) acc1

/-- A result of `readVarint` with the count of bytes moved by `n`. -/
def shiftCount (n : Nat) (r : Except Err (Nat × Nat)) : Except Err (Nat × Nat) :=
  match r with
  | .ok (v, k) => .ok (v, n + k)
  | .error e => .error e

/-! ## The parser on indices (`internal/headerproto/header.pb.go`) -/

/-- The varint loop of `skipHeader` for wire type 0 as the source writes it, on the
index `iNdEx` into the buffer: the panic of the read `dAtA[iNdEx-1]` is kept as a
fault. It returns the index after the varint. -/
def skipVarintAt (dAtA : List Byte) : Nat → Nat → Nat → Outcome (Except Err Nat)
  | 0, _, _ => .outOfFuel
  | fuel + 1, iNdEx, shift =>
    if shift ≥ 64 then .ret (.error .intOverflowHeader)
    else if iNdEx ≥ dAtA.length then .ret (.error .unexpectedEOF)
    else
      match dAtA.get? (iNdEx + 1 - 1) with
      | none => .fault .indexOutOfRange
      | some b =>
        if b.val < 0x80 then .ret (.ok (iNdEx + 1))
        else skipVarintAt dAtA fuel (iNdEx + 1) (shift + 7)

/-- The loop of `skipHeader` as the source writes it, on the index `iNdEx` into the
buffer: every read `dAtA[iNdEx]` panics outside the buffer. -/
def skipHeaderLoopAt (dAtA : List Byte) : Nat → Int → Nat → Outcome (Int × Option Err)
  | 0, _, _ => .outOfFuel
  | fuel + 1, iNdEx, depth =>
    if iNdEx < dAtA.length then
      if iNdEx < 0 then .fault .indexOutOfRange
      else
        (readVarintAt dAtA 11 iNdEx.toNat 0 0).bind fun rv =>
          match rv with
          | .error e => .ret (0, some e)
          | .ok (wire, iNdEx1) =>
            let wireType := wire &&& 0x7
            let step : Outcome (Except Err (Int × Nat)) :=
              if wireType = 0 then
                (skipVarintAt dAtA 11 iNdEx1 0).bind fun sv =>
                  match sv with
                  | .error e => .ret (.error e)
                  | .ok iNdEx2 => .ret (.ok ((iNdEx2 : Int), depth))
              else if wireType = 1 then .ret (.ok ((iNdEx1 : Int) + 8, depth))
              else if wireType = 2 then
                (readVarintAt dAtA 11 iNdEx1 0 0).bind fun lv =>
                  match lv with
                  | .error e => .ret (.error e)
                  | .ok (bits, iNdEx2) =>
                    let length := toInt64 bits
                    if length < 0 then .ret (.error .invalidLengthHeader)
                    else .ret (.ok (toInt64 (toUint64 ((iNdEx2 : Int) + length)), depth))
              else if wireType = 3 then .ret (.ok ((iNdEx1 : Int), depth + 1))
              else if wireType = 4 then
                if depth = 0 then .ret (.error .unexpectedEndOfGroupHeader)
                else .ret (.ok ((iNdEx1 : Int), depth - 1))
              else if wireType = 5 then .ret (.ok ((iNdEx1 : Int) + 4, depth))
              else .ret (.error (.illegalWireType wireType))
            step.bind fun st =>
              match st with
              | .error e => .ret (0, some e)
              | .ok (iNdEx2, depth2) =>
                if iNdEx2 < 0 then .ret (0, some .invalidLengthHeader)
                else if depth2 = 0 then .ret (iNdEx2, none)
                else skipHeaderLoopAt dAtA fuel iNdEx2 depth2
    else .ret (0, some .unexpectedEOF)

/-- Function `skipHeader` as the source writes it, on indices. -/
def skipHeaderAt (dAtA : List Byte) : Outcome (Int × Option Err) :=
  skipHeaderLoopAt dAtA (dAtA.length + 1) 0 0

/-- The `for iNdEx < l` loop of `Header.Unmarshal` as the source writes it, on the index
`iNdEx` into the buffer: every read `dAtA[iNdEx]` and both slice expressions panic
outside the buffer. -/
def unmarshalLoopAt (dAtA : List Byte) : Nat → Nat → Header → Outcome (Header × Option Err)
  | 0, _, _ => .outOfFuel
  | fuel + 1, iNdEx, m =>
    if iNdEx < dAtA.length then
      let preIndex := iNdEx
      (readVarintAt dAtA 11 iNdEx 0 0).bind fun rv =>
        match rv with
        | .error e => .ret (m, some e)
        | .ok (wire, iNdEx1) =>
          let fieldNum := toInt32 (wire >>> 3)
          let wireType := wire &&& 0x7
          if wireType = 4 then .ret (m, some .wiretypeEndGroup)
          else if fieldNum ≤ 0 then .ret (m, some (.illegalTag fieldNum wire))
          else if fieldNum = 1 ∨ fieldNum = 2 ∨ fieldNum = 3 then
            if wireType ≠ 0 then .ret (m, some (.wrongWireType wireType fieldNum.toNat))
            else
              (readVarintAt dAtA 11 iNdEx1 0 0).bind fun vv =>
                match vv with
                | .error e => .ret (m, some e)
                | .ok (bits, iNdEx2) =>
                  let v := toInt64 bits
                  let m1 : Header :=
                    if fieldNum = 1 then { m with CompressionType := some v }
                    else if fieldNum = 2 then { m with SoftTimeoutTs := some v }
                    else { m with HardTimeoutTs := some v }
                  unmarshalLoopAt dAtA fuel iNdEx2 m1
          else
            (slice dAtA preIndex dAtA.length).bind fun rest =>
            (skipHeaderAt rest).bind fun r =>
              match r.2 with
              | some e => .ret (m, some e)
              | none =>
                let skippy := r.1
                if skippy < 0 ∨ toInt64 (toUint64 (preIndex + skippy)) < 0 then
                  .ret (m, some .invalidLengthHeader)
                else if preIndex + skippy > dAtA.length then .ret (m, some .unexpectedEOF)
                else
                  (slice dAtA preIndex (preIndex + skippy.toNat)).bind fun unrecognized =>
                    unmarshalLoopAt dAtA fuel (preIndex + skippy.toNat)
                      { m with XXX_unrecognized := m.XXX_unrecognized ++ unrecognized }
    else if iNdEx > dAtA.length then .ret (m, some .unexpectedEOF)
    else .ret (m, none)

/-- Method `Header.Unmarshal` as the source writes it, on indices. -/
def Header.UnmarshalAt (m : Header) (dAtA : List Byte) : Outcome (Header × Option Err) :=
  unmarshalLoopAt dAtA (dAtA.length + 1) 0 m

/-- A result of `skipVarint` with the count of bytes moved by `n`. -/
def shiftSkip (n : Nat) (r : Except Err Nat) : Except Err Nat :=
  match r with
  | .ok k => .ok (n + k)
  | .error e => .error e

/-! ## Options pool (`cache_operation_option.go`) -/

/-- Function `WithNoReply`. -/
def WithNoReply (noReply : Bool) : OperationOption :=
  fun option => { option with noReply := noReply }

/-- Function `WithSoftExpirationMultiLayer`. -/
def WithSoftExpirationMultiLayer (softExpirationMultiLayer : Option (List Int)) :
    OperationOption :=
  fun option => { option with softExpirationMultiLayer := softExpirationMultiLayer }

/-- Function `WithOnErrExpiration`. -/
def WithOnErrExpiration (onErrExpiration : Int) : OperationOption :=
  fun option => { option with onErrExpiration := onErrExpiration }

/-- Function `WithHardExpirationMultiLayer`. -/
def WithHardExpirationMultiLayer (hardExpirationMultiLayer : Option (List Int)) :
    OperationOption :=
  fun option => { option with hardExpirationMultiLayer := hardExpirationMultiLayer }

/-- Function `WithInitNonExistKey`. -/
def WithInitNonExistKey (initNonExistKey : Bool) : OperationOption :=
  fun option => { option with initNonExistKey := initNonExistKey }

/-- The function `New` of `operationOptionsPool`: the fields it does not list have the
zero value of their type. -/
def operationOptionsPoolNew (loadDefaultOnErrExpiration : Int) : cacheOperationOptions :=
  { skipCodec := false, waitRistretto := false, nonExistKeyStrategy := FillNil, noReply := true,
    initNonExistKey := true, onErrExpiration := loadDefaultOnErrExpiration,
    expirationMap := none, softExpirationMultiLayer := none, hardExpirationMultiLayer := none,
    skipEncodeDecode := false, codecType := 0, customCodec := none, hardExpiration := 0,
    softExpiration := 0, hardTimeoutTs := 0, softTimeoutTs := 0 }

/-- The values of type `OperationOption` that the package hands out: the results of its
eleven constructors. The record type `cacheOperationOptions` is not exported, so that
code outside the package cannot write another function of this type. -/
inductive IsOperationOption : OperationOption → Prop
  | skipCodec : IsOperationOption WithSkipCodec
  | nonExistKeyStrategy (strategy : NonExistKeyStrategy) :
      IsOperationOption (WithNonExistKeyStrategy strategy)
  | noReply (noReply : Bool) : IsOperationOption (WithNoReply noReply)
  | softExpiration (softExpiration : Int) : IsOperationOption (WithSoftExpiration softExpiration)
  | softExpirationMultiLayer (l : Option (List Int)) :
      IsOperationOption (WithSoftExpirationMultiLayer l)
  | onErrExpiration (onErrExpiration : Int) :
      IsOperationOption (WithOnErrExpiration onErrExpiration)
  | expirationMap (expirationMap : Option (GoMap Int)) :
      IsOperationOption (WithExpirationMap expirationMap)
  | hardExpirationMultiLayer (l : Option (List Int)) :
      IsOperationOption (WithHardExpirationMultiLayer l)
  | initNonExistKey (initNonExistKey : Bool) :
      IsOperationOption (WithInitNonExistKey initNonExistKey)
  | skipEncoding : IsOperationOption WithSkipEncoding
  | waitRistretto : IsOperationOption WithWaitRistretto

/-- The contents that a record of `operationOptionsPool` can have: a record starts as
the pool's `New` makes it, and the statements of the package that write to such a
record are `reset`, the option functions, and the assignments to `hardExpiration` and
to `softTimeoutTs` in `cache_wrapper.go`. -/
inductive Pooled (env : Env) : cacheOperationOptions → Prop
  | new : Pooled env (operationOptionsPoolNew env.loadDefaultOnErrExpiration)
  | reset (p : cacheOperationOptions) :
      Pooled env p → Pooled env (p.reset env.codecs env.loadDefaultOnErrExpiration)
  | apply (p : cacheOperationOptions) (opt : OperationOption) :
      Pooled env p → IsOperationOption opt → Pooled env (opt p)
  | hardExpiration (p : cacheOperationOptions) (expire : Int) :
      Pooled env p → Pooled env { p with hardExpiration := expire }
  | softTimeoutTs (p : cacheOperationOptions) (ts : Int) :
      Pooled env p → Pooled env { p with softTimeoutTs := ts }

/-- A record of the pool after a call of `SetMany` with three options. -/
def usedOptions : cacheOperationOptions :=
  { WithSkipCodec (WithNoReply false (WithExpirationMap (some [("b", 7200 * Second)])
      (newCacheOperationOptions sampleEnv
        (operationOptionsPoolNew sampleEnv.loadDefaultOnErrExpiration)))) with
    hardExpiration := 3600 * Second }

/-- Facts of the gzip format (RFC 1952) as `compress/gzip` writes and reads it, for a
library `lib`: the writer succeeds and what it writes is not empty (a member has a
header of ten bytes and a trailer of eight), the reader gives back what the writer was
given, and the reader does not give it back from a stream that is cut off (it fails
with `io.ErrUnexpectedEOF`). -/
def gzipFormat (lib : CompressionLib) : Prop :=
  ∀ b : List Byte, ∃ d, lib.gzipWrite b = .ok d ∧ d ≠ [] ∧ lib.gzipRead d = .ok b
    ∧ ∀ n, n < d.length → lib.gzipRead (d.take n) ≠ .ok b

/-! # Proofs -/

/-! ## Auxiliary lemmas: outcomes, words -/

@[simp] theorem Outcome.ret_bind {α β : Type} (a : α) (f : α → Outcome β) :
    (Outcome.ret a).bind f = f a := rfl

@[simp] theorem Outcome.fault_bind {α β : Type} (e : Fault) (f : α → Outcome β) :
    (Outcome.fault e : Outcome α).bind f = .fault e := rfl

@[simp] theorem Outcome.outOfFuel_bind {α β : Type} (f : α → Outcome β) :
    (Outcome.outOfFuel : Outcome α).bind f = .outOfFuel := rfl

theorem toByte_val (n : Nat) : (toByte n).val = n % 256 := rfl

theorem toByte_val_of_lt {n : Nat} (h : n < 256) : (toByte n).val = n := by
  rw [toByte_val]; exact Nat.mod_eq_of_lt h

theorem or_shift_eq_add {x : Nat} (a i : Nat) (h : x < 2 ^ i) : x ||| (a <<< i) = a * 2 ^ i + x := by
  rw [Nat.lor_comm, Nat.shiftLeft_eq, Nat.mul_comm a, ← Nat.mul_add_lt_is_or h]

theorem uint32_of_bytes (b0 b1 b2 b3 : Byte) :
    b0.val ||| (b1.val <<< 8) ||| (b2.val <<< 16) ||| (b3.val <<< 24)
      = b0.val + b1.val * 256 + b2.val * 65536 + b3.val * 16777216 := by
  have h0 := b0.isLt
  have h1 := b1.isLt
  have h2 := b2.isLt
  have h3 := b3.isLt
  rw [or_shift_eq_add b1.val 8 (by omega)]
  rw [or_shift_eq_add b2.val 16 (by omega)]
  rw [or_shift_eq_add b3.val 24 (by omega)]
  omega

theorem Uint32_putUint32 (v : Nat) (rest : List Byte) :
    Uint32 (putUint32 v ++ rest) = .ret (v % 2 ^ 32) := by
  simp only [putUint32, List.cons_append, List.nil_append, Uint32]
  rw [uint32_of_bytes]
  simp only [toByte_val, Nat.shiftRight_eq_div_pow]
  congr 1
  omega

theorem putUint32_length (v : Nat) : (putUint32 v).length = 4 := rfl

theorem slice_append_mid (a b c : List Byte) :
    slice (a ++ b ++ c) a.length (a.length + b.length) = .ret b := by
  unfold slice
  rw [if_pos]
  · simp [List.append_assoc]
  · simp only [List.length_append]; omega

theorem toInt64_toUint64 {x : Int} (h : isInt64 x) : toInt64 (toUint64 x) = x := by
  unfold isInt64 at h
  unfold toInt64 toUint64
  have h2 : (x % 2 ^ 64).toNat % 2 ^ 64 = (x % 2 ^ 64).toNat := by
    apply Nat.mod_eq_of_lt
    omega
  rw [h2]
  split <;> omega

theorem toUint64_lt (x : Int) : toUint64 x < 2 ^ 64 := by
  unfold toUint64; omega

theorem putUint32_eq_LE32 (v : Nat) : putUint32 v = LE32 v := by
  unfold putUint32 LE32
  have e : ∀ a b : Nat, a % 256 = b % 256 → toByte a = toByte b := by
    intro a b h; apply Fin.ext; simpa [toByte_val] using h
  simp only [Nat.shiftRight_eq_div_pow]
  rw [e v (v % 256) (by omega), e (v / 2 ^ 8) (v / 256 % 256) (by omega),
    e (v / 2 ^ 16) (v / 65536 % 256) (by omega), e (v / 2 ^ 24) (v / 16777216 % 256) (by omega)]

theorem or_one_eq (v : Nat) : v ||| 1 = 2 * (v / 2) + 1 := by
  have hv : v = 2 ^ 1 * (v / 2) + v % 2 := by omega
  have h1 : v % 2 ||| 1 = 1 := by
    rcases Nat.mod_two_eq_zero_or_one v with h | h <;> rw [h] <;> rfl
  calc v ||| 1 = (2 ^ 1 * (v / 2) + v % 2) ||| 1 := by rw [← hv]
    _ = 2 ^ 1 * (v / 2) ||| 1 := by
      rw [Nat.mul_add_lt_is_or (by omega : v % 2 < 2 ^ 1), Nat.lor_assoc, h1]
    _ = 2 * (v / 2) + 1 := by
      rw [← Nat.mul_add_lt_is_or (by decide : 1 < 2 ^ 1)]

theorem lenBits_le_iff (fuel : Nat) : ∀ (x k : Nat), x < 2 ^ fuel →
    (lenBits fuel x ≤ k ↔ x < 2 ^ k) := by
  induction fuel with
  | zero =>
    intro x k hx
    have h0 : x = 0 := by simpa using hx
    subst h0
    simp [lenBits]
  | succ fuel ih =>
    intro x k hx
    unfold lenBits
    by_cases h0 : x = 0
    · subst h0; simp
    · rw [if_neg h0]
      cases k with
      | zero => simp; omega
      | succ j =>
        have hx2 : x / 2 < 2 ^ fuel := by
          rw [Nat.div_lt_iff_lt_mul (by decide)]
          rw [pow_succ] at hx
          exact hx
        rw [Nat.add_le_add_iff_right, ih (x / 2) j hx2, Nat.div_lt_iff_lt_mul (by decide),
          pow_succ]

theorem sovHeader_of_bounds (k v : Nat) (hv : v < 2 ^ 64) (hlo : k = 0 ∨ 2 ^ (7 * k) ≤ v)
    (hhi : v < 2 ^ (7 * (k + 1))) : sovHeader v = k + 1 := by
  unfold sovHeader Len64
  have hy : v ||| 1 < 2 ^ 64 := Nat.or_lt_two_pow hv (by decide)
  have h1 : lenBits 64 (v ||| 1) ≤ 7 * (k + 1) := by
    rw [lenBits_le_iff 64 _ _ hy]
    apply Nat.or_lt_two_pow hhi
    calc 1 < 2 ^ 1 := by decide
      _ ≤ 2 ^ (7 * (k + 1)) := Nat.pow_le_pow_right (by decide) (by omega)
  have h2 : ¬ lenBits 64 (v ||| 1) ≤ 7 * k := by
    rw [lenBits_le_iff 64 _ _ hy, or_one_eq]
    rcases hlo with h | h
    · subst h; simp
    · omega
  omega

theorem exists_bounds (v : Nat) : ∃ k, (k = 0 ∨ 2 ^ (7 * k) ≤ v) ∧ v < 2 ^ (7 * (k + 1)) := by
  induction v using Nat.strong_induction_on with
  | _ v ih =>
    by_cases hv : v < 128
    · exact ⟨0, Or.inl rfl, by simpa using hv⟩
    · obtain ⟨k, hlo, hhi⟩ := ih (v / 128) (by omega)
      refine ⟨k + 1, Or.inr ?_, ?_⟩
      · have e : 2 ^ (7 * (k + 1)) = 2 ^ (7 * k) * 128 := by
          rw [show 7 * (k + 1) = 7 * k + 7 by ring, pow_add]; norm_num
        rw [e]
        rcases hlo with h | h
        · subst h; simp; omega
        · have := Nat.mul_le_mul_right 128 h
          have := Nat.div_mul_le_self v 128
          omega
      · have e : 2 ^ (7 * (k + 1 + 1)) = 2 ^ (7 * (k + 1)) * 128 := by
          rw [show 7 * (k + 1 + 1) = 7 * (k + 1) + 7 by ring, pow_add]; norm_num
        rw [e]
        have := Nat.lt_mul_div_succ v (show 0 < 128 by decide)
        have : v / 128 + 1 ≤ 2 ^ (7 * (k + 1)) := hhi
        have := Nat.mul_le_mul_left 128 this
        omega

theorem sovHeader_lt {v : Nat} (h : v < 128) : sovHeader v = 1 :=
  sovHeader_of_bounds 0 v (by omega) (Or.inl rfl) (by simpa using h)

theorem sovHeader_ge {v : Nat} (hv : v < 2 ^ 64) (h : 128 ≤ v) :
    sovHeader v = sovHeader (v / 128) + 1 := by
  obtain ⟨k, hlo, hhi⟩ := exists_bounds (v / 128)
  rw [sovHeader_of_bounds k (v / 128) (by omega) hlo hhi]
  apply sovHeader_of_bounds (k + 1) v hv
  · right
    have e : 2 ^ (7 * (k + 1)) = 2 ^ (7 * k) * 128 := by
      rw [show 7 * (k + 1) = 7 * k + 7 by ring, pow_add]; norm_num
    rw [e]
    rcases hlo with h0 | h0
    · subst h0; simp; omega
    · have := Nat.mul_le_mul_right 128 h0
      have := Nat.div_mul_le_self v 128
      omega
  · have e : 2 ^ (7 * (k + 1 + 1)) = 2 ^ (7 * (k + 1)) * 128 := by
      rw [show 7 * (k + 1 + 1) = 7 * (k + 1) + 7 by ring, pow_add]; norm_num
    rw [e]
    have := Nat.lt_mul_div_succ v (show 0 < 128 by decide)
    have : v / 128 + 1 ≤ 2 ^ (7 * (k + 1)) := hhi
    have := Nat.mul_le_mul_left 128 this
    omega

theorem varintN_length_eq_sov (n v : Nat) (hv : v < 2 ^ 64) (h : v < 128 ^ (n + 1)) :
    (varintN n v).length = sovHeader v := by
  induction n generalizing v with
  | zero =>
    have hv : v < 128 := by simpa using h
    simp [varintN, sovHeader_lt hv]
  | succ n ih =>
    unfold varintN
    by_cases hlt : v < 128
    · simp [hlt, sovHeader_lt hlt]
    · have hdiv : v / 128 < 128 ^ (n + 1) := by
        rw [Nat.div_lt_iff_lt_mul (by decide)]
        rw [pow_succ] at h
        exact h
      rw [if_neg hlt, List.length_cons, ih (v / 128) (by omega) hdiv]
      exact (sovHeader_ge hv (by omega)).symm

theorem varint_length_eq_sov {v : Nat} (h : v < 2 ^ 64) : (varint v).length = sovHeader v := by
  apply varintN_length_eq_sov 9 v h
  calc v < 2 ^ 64 := h
    _ ≤ 128 ^ (9 + 1) := by norm_num

theorem varintN_length_le (n v : Nat) : (varintN n v).length ≤ n + 1 := by
  induction n generalizing v with
  | zero => simp [varintN]
  | succ n ih =>
    unfold varintN
    split
    · simp
    · have := ih (v / 128)
      simp only [List.length_cons]; omega

theorem varintN_length_pos (n v : Nat) : 0 < (varintN n v).length := by
  cases n with
  | zero => simp [varintN]
  | succ n => unfold varintN; split <;> simp

theorem writeAt_mid (pre suf : List Byte) (g b : Byte) :
    writeAt (pre ++ g :: suf) (pre.length : Int) b = .ret (pre ++ b :: suf) := by
  unfold writeAt
  rw [if_pos]
  · simp
  · simp only [List.length_append, List.length_cons]; omega

theorem varint_byte_eq (v : Nat) : toByte (v &&& 0x7f ||| 0x80) = toByte (v % 128 + 128) := by
  have h1 : v &&& 0x7f = v % 128 := Nat.and_pow_two_sub_one_eq_mod v 7
  have h2 : v % 128 ||| 0x80 = v % 128 + 128 := by
    have := or_shift_eq_add (x := v % 128) 1 7 (by omega)
    simpa [Nat.shiftLeft_eq, Nat.add_comm] using this
  rw [h1, h2]

theorem encodeVarintLoop_spec (n : Nat) : ∀ (v fuel : Nat) (pre gap suf : List Byte),
    v < 128 ^ (n + 1) → n < fuel → gap.length = (varintN n v).length →
    encodeVarintLoop fuel (pre ++ (gap ++ suf)) (pre.length : Int) v
      = .ret (pre ++ (varintN n v ++ suf)) := by
  induction n with
  | zero =>
    intro v fuel pre gap suf hv hf hg
    have hv' : v < 128 := by simpa using hv
    obtain ⟨f, rfl⟩ : ∃ f, fuel = f + 1 := ⟨fuel - 1, by omega⟩
    simp only [varintN, List.length_singleton] at hg ⊢
    obtain ⟨g, rfl⟩ : ∃ g, gap = [g] := List.length_eq_one.mp hg
    unfold encodeVarintLoop
    rw [if_neg (by simp only [Nat.shiftLeft_eq]; omega)]
    exact writeAt_mid pre suf g (toByte v)
  | succ n ih =>
    intro v fuel pre gap suf hv hf hg
    obtain ⟨f, rfl⟩ : ∃ f, fuel = f + 1 := ⟨fuel - 1, by omega⟩
    unfold varintN at hg ⊢
    by_cases hlt : v < 128
    · rw [if_pos hlt] at hg ⊢
      obtain ⟨g, rfl⟩ : ∃ g, gap = [g] := List.length_eq_one.mp hg
      unfold encodeVarintLoop
      rw [if_neg (by simp only [Nat.shiftLeft_eq]; omega)]
      exact writeAt_mid pre suf g (toByte v)
    · rw [if_neg hlt] at hg ⊢
      rw [List.length_cons] at hg
      obtain ⟨g, gap1, rfl⟩ : ∃ g gap1, gap = g :: gap1 := by
        cases gap with
        | nil => simp at hg
        | cons g gap1 => exact ⟨g, gap1, rfl⟩
      rw [List.length_cons] at hg
      unfold encodeVarintLoop
      rw [if_pos (by simp only [Nat.shiftLeft_eq]; omega)]
      rw [List.cons_append, writeAt_mid, Outcome.ret_bind, varint_byte_eq]
      have hdiv : v / 128 < 128 ^ (n + 1) := by
        rw [Nat.div_lt_iff_lt_mul (by decide)]
        rw [pow_succ] at hv
        exact hv
      have key := ih (v / 128) f (pre ++ [toByte (v % 128 + 128)]) gap1 suf hdiv (by omega)
        (by omega)
      simp only [List.length_append, List.length_singleton, List.append_assoc,
        List.singleton_append, Nat.cast_add, Nat.cast_one] at key
      rw [Nat.shiftRight_eq_div_pow]
      exact key

theorem encodeVarintHeader_spec (v : Nat) (hv : v < 2 ^ 64) (pre gap suf : List Byte)
    (hg : gap.length = sovHeader v) :
    encodeVarintHeader (pre ++ (gap ++ suf)) ((pre.length + gap.length : Nat) : Int) v
      = .ret (pre ++ (varint v ++ suf), (pre.length : Int)) := by
  unfold encodeVarintHeader
  have hb : ((pre.length + gap.length : Nat) : Int) - (sovHeader v : Int) = (pre.length : Int) := by
    rw [hg]; push_cast; omega
  simp only [hb]
  have h128 : v < 128 ^ (9 + 1) := by
    calc v < 2 ^ 64 := hv
      _ ≤ 128 ^ (9 + 1) := by norm_num
  rw [encodeVarintLoop_spec 9 v 10 pre gap suf h128 (by decide)
    (by rw [hg]; exact (varintN_length_eq_sov 9 v hv h128).symm)]
  rfl

theorem marshalField_spec (x : Int) (tag : Byte) (pre gap suf : List Byte)
    (hg : gap.length = 1 + sovHeader (toUint64 x)) :
    marshalField (some x) tag (pre ++ (gap ++ suf), ((pre.length + gap.length : Nat) : Int))
      = .ret (pre ++ (tag :: varint (toUint64 x) ++ suf), (pre.length : Int)) := by
  obtain ⟨g, gap1, rfl⟩ : ∃ g gap1, gap = g :: gap1 := by
    cases gap with
    | nil => simp at hg; omega
    | cons g gap1 => exact ⟨g, gap1, rfl⟩
  have hg1 : gap1.length = sovHeader (toUint64 x) := by
    simp only [List.length_cons] at hg; omega
  unfold marshalField
  have e1 : pre ++ (g :: gap1 ++ suf) = (pre ++ [g]) ++ (gap1 ++ suf) := by simp
  have e2 : ((pre.length + (g :: gap1).length : Nat) : Int)
      = (((pre ++ [g]).length + gap1.length : Nat) : Int) := by
    simp only [List.length_cons, List.length_append, List.length_nil]; omega
  simp only [e1, e2]
  rw [encodeVarintHeader_spec (toUint64 x) (toUint64_lt x) (pre ++ [g]) gap1 suf hg1]
  simp only [Outcome.ret_bind]
  have e3 : ((pre ++ [g]).length : Int) - 1 = (pre.length : Int) := by
    simp only [List.length_append, List.length_singleton]; omega
  rw [e3, List.append_assoc, List.singleton_append, writeAt_mid]
  simp

theorem MarshalToSizedBuffer_spec (c s t : Int) (gA gB gC : List Byte)
    (hA : gA.length = 1 + sovHeader (toUint64 c)) (hB : gB.length = 1 + sovHeader (toUint64 s))
    (hC : gC.length = 1 + sovHeader (toUint64 t)) :
    Header.MarshalToSizedBuffer ⟨some c, some s, some t, []⟩ (gA ++ (gB ++ gC))
      = .ret (headerBytes c s t, ((gA ++ (gB ++ gC)).length : Int)) := by
  unfold Header.MarshalToSizedBuffer
  simp only [ne_eq, not_true_eq_false, if_false, Outcome.ret_bind]
  have s1 := marshalField_spec t 0x18 (gA ++ gB) gC [] hC
  have e1 : gA ++ (gB ++ gC) = (gA ++ gB) ++ (gC ++ []) := by simp
  have i1 : (((gA ++ (gB ++ gC)).length : Nat) : Int)
      = (((gA ++ gB).length + gC.length : Nat) : Int) := by
    simp only [List.length_append]; omega
  rw [i1]
  conv_lhs => rw [e1]
  rw [s1]
  simp only [Outcome.ret_bind]
  have s2 := marshalField_spec s 0x10 gA gB (0x18 :: varint (toUint64 t) ++ []) hB
  have e2 : (gA ++ gB) ++ (0x18 :: varint (toUint64 t) ++ [])
      = gA ++ (gB ++ (0x18 :: varint (toUint64 t) ++ [])) := by simp
  have i2 : ((gA ++ gB).length : Int) = ((gA.length + gB.length : Nat) : Int) := by
    simp only [List.length_append]
  rw [e2, i2, s2]
  simp only [Outcome.ret_bind]
  have s3 := marshalField_spec c 0x8 [] gA
    (0x10 :: varint (toUint64 s) ++ (0x18 :: varint (toUint64 t) ++ [])) hA
  have i3 : (gA.length : Int) = ((([] : List Byte).length + gA.length : Nat) : Int) := by
    simp
  have e3 : gA ++ (0x10 :: varint (toUint64 s) ++ (0x18 :: varint (toUint64 t) ++ []))
      = [] ++ (gA ++ (0x10 :: varint (toUint64 s) ++ (0x18 :: varint (toUint64 t) ++ []))) := by
    simp
  rw [e3, i3, s3]
  simp [headerBytes]

theorem headerBytes_length (c s t : Int) :
    (headerBytes c s t).length = (Header.Size ⟨some c, some s, some t, []⟩) := by
  unfold headerBytes Header.Size
  simp only [List.length_cons, List.length_append, List.length_nil,
    varint_length_eq_sov (toUint64_lt _)]
  omega

theorem Marshal_spec (c s t : Int) :
    Header.Marshal ⟨some c, some s, some t, []⟩ = .ret (some (headerBytes c s t), none) := by
  unfold Header.Marshal
  have hsz : Header.Size ⟨some c, some s, some t, []⟩
      = (1 + sovHeader (toUint64 c)) + ((1 + sovHeader (toUint64 s))
        + (1 + sovHeader (toUint64 t))) := by
    unfold Header.Size; simp only [List.length_nil]; omega
  simp only [hsz]
  have hrep : ∀ a b d : Nat, List.replicate (a + (b + d)) (0 : Byte)
      = List.replicate a 0 ++ (List.replicate b 0 ++ List.replicate d 0) := by
    intro a b d; rw [List.replicate_add, List.replicate_add]
  rw [hrep]
  rw [MarshalToSizedBuffer_spec c s t _ _ _ (by simp) (by simp) (by simp)]
  simp only [Outcome.ret_bind]
  rw [if_pos (by omega)]
  have hl : (headerBytes c s t).length = (1 + sovHeader (toUint64 c)) + ((1 + sovHeader (toUint64 s))
        + (1 + sovHeader (toUint64 t))) := by rw [headerBytes_length, hsz]
  unfold slice
  rw [if_pos]
  · simp only [List.drop_zero, Nat.sub_zero, Outcome.ret_bind]
    congr 3
    apply List.take_of_length_le
    simp only [Int.toNat_ofNat, List.length_append, List.length_replicate]
    omega
  · simp only [Int.toNat_ofNat, List.length_append, List.length_replicate]
    omega

theorem readVarint_cons (b : Byte) (rest : List Byte) (shift acc n : Nat) (hs : shift < 64) :
    readVarint (b :: rest) shift acc n
      = if b.val < 0x80 then .ok (acc ||| (((b.val &&& 0x7F) <<< shift) % 2 ^ 64), n + 1)
        else readVarint rest (shift + 7) (acc ||| (((b.val &&& 0x7F) <<< shift) % 2 ^ 64)) (n + 1) := by
  rw [readVarint]
  rw [if_neg (by omega)]

theorem low7_step (x shift acc : Nat) (hx : x < 128) (hacc : acc < 2 ^ shift)
    (hb : x * 2 ^ shift < 2 ^ 64) :
    acc ||| (((x &&& 0x7F) <<< shift) % 2 ^ 64) = acc + x * 2 ^ shift := by
  have h1 : x &&& 0x7F = x := Nat.and_pow_two_sub_one_of_lt_two_pow (n := 7) (by simpa using hx)
  rw [h1, Nat.shiftLeft_eq, Nat.mod_eq_of_lt hb, ← Nat.shiftLeft_eq, or_shift_eq_add x shift hacc,
    Nat.add_comm, Nat.shiftLeft_eq]

theorem readVarint_varintN (n : Nat) : ∀ (w shift acc cnt : Nat) (rest : List Byte),
    w < 128 ^ (n + 1) → shift < 64 → w * 2 ^ shift < 2 ^ 64 → acc < 2 ^ shift →
    readVarint (varintN n w ++ rest) shift acc cnt
      = .ok (acc + w * 2 ^ shift, cnt + (varintN n w).length) := by
  have base : ∀ (k w shift acc cnt : Nat) (rest : List Byte), w < 128 → shift < 64 →
      w * 2 ^ shift < 2 ^ 64 → acc < 2 ^ shift →
      readVarint ([toByte w] ++ rest) shift acc cnt = .ok (acc + w * 2 ^ shift, cnt + 1) := by
    intro _ w shift acc cnt rest hw hs hb hacc
    rw [List.singleton_append, readVarint_cons _ _ _ _ _ hs]
    have hv : (toByte w).val = w := toByte_val_of_lt (by omega)
    rw [hv, if_pos (by omega), low7_step w shift acc hw hacc hb]
  induction n with
  | zero =>
    intro w shift acc cnt rest hw hs hb hacc
    simp only [varintN, List.length_singleton]
    exact base 0 w shift acc cnt rest (by simpa using hw) hs hb hacc
  | succ n ih =>
    intro w shift acc cnt rest hw hs hb hacc
    unfold varintN
    by_cases hlt : w < 128
    · rw [if_pos hlt]
      simp only [List.length_singleton]
      exact base 0 w shift acc cnt rest hlt hs hb hacc
    · rw [if_neg hlt, List.cons_append, readVarint_cons _ _ _ _ _ hs]
      have hv : (toByte (w % 128 + 128)).val = w % 128 + 128 := toByte_val_of_lt (by omega)
      rw [hv, if_neg (by omega)]
      have hand : (w % 128 + 128) &&& 0x7F = w % 128 := by
        have := Nat.and_pow_two_sub_one_eq_mod (w % 128 + 128) 7
        simp only [Nat.reducePow, Nat.add_one_sub_one] at this
        rw [this]; omega
      have hpow : 2 ^ (shift + 7) = 2 ^ shift * 128 := by rw [pow_add]; norm_num
      have hpos : 0 < 2 ^ shift := Nat.pow_pos (by decide)
      have hwd : w = 128 * (w / 128) + w % 128 := (Nat.div_add_mod w 128).symm
      have hmul : w * 2 ^ shift = (w / 128) * (2 ^ shift * 128) + (w % 128) * 2 ^ shift := by
        conv_lhs => rw [hwd]
        ring
      have hb1 : (w % 128) * 2 ^ shift < 2 ^ 64 := by
        have : (w % 128) * 2 ^ shift ≤ w * 2 ^ shift :=
          Nat.mul_le_mul_right _ (Nat.mod_le w 128)
        omega
      have hstep : acc ||| ((((w % 128 + 128) &&& 0x7F) <<< shift) % 2 ^ 64)
          = acc + (w % 128) * 2 ^ shift := by
        rw [hand]
        have := low7_step (w % 128) shift acc (by omega) hacc hb1
        have h1 : w % 128 &&& 0x7F = w % 128 :=
          Nat.and_pow_two_sub_one_of_lt_two_pow (n := 7) (by simp; omega)
        rw [h1] at this
        exact this
      rw [hstep]
      have h128 : 128 * 2 ^ shift ≤ w * 2 ^ shift := Nat.mul_le_mul_right _ (by omega)
      have hs7 : shift + 7 < 64 := by
        have h2 : 2 ^ (shift + 7) < 2 ^ 64 := by rw [hpow]; omega
        exact (Nat.pow_lt_pow_iff_right (by decide)).mp h2
      have hdiv : w / 128 < 128 ^ (n + 1) := by
        rw [Nat.div_lt_iff_lt_mul (by decide)]
        rw [pow_succ] at hw
        exact hw
      have hacc1 : acc + (w % 128) * 2 ^ shift < 2 ^ (shift + 7) := by
        rw [hpow]
        have : (w % 128) * 2 ^ shift ≤ 127 * 2 ^ shift :=
          Nat.mul_le_mul_right _ (by omega)
        omega
      have hb2 : (w / 128) * 2 ^ (shift + 7) < 2 ^ 64 := by
        rw [hpow]; omega
      rw [ih (w / 128) (shift + 7) _ (cnt + 1) rest hdiv hs7 hb2 hacc1]
      rw [hpow, List.length_cons]
      congr 2
      · omega
      · omega

theorem readVarint_varint (v : Nat) (hv : v < 2 ^ 64) (rest : List Byte) :
    readVarint (varint v ++ rest) 0 0 0 = .ok (v, (varint v).length) := by
  have h128 : v < 128 ^ (9 + 1) := by
    calc v < 2 ^ 64 := hv
      _ ≤ 128 ^ (9 + 1) := by norm_num
  have := readVarint_varintN 9 v 0 0 0 rest h128 (by decide) (by simpa using hv) (by simp)
  simpa [varint] using this

theorem readVarint_tag (tag : Byte) (rest : List Byte) (h : tag.val < 128) :
    readVarint (tag :: rest) 0 0 0 = .ok (tag.val, 1) := by
  rw [readVarint_cons _ _ _ _ _ (by decide), if_pos (by omega)]
  have := low7_step tag.val 0 0 h (by simp) (by simp; omega)
  rw [this]; simp

theorem unmarshalLoop_field (tag : Byte) (x : Int) (pre rest : List Byte) (fuel : Nat) (m : Header)
    (hfuel : 0 < fuel) (htag : tag = 0x08 ∨ tag = 0x10 ∨ tag = 0x18) :
    unmarshalLoop (pre ++ (tag :: varint (toUint64 x) ++ rest)) fuel pre.length m
      = unmarshalLoop (pre ++ (tag :: varint (toUint64 x) ++ rest)) (fuel - 1)
          (pre.length + 1 + (varint (toUint64 x)).length)
          (if tag = 0x08 then { m with CompressionType := some (toInt64 (toUint64 x)) }
           else if tag = 0x10 then { m with SoftTimeoutTs := some (toInt64 (toUint64 x)) }
           else { m with HardTimeoutTs := some (toInt64 (toUint64 x)) }) := by
  obtain ⟨f, rfl⟩ : ∃ f, fuel = f + 1 := ⟨fuel - 1, by omega⟩
  rw [unmarshalLoop]
  have hlen : pre.length < (pre ++ (tag :: varint (toUint64 x) ++ rest)).length := by
    simp only [List.length_append, List.length_cons]; omega
  rw [if_pos hlen, List.drop_left]
  have htv : tag.val < 128 := by rcases htag with h | h | h <;> subst h <;> decide
  rw [List.cons_append, readVarint_tag tag _ htv]
  have hdrop : List.drop (pre.length + 1) (pre ++ tag :: (varint (toUint64 x) ++ rest))
      = varint (toUint64 x) ++ rest := by
    rw [List.drop_append]; rfl
  simp only [hdrop, readVarint_varint (toUint64 x) (toUint64_lt x) rest, Nat.add_sub_cancel]
  rcases htag with h | h | h <;> subst h <;> simp [toInt32] <;> rfl

theorem unmarshalLoop_end (dAtA : List Byte) (fuel : Nat) (m : Header) (hfuel : 0 < fuel) :
    unmarshalLoop dAtA fuel dAtA.length m = .ret (m, none) := by
  obtain ⟨f, rfl⟩ : ∃ f, fuel = f + 1 := ⟨fuel - 1, by omega⟩
  rw [unmarshalLoop]
  simp

theorem unmarshalLoop_headerBytes (c s t : Int) (f : Nat) :
    unmarshalLoop (headerBytes c s t) (f + 4) 0 {}
      = .ret (⟨some (toInt64 (toUint64 c)), some (toInt64 (toUint64 s)),
          some (toInt64 (toUint64 t)), []⟩, none) := by
  have s1 := unmarshalLoop_field 0x08 c [] (0x10 :: varint (toUint64 s)
    ++ (0x18 :: varint (toUint64 t))) (f + 4) {} (by omega) (Or.inl rfl)
  have s2 := unmarshalLoop_field 0x10 s (0x08 :: varint (toUint64 c)) (0x18 :: varint (toUint64 t))
    (f + 3) ⟨some (toInt64 (toUint64 c)), none, none, []⟩ (by omega) (Or.inr (Or.inl rfl))
  have s3 := unmarshalLoop_field 0x18 t
    (0x08 :: varint (toUint64 c) ++ (0x10 :: varint (toUint64 s))) [] (f + 2)
    ⟨some (toInt64 (toUint64 c)), some (toInt64 (toUint64 s)), none, []⟩ (by omega)
    (Or.inr (Or.inr rfl))
  have e := unmarshalLoop_end (headerBytes c s t) (f + 1)
    ⟨some (toInt64 (toUint64 c)), some (toInt64 (toUint64 s)), some (toInt64 (toUint64 t)), []⟩
    (by omega)
  have d1 : ([] : List Byte) ++ (0x08 :: varint (toUint64 c) ++ (0x10 :: varint (toUint64 s)
      ++ (0x18 :: varint (toUint64 t)))) = headerBytes c s t := by simp [headerBytes]
  have d2 : (0x08 :: varint (toUint64 c)) ++ (0x10 :: varint (toUint64 s)
      ++ (0x18 :: varint (toUint64 t))) = headerBytes c s t := by simp [headerBytes]
  have d3 : (0x08 :: varint (toUint64 c) ++ (0x10 :: varint (toUint64 s)))
      ++ (0x18 :: varint (toUint64 t) ++ []) = headerBytes c s t := by simp [headerBytes]
  rw [d1] at s1
  rw [d2] at s2
  rw [d3] at s3
  have n1 : ([] : List Byte).length + 1 + (varint (toUint64 c)).length
      = (0x08 :: varint (toUint64 c)).length := by simp; omega
  have n2 : (0x08 :: varint (toUint64 c)).length + 1 + (varint (toUint64 s)).length
      = (0x08 :: varint (toUint64 c) ++ (0x10 :: varint (toUint64 s))).length := by
    simp only [List.length_cons, List.length_append]; omega
  have n3 : (0x08 :: varint (toUint64 c) ++ (0x10 :: varint (toUint64 s))).length + 1
      + (varint (toUint64 t)).length = (headerBytes c s t).length := by
    simp only [headerBytes, List.length_cons, List.length_append]; omega
  rw [n1] at s1
  rw [n2] at s2
  rw [n3] at s3
  have t1 : f + 4 - 1 = f + 3 := by omega
  have t2 : f + 3 - 1 = f + 2 := by omega
  have t3 : f + 2 - 1 = f + 1 := by omega
  rw [t1] at s1
  rw [t2] at s2
  rw [t3] at s3
  have z : ([] : List Byte).length = 0 := rfl
  rw [z] at s1
  rw [s1]
  simp only [if_true]
  rw [s2]
  rw [if_neg (by decide), if_pos rfl]
  rw [s3]
  rw [if_neg (by decide), if_neg (by decide)]
  exact e

theorem Unmarshal_headerBytes (c s t : Int) :
    Header.Unmarshal {} (headerBytes c s t)
      = .ret (⟨some (toInt64 (toUint64 c)), some (toInt64 (toUint64 s)),
          some (toInt64 (toUint64 t)), []⟩, none) := by
  unfold Header.Unmarshal
  have hl : (headerBytes c s t).length + 1 = ((headerBytes c s t).length - 3) + 4 := by
    have : 3 ≤ (headerBytes c s t).length := by
      simp only [headerBytes, List.length_cons, List.length_append]; omega
    omega
  rw [hl]
  exact unmarshalLoop_headerBytes c s t _

theorem toUint32_natCast (n : Nat) : toUint32 (n : Int) = n % 2 ^ 32 := by
  unfold toUint32; omega

theorem putUint32_mod (n : Nat) : putUint32 (n % 2 ^ 32) = putUint32 n := by
  rw [putUint32_eq_LE32, putUint32_eq_LE32]
  unfold LE32
  have e : ∀ a b : Nat, a % 256 = b % 256 → toByte a = toByte b := by
    intro a b h; apply Fin.ext; simpa [toByte_val] using h
  rw [e (n % 2 ^ 32 % 256) (n % 256) (by omega),
    e (n % 2 ^ 32 / 256 % 256) (n / 256 % 256) (by omega),
    e (n % 2 ^ 32 / 65536 % 256) (n / 65536 % 256) (by omega),
    e (n % 2 ^ 32 / 16777216 % 256) (n / 16777216 % 256) (by omega)]

theorem LE32_length (n : Nat) : (LE32 n).length = 4 := rfl

theorem magicPrefix_length : magicPrefix.length = 4 := rfl

theorem LE32_mod (n : Nat) : LE32 (n % 2 ^ 32) = LE32 n := by
  rw [← putUint32_eq_LE32, ← putUint32_eq_LE32, putUint32_mod]

theorem Compress_algo {lib : CompressionLib} {byt data : List Byte} {c : AlgoType}
    (h : Compress lib byt c = (some data, none)) : c = Snappy ∨ c = Gzip ∨ c = None := by
  unfold Compress at h
  by_cases h1 : c = Snappy
  · exact Or.inl h1
  · by_cases h2 : c = Gzip
    · exact Or.inr (Or.inl h2)
    · by_cases h3 : c = None
      · exact Or.inr (Or.inr h3)
      · rw [if_neg h1, if_neg h2, if_neg h3] at h
        simp at h

theorem bytesEncode_eq (lib : CompressionLib) (byt data : List Byte) (c : AlgoType)
    (opts : List bytesProtocolOption) (hcomp : Compress lib byt c = (some data, none)) :
    bytesEncode lib byt c opts
      = .ret (some (frame 8 (headerBytes c (applyOpts opts newProtocolOption).softTimeoutTs
          (applyOpts opts newProtocolOption).hardTimeoutTs) data), none) := by
  unfold bytesEncode
  simp only [hcomp, Marshal_spec, Outcome.ret_bind]
  simp only [frame, appendDataLenBytes, appendHeaderLenBytes, appendReservedBytes,
    toUint32_natCast, putUint32_eq_LE32, LE32_mod, List.nil_append, writeHeaderFlag]
  rfl

theorem headerBytes_length_le (c s t : Int) : (headerBytes c s t).length ≤ 33 := by
  have h1 := varintN_length_le 9 (toUint64 c)
  have h2 := varintN_length_le 9 (toUint64 s)
  have h3 := varintN_length_le 9 (toUint64 t)
  simp only [headerBytes, varint, List.length_cons, List.length_append]
  omega

theorem slice_at (a b c : List Byte) (lo hi : Nat) (hlo : lo = a.length)
    (hhi : hi = a.length + b.length) : slice (a ++ b ++ c) lo hi = .ret b := by
  subst hlo; subst hhi; exact slice_append_mid a b c

theorem bytesDecode_frame (lib : CompressionLib) (hb data : List Byte) (n : Nat) (c s t : Int)
    (u : List Byte) (hlen : hb.length < 2 ^ 32)
    (hun : Header.Unmarshal {} hb = .ret (⟨some c, some s, some t, u⟩, none))
    (hn : n % 2 ^ 32 ≤ data.length) :
    bytesDecode lib (magicPrefix ++ LE32 8 ++ LE32 hb.length ++ hb ++ LE32 n ++ data)
      = match Decompress lib (data.take (n % 2 ^ 32)) c with
        | (_, some err) => .ret ⟨none, {}, some err⟩
        | (d, none) => .ret ⟨d, ⟨s, t⟩, none⟩ := by
  unfold bytesDecode
  have henc : isBytesEncoded (magicPrefix ++ LE32 8 ++ LE32 hb.length ++ hb ++ LE32 n ++ data)
      = true := by
    simp [isBytesEncoded, magicPrefix, LE32, magixPrefixLen, attrReservedLen]
  rw [if_pos henc]
  have e1 : magicPrefix ++ LE32 8 ++ LE32 hb.length ++ hb ++ LE32 n ++ data
      = magicPrefix ++ LE32 8 ++ (LE32 hb.length ++ hb ++ LE32 n ++ data) := by simp
  have sl1 : slice (magicPrefix ++ LE32 8 ++ LE32 hb.length ++ hb ++ LE32 n ++ data)
      magixPrefixLen (magixPrefixLen + attrReservedLen) = .ret (LE32 8) := by
    rw [e1]; exact slice_at _ _ _ _ _ rfl rfl
  have e2 : magicPrefix ++ LE32 8 ++ LE32 hb.length ++ hb ++ LE32 n ++ data
      = (magicPrefix ++ LE32 8) ++ LE32 hb.length ++ (hb ++ LE32 n ++ data) := by simp
  have sl2 : slice (magicPrefix ++ LE32 8 ++ LE32 hb.length ++ hb ++ LE32 n ++ data)
      (magixPrefixLen + attrReservedLen) (magixPrefixLen + attrReservedLen + headerLenReservedLen)
      = .ret (LE32 hb.length) := by
    rw [e2]; exact slice_at _ _ _ _ _ rfl rfl
  have e3 : magicPrefix ++ LE32 8 ++ LE32 hb.length ++ hb ++ LE32 n ++ data
      = (magicPrefix ++ LE32 8 ++ LE32 hb.length) ++ hb ++ (LE32 n ++ data) := by simp
  have sl3 : slice (magicPrefix ++ LE32 8 ++ LE32 hb.length ++ hb ++ LE32 n ++ data)
      (magixPrefixLen + attrReservedLen + headerLenReservedLen)
      (magixPrefixLen + attrReservedLen + headerLenReservedLen + hb.length) = .ret hb := by
    rw [e3]; exact slice_at _ _ _ _ _ rfl rfl
  have e4 : magicPrefix ++ LE32 8 ++ LE32 hb.length ++ hb ++ LE32 n ++ data
      = (magicPrefix ++ LE32 8 ++ LE32 hb.length ++ hb) ++ LE32 n ++ data := by simp
  have sl4 : slice (magicPrefix ++ LE32 8 ++ LE32 hb.length ++ hb ++ LE32 n ++ data)
      (magixPrefixLen + attrReservedLen + headerLenReservedLen + hb.length)
      (magixPrefixLen + attrReservedLen + headerLenReservedLen + hb.length + dataLenReservedLen)
      = .ret (LE32 n) := by
    rw [e4]
    exact slice_at _ _ _ _ _ (by simp only [List.length_append, LE32_length, magicPrefix_length, magixPrefixLen,
        attrReservedLen, headerLenReservedLen, dataLenReservedLen])
      (by simp only [List.length_append, LE32_length, magicPrefix_length, magixPrefixLen,
        attrReservedLen, headerLenReservedLen, dataLenReservedLen])
  have sl5 : slice (magicPrefix ++ LE32 8 ++ LE32 hb.length ++ hb ++ LE32 n ++ data)
      (magixPrefixLen + attrReservedLen + headerLenReservedLen + hb.length + dataLenReservedLen)
      (magixPrefixLen + attrReservedLen + headerLenReservedLen + hb.length + dataLenReservedLen
        + n % 2 ^ 32) = .ret (data.take (n % 2 ^ 32)) := by
    have e5 : magicPrefix ++ LE32 8 ++ LE32 hb.length ++ hb ++ LE32 n ++ data
        = (magicPrefix ++ LE32 8 ++ LE32 hb.length ++ hb ++ LE32 n) ++ data.take (n % 2 ^ 32)
          ++ data.drop (n % 2 ^ 32) := by
      rw [List.append_assoc _ (List.take _ _), List.take_append_drop]
    rw [e5]
    exact slice_at _ _ _ _ _ (by simp only [List.length_append, LE32_length, magicPrefix_length, magixPrefixLen,
        attrReservedLen, headerLenReservedLen, dataLenReservedLen])
      (by simp only [List.length_append, LE32_length, magicPrefix_length, magixPrefixLen,
        attrReservedLen, headerLenReservedLen, dataLenReservedLen, List.length_take]; omega)
  have u1 : Uint32 (LE32 8) = .ret 8 := by decide
  have u2 : Uint32 (LE32 hb.length) = .ret hb.length := by
    have := Uint32_putUint32 hb.length []
    rw [putUint32_eq_LE32, List.append_nil, Nat.mod_eq_of_lt hlen] at this
    exact this
  have u3 : Uint32 (LE32 n) = .ret (n % 2 ^ 32) := by
    have := Uint32_putUint32 n []
    rw [putUint32_eq_LE32, List.append_nil] at this
    exact this
  have hflag : readHeaderFlag 8 = true := by decide
  simp only [sl1, u1, Outcome.ret_bind, hflag, if_true, readHeaderLen, sl2, u2, sl3, hun,
    readDataLen, sl4, u3, deref, sl5]

/-! ## Envelope round trip, rejection, framing -/

theorem storedLib_lawful (b data : List Byte) (c : AlgoType)
    (h : Compress storedLib b c = (some data, none)) :
    Decompress storedLib data c = (some b, none) := by
  rcases Compress_algo h with hc | hc | hc <;> subst hc <;>
    simp [Compress, Decompress, storedLib, ofExcept, Snappy, Gzip, None] at h ⊢ <;>
    subst h <;> rfl

theorem bigPayload_length : bigPayload.length = 2 ^ 32 - 1 := by
  unfold bigPayload; exact List.length_replicate _ _

theorem roundTrip_eq (lib : CompressionLib) (payload data : List Byte) (c : AlgoType)
    (soft hard : Int) (hs : isInt64 soft) (hh : isInt64 hard)
    (hcomp : Compress lib payload c = (some data, none)) :
    roundTrip lib payload c soft hard
      = match Decompress lib (data.take (data.length % 2 ^ 32)) c with
        | (_, some err) => .ret ⟨none, {}, some err⟩
        | (d, none) => .ret ⟨d, ⟨soft, hard⟩, none⟩ := by
  unfold roundTrip
  rw [bytesEncode_eq lib payload data c _ hcomp]
  simp only [Outcome.ret_bind, Option.getD_some, frame]
  have hc : isInt64 c := by
    rcases Compress_algo hcomp with h | h | h <;> subst h <;> decide
  have hun := Unmarshal_headerBytes c soft hard
  rw [toInt64_toUint64 hc, toInt64_toUint64 hs, toInt64_toUint64 hh] at hun
  have hlen : (headerBytes c soft hard).length < 2 ^ 32 := by
    have := headerBytes_length_le c soft hard
    omega
  have key := bytesDecode_frame lib (headerBytes c soft hard) data data.length c soft hard []
    hlen hun (Nat.mod_le _ _)
  exact key

/-- C1 (amended): for every payload, every algorithm `c` and every `int64` pair
`soft`, `hard`, when `Compress(payload, c)` succeeds with fewer than 2^32 bytes `data`
and `Decompress(data, c)` gives the payload back (both hold for `None` on every payload
of fewer than 2^32 bytes), `bytesDecode(bytesEncode(payload, c, soft, hard))` returns
the payload, `SoftTimeoutTs = soft`, `HardTimeoutTs = hard` and no error. -/
theorem bytesDecode_bytesEncode (lib : CompressionLib) (payload data : List Byte) (c : AlgoType)
    (soft hard : Int) (hs : isInt64 soft) (hh : isInt64 hard)
    (hcomp : Compress lib payload c = (some data, none))
    (hdec : Decompress lib data c = (some payload, none))
    (hlen : data.length < 2 ^ 32) :
    roundTrip lib payload c soft hard = .ret ⟨some payload, ⟨soft, hard⟩, none⟩ := by
  rw [roundTrip_eq lib payload data c soft hard hs hh hcomp, Nat.mod_eq_of_lt hlen,
    List.take_length, hdec]

/-- Witness of C1 (amended): a three-byte payload stored uncompressed. -/
theorem bytesDecode_bytesEncode_witness :
    roundTrip storedLib [1, 2, 3] None 1700000000 1700003600
      = .ret ⟨some [1, 2, 3], ⟨1700000000, 1700003600⟩, none⟩ :=
  bytesDecode_bytesEncode storedLib [1, 2, 3] [1, 2, 3] None 1700000000 1700003600
    (by decide) (by decide) (by decide) (by decide) (by decide)

/-- The wrap of the data length on the library `storedLib`, whose compressors keep
their input behind one marker byte: a payload of 2^32 - 1 bytes is turned by Gzip into
2^32 bytes, the data length field wraps to zero, and decoding the encoded bytes ends
in an error instead of the payload. -/
theorem roundTrip_bigPayload :
    (∀ b data c, Compress storedLib b c = (some data, none) →
        Decompress storedLib data c = (some b, none))
      ∧ bigPayload.length < 2 ^ 32
      ∧ roundTrip storedLib bigPayload Gzip 0 0 = .ret ⟨none, {}, some (.external 2)⟩ := by
  refine ⟨storedLib_lawful, ?_, ?_⟩
  · rw [bigPayload_length]; decide
  · have hcomp : Compress storedLib bigPayload Gzip = (some (1 :: bigPayload), none) := rfl
    rw [roundTrip_eq storedLib bigPayload (1 :: bigPayload) Gzip 0 0 (by decide) (by decide)
      hcomp]
    have hl : (1 :: bigPayload).length % 2 ^ 32 = 0 := by
      rw [List.length_cons, bigPayload_length]; decide
    rw [hl, List.take_zero]
    rfl

theorem storedLib_gzipFormat : gzipFormat storedLib := by
  intro b
  refine ⟨1 :: b, rfl, by simp, rfl, ?_⟩
  intro n hn
  cases n with
  | zero => intro h; cases h
  | succ n =>
    intro h
    have h1 : storedLib.gzipRead ((1 :: b).take (n + 1)) = .ok (b.take n) := rfl
    rw [h1] at h
    have h2 : b.take n = b := by injection h
    have h3 := congrArg List.length h2
    rw [List.length_take, List.length_cons] at *
    omega

theorem gzip_long_output (lib : CompressionLib) (hg : gzipFormat lib) (N : Nat) (hN : 0 < N) :
    ∃ payload d : List Byte, payload.length < N ∧ lib.gzipWrite payload = .ok d
      ∧ lib.gzipRead d = .ok payload ∧ N ≤ d.length
      ∧ ∀ n, n < d.length → lib.gzipRead (d.take n) ≠ .ok payload := by
  by_contra hcon
  have hshort : ∀ payload d : List Byte, payload.length < N → lib.gzipWrite payload = .ok d →
      d.length < N := by
    intro payload d hp hw
    by_contra hge
    obtain ⟨d1, h1, _, h3, h4⟩ := hg payload
    rw [h1] at hw
    have hd : d1 = d := by injection hw
    subst hd
    exact hcon ⟨payload, d1, hp, h1, h3, by omega, h4⟩
  have hfin : Finite {l : List Byte // l.length < N} :=
    (List.finite_length_lt Byte N).to_subtype
  let f : {l : List Byte // l.length < N} → {l : List Byte // l.length < N} :=
    fun p => ⟨Classical.choose (hg p.1),
      hshort p.1 _ p.2 (Classical.choose_spec (hg p.1)).1⟩
  have hinj : Function.Injective f := by
    intro p q hpq
    have hval : Classical.choose (hg p.1) = Classical.choose (hg q.1) :=
      congrArg Subtype.val hpq
    have hp := (Classical.choose_spec (hg p.1)).2.2.1
    have hq := (Classical.choose_spec (hg q.1)).2.2.1
    rw [hval, hq] at hp
    have : q.1 = p.1 := by injection hp
    exact Subtype.ext this.symm
  have hsurj : Function.Surjective f := Finite.surjective_of_injective hinj
  obtain ⟨p, hp⟩ := hsurj ⟨[], by simpa using hN⟩
  have hnil : Classical.choose (hg p.1) = [] := congrArg Subtype.val hp
  exact (Classical.choose_spec (hg p.1)).2.1 hnil

/-- Counterexample to C1: the library `storedLib` has the gzip format, and with every
library that has the gzip format (the writer succeeds with a stream that is not empty,
the reader gives back what the writer was given and does not give it back from a
stream that is cut off) there is a payload of fewer than 2^32 bytes whose stream has 2^32
bytes or more, for which `Decompress(Compress(b, Gzip), Gzip) = b` holds, and for which
`bytesDecode(bytesEncode(payload, Gzip, 0, 0))` is not the payload: only finitely many
payloads are shorter than 2^32 bytes, the writer sends different payloads to different
streams, and the empty stream is not among them. -/
theorem gzip_round_trip_fails_below_bound :
    gzipFormat storedLib
      ∧ ∀ lib : CompressionLib, gzipFormat lib →
          ∃ payload data : List Byte, payload.length < 2 ^ 32
            ∧ Compress lib payload Gzip = (some data, none)
            ∧ Decompress lib data Gzip = (some payload, none)
            ∧ 2 ^ 32 ≤ data.length
            ∧ roundTrip lib payload Gzip 0 0 ≠ .ret ⟨some payload, ⟨0, 0⟩, none⟩ := by
  refine ⟨storedLib_gzipFormat, fun lib hg => ?_⟩
  obtain ⟨payload, d, hp, hw, hr, hlen, hcut⟩ := gzip_long_output lib hg (2 ^ 32) (by decide)
  have hcomp : Compress lib payload Gzip = (some d, none) := by
    unfold Compress
    rw [if_neg (by decide), if_pos rfl, hw]
    rfl
  have hdec : Decompress lib d Gzip = (some payload, none) := by
    unfold Decompress
    rw [if_neg (by decide), if_pos rfl, hr]
    rfl
  refine ⟨payload, d, hp, hcomp, hdec, hlen, ?_⟩
  rw [roundTrip_eq lib payload d Gzip 0 0 (by decide) (by decide) hcomp]
  have hlt : d.length % 2 ^ 32 < d.length :=
    lt_of_lt_of_le (Nat.mod_lt _ (by decide)) hlen
  have hne := hcut _ hlt
  unfold Decompress
  rw [if_neg (by decide), if_pos rfl]
  cases hread : lib.gzipRead (d.take (d.length % 2 ^ 32)) with
  | error e =>
    intro h
    simp only [ofExcept] at h
    cases h
  | ok b1 =>
    intro h
    simp only [ofExcept] at h
    have hb : b1 = payload := by
      injection h with h
      injection h with h
      injection h
    rw [hread, hb] at hne
    exact hne rfl

/-- C2: every byte sequence that does not start with the magic `0x5F 0x40 0x40 0x5F`,
and every sequence shorter than 8 bytes, makes `bytesDecode` return no payload and
the error `errEncodingNotMatch`. -/
theorem bytesDecode_not_encoded (lib : CompressionLib) (byt : List Byte)
    (h : byt.take 4 ≠ magicPrefix ∨ byt.length < 8) :
    bytesDecode lib byt = .ret ⟨none, {}, some .encodingNotMatch⟩ := by
  unfold bytesDecode
  have hne : isBytesEncoded byt = false := by
    unfold isBytesEncoded
    simp only [magixPrefixLen, attrReservedLen, decide_eq_false_iff_not, not_and]
    intro hl
    rcases h with h | h
    · exact h
    · omega
  rw [hne]
  simp

/-- Witness of C2: a sequence of eight bytes whose first byte is not the magic. -/
theorem bytesDecode_not_encoded_witness :
    bytesDecode storedLib [0x5E, 0x40, 0x40, 0x5F, 8, 0, 0, 0]
      = .ret ⟨none, {}, some .encodingNotMatch⟩ :=
  bytesDecode_not_encoded storedLib [0x5E, 0x40, 0x40, 0x5F, 8, 0, 0, 0] (Or.inl (by decide))

/-- C3 (failing input): on the 16 bytes magic, attrs = 8, header_len = 0, data_len = 0
the header parses to a record without fields and `bytesDecode` dereferences the nil
`CompressionType`; on the 8 bytes magic, attrs = 8 it slices past the end. -/
theorem bytesDecode_faults (lib : CompressionLib) :
    bytesDecode lib emptyHeaderEnvelope = .fault .nilDereference
      ∧ bytesDecode lib truncatedEnvelope = .fault .sliceBounds :=
  ⟨rfl, rfl⟩

theorem Uint32_LE32 {n : Nat} (h : n < 2 ^ 32) : Uint32 (LE32 n) = .ret n := by
  have := Uint32_putUint32 n []
  rw [putUint32_eq_LE32, List.append_nil, Nat.mod_eq_of_lt h] at this
  exact this

/-- C4: for every payload of fewer than 2^32 bytes that `Compress` turns into `data`,
`bytesEncode` returns exactly magic, `LE32(8)`, `LE32(len(header))`, the header,
`LE32(len(data))`, `data`, where the header is what `Marshal` gives for the record
of the algorithm and the two timestamps and, for `None`, the data is the payload; the
attrs word is 8 and each length field is the little-endian `uint32` that reads back
as the length it was written from (the data length whenever it is below 2^32). -/
theorem bytesEncode_frame (lib : CompressionLib) (byt data : List Byte) (c : AlgoType)
    (soft hard : Int) (_hlen : byt.length < 2 ^ 32)
    (hcomp : Compress lib byt c = (some data, none)) :
    bytesEncode lib byt c [withSoftTimeoutTs soft, withHardTimeoutTs hard]
        = .ret (some (magicPrefix ++ LE32 8 ++ LE32 (headerBytes c soft hard).length
            ++ headerBytes c soft hard ++ LE32 data.length ++ data), none)
      ∧ Header.Marshal ⟨some c, some soft, some hard, []⟩
          = .ret (some (headerBytes c soft hard), none)
      ∧ LE32 8 = [8, 0, 0, 0]
      ∧ Uint32 (LE32 (headerBytes c soft hard).length) = .ret (headerBytes c soft hard).length
      ∧ (data.length < 2 ^ 32 → Uint32 (LE32 data.length) = .ret data.length)
      ∧ (c = None → data = byt) := by
  refine ⟨?_, Marshal_spec c soft hard, rfl, ?_, Uint32_LE32, ?_⟩
  · exact bytesEncode_eq lib byt data c _ hcomp
  · have := headerBytes_length_le c soft hard
    exact Uint32_LE32 (by omega)
  · intro hc
    subst hc
    simp [Compress, Snappy, Gzip, None] at hcomp
    exact hcomp.symm

/-- Witness of C4: the payload `[1, 2, 3]` stored uncompressed. -/
theorem bytesEncode_frame_witness :
    bytesEncode storedLib [1, 2, 3] None [withSoftTimeoutTs 0, withHardTimeoutTs 0]
        = .ret (some (magicPrefix ++ LE32 8 ++ LE32 (headerBytes None 0 0).length
            ++ headerBytes None 0 0 ++ LE32 [1, 2, 3].length ++ [1, 2, 3]), none)
      ∧ Header.Marshal ⟨some None, some 0, some 0, []⟩
          = .ret (some (headerBytes None 0 0), none)
      ∧ LE32 8 = [8, 0, 0, 0]
      ∧ Uint32 (LE32 (headerBytes None 0 0).length) = .ret (headerBytes None 0 0).length
      ∧ (([1, 2, 3] : List Byte).length < 2 ^ 32 →
          Uint32 (LE32 ([1, 2, 3] : List Byte).length) = .ret ([1, 2, 3] : List Byte).length)
      ∧ (None = None → ([1, 2, 3] : List Byte) = [1, 2, 3]) :=
  bytesEncode_frame storedLib [1, 2, 3] [1, 2, 3] None 0 0 (by decide) (by decide)

/-- C5 (amended): the compression id that `bytesEncode` records under tag `0x08` is
the number of the `AlgoType`: 2 when the payload is stored uncompressed (`None`),
0 for Snappy and 1 for Gzip, for every payload the algorithm compresses. -/
theorem bytesEncode_compression_id (lib : CompressionLib) (byt data : List Byte) (c : AlgoType)
    (opts : List bytesProtocolOption) (hcomp : Compress lib byt c = (some data, none)) :
    ∃ env h, bytesEncode lib byt c opts = .ret (some env, none)
      ∧ envelopeHeader env = .ret (h, none)
      ∧ (c = None → h.CompressionType = some 2)
      ∧ (c = Snappy → h.CompressionType = some 0)
      ∧ (c = Gzip → h.CompressionType = some 1) := by
  have hc : isInt64 c := by
    rcases Compress_algo hcomp with h | h | h <;> subst h <;> decide
  refine ⟨_, ⟨some c, some (toInt64 (toUint64 (applyOpts opts newProtocolOption).softTimeoutTs)),
    some (toInt64 (toUint64 (applyOpts opts newProtocolOption).hardTimeoutTs)), []⟩,
    bytesEncode_eq lib byt data c opts hcomp, ?_, ?_, ?_, ?_⟩
  · have hun := Unmarshal_headerBytes c (applyOpts opts newProtocolOption).softTimeoutTs
      (applyOpts opts newProtocolOption).hardTimeoutTs
    rw [toInt64_toUint64 hc] at hun
    have hle := headerBytes_length_le c (applyOpts opts newProtocolOption).softTimeoutTs
      (applyOpts opts newProtocolOption).hardTimeoutTs
    generalize headerBytes c (applyOpts opts newProtocolOption).softTimeoutTs
      (applyOpts opts newProtocolOption).hardTimeoutTs = hb at hun hle ⊢
    have hlen : hb.length < 2 ^ 32 := by omega
    unfold envelopeHeader readHeaderLen frame
    have e2 : magicPrefix ++ LE32 8 ++ LE32 hb.length ++ hb ++ LE32 data.length ++ data
        = (magicPrefix ++ LE32 8) ++ LE32 hb.length ++ (hb ++ LE32 data.length ++ data) := by
      simp
    have sl2 : slice (magicPrefix ++ LE32 8 ++ LE32 hb.length ++ hb ++ LE32 data.length ++ data)
        (magixPrefixLen + attrReservedLen)
        (magixPrefixLen + attrReservedLen + headerLenReservedLen) = .ret (LE32 hb.length) := by
      rw [e2]; exact slice_at _ _ _ _ _ rfl rfl
    have e3 : magicPrefix ++ LE32 8 ++ LE32 hb.length ++ hb ++ LE32 data.length ++ data
        = (magicPrefix ++ LE32 8 ++ LE32 hb.length) ++ hb ++ (LE32 data.length ++ data) := by
      simp
    have sl3 : slice (magicPrefix ++ LE32 8 ++ LE32 hb.length ++ hb ++ LE32 data.length ++ data)
        (magixPrefixLen + attrReservedLen + headerLenReservedLen)
        (magixPrefixLen + attrReservedLen + headerLenReservedLen + hb.length) = .ret hb := by
      rw [e3]; exact slice_at _ _ _ _ _ rfl rfl
    have u2 : Uint32 (LE32 hb.length) = .ret hb.length := by
      have := Uint32_putUint32 hb.length []
      rw [putUint32_eq_LE32, List.append_nil, Nat.mod_eq_of_lt hlen] at this
      exact this
    simp only [sl2, u2, Outcome.ret_bind, sl3, hun]
  · intro h; subst h; rfl
  · intro h; subst h; rfl
  · intro h; subst h; rfl

/-- Counterexample to C5: for a payload stored uncompressed (`None`) the id recorded
under tag `0x08` is 2, not 0. -/
theorem bytesEncode_None_records_two :
    bytesEncode storedLib [1, 2, 3] None [] = .ret (some envelopeOfNone, none)
      ∧ envelopeHeader envelopeOfNone = .ret (⟨some 2, some 0, some 0, []⟩, none) := by
  decide

/-- Witness of C5 (amended): the payload `[1, 2, 3]` stored uncompressed. -/
theorem bytesEncode_compression_id_witness :
    ∃ env h, bytesEncode storedLib [1, 2, 3] None [] = .ret (some env, none)
      ∧ envelopeHeader env = .ret (h, none)
      ∧ (None = None → h.CompressionType = some 2)
      ∧ (None = Snappy → h.CompressionType = some 0)
      ∧ (None = Gzip → h.CompressionType = some 1) :=
  bytesEncode_compression_id storedLib [1, 2, 3] [1, 2, 3] None [] (by decide)

/-! ## Timestamps written by `encode` -/

theorem encode_inMemory (lib : CompressionLib) (c : cacheWrapperInner) (now : Time) (val : Value)
    (option : cacheOperationOptions) (hmem : c.cacheType = inMemory)
    (hskip : option.skipEncodeDecode = false) :
    c.encode lib now val option
      = .ret (.item ⟨encodeSoftTimeoutTs now option, encodeHardTimeoutTs now option⟩ val, none) := by
  unfold cacheWrapperInner.encode
  rw [hskip, hmem]
  simp only [Bool.false_eq_true, if_false, if_true]
  unfold inMemoryEncode applyOpts withSoftTimeoutTs withHardTimeoutTs newProtocolOption
  simp only [List.foldl_cons, List.foldl_nil, ne_eq, ite_not]
  by_cases h1 : encodeSoftTimeoutTs now option = 0 <;>
    by_cases h2 : encodeHardTimeoutTs now option = 0 <;> simp [h1, h2]

/-- C6 (amended): for every clock value and every option record with
`hardTimeoutTs = 0` whose encoding is not skipped, `encode` on an in-memory snapshot
produces `hard_timeout_ts = 1` when `hardExpiration = NoExpiration`, and
`unix-seconds(now + hardExpiration)` for every positive `hardExpiration`; for every
other negative `hardExpiration` it leaves `hard_timeout_ts` at 0. -/
theorem encode_hard_timeout_ts (lib : CompressionLib) (c : cacheWrapperInner) (now : Time)
    (val : Value) (option : cacheOperationOptions) (hmem : c.cacheType = inMemory)
    (hskip : option.skipEncodeDecode = false) (hts : option.hardTimeoutTs = 0) :
    ∃ soft hard, c.encode lib now val option = .ret (.item ⟨soft, hard⟩ val, none)
      ∧ (option.hardExpiration = NoExpiration → hard = 1)
      ∧ (0 < option.hardExpiration → hard = (now.Add option.hardExpiration).Unix)
      ∧ (option.hardExpiration < 0 → option.hardExpiration ≠ NoExpiration → hard = 0) := by
  refine ⟨_, _, encode_inMemory lib c now val option hmem hskip, ?_, ?_, ?_⟩
  · intro h
    unfold encodeHardTimeoutTs
    rw [hts, h]
    rfl
  · intro h
    unfold encodeHardTimeoutTs
    rw [hts, if_neg (by decide), if_pos h]
  · intro h hne
    have h2 : ¬ (option.hardExpiration > 0) := by omega
    unfold encodeHardTimeoutTs
    rw [hts, if_neg (by decide), if_neg h2, if_neg hne]

/-- Witness of C6 (amended): a hard expiration of 60 seconds at the instant 10 s. -/
theorem encode_hard_timeout_ts_witness :
    ∃ soft hard, cappedInner.encode storedLib ⟨10 * Second⟩ (.bytes [1])
        { zeroOptions with hardExpiration := 60 * Second } = .ret (.item ⟨soft, hard⟩ (.bytes [1]), none)
      ∧ (60 * Second = NoExpiration → hard = 1)
      ∧ (0 < 60 * Second → hard = (Time.Add ⟨10 * Second⟩ (60 * Second)).Unix)
      ∧ (60 * Second < 0 → 60 * Second ≠ NoExpiration → hard = 0) :=
  encode_hard_timeout_ts storedLib cappedInner ⟨10 * Second⟩ (.bytes [1])
    { zeroOptions with hardExpiration := 60 * Second } (by decide) (by decide) (by decide)

/-- Counterexample to C6: with `hardTimeoutTs = 0` and the non-zero hard expiration
of -2 ns, `encode` at the instant 10 s writes `hard_timeout_ts = 0`, although
`unix-seconds(now + hardExpiration)` is 9. -/
theorem encode_negative_hard_expiration :
    cappedInner.encode storedLib ⟨10 * Second⟩ (.bytes [1]) { zeroOptions with hardExpiration := -2 }
        = .ret (.item ⟨0, 0⟩ (.bytes [1]), none)
      ∧ (Time.Add ⟨10 * Second⟩ (-2)).Unix = 9 := by
  decide

/-- C7 (amended): `encode` computes the two timestamps independently and compares
nothing. On an in-memory snapshot, with encoding not skipped and neither timestamp
given in the options, a positive soft expiration is always written as
`unix-seconds(now + softExpiration)`, whatever the hard expiration; and
`soft_timeout_ts ≤ hard_timeout_ts` holds whenever both are non-zero provided that
`softExpiration ≤ hardExpiration`. -/
theorem encode_soft_le_hard (lib : CompressionLib) (c : cacheWrapperInner) (now : Time)
    (val : Value) (option : cacheOperationOptions) (hmem : c.cacheType = inMemory)
    (hskip : option.skipEncodeDecode = false) (hsts : option.softTimeoutTs ≤ 0)
    (hhts : option.hardTimeoutTs ≤ 0) :
    ∃ soft hard, c.encode lib now val option = .ret (.item ⟨soft, hard⟩ val, none)
      ∧ (0 < option.softExpiration → soft = (now.Add option.softExpiration).Unix)
      ∧ (option.softExpiration ≤ option.hardExpiration → soft ≠ 0 → hard ≠ 0 → soft ≤ hard) := by
  refine ⟨_, _, encode_inMemory lib c now val option hmem hskip, ?_, ?_⟩
  · intro h
    have h1 : ¬ (option.softTimeoutTs > 0) := by omega
    unfold encodeSoftTimeoutTs
    rw [if_neg h1, if_pos h]
  · intro hle hs _
    have h1 : ¬ (option.softTimeoutTs > 0) := by omega
    have h2 : ¬ (option.hardTimeoutTs > 0) := by omega
    by_cases hpos : option.softExpiration > 0
    · have h3 : option.hardExpiration > 0 := by omega
      have es : encodeSoftTimeoutTs now option = (now.Add option.softExpiration).Unix := by
        unfold encodeSoftTimeoutTs; rw [if_neg h1, if_pos hpos]
      have eh : encodeHardTimeoutTs now option = (now.Add option.hardExpiration).Unix := by
        unfold encodeHardTimeoutTs; rw [if_neg h2, if_pos h3]
      rw [es, eh]
      unfold Time.Unix Time.Add
      apply Int.ediv_le_ediv (by decide)
      simp only
      omega
    · have es : encodeSoftTimeoutTs now option = 0 := by
        unfold encodeSoftTimeoutTs; rw [if_neg h1, if_neg hpos]
      exact absurd es hs

/-- Witness of C7 (amended): soft 5 s, hard 10 s at the instant 0. -/
theorem encode_soft_le_hard_witness :
    ∃ soft hard, cappedInner.encode storedLib ⟨0⟩ (.bytes [1])
        { zeroOptions with softExpiration := 5 * Second, hardExpiration := 10 * Second }
          = .ret (.item ⟨soft, hard⟩ (.bytes [1]), none)
      ∧ (0 < 5 * Second → soft = (Time.Add ⟨0⟩ (5 * Second)).Unix)
      ∧ (5 * Second ≤ 10 * Second → soft ≠ 0 → hard ≠ 0 → soft ≤ hard) :=
  encode_soft_le_hard storedLib cappedInner ⟨0⟩ (.bytes [1])
    { zeroOptions with softExpiration := 5 * Second, hardExpiration := 10 * Second }
    (by decide) (by decide) (by decide) (by decide)

/-- Counterexample to C7: with a soft expiration of 10 s and a hard expiration of 5 s
`encode` at the instant 0 writes `soft_timeout_ts = 10` and `hard_timeout_ts = 5`:
both are non-zero and the soft one is the larger. -/
theorem encode_soft_above_hard :
    cappedInner.encode storedLib ⟨0⟩ (.bytes [1])
        { zeroOptions with softExpiration := 10 * Second, hardExpiration := 5 * Second }
      = .ret (.item ⟨10, 5⟩ (.bytes [1]), none) := by
  decide

/-! ## Expiration translation -/

/-- C8 (amended): for every snapshot, `translateExpire(DefaultExpiration)` returns the
snapshot's `default_expiration` when `max_expiration` is zero or not below it, and
`max_expiration` when `max_expiration` is non-zero and below `default_expiration`. -/
theorem translateExpire_default (c : cacheWrapperInner) :
    c.translateExpire DefaultExpiration
      = if c.maxExpiration ≠ 0 ∧ c.defaultExpiration > c.maxExpiration then c.maxExpiration
        else c.defaultExpiration := by
  unfold cacheWrapperInner.translateExpire
  simp

/-- Counterexample to C8: the snapshot built from a valid in-memory configuration
with `MaxExpirationSecs = 3600` and no default has `default_expiration` 86400 s, and
`translateExpire(DefaultExpiration)` returns 3600 s. -/
theorem translateExpire_default_capped :
    newCacheWrapperInner "c" cappedConfig = (some cappedInner, none)
      ∧ cappedInner.defaultExpiration = 86400 * Second
      ∧ cappedInner.translateExpire DefaultExpiration = 3600 * Second := by
  decide

/-- C9: for every snapshot with `max_expiration ≥ 0` and every requested `expire`
other than `DefaultExpiration`, `translateExpire` returns `max_expiration` when
`max_expiration` is non-zero and `expire > max_expiration`, and `expire` unchanged
otherwise; `NoExpiration` is returned as `NoExpiration`. -/
theorem translateExpire_clamp (c : cacheWrapperInner) (expire : Int)
    (hmax : 0 ≤ c.maxExpiration) (hne : expire ≠ DefaultExpiration) :
    c.translateExpire expire
        = (if c.maxExpiration ≠ 0 ∧ expire > c.maxExpiration then c.maxExpiration else expire)
      ∧ c.translateExpire NoExpiration = NoExpiration := by
  unfold cacheWrapperInner.translateExpire
  constructor
  · rw [if_neg hne]
    by_cases h : expire = NoExpiration
    · rw [if_pos h, h]
    · rw [if_neg h]
  · have h1 : ¬ (NoExpiration = DefaultExpiration) := by decide
    rw [if_neg h1, if_pos rfl]
    have h2 : ¬ (c.maxExpiration ≠ 0 ∧ NoExpiration > c.maxExpiration) := by
      unfold NoExpiration
      omega
    rw [if_neg h2]

/-- Witness of C9: two hours requested under a cap of one hour. -/
theorem translateExpire_clamp_witness :
    cappedInner.translateExpire (7200 * Second)
        = (if cappedInner.maxExpiration ≠ 0 ∧ 7200 * Second > cappedInner.maxExpiration
            then cappedInner.maxExpiration else 7200 * Second)
      ∧ cappedInner.translateExpire NoExpiration = NoExpiration :=
  translateExpire_clamp cappedInner (7200 * Second) (by decide) (by decide)

/-! ## Set, then Get -/

theorem store_get_set (s : Store) (t u : Time) (key : String) (v : Value) (x : Int)
    (h : 0 < x → u.nanos ≤ t.nanos + x) :
    inMemoryCacheInner.get (RistrettoCache.Set s t key v (if x = NoExpiration then 0 else x)) u key
      = (v, none) := by
  unfold inMemoryCacheInner.get RistrettoCache.Get RistrettoCache.Set
    RistrettoCache.setInner ristrettoSetWithTTL ristrettoGet NoExpiration
  by_cases h1 : x = -1
  · subst h1; simp
  · by_cases h2 : x ≤ 0
    · simp [h1, h2]
    · have h3 : 0 < x := by omega
      have h4 := h h3
      have h5 : ¬ (t.nanos + x < u.nanos) := by omega
      have h6 : ¬ x < 0 := by omega
      have h7 : ¬ x = 0 := by omega
      simp [h1, h2, h6, h7, Time.After, Time.Add, h5]

theorem encode_decode_inMemory (lib : CompressionLib) (c : cacheWrapperInner) (now : Time)
    (val : Value) (option : cacheOperationOptions) (hmem : c.cacheType = inMemory) :
    ∃ stored, c.encode lib now val option = .ret (stored, none)
      ∧ ∃ h, c.decode lib stored option.skipEncodeDecode = .ret (val, h, none) := by
  by_cases hse : option.skipEncodeDecode = true
  · refine ⟨val, ?_, {}, ?_⟩
    · unfold cacheWrapperInner.encode; rw [if_pos hse]
    · unfold cacheWrapperInner.decode; rw [if_pos hse]
  · have hse' : option.skipEncodeDecode = false := by simpa using hse
    refine ⟨_, encode_inMemory lib c now val option hmem hse',
      ⟨encodeSoftTimeoutTs now option, encodeHardTimeoutTs now option⟩, ?_⟩
    unfold cacheWrapperInner.decode
    rw [hse', if_neg (by decide), if_pos hmem]
    rfl

theorem convert_then_receive (codecs : CodecLib) (c : cacheWrapperInner) (v : Value)
    (o : cacheOperationOptions) (r : Receiver) (hmem : c.cacheType = inMemory)
    (hcodec : ∀ b, c.codecHandler.marshal codecs v o.codecType o.customCodec = .ok b →
      c.codecHandler.unmarshal codecs b o.codecType o.customCodec = .ok v)
    (hrefl : o.skipCodec = true → v ≠ .nil ∧ r.canSet = true ∧ r.assignable v = true) :
    (∃ err, c.convertValueToCacheData codecs v o = (.nil, some err)) ∨
      ∃ data, c.convertValueToCacheData codecs v o = (data, none)
        ∧ c.setCacheDataToReceiver codecs data (some r) o = (none, some v) := by
  unfold cacheWrapperInner.convertValueToCacheData cacheWrapperInner.setCacheDataToReceiver
  by_cases hsc : o.skipCodec = true
  · obtain ⟨hv, hcs, has⟩ := hrefl hsc
    have hgv : GetValue v = v := by cases v <;> rfl
    right
    refine ⟨v, ?_, ?_⟩
    · rw [if_pos ⟨hmem, hsc⟩, hgv]
    · simp only
      rw [if_pos ⟨hmem, hsc⟩]
      unfold SetValue
      rw [if_pos hcs, if_pos hv, if_pos has]
  · have hn : ¬ (c.cacheType = inMemory ∧ o.skipCodec = true) := fun h => hsc h.2
    rw [if_neg hn]
    cases hm : c.codecHandler.marshal codecs v o.codecType o.customCodec with
    | error err => exact Or.inl ⟨err, rfl⟩
    | ok b =>
      right
      refine ⟨.bytes b, rfl, ?_⟩
      simp only
      rw [if_neg hn, hcodec b hm]

/-- C10 (amended): on an open, enabled in-memory wrapper whose store keeps every item
until its time to live has run out, with a codec such that `unmarshal(marshal(v)) = v`
(and, when the codec is skipped, a non-nil `v` and a receiver `v` can be assigned to),
`set(k, v, e)` returns, and if it returns success at `t` then, for the same options,
`get(k)` at every instant not after `t + translateExpire(e)` (at every instant when
`translateExpire(e) ≤ 0`) returns no error and fills the receiver with `v`. -/
theorem get_after_set (env : Env) (inner : cacheWrapperInner) (s : Store) (t u : Time)
    (pooled : cacheOperationOptions) (key : String) (v : Value) (e : Int)
    (opts : List OperationOption) (r : Receiver)
    (hopen : inner.isClosed ≠ 1) (hen : inner.isDisabled = false)
    (hmem : inner.cacheType = inMemory)
    (hcodec : ∀ b, inner.codecHandler.marshal env.codecs v
        (applyOpts opts (newCacheOperationOptions env pooled)).codecType
        (applyOpts opts (newCacheOperationOptions env pooled)).customCodec = .ok b →
      inner.codecHandler.unmarshal env.codecs b
        (applyOpts opts (newCacheOperationOptions env pooled)).codecType
        (applyOpts opts (newCacheOperationOptions env pooled)).customCodec = .ok v)
    (hrefl : (applyOpts opts (newCacheOperationOptions env pooled)).skipCodec = true →
      v ≠ .nil ∧ r.canSet = true ∧ r.assignable v = true)
    (htime : 0 < inner.translateExpire e → u.nanos ≤ t.nanos + inner.translateExpire e) :
    ∃ s1 err, cacheWrapper.set env inner s t pooled key v e opts = .ret (s1, err)
      ∧ (err = none →
          cacheWrapper.get env inner s1 u pooled key (some r) opts = .ret (none, some v)) := by
  have hclosed : inner.isCacheClosed = false := by
    unfold cacheWrapperInner.isCacheClosed; simpa using hopen
  have hdis : inner.isDisabledCtxOrConfig = false := by
    unfold cacheWrapperInner.isDisabledCtxOrConfig; rw [hen]; rfl
  have hkey : inner.getFixedKey key = key := rfl
  unfold cacheWrapper.set cacheWrapper.get
  simp only [hclosed, hdis, Bool.false_eq_true, if_false, hkey]
  generalize applyOpts opts (newCacheOperationOptions env pooled) = o at hcodec hrefl ⊢
  rcases convert_then_receive env.codecs inner v o r hmem hcodec hrefl with
    ⟨err, hc⟩ | ⟨data, hc, hrecv⟩
  · rw [hc]
    exact ⟨s, some err, rfl, fun h => by simp at h⟩
  · rw [hc]
    obtain ⟨stored, henc, hdr, hdec⟩ := encode_decode_inMemory env.lib inner t data
      { o with hardExpiration := inner.translateExpire e } hmem
    dsimp only at hdec ⊢
    rw [henc]
    refine ⟨_, _, rfl, ?_⟩
    intro _
    rw [store_get_set _ _ _ _ _ _ htime]
    dsimp only
    rw [hdec]
    dsimp only [Outcome.ret_bind]
    rw [hrecv]

/-- Witness of C10 (amended): two hours requested under a cap of one hour, read
after half an hour. -/
theorem get_after_set_witness :
    ∃ s1 err, cacheWrapper.set sampleEnv cappedInner emptyStore ⟨0⟩ zeroOptions "k" (.bytes [1])
        (7200 * Second) [] = .ret (s1, err)
      ∧ (err = none →
          cacheWrapper.get sampleEnv cappedInner s1 ⟨1800 * Second⟩ zeroOptions "k"
            (some anyReceiver) [] = .ret (none, some (.bytes [1]))) :=
  get_after_set sampleEnv cappedInner emptyStore ⟨0⟩ ⟨1800 * Second⟩ zeroOptions "k" (.bytes [1])
    (7200 * Second) [] anyReceiver (by decide) (by decide) (by decide)
    (by intro b h; cases h; rfl) (by intro h; cases h) (by intro _; decide)

set_option maxRecDepth 100000 in
/-- Counterexample to C10: under a cap of one hour, `set(k, v, 2 h)` at the instant 0
returns success, and `get(k)` after an hour and a half, which is before `t + e`,
reports `cache_miss`. -/
theorem get_after_clamped_set :
    ∃ s1, cacheWrapper.set sampleEnv cappedInner emptyStore ⟨0⟩ zeroOptions "k" (.bytes [1])
        (7200 * Second) [] = .ret (s1, none)
      ∧ (5400 * Second < 0 + 7200 * Second)
      ∧ cacheWrapper.get sampleEnv cappedInner s1 ⟨5400 * Second⟩ zeroOptions "k"
          (some anyReceiver) [] = .ret (some ErrCacheMiss, none) :=
  ⟨_, rfl, by decide, rfl⟩

/-! ## Reads and the hard timestamp -/

/-- C11 (amended): `get` does not look at the timestamps of the envelope. On an open,
enabled in-memory snapshot, with encoding not skipped, whenever the store returns for
the key a record with any header `h` and value `v`, `get(k)` returns what
`setCacheDataToReceiver` makes of `v`, whatever `h.HardTimeoutTs` and the clock are;
and `get(k)` reports `cache_miss` when the store does not return the key. -/
theorem get_ignores_hard_timeout_ts (env : Env) (inner : cacheWrapperInner) (s : Store)
    (now : Time) (pooled : cacheOperationOptions) (key : String) (receiver : Option Receiver)
    (opts : List OperationOption)
    (hopen : inner.isClosed ≠ 1) (hen : inner.isDisabled = false)
    (hmem : inner.cacheType = inMemory)
    (hskip : (applyOpts opts (newCacheOperationOptions env pooled)).skipEncodeDecode = false) :
    (∀ h v, RistrettoCache.Get s now key = (.item h v, true) →
        cacheWrapper.get env inner s now pooled key receiver opts
          = .ret (inner.setCacheDataToReceiver env.codecs v receiver
              (applyOpts opts (newCacheOperationOptions env pooled))))
      ∧ ((RistrettoCache.Get s now key).2 = false →
        cacheWrapper.get env inner s now pooled key receiver opts
          = .ret (some ErrCacheMiss, none)) := by
  have hclosed : inner.isCacheClosed = false := by
    unfold cacheWrapperInner.isCacheClosed; simpa using hopen
  have hdis : inner.isDisabledCtxOrConfig = false := by
    unfold cacheWrapperInner.isDisabledCtxOrConfig; rw [hen]; rfl
  have hkey : inner.getFixedKey key = key := rfl
  constructor
  · intro h v hget
    unfold cacheWrapper.get
    simp only [hclosed, hdis, Bool.false_eq_true, if_false, hkey]
    unfold inMemoryCacheInner.get
    rw [hget]
    simp only [not_true_eq_false, if_false]
    unfold cacheWrapperInner.decode
    rw [hskip, if_neg (by decide), if_pos hmem]
    rfl
  · intro hget
    unfold cacheWrapper.get
    simp only [hclosed, hdis, Bool.false_eq_true, if_false, hkey]
    unfold inMemoryCacheInner.get
    simp only [hget, Bool.false_eq_true, not_false_eq_true, if_true]

/-- Witness of C11 (amended): a record whose hard timestamp is 5, read at second 100. -/
theorem get_ignores_hard_timeout_ts_witness :
    (∀ h v, RistrettoCache.Get
          (fun k => if k = "k" then some ⟨.item ⟨0, 5⟩ (.bytes [1]), none⟩ else none)
          ⟨100 * Second⟩ "k" = (.item h v, true) →
        cacheWrapper.get sampleEnv cappedInner
          (fun k => if k = "k" then some ⟨.item ⟨0, 5⟩ (.bytes [1]), none⟩ else none)
          ⟨100 * Second⟩ zeroOptions "k" (some anyReceiver) []
          = .ret (cappedInner.setCacheDataToReceiver sampleEnv.codecs v (some anyReceiver)
              (applyOpts [] (newCacheOperationOptions sampleEnv zeroOptions))))
      ∧ ((RistrettoCache.Get
          (fun k => if k = "k" then some ⟨.item ⟨0, 5⟩ (.bytes [1]), none⟩ else none)
          ⟨100 * Second⟩ "k").2 = false →
        cacheWrapper.get sampleEnv cappedInner
          (fun k => if k = "k" then some ⟨.item ⟨0, 5⟩ (.bytes [1]), none⟩ else none)
          ⟨100 * Second⟩ zeroOptions "k" (some anyReceiver) []
          = .ret (some ErrCacheMiss, none)) :=
  get_ignores_hard_timeout_ts sampleEnv cappedInner _ ⟨100 * Second⟩ zeroOptions "k"
    (some anyReceiver) [] (by decide) (by decide) (by decide) rfl

set_option maxRecDepth 100000 in
/-- Counterexample to C11: `set(k, v, 1.2 s)` at the instant 0.9 s stores an envelope
with `hard_timeout_ts = 2` and a time to live that ends at 2.1 s; at the instant 2.05 s
the current unix second is 2, so that `hard_timeout_ts <= now`, and `get(k)` returns
the value. -/
theorem get_serves_hard_expired_entry :
    ∃ s1, cacheWrapper.set sampleEnv cappedInner emptyStore ⟨900000000⟩ zeroOptions "k"
        (.bytes [1]) 1200000000 [] = .ret (s1, none)
      ∧ s1 "k" = some ⟨.item ⟨0, 2⟩ (.bytes [1]), some ⟨2100000000⟩⟩
      ∧ Time.Unix ⟨2050000000⟩ = 2
      ∧ cacheWrapper.get sampleEnv cappedInner s1 ⟨2050000000⟩ zeroOptions "k"
          (some anyReceiver) [] = .ret (none, some (.bytes [1])) :=
  ⟨_, rfl, rfl, rfl, rfl⟩

/-! ## Close -/

set_option maxRecDepth 100000 in
/-- C16, the failing input: on the wrapper built from `cappedConfig`, `close` returns
nil and the snapshot is closed; `updateConfig` with the same configuration then
returns nil and publishes a snapshot whose `isClosed` is 0 in front of a new store;
after that `ping` and `set(k, v)` return nil and `get(k)` returns `v`, none of them
`ErrCacheClosed`. -/
theorem operations_after_close_and_updateConfig :
    newCacheWrapper "c" cappedConfig = (some cappedWrapper, none)
      ∧ (cacheWrapper.close cappedWrapper).2 = none
      ∧ (cacheWrapper.close cappedWrapper).1.inner.isCacheClosed = true
      ∧ cacheWrapper.ping (cacheWrapper.close cappedWrapper).1.inner = some ErrCacheClosed
      ∧ (cacheWrapper.updateConfig (cacheWrapper.close cappedWrapper).1 cappedConfig).2 = none
      ∧ (cacheWrapper.updateConfig (cacheWrapper.close cappedWrapper).1 cappedConfig).1.inner.isClosed
          = 0
      ∧ cacheWrapper.ping
          (cacheWrapper.updateConfig (cacheWrapper.close cappedWrapper).1 cappedConfig).1.inner
          = none
      ∧ ∃ s1, cacheWrapper.set sampleEnv
            (cacheWrapper.updateConfig (cacheWrapper.close cappedWrapper).1 cappedConfig).1.inner
            (cacheWrapper.updateConfig (cacheWrapper.close cappedWrapper).1
              cappedConfig).1.cacheImpl.items
            ⟨0⟩ zeroOptions "k" (.bytes [1]) 0 [] = .ret (s1, none)
          ∧ cacheWrapper.get sampleEnv
            (cacheWrapper.updateConfig (cacheWrapper.close cappedWrapper).1 cappedConfig).1.inner
            s1 ⟨0⟩ zeroOptions "k" (some anyReceiver) [] = .ret (none, some (.bytes [1])) :=
  ⟨rfl, rfl, rfl, rfl, rfl, rfl, rfl, _, rfl, rfl⟩

/-- C17: for every state of a wrapper, the second of two calls of `close` returns nil
and does not call the store's `Close`; the first returns nil and calls it once when
the snapshot was open (`isClosed = 0`), so that `Close` is called exactly once in
total on a wrapper that was open. -/
theorem close_twice (w : WrapperState) :
    (cacheWrapper.close w).2 = none
      ∧ (cacheWrapper.close (cacheWrapper.close w).1).2 = none
      ∧ (cacheWrapper.close (cacheWrapper.close w).1).1.closeCalls
          = (cacheWrapper.close w).1.closeCalls
      ∧ (cacheWrapper.close w).1.closeCalls
          = w.closeCalls + (if w.inner.isClosed = 0 then 1 else 0)
      ∧ (cacheWrapper.close (cacheWrapper.close w).1).1.inner.isClosed
          = (cacheWrapper.close w).1.inner.isClosed := by
  unfold cacheWrapper.close inMemoryCacheInner.close
  by_cases h : w.inner.isClosed = 0
  · simp [h]
  · simp [h]

/-! ## Go maps, missing keys -/

theorem GoMap.store_of_mem {α : Type} (m : GoMap α) (k : String) (v : α)
    (h : k ∈ GoMap.keys m) :
    GoMap.store m k v = List.map (fun e => if e.1 = k then (k, v) else e) m := by
  unfold GoMap.store
  have hany : List.any m (fun e => decide (e.1 = k)) = true := by
    unfold GoMap.keys at h
    obtain ⟨e, he, hk⟩ := List.mem_map.mp h
    exact List.any_eq_true.mpr ⟨e, he, by simpa using hk⟩
  rw [if_pos hany]

theorem GoMap.keys_map {α : Type} (m : GoMap α) (f : String × α → String × α)
    (hf : ∀ e, (f e).1 = e.1) : GoMap.keys (List.map f m) = GoMap.keys m := by
  unfold GoMap.keys
  rw [List.map_map]
  exact List.map_congr_left fun e _ => hf e

theorem handleMissingKey_fill (strat : NonExistKeyStrategy) (hs : strat = FillNil)
    (m : ReceiverMap) (k : String) (h : k ∈ GoMap.keys m) :
    handleMissingKey strat m k = List.map (fun e => if e.1 = k then (k, none) else e) m := by
  unfold handleMissingKey
  rw [if_pos hs, GoMap.store_of_mem m k none h]

theorem handleMissingKey_remove (strat : NonExistKeyStrategy) (hs : strat ≠ FillNil)
    (m : ReceiverMap) (k : String) :
    handleMissingKey strat m k = List.filter (fun e => decide (e.1 ≠ k)) m := by
  unfold handleMissingKey GoMap.remove
  rw [if_neg hs]

theorem foldl_handleMissingKey_fill (strat : NonExistKeyStrategy) (hs : strat = FillNil)
    (p : String → Bool) :
    ∀ (ks : List String) (m : ReceiverMap), (∀ k ∈ ks, k ∈ GoMap.keys m) →
      ks.foldl (fun m k => if p k then handleMissingKey strat m k else m) m
        = List.map (fun e => if (decide (e.1 ∈ ks) && p e.1) = true then (e.1, none) else e) m := by
  intro ks
  induction ks with
  | nil => intro m _; simp
  | cons k ks ih =>
    intro m hks
    rw [List.foldl_cons]
    by_cases hp : p k = true
    · rw [if_pos hp, handleMissingKey_fill strat hs m k (hks k (List.mem_cons_self _ _))]
      have hkeys : GoMap.keys (List.map (fun e : String × Option Receiver =>
          if e.1 = k then (k, none) else e) m) = GoMap.keys m :=
        GoMap.keys_map _ _ (fun e => by by_cases h : e.1 = k <;> simp [h])
      rw [ih _ (fun k' hk' => by rw [hkeys]; exact hks k' (List.mem_cons_of_mem _ hk'))]
      rw [List.map_map]
      apply List.map_congr_left
      intro e _
      by_cases h : e.1 = k
      · simp [h, hp]
      · simp [h]
    · rw [if_neg hp, ih m (fun k' hk' => hks k' (List.mem_cons_of_mem _ hk'))]
      apply List.map_congr_left
      intro e _
      by_cases h : e.1 = k
      · have hpe : p e.1 = false := by rw [h]; simpa using hp
        simp [hpe]
      · simp [h]

theorem foldl_handleMissingKey_remove (strat : NonExistKeyStrategy) (hs : strat ≠ FillNil)
    (p : String → Bool) :
    ∀ (ks : List String) (m : ReceiverMap),
      ks.foldl (fun m k => if p k then handleMissingKey strat m k else m) m
        = List.filter (fun e => !(decide (e.1 ∈ ks) && p e.1)) m := by
  intro ks
  induction ks with
  | nil => intro m; simp
  | cons k ks ih =>
    intro m
    rw [List.foldl_cons]
    by_cases hp : p k = true
    · rw [if_pos hp, handleMissingKey_remove strat hs, ih, List.filter_filter]
      apply List.filter_congr
      intro e _
      by_cases h : e.1 = k
      · simp [h, hp]
      · simp [h]
    · rw [if_neg hp, ih m]
      apply List.filter_congr
      intro e _
      by_cases h : e.1 = k
      · have hpe : p e.1 = false := by rw [h]; simpa using hp
        simp [hpe]
      · simp [h]

theorem foldl_handleMissingKey_all (strat : NonExistKeyStrategy) (m : ReceiverMap) :
    (GoMap.keys m).foldl (handleMissingKey strat) m
      = if strat = FillNil then List.map (fun e => (e.1, none)) m else [] := by
  have h : (GoMap.keys m).foldl (handleMissingKey strat) m
      = (GoMap.keys m).foldl
          (fun m k => if (fun _ => true) k then handleMissingKey strat m k else m) m := by
    simp
  rw [h]
  by_cases hs : strat = FillNil
  · rw [if_pos hs, foldl_handleMissingKey_fill strat hs _ _ m (fun k hk => hk)]
    apply List.map_congr_left
    intro e he
    have : e.1 ∈ GoMap.keys m := List.mem_map.mpr ⟨e, he, rfl⟩
    simp [this]
  · rw [if_neg hs, foldl_handleMissingKey_remove strat hs]
    apply List.filter_eq_nil_iff.mpr
    intro e he
    have : e.1 ∈ GoMap.keys m := List.mem_map.mpr ⟨e, he, rfl⟩
    simp [this]

/-! ## Disabled wrapper -/

/-- C18: on an open snapshot with `isDisabled` set, for every store and every
argument, `get` returns `cache_miss`; `getMany` returns nil with every key of the
receiver map handled as missing (its receiver replaced by nil when the strategy is
`FillNil`, the key removed otherwise); `set`, `setMany`, `delete`, `deleteMany`, `flush`
and `ping` return nil; `increment` and `decrement` return `(0, cache_miss)`; the
answers do not depend on the store and the store is returned as it was. -/
theorem disabled_answers (env : Env) (inner : cacheWrapperInner) (s : Store) (now : Time)
    (pooled : cacheOperationOptions) (key : String) (receiver : Option Receiver)
    (receiverMap : ReceiverMap) (value : Value) (valueMap : GoMap Value) (keys : List String)
    (expire : Int) (delta : Nat) (opts : List OperationOption)
    (hopen : inner.isClosed ≠ 1) (hdis : inner.isDisabled = true) :
    cacheWrapper.get env inner s now pooled key receiver opts = .ret (some ErrCacheMiss, none)
      ∧ cacheWrapper.getMany env inner s now pooled receiverMap opts
          = .ret ⟨none,
              if (applyOpts opts (newCacheOperationOptions env pooled)).nonExistKeyStrategy
                  = FillNil then List.map (fun e => (e.1, none)) receiverMap else [], []⟩
      ∧ cacheWrapper.set env inner s now pooled key value expire opts = .ret (s, none)
      ∧ cacheWrapper.setMany env inner s now pooled valueMap expire opts = .ret (s, none)
      ∧ cacheWrapper.delete env inner s now pooled key opts = (s, none)
      ∧ cacheWrapper.deleteMany env inner s pooled keys opts = (s, none)
      ∧ cacheWrapper.flush inner s = (s, none)
      ∧ cacheWrapper.ping inner = none
      ∧ cacheWrapper.increment env inner pooled key delta opts = .ret (0, some ErrCacheMiss)
      ∧ cacheWrapper.decrement env inner pooled key delta opts = .ret (0, some ErrCacheMiss) := by
  have hclosed : inner.isCacheClosed = false := by
    unfold cacheWrapperInner.isCacheClosed; simpa using hopen
  have hd : inner.isDisabledCtxOrConfig = true := by
    unfold cacheWrapperInner.isDisabledCtxOrConfig; rw [hdis]; rfl
  refine ⟨?_, ?_, ?_, ?_, ?_, ?_, ?_, ?_, ?_, ?_⟩
  · unfold cacheWrapper.get; simp only [hclosed, hd, Bool.false_eq_true, if_false, if_true]
  · unfold cacheWrapper.getMany
    simp only [hclosed, hd, Bool.false_eq_true, if_false, if_true]
    by_cases hlen : receiverMap.length = 0
    · rw [if_pos hlen]
      have : receiverMap = [] := List.length_eq_zero.mp hlen
      subst this
      simp
    · rw [if_neg hlen, foldl_handleMissingKey_all]
  · unfold cacheWrapper.set; simp only [hclosed, hd, Bool.false_eq_true, if_false, if_true]
  · unfold cacheWrapper.setMany; simp only [hclosed, hd, Bool.false_eq_true, if_false, if_true]
  · unfold cacheWrapper.delete; simp only [hclosed, hd, Bool.false_eq_true, if_false, if_true]
  · unfold cacheWrapper.deleteMany
    simp only [hclosed, hd, Bool.false_eq_true, if_false, if_true]
  · unfold cacheWrapper.flush; simp only [hclosed, hd, Bool.false_eq_true, if_false, if_true]
  · unfold cacheWrapper.ping; simp only [hclosed, hd, Bool.false_eq_true, if_false, if_true]
  · unfold cacheWrapper.increment cacheWrapper.incrDecrInner
    simp only [hclosed, hd, Bool.false_eq_true, if_false, if_true]
  · unfold cacheWrapper.decrement cacheWrapper.incrDecrInner
    simp only [hclosed, hd, Bool.false_eq_true, if_false, if_true]

/-- Witness of C18: the disabled snapshot `disabledInner` in front of a store that
holds the key "a", with the strategy `RemoveKey` for `getMany`. -/
theorem disabled_answers_witness :
    cacheWrapper.get sampleEnv disabledInner storeOfA ⟨0⟩ zeroOptions "a" (some anyReceiver)
          [WithNonExistKeyStrategy RemoveKey] = .ret (some ErrCacheMiss, none)
      ∧ cacheWrapper.getMany sampleEnv disabledInner storeOfA ⟨0⟩ zeroOptions threeReceivers
          [WithNonExistKeyStrategy RemoveKey]
          = .ret ⟨none,
              if (applyOpts [WithNonExistKeyStrategy RemoveKey]
                    (newCacheOperationOptions sampleEnv zeroOptions)).nonExistKeyStrategy
                  = FillNil then List.map (fun e => (e.1, none)) threeReceivers else [], []⟩
      ∧ cacheWrapper.set sampleEnv disabledInner storeOfA ⟨0⟩ zeroOptions "a" (.bytes [1]) 5
          [WithNonExistKeyStrategy RemoveKey] = .ret (storeOfA, none)
      ∧ cacheWrapper.setMany sampleEnv disabledInner storeOfA ⟨0⟩ zeroOptions
          [("a", .bytes [2])] 5 [WithNonExistKeyStrategy RemoveKey] = .ret (storeOfA, none)
      ∧ cacheWrapper.delete sampleEnv disabledInner storeOfA ⟨0⟩ zeroOptions "a"
          [WithNonExistKeyStrategy RemoveKey] = (storeOfA, none)
      ∧ cacheWrapper.deleteMany sampleEnv disabledInner storeOfA zeroOptions ["a"]
          [WithNonExistKeyStrategy RemoveKey] = (storeOfA, none)
      ∧ cacheWrapper.flush disabledInner storeOfA = (storeOfA, none)
      ∧ cacheWrapper.ping disabledInner = none
      ∧ cacheWrapper.increment sampleEnv disabledInner zeroOptions "a" 3
          [WithNonExistKeyStrategy RemoveKey] = .ret (0, some ErrCacheMiss)
      ∧ cacheWrapper.decrement sampleEnv disabledInner zeroOptions "a" 3
          [WithNonExistKeyStrategy RemoveKey] = .ret (0, some ErrCacheMiss) :=
  disabled_answers sampleEnv disabledInner storeOfA ⟨0⟩ zeroOptions "a" (some anyReceiver)
    threeReceivers (.bytes [1]) [("a", .bytes [2])] ["a"] 5 3 [WithNonExistKeyStrategy RemoveKey]
    (by decide) (by decide)

/-- C19 (amended): on an open snapshot with `isDisabled` set, for every key, value and
expire, `replace` fails with `not_stored` and `add` returns nil; neither touches the
store. -/
theorem disabled_add_replace (env : Env) (inner : cacheWrapperInner) (s : Store) (now : Time)
    (pooled : cacheOperationOptions) (key : String) (value : Value) (expire : Int)
    (opts : List OperationOption)
    (hopen : inner.isClosed ≠ 1) (hdis : inner.isDisabled = true) :
    cacheWrapper.replace env inner s now pooled key value expire opts
        = .ret (s, some ErrNotStored)
      ∧ cacheWrapper.add env inner s now pooled key value expire opts = .ret (s, none) := by
  have hclosed : inner.isCacheClosed = false := by
    unfold cacheWrapperInner.isCacheClosed; simpa using hopen
  have hd : inner.isDisabledCtxOrConfig = true := by
    unfold cacheWrapperInner.isDisabledCtxOrConfig; rw [hdis]; rfl
  constructor
  · unfold cacheWrapper.replace; simp only [hclosed, hd, Bool.false_eq_true, if_false, if_true]
  · unfold cacheWrapper.add; simp only [hclosed, hd, Bool.false_eq_true, if_false, if_true]

/-- Witness of C19 (amended): the disabled snapshot `disabledInner`. -/
theorem disabled_add_replace_witness :
    cacheWrapper.replace sampleEnv disabledInner emptyStore ⟨0⟩ zeroOptions "k" (.bytes [1]) 5 []
        = .ret (emptyStore, some ErrNotStored)
      ∧ cacheWrapper.add sampleEnv disabledInner emptyStore ⟨0⟩ zeroOptions "k" (.bytes [1]) 5 []
        = .ret (emptyStore, none) :=
  disabled_add_replace sampleEnv disabledInner emptyStore ⟨0⟩ zeroOptions "k" (.bytes [1]) 5 []
    (by decide) (by decide)

/-- Counterexample to C19: `disabledInner` is open and disabled, and `add` on it returns
nil, which is not `not_stored`. -/
theorem disabled_add_returns_nil :
    disabledInner.isCacheClosed = false ∧ disabledInner.isDisabled = true
      ∧ cacheWrapper.add sampleEnv disabledInner emptyStore ⟨0⟩ zeroOptions "k" (.bytes [1]) 5 []
        = .ret (emptyStore, none)
      ∧ (none : Option Err) ≠ some ErrNotStored :=
  ⟨rfl, rfl, rfl, by decide⟩

/-! ## GetMany and the keys the store reports missing -/

theorem getManyForLoad_cons (now : Int) (key : String) (entry : Option (Value × Int × Int))
    (rest : List (String × Option (Value × Int × Int))) :
    (getManyForLoad now ((key, entry) :: rest)).missingKeys
        = (if classifyForLoad now entry = .missing then [key] else [])
          ++ (getManyForLoad now rest).missingKeys
      ∧ (getManyForLoad now ((key, entry) :: rest)).toUpdateKeys
        = (if classifyForLoad now entry = .successToRefresh then [key] else [])
          ++ (getManyForLoad now rest).toUpdateKeys
      ∧ (getManyForLoad now ((key, entry) :: rest)).successKeyResultMap
        = (match entry with
            | some (v, _, _) => if classifyForLoad now entry ≠ .missing then [(key, v)] else []
            | none => [])
          ++ (getManyForLoad now rest).successKeyResultMap := by
  cases entry with
  | none => exact ⟨rfl, rfl, rfl⟩
  | some x =>
    obtain ⟨v, s, h⟩ := x
    rw [getManyForLoad]
    cases hc : classifyForLoad now (some (v, s, h)) <;> exact ⟨rfl, rfl, rfl⟩

/-- C12: in the classification of section 4.G, a key whose stored entry decodes to
`(payload, soft_ts, hard_ts)` is missing iff `hard_ts` is neither 0 nor 1 and
`hard_ts <= now`; otherwise its payload is served, and it is marked to-refresh iff
`soft_ts != 0` and `soft_ts <= now`; a key absent from storage is missing. For a list
of requested keys, `missingKeys`, `toUpdateKeys` and `successKeyResultMap` hold
exactly the keys of these classes, the served keys with their payloads. -/
theorem classifyForLoad_spec (now : Int) (payload : Value) (soft_ts hard_ts : Int)
    (entries : List (String × Option (Value × Int × Int))) (key : String) :
    (classifyForLoad now (some (payload, soft_ts, hard_ts)) = .missing
        ↔ hard_ts ≠ 0 ∧ hard_ts ≠ 1 ∧ hard_ts ≤ now)
      ∧ (classifyForLoad now (some (payload, soft_ts, hard_ts)) = .successToRefresh
        ↔ ¬ (hard_ts ≠ 0 ∧ hard_ts ≠ 1 ∧ hard_ts ≤ now) ∧ soft_ts ≠ 0 ∧ soft_ts ≤ now)
      ∧ (classifyForLoad now (some (payload, soft_ts, hard_ts)) = .success
        ↔ ¬ (hard_ts ≠ 0 ∧ hard_ts ≠ 1 ∧ hard_ts ≤ now) ∧ ¬ (soft_ts ≠ 0 ∧ soft_ts ≤ now))
      ∧ classifyForLoad now none = .missing
      ∧ (key ∈ (getManyForLoad now entries).missingKeys
        ↔ ∃ entry, (key, entry) ∈ entries ∧ classifyForLoad now entry = .missing)
      ∧ (key ∈ (getManyForLoad now entries).toUpdateKeys
        ↔ ∃ entry, (key, entry) ∈ entries ∧ classifyForLoad now entry = .successToRefresh)
      ∧ ∀ v, (key, v) ∈ (getManyForLoad now entries).successKeyResultMap
        ↔ ∃ s h, (key, some (v, s, h)) ∈ entries
            ∧ classifyForLoad now (some (v, s, h)) ≠ .missing := by
  refine ⟨?_, ?_, ?_, rfl, ?_, ?_, ?_⟩
  · unfold classifyForLoad
    dsimp only
    by_cases h1 : hard_ts ≠ 0 ∧ hard_ts ≠ 1 ∧ hard_ts ≤ now
    · rw [if_pos h1]; exact ⟨fun _ => h1, fun _ => rfl⟩
    · rw [if_neg h1]
      by_cases h2 : soft_ts ≠ 0 ∧ soft_ts ≤ now
      · rw [if_pos h2]; exact ⟨fun h => (by cases h), fun h => absurd h h1⟩
      · rw [if_neg h2]; exact ⟨fun h => (by cases h), fun h => absurd h h1⟩
  · unfold classifyForLoad
    dsimp only
    by_cases h1 : hard_ts ≠ 0 ∧ hard_ts ≠ 1 ∧ hard_ts ≤ now
    · rw [if_pos h1]; exact ⟨fun h => (by cases h), fun h => absurd h1 h.1⟩
    · rw [if_neg h1]
      by_cases h2 : soft_ts ≠ 0 ∧ soft_ts ≤ now
      · rw [if_pos h2]; exact ⟨fun _ => ⟨h1, h2⟩, fun _ => rfl⟩
      · rw [if_neg h2]; exact ⟨fun h => (by cases h), fun h => absurd h.2 h2⟩
  · unfold classifyForLoad
    dsimp only
    by_cases h1 : hard_ts ≠ 0 ∧ hard_ts ≠ 1 ∧ hard_ts ≤ now
    · rw [if_pos h1]; exact ⟨fun h => (by cases h), fun h => absurd h1 h.1⟩
    · rw [if_neg h1]
      by_cases h2 : soft_ts ≠ 0 ∧ soft_ts ≤ now
      · rw [if_pos h2]; exact ⟨fun h => (by cases h), fun h => absurd h2 h.2⟩
      · rw [if_neg h2]; exact ⟨fun _ => ⟨h1, h2⟩, fun _ => rfl⟩
  · induction entries with
    | nil => simp [getManyForLoad]
    | cons e rest ih =>
      obtain ⟨k, entry⟩ := e
      rw [(getManyForLoad_cons now k entry rest).1, List.mem_append, ih]
      constructor
      · rintro (h | ⟨en, hm, hc⟩)
        · by_cases hc : classifyForLoad now entry = .missing
          · rw [if_pos hc] at h
            have : key = k := by simpa using h
            exact ⟨entry, by rw [this]; exact List.mem_cons_self _ _, hc⟩
          · rw [if_neg hc] at h; cases h
        · exact ⟨en, List.mem_cons_of_mem _ hm, hc⟩
      · rintro ⟨en, hm, hc⟩
        rcases List.mem_cons.mp hm with h | h
        · left
          have h1 : key = k := congrArg Prod.fst h
          have h2 : en = entry := congrArg Prod.snd h
          rw [← h2, if_pos hc, h1]; exact List.mem_singleton_self _
        · exact Or.inr ⟨en, h, hc⟩
  · induction entries with
    | nil => simp [getManyForLoad]
    | cons e rest ih =>
      obtain ⟨k, entry⟩ := e
      rw [(getManyForLoad_cons now k entry rest).2.1, List.mem_append, ih]
      constructor
      · rintro (h | ⟨en, hm, hc⟩)
        · by_cases hc : classifyForLoad now entry = .successToRefresh
          · rw [if_pos hc] at h
            have : key = k := by simpa using h
            exact ⟨entry, by rw [this]; exact List.mem_cons_self _ _, hc⟩
          · rw [if_neg hc] at h; cases h
        · exact ⟨en, List.mem_cons_of_mem _ hm, hc⟩
      · rintro ⟨en, hm, hc⟩
        rcases List.mem_cons.mp hm with h | h
        · left
          have h1 : key = k := congrArg Prod.fst h
          have h2 : en = entry := congrArg Prod.snd h
          rw [← h2, if_pos hc, h1]; exact List.mem_singleton_self _
        · exact Or.inr ⟨en, h, hc⟩
  · intro v
    induction entries with
    | nil => simp [getManyForLoad]
    | cons e rest ih =>
      obtain ⟨k, entry⟩ := e
      rw [(getManyForLoad_cons now k entry rest).2.2, List.mem_append, ih]
      constructor
      · rintro (h | ⟨s, hh, hm, hc⟩)
        · cases entry with
          | none => cases h
          | some x =>
            obtain ⟨v', s', h'⟩ := x
            dsimp only at h
            by_cases hc : classifyForLoad now (some (v', s', h')) ≠ .missing
            · rw [if_pos hc] at h
              have hkv : (key, v) = (k, v') := by simpa using h
              have h1 : key = k := congrArg Prod.fst hkv
              have h2 : v = v' := congrArg Prod.snd hkv
              subst h1; subst h2
              exact ⟨s', h', List.mem_cons_self _ _, hc⟩
            · rw [if_neg hc] at h; cases h
        · exact ⟨s, hh, List.mem_cons_of_mem _ hm, hc⟩
      · rintro ⟨s, hh, hm, hc⟩
        rcases List.mem_cons.mp hm with h | h
        · left
          have h1 : key = k := congrArg Prod.fst h
          have h2 : some (v, s, hh) = entry := congrArg Prod.snd h
          rw [← h2]
          dsimp only
          rw [if_pos hc, h1]; exact List.mem_singleton_self _
        · exact Or.inr ⟨s, hh, h, hc⟩

/-! ## Singleflight group: `AddCalls` -/

theorem mem_firstOccurrences (x : String) :
    ∀ l : List String, x ∈ firstOccurrences l ↔ x ∈ l := by
  intro l
  induction l with
  | nil => simp [firstOccurrences]
  | cons k ks ih =>
    rw [firstOccurrences, List.mem_cons, List.mem_cons, List.mem_filter, ih]
    by_cases h : x = k
    · simp [h]
    · simp [h]

theorem nodup_firstOccurrences : ∀ l : List String, (firstOccurrences l).Nodup := by
  intro l
  induction l with
  | nil => simp [firstOccurrences]
  | cons k ks ih =>
    rw [firstOccurrences, List.nodup_cons]
    exact ⟨fun h => by simp [List.mem_filter] at h, ih.filter _⟩

theorem firstOccurrences_filter (q : String → Bool) :
    ∀ l : List String, firstOccurrences (l.filter q) = (firstOccurrences l).filter q := by
  intro l
  induction l with
  | nil => simp [firstOccurrences]
  | cons x l ih =>
    by_cases hq : q x = true
    · rw [List.filter_cons_of_pos hq, firstOccurrences, firstOccurrences,
        List.filter_cons_of_pos hq, ih, List.filter_filter, List.filter_filter]
      congr 1
      apply List.filter_congr
      intro a _
      exact Bool.and_comm _ _
    · rw [List.filter_cons_of_neg hq, firstOccurrences, List.filter_cons_of_neg hq, ih,
        List.filter_filter]
      apply List.filter_congr
      intro a _
      by_cases ha : a = x
      · subst ha; simp [hq]
      · simp [ha]

theorem addCall_of_some (st : AddCallsState) (key : String) (c : CallPtr)
    (h : st.g.m key = some c) :
    Group.addCall st key
      = { st with waitingCallsMap := fun k => if k = key then some c else st.waitingCallsMap k } := by
  unfold Group.addCall; rw [h]

theorem addCall_of_none (st : AddCallsState) (key : String) (h : st.g.m key = none) :
    Group.addCall st key
      = { g := { m := fun k => if k = key then some st.g.next else st.g.m k
                 calls := fun p => if p = st.g.next then { wg := 1 } else st.g.calls p
                 next := st.g.next + 1 }
          waitingCallsMap := st.waitingCallsMap
          toHandleKeys := st.toHandleKeys ++ [key] } := by
  unfold Group.addCall; rw [h]; rfl

theorem addCall_m_some (st : AddCallsState) (key k : String) (p : CallPtr)
    (h : st.g.m k = some p) : (Group.addCall st key).g.m k = some p := by
  cases hk : st.g.m key with
  | some c => rw [addCall_of_some st key c hk]; exact h
  | none =>
    rw [addCall_of_none st key hk]
    have : k ≠ key := fun e => by rw [e, hk] at h; cases h
    simp [this, h]

theorem addCall_m_ne (st : AddCallsState) (key k : String) (h : k ≠ key) :
    (Group.addCall st key).g.m k = st.g.m k := by
  cases hk : st.g.m key with
  | some c => rw [addCall_of_some st key c hk]
  | none => rw [addCall_of_none st key hk]; simp [h]

theorem addCall_next_le (st : AddCallsState) (key : String) :
    st.g.next ≤ (Group.addCall st key).g.next := by
  cases hk : st.g.m key with
  | some c => rw [addCall_of_some st key c hk]
  | none => rw [addCall_of_none st key hk]; exact Nat.le_succ _

theorem addCall_calls (st : AddCallsState) (key : String) (p : CallPtr) (h : p < st.g.next) :
    (Group.addCall st key).g.calls p = st.g.calls p := by
  cases hk : st.g.m key with
  | some c => rw [addCall_of_some st key c hk]
  | none =>
    rw [addCall_of_none st key hk]
    have : p ≠ st.g.next := Nat.ne_of_lt h
    simp [this]

theorem foldl_addCall_toHandleKeys :
    ∀ (ks : List String) (st : AddCallsState),
      (ks.foldl Group.addCall st).toHandleKeys
        = st.toHandleKeys ++ firstOccurrences (ks.filter fun k => (st.g.m k).isNone) := by
  intro ks
  induction ks with
  | nil => intro st; simp [firstOccurrences]
  | cons k ks ih =>
    intro st
    rw [List.foldl_cons, ih]
    cases hk : st.g.m k with
    | some c =>
      rw [addCall_of_some st k c hk]
      have hf : (k :: ks).filter (fun k => (st.g.m k).isNone)
          = ks.filter (fun k => (st.g.m k).isNone) := by
        rw [List.filter_cons]; simp [hk]
      rw [hf]
    | none =>
      rw [addCall_of_none st k hk]
      have hf : (k :: ks).filter (fun k => (st.g.m k).isNone)
          = k :: ks.filter (fun k => (st.g.m k).isNone) := by
        rw [List.filter_cons]; simp [hk]
      rw [hf, firstOccurrences]
      dsimp only
      have hfil : (ks.filter fun x => (if x = k then some st.g.next else st.g.m x).isNone)
          = (ks.filter fun x => (st.g.m x).isNone).filter fun x => decide (x ≠ k) := by
        rw [List.filter_filter]
        apply List.filter_congr
        intro a _
        by_cases ha : a = k
        · simp [ha]
        · simp [ha]
      rw [hfil, firstOccurrences_filter, List.append_assoc]
      rfl

theorem foldl_addCall_m_some :
    ∀ (ks : List String) (st : AddCallsState) (k : String) (p : CallPtr),
      st.g.m k = some p → (ks.foldl Group.addCall st).g.m k = some p := by
  intro ks
  induction ks with
  | nil => intro st k p h; exact h
  | cons key ks ih =>
    intro st k p h
    rw [List.foldl_cons]
    exact ih _ k p (addCall_m_some st key k p h)

theorem foldl_addCall_m_not_mem :
    ∀ (ks : List String) (st : AddCallsState) (k : String),
      k ∉ ks → (ks.foldl Group.addCall st).g.m k = st.g.m k := by
  intro ks
  induction ks with
  | nil => intro st k _; rfl
  | cons key ks ih =>
    intro st k h
    rw [List.foldl_cons, ih _ k (fun hm => h (List.mem_cons_of_mem _ hm))]
    exact addCall_m_ne st key k (fun e => h (by rw [e]; exact List.mem_cons_self _ _))

theorem foldl_addCall_next_le :
    ∀ (ks : List String) (st : AddCallsState), st.g.next ≤ (ks.foldl Group.addCall st).g.next := by
  intro ks
  induction ks with
  | nil => intro st; exact Nat.le_refl _
  | cons key ks ih =>
    intro st
    rw [List.foldl_cons]
    exact Nat.le_trans (addCall_next_le st key) (ih _)

theorem foldl_addCall_calls :
    ∀ (ks : List String) (st : AddCallsState) (p : CallPtr), p < st.g.next →
      (ks.foldl Group.addCall st).g.calls p = st.g.calls p := by
  intro ks
  induction ks with
  | nil => intro st p _; rfl
  | cons key ks ih =>
    intro st p h
    rw [List.foldl_cons, ih _ p (Nat.lt_of_lt_of_le h (addCall_next_le st key))]
    exact addCall_calls st key p h

theorem foldl_addCall_fresh :
    ∀ (ks : List String) (st : AddCallsState) (k : String), k ∈ ks → st.g.m k = none →
      ∃ p, (ks.foldl Group.addCall st).g.m k = some p ∧ st.g.next ≤ p
        ∧ p < (ks.foldl Group.addCall st).g.next
        ∧ (ks.foldl Group.addCall st).g.calls p = { wg := 1, val := .nil, err := none } := by
  intro ks
  induction ks with
  | nil => intro st k h; cases h
  | cons key ks ih =>
    intro st k hk hnone
    rw [List.foldl_cons]
    by_cases hkey : k = key
    · subst hkey
      have hst := addCall_of_none st k hnone
      have hm : (Group.addCall st k).g.m k = some st.g.next := by rw [hst]; simp
      have hn : (Group.addCall st k).g.next = st.g.next + 1 := by rw [hst]
      have hc : (Group.addCall st k).g.calls st.g.next = { wg := 1, val := .nil, err := none } := by
        rw [hst]; simp
      refine ⟨st.g.next, foldl_addCall_m_some ks _ k _ hm, Nat.le_refl _, ?_, ?_⟩
      · exact Nat.lt_of_lt_of_le (by rw [hn]; exact Nat.lt_succ_self _)
          (foldl_addCall_next_le ks _)
      · rw [foldl_addCall_calls ks _ _ (by rw [hn]; exact Nat.lt_succ_self _), hc]
    · have hmem : k ∈ ks := by
        rcases List.mem_cons.mp hk with h | h
        · exact absurd h hkey
        · exact h
      have hnone' : (Group.addCall st key).g.m k = none := by
        rw [addCall_m_ne st key k hkey]; exact hnone
      obtain ⟨p, h1, h2, h3, h4⟩ := ih (Group.addCall st key) k hmem hnone'
      exact ⟨p, h1, Nat.le_trans (addCall_next_le st key) h2, h3, h4⟩

theorem foldl_addCall_waiting_not_mem :
    ∀ (ks : List String) (st : AddCallsState) (k : String), k ∉ ks →
      (ks.foldl Group.addCall st).waitingCallsMap k = st.waitingCallsMap k := by
  intro ks
  induction ks with
  | nil => intro st k _; rfl
  | cons key ks ih =>
    intro st k h
    have hne : k ≠ key := fun e => h (by rw [e]; exact List.mem_cons_self _ _)
    rw [List.foldl_cons, ih _ k (fun hm => h (List.mem_cons_of_mem _ hm))]
    cases hk : st.g.m key with
    | some c => rw [addCall_of_some st key c hk]; simp [hne]
    | none => rw [addCall_of_none st key hk]

theorem foldl_addCall_waiting_some :
    ∀ (ks : List String) (st : AddCallsState) (k : String) (p : CallPtr),
      st.g.m k = some p → k ∈ ks → (ks.foldl Group.addCall st).waitingCallsMap k = some p := by
  intro ks
  induction ks with
  | nil => intro st k p _ h; cases h
  | cons key ks ih =>
    intro st k p hm hk
    rw [List.foldl_cons]
    by_cases hin : k ∈ ks
    · exact ih _ k p (addCall_m_some st key k p hm) hin
    · have hkey : k = key := by
        rcases List.mem_cons.mp hk with h | h
        · exact h
        · exact absurd h hin
      subst hkey
      rw [foldl_addCall_waiting_not_mem ks _ k hin, addCall_of_some st k p hm]
      simp

theorem foldl_addCall_waiting_bound :
    ∀ (ks : List String) (st : AddCallsState) (k : String),
      (ks.foldl Group.addCall st).waitingCallsMap k = st.waitingCallsMap k
        ∨ (k ∈ ks ∧ (ks.foldl Group.addCall st).waitingCallsMap k
            = (ks.foldl Group.addCall st).g.m k) := by
  intro ks
  induction ks with
  | nil => intro st k; exact Or.inl rfl
  | cons key ks ih =>
    intro st k
    rw [List.foldl_cons]
    rcases ih (Group.addCall st key) k with h | ⟨hmem, h⟩
    · rw [h]
      cases hk : st.g.m key with
      | some c =>
        by_cases hkey : k = key
        · right
          subst hkey
          refine ⟨List.mem_cons_self _ _, ?_⟩
          rw [foldl_addCall_m_some ks _ k c (addCall_m_some st k k c hk),
            addCall_of_some st k c hk]
          simp
        · left; rw [addCall_of_some st key c hk]; simp [hkey]
      | none => left; rw [addCall_of_none st key hk]
    · exact Or.inr ⟨List.mem_cons_of_mem _ hmem, h⟩

/-- C13: for every group state and key list, `AddCalls` runs the loop body on the keys
in order, and: `toHandleKeys` is the list of the keys of `ks` absent from the map, each
at its first occurrence, in input order, without duplicates; every key of `ks` is in
`toHandleKeys` or in `waitingCallsMap`; a key of `ks` that was in the map is a waiter
bound to its existing call, and every waiter is bound to the call the map holds for
its key; the new map is the old one extended with the keys of `toHandleKeys`, each
bound to a newly allocated call whose counter is 1 and whose value and error are nil;
the calls allocated before are untouched. -/
theorem AddCalls_spec (g : Group) (ks : List String) :
    (∀ key, g.AddCalls (ks ++ [key]) = Group.addCall (g.AddCalls ks) key)
      ∧ (g.AddCalls ks).toHandleKeys = firstOccurrences (ks.filter fun k => (g.m k).isNone)
      ∧ (g.AddCalls ks).toHandleKeys.Nodup
      ∧ (∀ k, k ∈ (g.AddCalls ks).toHandleKeys ↔ k ∈ ks ∧ g.m k = none)
      ∧ (∀ k ∈ ks, k ∈ (g.AddCalls ks).toHandleKeys
          ∨ ((g.AddCalls ks).waitingCallsMap k).isSome = true)
      ∧ (∀ k p, k ∈ ks → g.m k = some p → (g.AddCalls ks).waitingCallsMap k = some p)
      ∧ (∀ k, (g.AddCalls ks).waitingCallsMap k = none
          ∨ (k ∈ ks ∧ (g.AddCalls ks).waitingCallsMap k = (g.AddCalls ks).g.m k))
      ∧ (∀ k, k ∉ (g.AddCalls ks).toHandleKeys → (g.AddCalls ks).g.m k = g.m k)
      ∧ (∀ k ∈ (g.AddCalls ks).toHandleKeys, ∃ p, (g.AddCalls ks).g.m k = some p
          ∧ g.next ≤ p ∧ p < (g.AddCalls ks).g.next
          ∧ (g.AddCalls ks).g.calls p = { wg := 1, val := .nil, err := none })
      ∧ ∀ p, p < g.next → (g.AddCalls ks).g.calls p = g.calls p := by
  have hto : (g.AddCalls ks).toHandleKeys
      = firstOccurrences (ks.filter fun k => (g.m k).isNone) := by
    unfold Group.AddCalls
    rw [foldl_addCall_toHandleKeys]
    rfl
  have hmem : ∀ k, k ∈ (g.AddCalls ks).toHandleKeys ↔ k ∈ ks ∧ g.m k = none := by
    intro k
    rw [hto, mem_firstOccurrences, List.mem_filter]
    simp
  refine ⟨?_, hto, ?_, hmem, ?_, ?_, ?_, ?_, ?_, ?_⟩
  · intro key
    unfold Group.AddCalls
    rw [List.foldl_append]
    rfl
  · rw [hto]; exact nodup_firstOccurrences _
  · intro k hk
    cases hm : g.m k with
    | none => exact Or.inl ((hmem k).mpr ⟨hk, hm⟩)
    | some p =>
      right
      unfold Group.AddCalls
      rw [foldl_addCall_waiting_some ks _ k p hm hk]
      rfl
  · intro k p hk hm
    exact foldl_addCall_waiting_some ks _ k p hm hk
  · intro k
    exact foldl_addCall_waiting_bound ks _ k
  · intro k hk
    cases hm : g.m k with
    | none =>
      have hnot : k ∉ ks := fun h => hk ((hmem k).mpr ⟨h, hm⟩)
      unfold Group.AddCalls
      rw [foldl_addCall_m_not_mem ks _ k hnot]
      exact hm
    | some p => exact foldl_addCall_m_some ks _ k p hm
  · intro k hk
    obtain ⟨h1, h2⟩ := (hmem k).mp hk
    exact foldl_addCall_fresh ks _ k h1 h2
  · intro p hp
    exact foldl_addCall_calls ks _ p hp

/-! ## Singleflight group: `CompleteCalls`, sequences of calls -/

theorem completeCall_m (g g1 : Group) (kv : String × Value)
    (h : g.completeCall kv = .ret g1) :
    ∀ x, g1.m x = if x = kv.1 then none else g.m x := by
  unfold Group.completeCall at h
  cases hm : g.m kv.1 with
  | none => rw [hm] at h; cases h
  | some p =>
    rw [hm] at h
    dsimp only at h
    split at h
    · cases h
    · cases h; intro x; rfl

theorem CompleteCalls_m_not_mem :
    ∀ (vm : GoMap Value) (g g1 : Group) (k : String), g.CompleteCalls vm = .ret g1 →
      k ∉ GoMap.keys vm → g1.m k = g.m k := by
  intro vm
  induction vm with
  | nil => intro g g1 k h _; cases h; rfl
  | cons kv rest ih =>
    intro g g1 k h hk
    rw [Group.CompleteCalls] at h
    cases hc : g.completeCall kv with
    | ret g' =>
      rw [hc, Outcome.ret_bind] at h
      have hne : k ≠ kv.1 := fun e => hk (by rw [e]; exact List.mem_cons_self _ _)
      rw [ih g' g1 k h (fun hm => hk (List.mem_cons_of_mem _ hm)), completeCall_m g g' kv hc k,
        if_neg hne]
    | fault f => rw [hc] at h; cases h
    | outOfFuel => rw [hc] at h; cases h

theorem run_keeps_call :
    ∀ (steps : List GroupStep) (g g2 : Group) (k : String) (p : CallPtr), g.m k = some p →
      (∀ vm, GroupStep.complete vm ∈ steps → k ∉ GoMap.keys vm) →
      Group.run g steps = .ret g2 → g2.m k = some p := by
  intro steps
  induction steps with
  | nil => intro g g2 k p hm _ h; cases h; exact hm
  | cons step rest ih =>
    intro g g2 k p hm hsteps h
    cases step with
    | add keys =>
      rw [Group.run] at h
      exact ih _ g2 k p (foldl_addCall_m_some keys _ k p hm)
        (fun vm hv => hsteps vm (List.mem_cons_of_mem _ hv)) h
    | complete vm =>
      rw [Group.run] at h
      cases hc : g.CompleteCalls vm with
      | ret g' =>
        rw [hc, Outcome.ret_bind] at h
        have hk : k ∉ GoMap.keys vm := hsteps vm (List.mem_cons_self _ _)
        exact ih g' g2 k p (by rw [CompleteCalls_m_not_mem vm g g' k hc hk]; exact hm)
          (fun vm hv => hsteps vm (List.mem_cons_of_mem _ hv)) h
      | fault f => rw [hc] at h; cases h
      | outOfFuel => rw [hc] at h; cases h

/-- C14: in every sequence of `AddCalls` and `CompleteCalls` steps on one group that
follows an `AddCalls` which returned `k` in `toHandleKeys`, as long as no
`CompleteCalls` of the sequence has `k` among its keys, the map still binds `k` to the
call made for it, and any `AddCalls` run then does not return `k` in `toHandleKeys` and,
when `k` is among its keys, returns `k` in `waitingCallsMap` bound to that call. -/
theorem one_call_in_flight (g : Group) (ks : List String) (k : String)
    (steps : List GroupStep) (g2 : Group) (ks2 : List String)
    (hk : k ∈ (g.AddCalls ks).toHandleKeys)
    (hsteps : ∀ vm, GroupStep.complete vm ∈ steps → k ∉ GoMap.keys vm)
    (hrun : Group.run (g.AddCalls ks).g steps = .ret g2) :
    ∃ p, (g.AddCalls ks).g.m k = some p
      ∧ g2.m k = some p
      ∧ k ∉ (g2.AddCalls ks2).toHandleKeys
      ∧ (k ∈ ks2 → (g2.AddCalls ks2).waitingCallsMap k = some p) := by
  have hmem : k ∈ ks ∧ g.m k = none := by
    unfold Group.AddCalls at hk
    rw [foldl_addCall_toHandleKeys] at hk
    simpa [mem_firstOccurrences, List.mem_filter] using hk
  obtain ⟨p, hp, _, _, _⟩ := foldl_addCall_fresh ks
    { g := g, waitingCallsMap := fun _ => none, toHandleKeys := [] } k hmem.1 hmem.2
  have hp' : (g.AddCalls ks).g.m k = some p := hp
  have h2 : g2.m k = some p := run_keeps_call steps _ g2 k p hp' hsteps hrun
  refine ⟨p, hp', h2, ?_, ?_⟩
  · intro hin
    unfold Group.AddCalls at hin
    rw [foldl_addCall_toHandleKeys] at hin
    have : k ∈ ks2 ∧ g2.m k = none := by
      simpa [mem_firstOccurrences, List.mem_filter] using hin
    rw [h2] at this
    cases this.2
  · intro hin
    exact foldl_addCall_waiting_some ks2 _ k p h2 hin

/-- Witness of C14: on a new group `AddCalls(a, b)` hands out "a"; then `AddCalls(a, c)`
and `CompleteCalls(b)` run; a later `AddCalls(a, d)` gets "a" as a waiter. -/
theorem one_call_in_flight_witness :
    ∃ p, (NewGroup.AddCalls ["a", "b"]).g.m "a" = some p
      ∧ ((Group.run (NewGroup.AddCalls ["a", "b"]).g
            [.add ["a", "c"], .complete [("b", .obj 1)]]).retD NewGroup).m "a" = some p
      ∧ "a" ∉ (((Group.run (NewGroup.AddCalls ["a", "b"]).g
            [.add ["a", "c"], .complete [("b", .obj 1)]]).retD NewGroup).AddCalls
              ["a", "d"]).toHandleKeys
      ∧ ("a" ∈ ["a", "d"] → (((Group.run (NewGroup.AddCalls ["a", "b"]).g
            [.add ["a", "c"], .complete [("b", .obj 1)]]).retD NewGroup).AddCalls
              ["a", "d"]).waitingCallsMap "a" = some p) :=
  one_call_in_flight NewGroup ["a", "b"] "a" [.add ["a", "c"], .complete [("b", .obj 1)]]
    ((Group.run (NewGroup.AddCalls ["a", "b"]).g
      [.add ["a", "c"], .complete [("b", .obj 1)]]).retD NewGroup) ["a", "d"]
    (by decide) (by intro vm h; simp at h; subst h; decide) rfl

/-! ## Singleflight group: the invariant -/

theorem Inv_NewGroup : NewGroup.Inv :=
  ⟨fun _ _ h => (by cases h), fun _ _ _ h => (by cases h), fun _ => rfl⟩

theorem Inv_addCall (st : AddCallsState) (key : String) (h : st.g.Inv) :
    (Group.addCall st key).g.Inv := by
  cases hk : st.g.m key with
  | some c => rw [addCall_of_some st key c hk]; exact h
  | none =>
    rw [addCall_of_none st key hk]
    obtain ⟨h1, h2, h3⟩ := h
    refine ⟨?_, ?_, ?_⟩
    · intro k p hm
      dsimp only at hm ⊢
      by_cases hkk : k = key
      · rw [if_pos hkk] at hm
        cases hm
        exact ⟨Nat.lt_succ_self _, by simp⟩
      · rw [if_neg hkk] at hm
        obtain ⟨hlt, hwg⟩ := h1 k p hm
        refine ⟨Nat.lt_succ_of_lt hlt, ?_⟩
        rw [if_neg (Nat.ne_of_lt hlt)]
        exact hwg
    · intro k1 k2 p hm1 hm2
      dsimp only at hm1 hm2
      by_cases hk1 : k1 = key
      · by_cases hk2 : k2 = key
        · rw [hk1, hk2]
        · rw [if_pos hk1] at hm1
          rw [if_neg hk2] at hm2
          cases hm1
          exact absurd (h1 k2 _ hm2).1 (Nat.lt_irrefl _)
      · by_cases hk2 : k2 = key
        · rw [if_neg hk1] at hm1
          rw [if_pos hk2] at hm2
          cases hm2
          exact absurd (h1 k1 _ hm1).1 (Nat.lt_irrefl _)
        · rw [if_neg hk1] at hm1
          rw [if_neg hk2] at hm2
          exact h2 k1 k2 p hm1 hm2
    · intro p
      dsimp only
      by_cases hp : p = st.g.next
      · rw [if_pos hp]
      · rw [if_neg hp]; exact h3 p

theorem Inv_foldl_addCall :
    ∀ (ks : List String) (st : AddCallsState), st.g.Inv → (ks.foldl Group.addCall st).g.Inv := by
  intro ks
  induction ks with
  | nil => intro st h; exact h
  | cons key ks ih =>
    intro st h
    rw [List.foldl_cons]
    exact ih _ (Inv_addCall st key h)

theorem completeCall_spec (g : Group) (k : String) (v : Value) (p : CallPtr) (h : g.Inv)
    (hm : g.m k = some p) :
    ∃ g1, g.completeCall (k, v) = .ret g1 ∧ g1.Inv
      ∧ (∀ x, g1.m x = if x = k then none else g.m x)
      ∧ g1.next = g.next
      ∧ (∀ q, q ≠ p → g1.calls q = g.calls q)
      ∧ g1.calls p = { wg := 0, val := v, err := none } := by
  obtain ⟨h1, h2, h3⟩ := h
  have hwg : (g.calls p).wg = 1 := (h1 k p hm).2
  have herr : (g.calls p).err = none := h3 p
  have hcall : g.completeCall (k, v) = .ret
      { m := fun x => if x = k then none else g.m x
        calls := fun q => if q = p then { wg := 0, val := v, err := none } else g.calls q
        next := g.next } := by
    unfold Group.completeCall
    dsimp only
    rw [hm]
    dsimp only
    rw [hwg, herr]
    rfl
  refine ⟨_, hcall, ⟨?_, ?_, ?_⟩, fun _ => rfl, rfl, ?_, ?_⟩
  · intro x q hx
    dsimp only at hx ⊢
    by_cases hxk : x = k
    · rw [if_pos hxk] at hx; cases hx
    · rw [if_neg hxk] at hx
      have hqp : q ≠ p := fun e => hxk (h2 x k p (by rw [← e]; exact hx) hm)
      rw [if_neg hqp]
      exact h1 x q hx
  · intro k1 k2 q hm1 hm2
    dsimp only at hm1 hm2
    by_cases hk1 : k1 = k
    · rw [if_pos hk1] at hm1; cases hm1
    · by_cases hk2 : k2 = k
      · rw [if_pos hk2] at hm2; cases hm2
      · rw [if_neg hk1] at hm1
        rw [if_neg hk2] at hm2
        exact h2 k1 k2 q hm1 hm2
  · intro q
    dsimp only
    by_cases hq : q = p
    · rw [if_pos hq]
    · rw [if_neg hq]; exact h3 q
  · intro q hq
    dsimp only
    rw [if_neg hq]
  · dsimp only
    rw [if_pos rfl]

theorem Inv_completeCall (g g1 : Group) (kv : String × Value) (h : g.Inv)
    (hc : g.completeCall kv = .ret g1) : g1.Inv := by
  cases hm : g.m kv.1 with
  | none => unfold Group.completeCall at hc; rw [hm] at hc; cases hc
  | some p =>
    obtain ⟨g2, h2, hinv, _⟩ := completeCall_spec g kv.1 kv.2 p h hm
    rw [hc] at h2
    cases h2
    exact hinv

theorem Inv_CompleteCalls :
    ∀ (vm : GoMap Value) (g g1 : Group), g.Inv → g.CompleteCalls vm = .ret g1 → g1.Inv := by
  intro vm
  induction vm with
  | nil => intro g g1 h hc; cases hc; exact h
  | cons kv rest ih =>
    intro g g1 h hc
    rw [Group.CompleteCalls] at hc
    cases hcc : g.completeCall kv with
    | ret g' =>
      rw [hcc, Outcome.ret_bind] at hc
      exact ih g' g1 (Inv_completeCall g g' kv h hcc) hc
    | fault f => rw [hcc] at hc; cases hc
    | outOfFuel => rw [hcc] at hc; cases hc

theorem Inv_run :
    ∀ (steps : List GroupStep) (g g1 : Group), g.Inv → Group.run g steps = .ret g1 → g1.Inv := by
  intro steps
  induction steps with
  | nil => intro g g1 h hr; cases hr; exact h
  | cons step rest ih =>
    intro g g1 h hr
    cases step with
    | add keys =>
      rw [Group.run] at hr
      exact ih _ g1 (Inv_foldl_addCall keys _ h) hr
    | complete vm =>
      rw [Group.run] at hr
      cases hc : g.CompleteCalls vm with
      | ret g' =>
        rw [hc, Outcome.ret_bind] at hr
        exact ih g' g1 (Inv_CompleteCalls vm g g' h hc) hr
      | fault f => rw [hc] at hr; cases hr
      | outOfFuel => rw [hc] at hr; cases hr

theorem CompleteCalls_of_Inv :
    ∀ (vm : GoMap Value) (g : Group), g.Inv → (GoMap.keys vm).Nodup →
      (∀ k ∈ GoMap.keys vm, (g.m k).isSome = true) →
      ∃ g1, g.CompleteCalls vm = .ret g1 ∧ g1.Inv
        ∧ (∀ x, g1.m x = if x ∈ GoMap.keys vm then none else g.m x)
        ∧ (∀ q, (∀ k ∈ GoMap.keys vm, g.m k ≠ some q) → g1.calls q = g.calls q)
        ∧ ∀ k v p, (k, v) ∈ vm → g.m k = some p →
            g1.calls p = { wg := 0, val := v, err := none } := by
  intro vm
  induction vm with
  | nil =>
    intro g h _ _
    exact ⟨g, rfl, h, fun x => by simp [GoMap.keys], fun _ _ => rfl,
      fun _ _ _ hmem => by cases hmem⟩
  | cons kv rest ih =>
    intro g h hnd hin
    obtain ⟨k, v⟩ := kv
    have hkeys : GoMap.keys ((k, v) :: rest) = k :: GoMap.keys rest := rfl
    rw [hkeys] at hnd hin
    obtain ⟨hknot, hndr⟩ := List.nodup_cons.mp hnd
    obtain ⟨p, hp⟩ := Option.isSome_iff_exists.mp (hin k (List.mem_cons_self _ _))
    obtain ⟨g', hcall, hinv', hm', _, hcalls', hcallp⟩ := completeCall_spec g k v p h hp
    have hne : ∀ k' ∈ GoMap.keys rest, k' ≠ k := fun k' hk' e => hknot (e ▸ hk')
    have hin' : ∀ k' ∈ GoMap.keys rest, (g'.m k').isSome = true := by
      intro k' hk'
      rw [hm' k', if_neg (hne k' hk')]
      exact hin k' (List.mem_cons_of_mem _ hk')
    obtain ⟨g1, hc1, hinv1, hm1, hcalls1, hval1⟩ := ih g' hinv' hndr hin'
    have hpfree : ∀ k' ∈ GoMap.keys rest, g'.m k' ≠ some p := by
      intro k' hk' e
      rw [hm' k', if_neg (hne k' hk')] at e
      exact hne k' hk' (h.2.1 k' k p e hp)
    refine ⟨g1, ?_, hinv1, ?_, ?_, ?_⟩
    · rw [Group.CompleteCalls, hcall, Outcome.ret_bind]
      exact hc1
    · intro x
      rw [hm1 x, hkeys, hm' x]
      by_cases hx : x = k
      · simp [hx]
      · simp [hx]
    · intro q hq
      have hqp : q ≠ p := fun e => hq k (List.mem_cons_self _ _) (by rw [e]; exact hp)
      rw [hcalls1 q (fun k' hk' e => by
        rw [hm' k', if_neg (hne k' hk')] at e
        exact hq k' (List.mem_cons_of_mem _ hk') e), hcalls' q hqp]
    · intro k0 v0 p0 hmem hm0
      rcases List.mem_cons.mp hmem with heq | hrest
      · have e1 : k0 = k := congrArg Prod.fst heq
        have e2 : v0 = v := congrArg Prod.snd heq
        subst e1; subst e2
        rw [hp] at hm0
        have hpp : p = p0 := Option.some.inj hm0
        rw [← hpp, hcalls1 p hpfree, hcallp]
      · have hk0 : k0 ∈ GoMap.keys rest := List.mem_map.mpr ⟨(k0, v0), hrest, rfl⟩
        exact hval1 k0 v0 p0 hrest (by rw [hm' k0, if_neg (hne k0 hk0)]; exact hm0)

/-- C15: in every state that a group reaches from `NewGroup` by `AddCalls` and
`CompleteCalls`, for every `valueMap` whose keys are all in the map, `CompleteCalls`
returns; afterwards each key of `valueMap` is removed from the map and every other
entry of the map is unchanged, the call that was bound to a key `k` holds
`valueMap[k]` with its counter at zero, and `WaitCall` on that call returns
`(valueMap[k], nil)`; and `AddCalls(ks)` followed by `CompleteCalls` on the keys it
returned in `toHandleKeys`, with any values, gives back the map as it was before. -/
theorem CompleteCalls_spec (steps : List GroupStep) (g : Group) (valueMap : GoMap Value)
    (hreach : Group.run NewGroup steps = .ret g)
    (hnodup : (GoMap.keys valueMap).Nodup)
    (hin : ∀ k ∈ GoMap.keys valueMap, (g.m k).isSome = true) :
    (∃ g1, g.CompleteCalls valueMap = .ret g1
        ∧ (∀ k, g1.m k = if k ∈ GoMap.keys valueMap then none else g.m k)
        ∧ ∀ k v p, (k, v) ∈ valueMap → g.m k = some p →
            g1.calls p = { wg := 0, val := v, err := none }
              ∧ g1.WaitCall p = some (v, none))
      ∧ ∀ (ks : List String) (f : String → Value),
          ∃ g2, (g.AddCalls ks).g.CompleteCalls
                ((g.AddCalls ks).toHandleKeys.map fun k => (k, f k)) = .ret g2
            ∧ ∀ k, g2.m k = g.m k := by
  have hinv : g.Inv := Inv_run steps NewGroup g Inv_NewGroup hreach
  constructor
  · obtain ⟨g1, hc, _, hm, _, hval⟩ := CompleteCalls_of_Inv valueMap g hinv hnodup hin
    refine ⟨g1, hc, hm, ?_⟩
    intro k v p hmem hmk
    have := hval k v p hmem hmk
    refine ⟨this, ?_⟩
    unfold Group.WaitCall
    rw [this]
    rfl
  · intro ks f
    have hkeys : GoMap.keys ((g.AddCalls ks).toHandleKeys.map fun k => (k, f k))
        = (g.AddCalls ks).toHandleKeys := by
      unfold GoMap.keys
      rw [List.map_map]
      exact List.map_id _
    have hto : (g.AddCalls ks).toHandleKeys
        = firstOccurrences (ks.filter fun k => (g.m k).isNone) := by
      unfold Group.AddCalls
      rw [foldl_addCall_toHandleKeys]
      rfl
    have hmem : ∀ k, k ∈ (g.AddCalls ks).toHandleKeys ↔ k ∈ ks ∧ g.m k = none := by
      intro k
      rw [hto, mem_firstOccurrences, List.mem_filter]
      simp
    obtain ⟨g2, hc, _, hm, _, _⟩ := CompleteCalls_of_Inv
      ((g.AddCalls ks).toHandleKeys.map fun k => (k, f k)) (g.AddCalls ks).g
      (Inv_foldl_addCall ks _ hinv)
      (by rw [hkeys, hto]; exact nodup_firstOccurrences _)
      (by
        intro k hk
        rw [hkeys] at hk
        obtain ⟨h1, h2⟩ := (hmem k).mp hk
        obtain ⟨p, hp, _⟩ := foldl_addCall_fresh ks
          { g := g, waitingCallsMap := fun _ => none, toHandleKeys := [] } k h1 h2
        have hp' : (g.AddCalls ks).g.m k = some p := hp
        rw [hp']; rfl)
    refine ⟨g2, hc, ?_⟩
    intro k
    rw [hm k, hkeys]
    by_cases hk : k ∈ (g.AddCalls ks).toHandleKeys
    · rw [if_pos hk]
      exact ((hmem k).mp hk).2.symm
    · rw [if_neg hk]
      cases hmk : g.m k with
      | none =>
        have hnot : k ∉ ks := fun h => hk ((hmem k).mpr ⟨h, hmk⟩)
        unfold Group.AddCalls
        rw [foldl_addCall_m_not_mem ks _ k hnot]
        exact hmk
      | some p => exact foldl_addCall_m_some ks _ k p hmk

/-- Witness of C15: after `AddCalls(a, b)` on a new group, `CompleteCalls` with a value
for "a". -/
theorem CompleteCalls_spec_witness :
    (∃ g1, groupAB.CompleteCalls [("a", .obj 1)] = .ret g1
        ∧ (∀ k, g1.m k = if k ∈ GoMap.keys [("a", Value.obj 1)] then none else groupAB.m k)
        ∧ ∀ k v p, (k, v) ∈ [("a", Value.obj 1)] → groupAB.m k = some p →
            g1.calls p = { wg := 0, val := v, err := none }
              ∧ g1.WaitCall p = some (v, none))
      ∧ ∀ (ks : List String) (f : String → Value),
          ∃ g2, (groupAB.AddCalls ks).g.CompleteCalls
                ((groupAB.AddCalls ks).toHandleKeys.map fun k => (k, f k)) = .ret g2
            ∧ ∀ k, g2.m k = groupAB.m k :=
  CompleteCalls_spec [.add ["a", "b"]] groupAB [("a", .obj 1)] rfl (by decide)
    (by intro k hk; simp [GoMap.keys] at hk; subst hk; rfl)

/-! ## Deleting -/

theorem foldl_ristrettoDel_replicate (n : Nat) :
    ∀ (s : Store) (k : String),
      (List.foldl ristrettoDel s (List.replicate n "")) k
        = if k = "" ∧ n ≠ 0 then none else s k := by
  induction n with
  | zero => intro s k; simp
  | succ n ih =>
    intro s k
    rw [List.replicate_succ, List.foldl_cons, ih]
    unfold ristrettoDel
    by_cases hk : k = ""
    · by_cases hn : n = 0
      · simp [hk, hn]
      · simp [hk, hn]
    · simp [hk]

set_option maxRecDepth 100000 in
/-- C21, the failing input: the snapshot `cappedInner` is open and enabled and the
store holds the key "a"; `deleteMany(a)` returns nil, the store still holds the entry
of "a", and a following `get(a)` returns its value. In general `deleteMany` on this
snapshot returns nil and removes nothing but the entry of the empty key. -/
theorem deleteMany_keeps_its_keys :
    cappedInner.isCacheClosed = false ∧ cappedInner.isDisabledCtxOrConfig = false
      ∧ (∃ s1, cacheWrapper.deleteMany sampleEnv cappedInner storeOfA zeroOptions ["a"] []
            = (s1, none)
          ∧ s1 "a" = some ⟨.item ⟨0, 0⟩ (.bytes [7]), none⟩
          ∧ cacheWrapper.get sampleEnv cappedInner s1 ⟨0⟩ zeroOptions "a" (some anyReceiver) []
            = .ret (none, some (.bytes [7])))
      ∧ ∀ (s : Store) (keys : List String) (k : String),
          (cacheWrapper.deleteMany sampleEnv cappedInner s zeroOptions keys []).2 = none
            ∧ (cacheWrapper.deleteMany sampleEnv cappedInner s zeroOptions keys []).1 k
              = if k = "" ∧ keys ≠ [] then none else s k := by
  refine ⟨rfl, rfl, ⟨_, rfl, rfl, rfl⟩, ?_⟩
  intro s keys k
  have hc : cappedInner.isCacheClosed = false := rfl
  have hd : cappedInner.isDisabledCtxOrConfig = false := rfl
  unfold cacheWrapper.deleteMany
  simp only [hc, hd, Bool.false_eq_true, if_false]
  by_cases hlen : keys.length = 0
  · have : keys = [] := List.length_eq_zero.mp hlen
    subst this
    simp
  · rw [if_neg hlen]
    unfold cacheWrapper.deleteManyInner inMemoryCacheInner.deleteMany RistrettoCache.DeleteMany
    dsimp only
    rw [foldl_ristrettoDel_replicate]
    have hne : keys ≠ [] := fun h => hlen (by rw [h]; rfl)
    simp [hlen, hne]

/-- C22 (amended): at the storage adapter, for every store state and every key,
`delete(k)` of a key the store does not return gives `cache_miss` and leaves the store
unchanged, `delete(k)` of a key the store returns removes it and gives nil, and
`deleteMany` gives nil whatever the keys are. -/
theorem delete_of_key (s : Store) (now : Time) (key : String) (keys : List String)
    (opts : List innerOperationOption) :
    inMemoryCacheInner.delete s now key
        = (if (RistrettoCache.Get s now key).2 = true then (ristrettoDel s key, none)
           else (s, some ErrCacheMiss))
      ∧ (inMemoryCacheInner.deleteMany s keys opts).2 = none := by
  constructor
  · unfold inMemoryCacheInner.delete RistrettoCache.Delete RistrettoCache.Get
    by_cases h : (ristrettoGet s now key).2 = true
    · simp [h]
    · simp [h]
  · rfl

/-- Counterexample to C22: the empty store does not hold "k"; `delete(k)` at the
adapter returns `cache_miss`, and so does `delete(k)` on the wrapper. -/
theorem delete_absent_key_is_cache_miss :
    emptyStore "k" = none
      ∧ inMemoryCacheInner.delete emptyStore ⟨0⟩ "k" = (emptyStore, some ErrCacheMiss)
      ∧ cacheWrapper.delete sampleEnv cappedInner emptyStore ⟨0⟩ zeroOptions "k" []
        = (emptyStore, some ErrCacheMiss) :=
  ⟨rfl, rfl, rfl⟩

/-! ## Header serialisation -/

/-- C27: for every int64 `compression`, `soft_ts` and `hard_ts`, `Marshal` of the
header that `bytesEncode` builds returns exactly `0x08 ++ varint(compression) ++ 0x10
++ varint(soft_ts) ++ 0x18 ++ varint(hard_ts)`, each value taken as a `uint64`; the
length of the output is `Size()`; `Unmarshal` of the output gives the three values
back; and a zero field is written as its tag followed by `0x00`. -/
theorem Header_wire_format (c s t : Int) (hc : isInt64 c) (hs : isInt64 s) (ht : isInt64 t) :
    Header.Marshal ⟨some c, some s, some t, []⟩
        = .ret (some (0x08 :: varint (toUint64 c) ++ (0x10 :: varint (toUint64 s)
            ++ (0x18 :: varint (toUint64 t)))), none)
      ∧ (0x08 :: varint (toUint64 c) ++ (0x10 :: varint (toUint64 s)
            ++ (0x18 :: varint (toUint64 t)))).length
          = Header.Size ⟨some c, some s, some t, []⟩
      ∧ Header.Unmarshal {} (0x08 :: varint (toUint64 c) ++ (0x10 :: varint (toUint64 s)
            ++ (0x18 :: varint (toUint64 t))))
          = .ret (⟨some c, some s, some t, []⟩, none)
      ∧ Header.Marshal ⟨some 0, some 0, some 0, []⟩
          = .ret (some [0x08, 0x00, 0x10, 0x00, 0x18, 0x00], none) := by
  refine ⟨Marshal_spec c s t, headerBytes_length c s t, ?_, ?_⟩
  · have h := Unmarshal_headerBytes c s t
    rw [toInt64_toUint64 hc, toInt64_toUint64 hs, toInt64_toUint64 ht] at h
    exact h
  · rw [Marshal_spec]; rfl

/-- Witness of C27: compression 2, no soft timestamp, a negative hard timestamp. -/
theorem Header_wire_format_witness :
    Header.Marshal ⟨some 2, some 0, some (-1), []⟩
        = .ret (some (0x08 :: varint (toUint64 2) ++ (0x10 :: varint (toUint64 0)
            ++ (0x18 :: varint (toUint64 (-1))))), none)
      ∧ (0x08 :: varint (toUint64 2) ++ (0x10 :: varint (toUint64 0)
            ++ (0x18 :: varint (toUint64 (-1))))).length
          = Header.Size ⟨some 2, some 0, some (-1), []⟩
      ∧ Header.Unmarshal {} (0x08 :: varint (toUint64 2) ++ (0x10 :: varint (toUint64 0)
            ++ (0x18 :: varint (toUint64 (-1)))))
          = .ret (⟨some 2, some 0, some (-1), []⟩, none)
      ∧ Header.Marshal ⟨some 0, some 0, some 0, []⟩
          = .ret (some [0x08, 0x00, 0x10, 0x00, 0x18, 0x00], none) :=
  Header_wire_format 2 0 (-1) (by decide) (by decide) (by decide)

/-! ## Retryability -/

/-- C28 (amended): for every error `e`, `isRetryableError(e)` is true if and only if `e`
is neither `cache_miss` nor `cache_closed` and the message of `e`, put in lower case,
does not contain "timeout"; `cache_miss`, `cache_closed` and `context_timeout` are not
retryable. -/
theorem isRetryableError_iff (t : ErrorText) (e : Err) :
    (isRetryableError t e = true
        ↔ e ≠ ErrCacheMiss ∧ e ≠ ErrCacheClosed
          ∧ Contains (ToLower t (e.Error t)) "timeout" = false)
      ∧ isRetryableError t ErrCacheMiss = false
      ∧ isRetryableError t ErrCacheClosed = false
      ∧ isRetryableError t errContextTimeout = false := by
  refine ⟨?_, rfl, rfl, rfl⟩
  unfold isRetryableError isTimeoutError
  simp

/-- Counterexample to C28: `Header.Unmarshal` rejects the tag `0x11` with the error
"proto: wrong wireType = 1 for field SoftTimeoutTs"; this error is none of
`cache_miss`, `cache_closed` and `context_timeout`, and it is not retryable. -/
theorem unmarshal_error_not_retryable :
    (Header.Unmarshal {} [0x11]).bind (fun r => .ret r.2) = .ret (some (.wrongWireType 1 2))
      ∧ (Err.wrongWireType 1 2).Error sampleErrorText
          = "proto: wrong wireType = 1 for field SoftTimeoutTs"
      ∧ Err.wrongWireType 1 2 ≠ ErrCacheMiss
      ∧ Err.wrongWireType 1 2 ≠ ErrCacheClosed
      ∧ Err.wrongWireType 1 2 ≠ errContextTimeout
      ∧ ∀ t, isRetryableError t (.wrongWireType 1 2) = false :=
  ⟨rfl, rfl, by decide, by decide, by decide, fun _ => rfl⟩

/-! ## Options pool -/

/-- The assignments of `reset`: it gives every field of a record its default except
`customCodec`, which it leaves as it was; on a record written by hand with a custom
codec, the codec is still there after `reset`. -/
theorem reset_keeps_customCodec (codecs : CodecLib) (d : Int) (p : cacheOperationOptions) :
    p.reset codecs d
        = { noReply := true, initNonExistKey := true, skipEncodeDecode := false,
            skipCodec := false, waitRistretto := false, codecType := codecs.Jsoniter,
            customCodec := p.customCodec, nonExistKeyStrategy := FillNil,
            onErrExpiration := d, hardExpiration := 0, softExpiration := 0,
            hardTimeoutTs := 0, softTimeoutTs := 0, expirationMap := none,
            hardExpirationMultiLayer := none, softExpirationMultiLayer := none }
      ∧ ((newCacheOperationOptions sampleEnv
            { zeroOptions with customCodec := some sampleCustomCodec }).customCodec).isSome = true
      ∧ ((newCacheOperationOptions sampleEnv zeroOptions).customCodec).isSome = false :=
  ⟨rfl, rfl, rfl⟩

theorem Pooled.customCodec_none (env : Env) (p : cacheOperationOptions) (hp : Pooled env p) :
    p.customCodec = none := by
  induction hp with
  | new => rfl
  | reset p _ ih => exact ih
  | apply p opt _ hopt ih => cases hopt <;> exact ih
  | hardExpiration p expire _ ih => exact ih
  | softTimeoutTs p ts _ ih => exact ih

/-- C29: for every content that a record of the pool can have, `reset` gives every
field its default (`noReply` and `initNonExistKey` true; `skipEncodeDecode`, `skipCodec`
and `waitRistretto` false; the codec `Jsoniter`; `nonExistKeyStrategy` `FillNil`;
`onErrExpiration` the load default; every expiration and timestamp 0; the expiration map
and both slices nil; no custom codec), so that `newCacheOperationOptions` returns the
same record whatever the earlier use was, and that record can again be in the pool.
`reset` itself assigns every field but `customCodec`; no statement of the package
gives that field a value, so that it is nil in every record of the pool. -/
theorem reset_restores_defaults (env : Env) (p : cacheOperationOptions) (hp : Pooled env p) :
    p.reset env.codecs env.loadDefaultOnErrExpiration
        = { noReply := true, initNonExistKey := true, skipEncodeDecode := false,
            skipCodec := false, waitRistretto := false, codecType := env.codecs.Jsoniter,
            customCodec := none, nonExistKeyStrategy := FillNil,
            onErrExpiration := env.loadDefaultOnErrExpiration, hardExpiration := 0,
            softExpiration := 0, hardTimeoutTs := 0, softTimeoutTs := 0, expirationMap := none,
            hardExpirationMultiLayer := none, softExpirationMultiLayer := none }
      ∧ newCacheOperationOptions env p = p.reset env.codecs env.loadDefaultOnErrExpiration
      ∧ (∀ q, Pooled env q → newCacheOperationOptions env q = newCacheOperationOptions env p)
      ∧ Pooled env (newCacheOperationOptions env p) := by
  have hreset : ∀ q, Pooled env q →
      q.reset env.codecs env.loadDefaultOnErrExpiration
        = { noReply := true, initNonExistKey := true, skipEncodeDecode := false,
            skipCodec := false, waitRistretto := false, codecType := env.codecs.Jsoniter,
            customCodec := none, nonExistKeyStrategy := FillNil,
            onErrExpiration := env.loadDefaultOnErrExpiration, hardExpiration := 0,
            softExpiration := 0, hardTimeoutTs := 0, softTimeoutTs := 0, expirationMap := none,
            hardExpirationMultiLayer := none, softExpirationMultiLayer := none } := by
    intro q hq
    have hc := Pooled.customCodec_none env q hq
    unfold cacheOperationOptions.reset
    rw [hc]
  refine ⟨hreset p hp, rfl, fun q hq => ?_, Pooled.reset p hp⟩
  unfold newCacheOperationOptions
  rw [hreset q hq, hreset p hp]

/-- Witness of C29: the record `usedOptions`, left by a call with three options. -/
theorem reset_restores_defaults_witness :
    usedOptions.reset sampleEnv.codecs sampleEnv.loadDefaultOnErrExpiration
        = { noReply := true, initNonExistKey := true, skipEncodeDecode := false,
            skipCodec := false, waitRistretto := false, codecType := sampleEnv.codecs.Jsoniter,
            customCodec := none, nonExistKeyStrategy := FillNil,
            onErrExpiration := sampleEnv.loadDefaultOnErrExpiration, hardExpiration := 0,
            softExpiration := 0, hardTimeoutTs := 0, softTimeoutTs := 0, expirationMap := none,
            hardExpirationMultiLayer := none, softExpirationMultiLayer := none }
      ∧ newCacheOperationOptions sampleEnv usedOptions
          = usedOptions.reset sampleEnv.codecs sampleEnv.loadDefaultOnErrExpiration
      ∧ (∀ q, Pooled sampleEnv q →
          newCacheOperationOptions sampleEnv q = newCacheOperationOptions sampleEnv usedOptions)
      ∧ Pooled sampleEnv (newCacheOperationOptions sampleEnv usedOptions) :=
  reset_restores_defaults sampleEnv usedOptions
    (Pooled.hardExpiration _ _
      (Pooled.apply _ _
        (Pooled.apply _ _
          (Pooled.apply _ _ (Pooled.reset _ Pooled.new) (IsOperationOption.expirationMap _))
          (IsOperationOption.noReply false))
        IsOperationOption.skipCodec))

/-- The record `usedOptions` differs from the defaults in four fields, and `reset`
gives it the defaults. -/
theorem usedOptions_example :
    usedOptions.skipCodec = true ∧ usedOptions.noReply = false
      ∧ usedOptions.expirationMap = some [("b", 7200 * Second)]
      ∧ usedOptions.hardExpiration = 3600 * Second
      ∧ newCacheOperationOptions sampleEnv usedOptions
          = newCacheOperationOptions sampleEnv
              (operationOptionsPoolNew sampleEnv.loadDefaultOnErrExpiration) :=
  ⟨rfl, rfl, rfl, rfl, rfl⟩

/-! ## Rejected configurations -/

/-- C30: for every configuration that fails `Validate` with an error, `updateConfig`
returns that error and leaves the wrapper, its snapshot and its store as they were, and
the constructors return that error and no wrapper; the error is
`config_type_not_supported` whenever the type of the configuration is not `InMemory`. -/
theorem rejected_config (w : WrapperState) (name : String) (config : Config) (err : Err)
    (h : config.Validate = some err) :
    cacheWrapper.updateConfig w config = (w, some err)
      ∧ newCacheWrapperInner name config = (none, some err)
      ∧ newCacheWrapper name config = (none, some err)
      ∧ (config.Type_ ≠ InMemory → err = errorConfigTypeNotSupported) := by
  refine ⟨?_, ?_, ?_, ?_⟩
  · unfold cacheWrapper.updateConfig; rw [h]
  · unfold newCacheWrapperInner; rw [h]
  · unfold newCacheWrapper newCacheWrapperInner; rw [h]
  · intro ht
    unfold Config.Validate at h
    rw [if_neg ht] at h
    exact (Option.some.inj h).symm

/-- Witness of C30: a configuration of type `Redis`. -/
theorem rejected_config_witness :
    cacheWrapper.updateConfig cappedWrapper { Type_ := Redis }
        = (cappedWrapper, some errorConfigTypeNotSupported)
      ∧ newCacheWrapperInner "c" { Type_ := Redis } = (none, some errorConfigTypeNotSupported)
      ∧ newCacheWrapper "c" { Type_ := Redis } = (none, some errorConfigTypeNotSupported)
      ∧ ((({ Type_ := Redis } : Config).Type_ ≠ InMemory)
          → errorConfigTypeNotSupported = errorConfigTypeNotSupported) :=
  rejected_config cappedWrapper "c" { Type_ := Redis } errorConfigTypeNotSupported rfl

/-! ## Compression threshold -/

/-- C25: for every encoding handler with encoding enabled and every payload, `encode`
is `bytesEncode` with the algorithm `None` when the payload is shorter than
`minLenForCompression` and with the configured algorithm otherwise; below the threshold
the envelope holds the payload itself under a header that records `None`, and at or
above it, whenever the configured compressor succeeds, the envelope holds its output
under a header that records the configured algorithm; `newEncodingHandler` sets the
threshold to 512 when the configured `MinLenForCompression` is 0 and to the configured
value otherwise. -/
theorem encode_threshold (lib : CompressionLib) (h : encodingHandler) (byt : List Byte)
    (opts : List bytesProtocolOption) (config : EncodingConfig)
    (hen : h.disableEncoding = false) :
    ((byt.length : Int) < h.minLenForCompression →
        h.encode lib byt opts
            = bytesEncode lib byt None
                [withSoftTimeoutTs (applyOpts opts newProtocolOption).softTimeoutTs,
                  withHardTimeoutTs (applyOpts opts newProtocolOption).hardTimeoutTs]
          ∧ h.encode lib byt opts
            = .ret (some (frame 8 (headerBytes None (applyOpts opts newProtocolOption).softTimeoutTs
                (applyOpts opts newProtocolOption).hardTimeoutTs) byt), none))
      ∧ (h.minLenForCompression ≤ (byt.length : Int) →
        h.encode lib byt opts
            = bytesEncode lib byt h.compressionAlgo
                [withSoftTimeoutTs (applyOpts opts newProtocolOption).softTimeoutTs,
                  withHardTimeoutTs (applyOpts opts newProtocolOption).hardTimeoutTs]
          ∧ ∀ data, Compress lib byt h.compressionAlgo = (some data, none) →
              h.encode lib byt opts
                = .ret (some (frame 8 (headerBytes h.compressionAlgo
                    (applyOpts opts newProtocolOption).softTimeoutTs
                    (applyOpts opts newProtocolOption).hardTimeoutTs) data), none))
      ∧ (newEncodingHandler config).minLenForCompression
          = (if config.CompressionConfig.MinLenForCompression = 0 then 512
             else config.CompressionConfig.MinLenForCompression)
      ∧ (newEncodingHandler config).compressionAlgo = config.CompressionConfig.CompressionAlgo := by
  have hopt : ∀ (s t : Int),
      applyOpts [withSoftTimeoutTs s, withHardTimeoutTs t] newProtocolOption
        = { softTimeoutTs := s, hardTimeoutTs := t } := fun _ _ => rfl
  refine ⟨?_, ?_, rfl, rfl⟩
  · intro hlt
    have he : h.encode lib byt opts
        = bytesEncode lib byt None
            [withSoftTimeoutTs (applyOpts opts newProtocolOption).softTimeoutTs,
              withHardTimeoutTs (applyOpts opts newProtocolOption).hardTimeoutTs] := by
      unfold encodingHandler.encode
      rw [hen, if_neg (by decide)]
      dsimp only
      rw [if_pos hlt]
    refine ⟨he, ?_⟩
    rw [he, bytesEncode_eq lib byt byt None _ (by simp [Compress, Snappy, Gzip, None]), hopt]
  · intro hge
    have hnlt : ¬ (byt.length : Int) < h.minLenForCompression := not_lt.mpr hge
    have he : h.encode lib byt opts
        = bytesEncode lib byt h.compressionAlgo
            [withSoftTimeoutTs (applyOpts opts newProtocolOption).softTimeoutTs,
              withHardTimeoutTs (applyOpts opts newProtocolOption).hardTimeoutTs] := by
      unfold encodingHandler.encode
      rw [hen, if_neg (by decide)]
      dsimp only
      rw [if_neg hnlt]
    refine ⟨he, ?_⟩
    intro data hcomp
    rw [he, bytesEncode_eq lib byt data h.compressionAlgo _ hcomp, hopt]

/-- Witness of C25: a handler configured for Gzip with the threshold 3 and a payload
of two bytes. -/
theorem encode_threshold_witness :
    ((([1, 2] : List Byte).length : Int) < (⟨Gzip, 3, false⟩ : encodingHandler).minLenForCompression →
        (⟨Gzip, 3, false⟩ : encodingHandler).encode storedLib [1, 2] []
            = bytesEncode storedLib [1, 2] None
                [withSoftTimeoutTs (applyOpts [] newProtocolOption).softTimeoutTs,
                  withHardTimeoutTs (applyOpts [] newProtocolOption).hardTimeoutTs]
          ∧ (⟨Gzip, 3, false⟩ : encodingHandler).encode storedLib [1, 2] []
            = .ret (some (frame 8 (headerBytes None (applyOpts [] newProtocolOption).softTimeoutTs
                (applyOpts [] newProtocolOption).hardTimeoutTs) [1, 2]), none))
      ∧ ((⟨Gzip, 3, false⟩ : encodingHandler).minLenForCompression
            ≤ (([1, 2] : List Byte).length : Int) →
        (⟨Gzip, 3, false⟩ : encodingHandler).encode storedLib [1, 2] []
            = bytesEncode storedLib [1, 2] (⟨Gzip, 3, false⟩ : encodingHandler).compressionAlgo
                [withSoftTimeoutTs (applyOpts [] newProtocolOption).softTimeoutTs,
                  withHardTimeoutTs (applyOpts [] newProtocolOption).hardTimeoutTs]
          ∧ ∀ data, Compress storedLib [1, 2] (⟨Gzip, 3, false⟩ : encodingHandler).compressionAlgo
                = (some data, none) →
              (⟨Gzip, 3, false⟩ : encodingHandler).encode storedLib [1, 2] []
                = .ret (some (frame 8 (headerBytes (⟨Gzip, 3, false⟩ : encodingHandler).compressionAlgo
                    (applyOpts [] newProtocolOption).softTimeoutTs
                    (applyOpts [] newProtocolOption).hardTimeoutTs) data), none))
      ∧ (newEncodingHandler {}).minLenForCompression
          = (if ({} : EncodingConfig).CompressionConfig.MinLenForCompression = 0 then 512
             else ({} : EncodingConfig).CompressionConfig.MinLenForCompression)
      ∧ (newEncodingHandler {}).compressionAlgo
          = ({} : EncodingConfig).CompressionConfig.CompressionAlgo :=
  encode_threshold storedLib ⟨Gzip, 3, false⟩ [1, 2] [] {} rfl

/-! ## Legacy envelope -/

theorem getCompressionType_mod (attrs : Nat) :
    getCompressionType attrs
      = if attrs % 8 = 0 then None else if attrs % 8 = 1 then Snappy
        else if attrs % 8 = 2 then Gzip else ((attrs % 8 : Nat) : Int) := by
  unfold getCompressionType typeNone typeSnappy typeGzip
  have h : attrs &&& 0x07 = attrs % 8 := Nat.and_pow_two_sub_one_eq_mod attrs 3
  simp only [h]

/-- C26: for every `uint32` attrs with bit 3 clear and every data, `bytesDecode` of
`magic ++ LE32(attrs) ++ data` returns both timestamps zero and: the data itself when
`attrs & 7` is 0 (None), what the Snappy decoder gives for the data when it is 1, what
the Gzip reader gives when it is 2 (the error of the decoder when it fails), and the
error of an unsupported compression when it is 3 to 7. -/
theorem bytesDecode_legacy (lib : CompressionLib) (attrs : Nat) (data : List Byte)
    (hattrs : attrs < 2 ^ 32) (hbit : attrs &&& 8 = 0) :
    bytesDecode lib (magicPrefix ++ LE32 attrs ++ data)
      = if attrs % 8 = 0 then .ret ⟨some data, ⟨0, 0⟩, none⟩
        else if attrs % 8 = 1 then
          (match lib.snappyDecode data with
            | .ok d => .ret ⟨some d, ⟨0, 0⟩, none⟩
            | .error e => .ret ⟨none, ⟨0, 0⟩, some e⟩)
        else if attrs % 8 = 2 then
          (match lib.gzipRead data with
            | .ok d => .ret ⟨some d, ⟨0, 0⟩, none⟩
            | .error e => .ret ⟨none, ⟨0, 0⟩, some e⟩)
        else .ret ⟨none, ⟨0, 0⟩, some .compressionNotSupported⟩ := by
  unfold bytesDecode
  have henc : isBytesEncoded (magicPrefix ++ LE32 attrs ++ data) = true := by
    simp [isBytesEncoded, magicPrefix, LE32, magixPrefixLen, attrReservedLen]
  rw [if_pos henc]
  have sl1 : slice (magicPrefix ++ LE32 attrs ++ data) magixPrefixLen
      (magixPrefixLen + attrReservedLen) = .ret (LE32 attrs) :=
    slice_at _ _ _ _ _ rfl rfl
  have sl2 : slice (magicPrefix ++ LE32 attrs ++ data) (magixPrefixLen + attrReservedLen)
      (magicPrefix ++ LE32 attrs ++ data).length = .ret data := by
    have e : magicPrefix ++ LE32 attrs ++ data = (magicPrefix ++ LE32 attrs) ++ data ++ [] := by
      simp
    have := slice_at (magicPrefix ++ LE32 attrs) data [] (magixPrefixLen + attrReservedLen)
      (magicPrefix ++ LE32 attrs ++ data).length rfl
      (by simp only [List.length_append])
    rw [← e] at this
    exact this
  have u1 : Uint32 (LE32 attrs) = .ret attrs := Uint32_LE32 hattrs
  have hflag : readHeaderFlag attrs = false := by
    unfold readHeaderFlag headerFlag
    rw [hbit]
    decide
  simp only [sl1, u1, Outcome.ret_bind, hflag, Bool.false_eq_true, if_false, sl2]
  rw [getCompressionType_mod]
  have hlt : attrs % 8 < 8 := Nat.mod_lt _ (by decide)
  by_cases h0 : attrs % 8 = 0
  · simp [h0, Decompress, Snappy, Gzip, None]
  · by_cases h1 : attrs % 8 = 1
    · simp only [h1, if_neg (by decide : ¬ (1 : Nat) = 0), if_true]
      unfold Decompress
      rw [if_pos rfl]
      cases lib.snappyDecode data <;> rfl
    · by_cases h2 : attrs % 8 = 2
      · simp only [h2, if_neg (by decide : ¬ (2 : Nat) = 0), if_neg (by decide : ¬ (2 : Nat) = 1),
          if_true]
        unfold Decompress
        rw [if_neg (by decide), if_pos rfl]
        cases lib.gzipRead data <;> rfl
      · simp only [if_neg h0, if_neg h1, if_neg h2]
        unfold Decompress Snappy Gzip None
        have a0 : ¬ ((attrs % 8 : Nat) : Int) = 0 := by omega
        have a1 : ¬ ((attrs % 8 : Nat) : Int) = 1 := by omega
        have a2 : ¬ ((attrs % 8 : Nat) : Int) = 2 := by omega
        rw [if_neg a0, if_neg a1, if_neg a2]

/-- Witness of C26: attrs = 17 (bit 4 set, bit 3 clear, low bits 1: Snappy). -/
theorem bytesDecode_legacy_witness :
    bytesDecode storedLib (magicPrefix ++ LE32 17 ++ [0, 5, 6])
      = if 17 % 8 = 0 then .ret ⟨some [0, 5, 6], ⟨0, 0⟩, none⟩
        else if 17 % 8 = 1 then
          (match storedLib.snappyDecode [0, 5, 6] with
            | .ok d => .ret ⟨some d, ⟨0, 0⟩, none⟩
            | .error e => .ret ⟨none, ⟨0, 0⟩, some e⟩)
        else if 17 % 8 = 2 then
          (match storedLib.gzipRead [0, 5, 6] with
            | .ok d => .ret ⟨some d, ⟨0, 0⟩, none⟩
            | .error e => .ret ⟨none, ⟨0, 0⟩, some e⟩)
        else .ret ⟨none, ⟨0, 0⟩, some .compressionNotSupported⟩ :=
  bytesDecode_legacy storedLib 17 [0, 5, 6] (by decide) (by decide)

/-! ## Expire -/

/-- C24 (amended): on an open, enabled in-memory snapshot with encoding not skipped,
when the store returns for `k` the record `(value, soft_ts, hard_ts)`, `expire(k, e)`
returns nil and writes under `k`, with the translated `e` as time to live, the record of
the same value whose timestamps are those `encode` computes from the options with
`hardExpiration` set to the translated `e` and `softTimeoutTs` set to `soft_ts`: the
soft timestamp is `soft_ts` when `soft_ts > 0`; when `soft_ts <= 0` it is
`unix(now + softExpiration)` if the options carry a positive `softExpiration` and 0
otherwise; the hard timestamp is computed from the translated `e` (unless the options
carry a positive `hardTimeoutTs`). When the store does not return `k`, `expire` returns
`cache_miss` and the store is as it was. -/
theorem expire_rewrites (env : Env) (inner : cacheWrapperInner) (s : Store) (now : Time)
    (pooled : cacheOperationOptions) (key : String) (expire : Int)
    (opts : List OperationOption) (option : cacheOperationOptions)
    (hoption : option = applyOpts opts (newCacheOperationOptions env pooled))
    (hopen : inner.isClosed ≠ 1) (hen : inner.isDisabled = false)
    (hmem : inner.cacheType = inMemory) (hskip : option.skipEncodeDecode = false) :
    (∀ soft hard v, RistrettoCache.Get s now key = (.item ⟨soft, hard⟩ v, true) →
        cacheWrapper.expire env inner s now pooled key expire opts
          = .ret (RistrettoCache.Set s now key
              (.item ⟨encodeSoftTimeoutTs now { option with
                    hardExpiration := inner.translateExpire expire, softTimeoutTs := soft },
                  encodeHardTimeoutTs now { option with
                    hardExpiration := inner.translateExpire expire, softTimeoutTs := soft }⟩ v)
              (if inner.translateExpire expire = NoExpiration then 0
                else inner.translateExpire expire), none)
        ∧ (0 < soft → encodeSoftTimeoutTs now { option with
              hardExpiration := inner.translateExpire expire, softTimeoutTs := soft } = soft)
        ∧ (soft ≤ 0 → encodeSoftTimeoutTs now { option with
              hardExpiration := inner.translateExpire expire, softTimeoutTs := soft }
            = if 0 < option.softExpiration then (now.Add option.softExpiration).Unix else 0)
        ∧ (option.hardTimeoutTs ≤ 0 → encodeHardTimeoutTs now { option with
              hardExpiration := inner.translateExpire expire, softTimeoutTs := soft }
            = if 0 < inner.translateExpire expire then
                (now.Add (inner.translateExpire expire)).Unix
              else if inner.translateExpire expire = NoExpiration then 1 else 0))
      ∧ ((RistrettoCache.Get s now key).2 = false →
          cacheWrapper.expire env inner s now pooled key expire opts
            = .ret (s, some ErrCacheMiss)) := by
  have hclosed : inner.isCacheClosed = false := by
    unfold cacheWrapperInner.isCacheClosed; simpa using hopen
  have hdis : inner.isDisabledCtxOrConfig = false := by
    unfold cacheWrapperInner.isDisabledCtxOrConfig; rw [hen]; rfl
  have hskip' : ¬ option.skipEncodeDecode = true := by rw [hskip]; decide
  constructor
  · intro soft hard v hget
    refine ⟨?_, ?_, ?_, ?_⟩
    · unfold cacheWrapper.expire
      simp only [hclosed, hdis, Bool.false_eq_true, if_false]
      rw [← hoption]
      unfold cacheWrapper.expireInner
      rw [if_neg hskip']
      unfold inMemoryCacheInner.get
      rw [hget]
      simp only [not_true_eq_false, if_false]
      have hdec : inner.decode env.lib (.item ⟨soft, hard⟩ v) false
          = .ret (v, ⟨soft, hard⟩, none) := by
        unfold cacheWrapperInner.decode
        rw [if_neg (by decide), if_pos hmem]
        rfl
      rw [hdec, Outcome.ret_bind]
      dsimp only
      rw [encode_inMemory env.lib inner now v { option with
        hardExpiration := inner.translateExpire expire, softTimeoutTs := soft } hmem hskip,
        Outcome.ret_bind]
      rfl
    · intro hs
      unfold encodeSoftTimeoutTs
      dsimp only
      rw [if_pos hs]
    · intro hs
      unfold encodeSoftTimeoutTs
      dsimp only
      have : ¬ soft > 0 := not_lt.mpr hs
      rw [if_neg this]
    · intro hh
      unfold encodeHardTimeoutTs hardTimeoutForeverIndicator
      dsimp only
      have : ¬ option.hardTimeoutTs > 0 := not_lt.mpr hh
      rw [if_neg this]
  · intro hget
    unfold cacheWrapper.expire
    simp only [hclosed, hdis, Bool.false_eq_true, if_false]
    rw [← hoption]
    unfold cacheWrapper.expireInner
    rw [if_neg hskip']
    unfold inMemoryCacheInner.get
    simp only [hget, Bool.false_eq_true, not_false_eq_true, if_true]

/-- Witness of C24 (amended): the record under "k" has no soft timestamp and the
options carry no soft expiration. -/
theorem expire_rewrites_witness :
    (∀ soft hard v, RistrettoCache.Get storeOfK ⟨0⟩ "k" = (.item ⟨soft, hard⟩ v, true) →
        cacheWrapper.expire sampleEnv cappedInner storeOfK ⟨0⟩ zeroOptions "k" (10 * Second) []
          = .ret (RistrettoCache.Set storeOfK ⟨0⟩ "k"
              (.item ⟨encodeSoftTimeoutTs ⟨0⟩ { newCacheOperationOptions sampleEnv zeroOptions with
                    hardExpiration := cappedInner.translateExpire (10 * Second),
                    softTimeoutTs := soft },
                  encodeHardTimeoutTs ⟨0⟩ { newCacheOperationOptions sampleEnv zeroOptions with
                    hardExpiration := cappedInner.translateExpire (10 * Second),
                    softTimeoutTs := soft }⟩ v)
              (if cappedInner.translateExpire (10 * Second) = NoExpiration then 0
                else cappedInner.translateExpire (10 * Second)), none)
        ∧ (0 < soft → encodeSoftTimeoutTs ⟨0⟩ { newCacheOperationOptions sampleEnv zeroOptions with
              hardExpiration := cappedInner.translateExpire (10 * Second),
              softTimeoutTs := soft } = soft)
        ∧ (soft ≤ 0 → encodeSoftTimeoutTs ⟨0⟩ { newCacheOperationOptions sampleEnv zeroOptions with
              hardExpiration := cappedInner.translateExpire (10 * Second), softTimeoutTs := soft }
            = if 0 < (newCacheOperationOptions sampleEnv zeroOptions).softExpiration then
                (Time.Add ⟨0⟩ (newCacheOperationOptions sampleEnv zeroOptions).softExpiration).Unix
              else 0)
        ∧ ((newCacheOperationOptions sampleEnv zeroOptions).hardTimeoutTs ≤ 0 →
            encodeHardTimeoutTs ⟨0⟩ { newCacheOperationOptions sampleEnv zeroOptions with
              hardExpiration := cappedInner.translateExpire (10 * Second), softTimeoutTs := soft }
            = if 0 < cappedInner.translateExpire (10 * Second) then
                (Time.Add ⟨0⟩ (cappedInner.translateExpire (10 * Second))).Unix
              else if cappedInner.translateExpire (10 * Second) = NoExpiration then 1 else 0))
      ∧ ((RistrettoCache.Get storeOfK ⟨0⟩ "k").2 = false →
          cacheWrapper.expire sampleEnv cappedInner storeOfK ⟨0⟩ zeroOptions "k" (10 * Second) []
            = .ret (storeOfK, some ErrCacheMiss)) :=
  expire_rewrites sampleEnv cappedInner storeOfK ⟨0⟩ zeroOptions "k" (10 * Second) []
    (newCacheOperationOptions sampleEnv zeroOptions) rfl (by decide) (by decide) (by decide) rfl

set_option maxRecDepth 100000 in
/-- Counterexample to C24: the record under "k" has `soft_ts = 0` and `hard_ts = 100`;
`expire(k, 10 s)` with the option `WithSoftExpiration(5 s)`, run at the instant 0,
returns nil and rewrites the record with `soft_ts = 5`. -/
theorem expire_sets_soft_timestamp :
    storeOfK "k" = some ⟨.item ⟨0, 100⟩ (.bytes [7]), none⟩
      ∧ ∃ s1, cacheWrapper.expire sampleEnv cappedInner storeOfK ⟨0⟩ zeroOptions "k"
            (10 * Second) [WithSoftExpiration (5 * Second)] = .ret (s1, none)
          ∧ s1 "k" = some ⟨.item ⟨5, 10⟩ (.bytes [7]), some ⟨10 * Second⟩⟩ :=
  ⟨rfl, _, rfl, rfl⟩

/-! ## SetMany -/

theorem GoMap.lookup_of_mem {α : Type} :
    ∀ (m : GoMap α) (k : String) (v : α), (GoMap.keys m).Nodup → (k, v) ∈ m →
      GoMap.lookup m k = some v := by
  intro m
  induction m with
  | nil => intro k v _ h; cases h
  | cons e rest ih =>
    intro k v hnd hmem
    have hkeys : GoMap.keys (e :: rest) = e.1 :: GoMap.keys rest := rfl
    rw [hkeys] at hnd
    obtain ⟨hnot, hndr⟩ := List.nodup_cons.mp hnd
    unfold GoMap.lookup
    rcases List.mem_cons.mp hmem with h | h
    · subst h
      simp [List.find?]
    · have hk : k ∈ GoMap.keys rest := List.mem_map.mpr ⟨(k, v), h, rfl⟩
      have hne : ¬ e.1 = k := fun he => hnot (he ▸ hk)
      rw [List.find?_cons_of_neg _ (by simpa using hne)]
      exact ih k v hndr h

theorem GoMap.store_of_not_mem {α : Type} (m : GoMap α) (k : String) (v : α)
    (h : k ∉ GoMap.keys m) : GoMap.store m k v = m ++ [(k, v)] := by
  unfold GoMap.store
  have hany : ¬ List.any m (fun e => decide (e.1 = k)) = true := by
    intro ha
    obtain ⟨e, he, hk⟩ := List.any_eq_true.mp ha
    exact h (List.mem_map.mpr ⟨e, he, by simpa using hk⟩)
  rw [if_neg hany]

theorem GoMap.lookup_filterMap {α : Type} (h : String → Option α) (k : String) :
    ∀ l : List String,
      GoMap.lookup (l.filterMap fun k' => (h k').map fun e => (k', e)) k
        = if k ∈ l then h k else none := by
  intro l
  induction l with
  | nil => rfl
  | cons k0 l ih =>
    cases hk0 : h k0 with
    | none =>
      have hf : (k0 :: l).filterMap (fun k' => (h k').map fun e => (k', e))
          = l.filterMap (fun k' => (h k').map fun e => (k', e)) := by
        rw [List.filterMap_cons, hk0]; rfl
      rw [hf, ih]
      by_cases hk : k = k0
      · subst hk; simp [hk0]
      · simp [hk]
    | some e =>
      have hf : (k0 :: l).filterMap (fun k' => (h k').map fun e => (k', e))
          = (k0, e) :: l.filterMap (fun k' => (h k').map fun e => (k', e)) := by
        rw [List.filterMap_cons, hk0]; rfl
      rw [hf]
      by_cases hk : k0 = k
      · subst hk
        unfold GoMap.lookup
        simp [List.find?, hk0]
      · have hstep : GoMap.lookup ((k0, e) :: l.filterMap fun k' => (h k').map fun e => (k', e)) k
            = GoMap.lookup (l.filterMap fun k' => (h k').map fun e => (k', e)) k := by
          unfold GoMap.lookup
          rw [List.find?_cons_of_neg _ (by simpa using hk)]
        rw [hstep, ih]
        have : ¬ k = k0 := fun e => hk e.symm
        simp [this]

theorem setInner_same (s : Store) (now : Time) (k : String) (v : Value) (e : Int) :
    (RistrettoCache.setInner s now k v e) k
      = some ⟨v, if e ≤ 0 then none else some (now.Add e)⟩ := by
  unfold RistrettoCache.setInner ristrettoSetWithTTL
  by_cases h : e ≤ 0
  · simp [h]
  · have h1 : ¬ e < 0 := fun h' => h (le_of_lt h')
    have h2 : ¬ e = 0 := fun h' => h (le_of_eq h')
    simp [h, h1, h2]

theorem setInner_other (s : Store) (now : Time) (k k' : String) (v : Value) (e : Int)
    (hne : k' ≠ k) : (RistrettoCache.setInner s now k v e) k' = s k' := by
  unfold RistrettoCache.setInner ristrettoSetWithTTL
  by_cases h : e ≤ 0
  · simp [h, hne]
  · have h1 : ¬ e < 0 := fun h' => h (le_of_lt h')
    have h2 : ¬ e = 0 := fun h' => h (le_of_eq h')
    simp [h, h1, h2, hne]

theorem SetMany_spec (now : Time) (expire : Int) (expirationMap : Option (GoMap Int)) :
    ∀ (valueMap : GoMap Value) (s : Store), (GoMap.keys valueMap).Nodup →
      (∀ k v, (k, v) ∈ valueMap →
          (RistrettoCache.SetMany s now valueMap expire expirationMap) k
            = some ⟨v, if ((match expirationMap.bind fun m => GoMap.lookup m k with
                          | some exp => exp
                          | none => expire : Int)) ≤ 0 then none
                      else some (now.Add ((match expirationMap.bind fun m => GoMap.lookup m k with
                          | some exp => exp
                          | none => expire : Int)))⟩)
        ∧ ∀ k, k ∉ GoMap.keys valueMap →
            (RistrettoCache.SetMany s now valueMap expire expirationMap) k = s k := by
  intro valueMap
  induction valueMap with
  | nil => intro s _; exact ⟨fun _ _ h => (by cases h), fun _ _ => rfl⟩
  | cons e rest ih =>
    intro s hnd
    have hkeys : GoMap.keys (e :: rest) = e.1 :: GoMap.keys rest := rfl
    rw [hkeys] at hnd
    obtain ⟨hnot, hndr⟩ := List.nodup_cons.mp hnd
    have hstep : RistrettoCache.SetMany s now (e :: rest) expire expirationMap
        = RistrettoCache.SetMany (RistrettoCache.setInner s now e.1 e.2
            (match expirationMap.bind fun m => GoMap.lookup m e.1 with
              | some exp => exp
              | none => expire)) now rest expire expirationMap := rfl
    rw [hstep]
    obtain ⟨ih1, ih2⟩ := ih (RistrettoCache.setInner s now e.1 e.2
            (match expirationMap.bind fun m => GoMap.lookup m e.1 with
              | some exp => exp
              | none => expire)) hndr
    constructor
    · intro k v hmem
      rcases List.mem_cons.mp hmem with h | h
      · subst h
        rw [ih2 _ hnot, setInner_same]
      · exact ih1 k v h
    · intro k hk
      rw [hkeys] at hk
      have hne : k ≠ e.1 := fun h => hk (by rw [h]; exact List.mem_cons_self _ _)
      rw [ih2 k (fun h => hk (List.mem_cons_of_mem _ h)), setInner_other _ _ _ _ _ _ hne]

theorem encode_inMemory_ret (lib : CompressionLib) (c : cacheWrapperInner) (now : Time)
    (val : Value) (option : cacheOperationOptions) (hmem : c.cacheType = inMemory) :
    ∃ stored, c.encode lib now val option = .ret (stored, none) := by
  obtain ⟨stored, h, _⟩ := encode_decode_inMemory lib c now val option hmem
  exact ⟨stored, h⟩

theorem setManyLoop_spec (env : Env) (inner : cacheWrapperInner) (now : Time)
    (valueMap : GoMap Value) (expire : Int) (O : cacheOperationOptions)
    (hmem : inner.cacheType = inMemory) (hnd : (GoMap.keys valueMap).Nodup) :
    ∀ (ks pre : List String) (x : Int) (nvm : GoMap Value) (em : GoMap Int),
      pre ++ ks = GoMap.keys valueMap → GoMap.keys nvm = pre →
      (∀ k ∈ GoMap.keys em, k ∈ pre) →
      ∃ r, setManyLoop env inner now valueMap expire (GoMap.keys valueMap) ks pre.length
              ⟨none, { O with hardExpiration := x }, nvm, em⟩ = .ret r
        ∧ (r.err = none →
            ∃ f : String → Value,
              r.newValueMap = nvm ++ ks.map (fun k => (k, f k))
              ∧ r.expirationMap = em ++ ks.filterMap (fun k =>
                  ((O.expirationMap.bind fun m => GoMap.lookup m k).map
                    inner.translateExpire).map fun e => (k, e))
              ∧ ∀ k ∈ ks, ∃ data,
                  inner.convertValueToCacheData env.codecs
                      ((GoMap.lookup valueMap k).getD .nil) O = (data, none)
                  ∧ inner.encode env.lib now data
                      { O with hardExpiration :=
                          ((match O.expirationMap.bind fun m => GoMap.lookup m k with
                            | some exp => inner.translateExpire exp
                            | none => expire : Int)) } = .ret (f k, none)) := by
  intro ks
  induction ks with
  | nil =>
    intro pre x nvm em _ _ _
    refine ⟨_, rfl, fun _ => ⟨fun _ => .nil, ?_, ?_, ?_⟩⟩
    · simp
    · simp
    · intro k hk; cases hk
  | cons k rest ih =>
    intro pre x nvm em hpre hnvm hem
    have hget : (GoMap.keys valueMap).get? pre.length = some k := by
      rw [← hpre, List.get?_eq_getElem?, List.getElem?_append_right (Nat.le_refl _), Nat.sub_self]
      exact List.getElem?_cons_zero
    have hnd' : (pre ++ k :: rest).Nodup := by rw [hpre]; exact hnd
    have hkpre : k ∉ pre := by
      intro h
      have := (List.nodup_append.mp hnd').2.2
      exact this h (List.mem_cons_self _ _)
    have hkrest : k ∉ rest := by
      have := (List.nodup_append.mp hnd').2.1
      exact (List.nodup_cons.mp this).1
    have happ : (pre ++ [k]) ++ rest = GoMap.keys valueMap := by
      rw [← hpre]; simp
    have hlen : pre.length + 1 = (pre ++ [k]).length := by simp
    rw [setManyLoop, hget]
    dsimp only
    have hconv : inner.convertValueToCacheData env.codecs ((GoMap.lookup valueMap k).getD .nil)
        { O with hardExpiration := x }
        = inner.convertValueToCacheData env.codecs ((GoMap.lookup valueMap k).getD .nil) O := rfl
    rw [hconv]
    rcases hc : inner.convertValueToCacheData env.codecs ((GoMap.lookup valueMap k).getD .nil) O
      with ⟨data, _ | err⟩
    · dsimp only
      obtain ⟨stored, henc⟩ := encode_inMemory_ret env.lib inner now data
        { O with hardExpiration :=
            ((match O.expirationMap.bind fun m => GoMap.lookup m k with
              | some exp => inner.translateExpire exp
              | none => expire : Int)) } hmem
      have hstore : GoMap.store nvm k stored = nvm ++ [(k, stored)] :=
        GoMap.store_of_not_mem nvm k stored (by rw [hnvm]; exact hkpre)
      have hkem : k ∉ GoMap.keys em := fun h => hkpre (hem k h)
      cases hov : O.expirationMap.bind fun m => GoMap.lookup m k with
      | none =>
        rw [hov] at henc
        dsimp only at henc ⊢
        rw [henc, Outcome.ret_bind]
        dsimp only
        rw [hstore, hlen]
        obtain ⟨r, hr, hrest⟩ := ih (pre ++ [k]) expire (nvm ++ [(k, stored)]) em happ
          (by unfold GoMap.keys at hnvm ⊢; rw [List.map_append, hnvm]; rfl)
          (fun k' hk' => List.mem_append_left _ (hem k' hk'))
        refine ⟨r, hr, fun herr => ?_⟩
        obtain ⟨f, hf1, hf2, hf3⟩ := hrest herr
        refine ⟨fun y => if y = k then stored else f y, ?_, ?_, ?_⟩
        · rw [hf1, List.append_assoc, List.map_cons]
          congr 1
          simp only [List.singleton_append, if_true]
          congr 1
          apply List.map_congr_left
          intro y hy
          have : y ≠ k := fun e => hkrest (e ▸ hy)
          simp [this]
        · rw [hf2]
          congr 1
          have : (k :: rest).filterMap (fun k =>
              ((O.expirationMap.bind fun m => GoMap.lookup m k).map
                inner.translateExpire).map fun e => (k, e))
              = rest.filterMap (fun k =>
              ((O.expirationMap.bind fun m => GoMap.lookup m k).map
                inner.translateExpire).map fun e => (k, e)) := by
            rw [List.filterMap_cons, hov]; rfl
          rw [this]
        · intro y hy
          rcases List.mem_cons.mp hy with h | h
          · subst h
            refine ⟨data, hc, ?_⟩
            rw [hov]
            dsimp only
            rw [if_pos rfl]
            exact henc
          · have hne : y ≠ k := fun e => hkrest (e ▸ h)
            obtain ⟨d, hd1, hd2⟩ := hf3 y h
            refine ⟨d, hd1, ?_⟩
            dsimp only
            rw [if_neg hne]
            exact hd2
      | some e =>
        rw [hov] at henc
        dsimp only at henc ⊢
        rw [henc, Outcome.ret_bind]
        dsimp only
        rw [hstore, hlen, GoMap.store_of_not_mem em k (inner.translateExpire e) hkem]
        obtain ⟨r, hr, hrest⟩ := ih (pre ++ [k]) (inner.translateExpire e)
          (nvm ++ [(k, stored)]) (em ++ [(k, inner.translateExpire e)]) happ
          (by unfold GoMap.keys at hnvm ⊢; rw [List.map_append, hnvm]; rfl)
          (fun k' hk' => by
            unfold GoMap.keys at hk'
            rw [List.map_append, List.mem_append] at hk'
            rcases hk' with h | h
            · exact List.mem_append_left _ (hem k' h)
            · simp at h; rw [h]; simp)
        refine ⟨r, hr, fun herr => ?_⟩
        obtain ⟨f, hf1, hf2, hf3⟩ := hrest herr
        refine ⟨fun y => if y = k then stored else f y, ?_, ?_, ?_⟩
        · rw [hf1, List.append_assoc, List.map_cons]
          congr 1
          simp only [List.singleton_append, if_true]
          congr 1
          apply List.map_congr_left
          intro y hy
          have : y ≠ k := fun e => hkrest (e ▸ hy)
          simp [this]
        · rw [hf2, List.append_assoc]
          congr 1
          have : (k :: rest).filterMap (fun k =>
              ((O.expirationMap.bind fun m => GoMap.lookup m k).map
                inner.translateExpire).map fun e => (k, e))
              = (k, inner.translateExpire e) :: rest.filterMap (fun k =>
              ((O.expirationMap.bind fun m => GoMap.lookup m k).map
                inner.translateExpire).map fun e => (k, e)) := by
            rw [List.filterMap_cons, hov]; rfl
          rw [this]
          rfl
        · intro y hy
          rcases List.mem_cons.mp hy with h | h
          · subst h
            refine ⟨data, hc, ?_⟩
            rw [hov]
            dsimp only
            rw [if_pos rfl]
            exact henc
          · have hne : y ≠ k := fun e => hkrest (e ▸ h)
            obtain ⟨d, hd1, hd2⟩ := hf3 y h
            refine ⟨d, hd1, ?_⟩
            dsimp only
            rw [if_neg hne]
            exact hd2
    · exact ⟨_, rfl, fun h => by simp at h⟩

theorem setManyLoop_err_none (env : Env) (inner : cacheWrapperInner) (now : Time)
    (valueMap : GoMap Value) (expire : Int) (O : cacheOperationOptions)
    (hmem : inner.cacheType = inMemory) :
    ∀ (ks pre : List String) (x : Int) (nvm : GoMap Value) (em : GoMap Int),
      pre ++ ks = GoMap.keys valueMap →
      (∀ k ∈ ks, (inner.convertValueToCacheData env.codecs
          ((GoMap.lookup valueMap k).getD .nil) O).2 = none) →
      ∀ r, setManyLoop env inner now valueMap expire (GoMap.keys valueMap) ks pre.length
              ⟨none, { O with hardExpiration := x }, nvm, em⟩ = .ret r → r.err = none := by
  intro ks
  induction ks with
  | nil =>
    intro pre x nvm em _ _ r hr
    cases hr
    rfl
  | cons k rest ih =>
    intro pre x nvm em hpre hconv r hr
    have hget : (GoMap.keys valueMap).get? pre.length = some k := by
      rw [← hpre, List.get?_eq_getElem?, List.getElem?_append_right (Nat.le_refl _), Nat.sub_self]
      exact List.getElem?_cons_zero
    have happ : (pre ++ [k]) ++ rest = GoMap.keys valueMap := by
      rw [← hpre]; simp
    have hlen : pre.length + 1 = (pre ++ [k]).length := by simp
    rw [setManyLoop, hget] at hr
    dsimp only at hr
    have hsame : inner.convertValueToCacheData env.codecs ((GoMap.lookup valueMap k).getD .nil)
        { O with hardExpiration := x }
        = inner.convertValueToCacheData env.codecs ((GoMap.lookup valueMap k).getD .nil) O := rfl
    rw [hsame] at hr
    have hk := hconv k (List.mem_cons_self _ _)
    rcases hc : inner.convertValueToCacheData env.codecs ((GoMap.lookup valueMap k).getD .nil) O
      with ⟨data, _ | err⟩
    · rw [hc] at hr
      dsimp only at hr
      obtain ⟨stored, henc⟩ := encode_inMemory_ret env.lib inner now data
        { O with hardExpiration :=
            ((match O.expirationMap.bind fun m => GoMap.lookup m k with
              | some exp => inner.translateExpire exp
              | none => expire : Int)) } hmem
      cases hov : O.expirationMap.bind fun m => GoMap.lookup m k with
      | none =>
        rw [hov] at henc hr
        dsimp only at henc hr
        rw [henc, Outcome.ret_bind] at hr
        dsimp only at hr
        rw [hlen] at hr
        exact ih (pre ++ [k]) _ _ _ happ (fun k' hk' => hconv k' (List.mem_cons_of_mem _ hk')) r hr
      | some e =>
        rw [hov] at henc hr
        dsimp only at henc hr
        rw [henc, Outcome.ret_bind] at hr
        dsimp only at hr
        rw [hlen] at hr
        exact ih (pre ++ [k]) _ _ _ happ (fun k' hk' => hconv k' (List.mem_cons_of_mem _ hk')) r hr
    · rw [hc] at hk
      cases hk

/-- On an open, enabled in-memory snapshot `setMany` returns, and when it returns
no error then every key `k` of the value map has been written with the effective
expiration `translateExpire(expirationMap[k])` when `k` is in the option's
`expirationMap` and `translateExpire(expire)` otherwise: the value stored under `k` is
what `encode` makes of the converted value with `hardExpiration` set to that effective
expiration (for an envelope, its hard timestamp is the one `encode` computes from it),
and the store holds it with that same effective expiration as time to live (none when
it is not positive); the keys outside the value map are untouched. -/
theorem setMany_written (env : Env) (inner : cacheWrapperInner) (s : Store) (now : Time)
    (pooled : cacheOperationOptions) (valueMap : GoMap Value) (expire : Int)
    (opts : List OperationOption) (option : cacheOperationOptions)
    (hoption : option = applyOpts opts (newCacheOperationOptions env pooled))
    (hopen : inner.isClosed ≠ 1) (hen : inner.isDisabled = false)
    (hmem : inner.cacheType = inMemory) (hnd : (GoMap.keys valueMap).Nodup) :
    ∃ r, cacheWrapper.setMany env inner s now pooled valueMap expire opts = .ret r
      ∧ (r.2 = none →
          (∀ k v, (k, v) ∈ valueMap → ∃ data stored,
              inner.convertValueToCacheData env.codecs v option = (data, none)
              ∧ inner.encode env.lib now data { option with hardExpiration := (effectiveExpiration inner option.expirationMap expire k) }
                  = .ret (stored, none)
              ∧ (option.skipEncodeDecode = false →
                  stored = .item ⟨encodeSoftTimeoutTs now { option with hardExpiration := (effectiveExpiration inner option.expirationMap expire k) },
                      encodeHardTimeoutTs now { option with hardExpiration := (effectiveExpiration inner option.expirationMap expire k) }⟩ data)
              ∧ r.1 k = some ⟨stored,
                  if effectiveExpiration inner option.expirationMap expire k ≤ 0 then none
                  else some (now.Add (effectiveExpiration inner option.expirationMap expire k))⟩)
          ∧ ∀ k, k ∉ GoMap.keys valueMap → r.1 k = s k) := by
  have hclosed : inner.isCacheClosed = false := by
    unfold cacheWrapperInner.isCacheClosed; simpa using hopen
  have hdis : inner.isDisabledCtxOrConfig = false := by
    unfold cacheWrapperInner.isDisabledCtxOrConfig; rw [hen]; rfl
  unfold cacheWrapper.setMany
  simp only [hclosed, hdis, Bool.false_eq_true, if_false]
  rw [← hoption]
  by_cases hlen : valueMap.length = 0
  · rw [if_pos hlen]
    have : valueMap = [] := List.length_eq_zero.mp hlen
    subst this
    exact ⟨(s, none), rfl, fun _ => ⟨fun _ _ h => (by cases h), fun _ _ => rfl⟩⟩
  · rw [if_neg hlen]
    unfold cacheWrapper.setManyInner cacheWrapperInner.getFixedKeys
    dsimp only
    obtain ⟨r, hr, hspec⟩ := setManyLoop_spec env inner now valueMap
      (inner.translateExpire expire) option hmem hnd (GoMap.keys valueMap) []
      option.hardExpiration [] [] (List.nil_append _) rfl (fun _ h => (by cases h))
    have hr' : setManyLoop env inner now valueMap (inner.translateExpire expire)
        (GoMap.keys valueMap) (GoMap.keys valueMap) 0
        { err := none, option := option, newValueMap := [], expirationMap := [] } = .ret r := hr
    rw [hr', Outcome.ret_bind]
    cases herr : r.err with
    | some err => exact ⟨(s, some err), rfl, fun h => by simp at h⟩
    | none =>
      dsimp only
      obtain ⟨f, hf1, hf2, hf3⟩ := hspec herr
      rw [List.nil_append] at hf1 hf2
      have hset : inMemoryCacheInner.setMany s now r.newValueMap (inner.translateExpire expire)
          [withNoReply r.option.noReply, withExpirationMap (some r.expirationMap),
            withWaitRistretto r.option.waitRistretto]
          = (RistrettoCache.SetMany s now r.newValueMap (inner.translateExpire expire)
              (some r.expirationMap), none) := rfl
      rw [hset]
      have hkeys : GoMap.keys r.newValueMap = GoMap.keys valueMap := by
        rw [hf1]
        unfold GoMap.keys
        rw [List.map_map]
        exact List.map_id _
      obtain ⟨hs1, hs2⟩ := SetMany_spec now (inner.translateExpire expire)
        (some r.expirationMap) r.newValueMap s (by rw [hkeys]; exact hnd)
      refine ⟨_, rfl, fun _ => ⟨?_, ?_⟩⟩
      · intro k v hmemkv
        have hk : k ∈ GoMap.keys valueMap := List.mem_map.mpr ⟨(k, v), hmemkv, rfl⟩
        obtain ⟨data, hd1, hd2⟩ := hf3 k hk
        rw [GoMap.lookup_of_mem valueMap k v hnd hmemkv] at hd1
        have hE : ((match (some r.expirationMap).bind fun m => GoMap.lookup m k with
              | some exp => exp
              | none => inner.translateExpire expire : Int))
            = effectiveExpiration inner option.expirationMap expire k := by
          have hl : ((some r.expirationMap).bind fun m => GoMap.lookup m k)
              = (option.expirationMap.bind fun m => GoMap.lookup m k).map
                  inner.translateExpire := by
            show GoMap.lookup r.expirationMap k = _
            rw [hf2, GoMap.lookup_filterMap (fun k' =>
              (option.expirationMap.bind fun m => GoMap.lookup m k').map inner.translateExpire) k,
              if_pos hk]
          rw [hl]
          unfold effectiveExpiration
          cases option.expirationMap.bind fun m => GoMap.lookup m k <;> rfl
        have hE2 : ((match option.expirationMap.bind fun m => GoMap.lookup m k with
              | some exp => inner.translateExpire exp
              | none => inner.translateExpire expire : Int))
            = effectiveExpiration inner option.expirationMap expire k := rfl
        rw [hE2] at hd2
        refine ⟨data, f k, hd1, hd2, ?_, ?_⟩
        · intro hskip
          have := encode_inMemory env.lib inner now data { option with hardExpiration := (effectiveExpiration inner option.expirationMap expire k) } hmem hskip
          rw [hd2] at this
          exact (Prod.mk.inj (Outcome.ret.inj this)).1
        · have hmemf : (k, f k) ∈ r.newValueMap := by
            rw [hf1]
            exact List.mem_map.mpr ⟨k, hk, rfl⟩
          have := hs1 k (f k) hmemf
          rw [hE] at this
          exact this
      · intro k hk
        exact hs2 k (by rw [hkeys]; exact hk)

theorem setMany_err_none (env : Env) (inner : cacheWrapperInner) (s : Store) (now : Time)
    (pooled : cacheOperationOptions) (valueMap : GoMap Value) (expire : Int)
    (opts : List OperationOption) (option : cacheOperationOptions)
    (hoption : option = applyOpts opts (newCacheOperationOptions env pooled))
    (hopen : inner.isClosed ≠ 1) (hen : inner.isDisabled = false)
    (hmem : inner.cacheType = inMemory) (hnd : (GoMap.keys valueMap).Nodup)
    (hconv : ∀ k v, (k, v) ∈ valueMap →
      (inner.convertValueToCacheData env.codecs v option).2 = none) :
    ∀ r, cacheWrapper.setMany env inner s now pooled valueMap expire opts = .ret r →
      r.2 = none := by
  have hclosed : inner.isCacheClosed = false := by
    unfold cacheWrapperInner.isCacheClosed; simpa using hopen
  have hdis : inner.isDisabledCtxOrConfig = false := by
    unfold cacheWrapperInner.isDisabledCtxOrConfig; rw [hen]; rfl
  intro r hr
  unfold cacheWrapper.setMany at hr
  simp only [hclosed, hdis, Bool.false_eq_true, if_false] at hr
  rw [← hoption] at hr
  by_cases hlen : valueMap.length = 0
  · rw [if_pos hlen] at hr
    cases hr
    rfl
  · rw [if_neg hlen] at hr
    unfold cacheWrapper.setManyInner cacheWrapperInner.getFixedKeys at hr
    dsimp only at hr
    have hconv' : ∀ k ∈ GoMap.keys valueMap, (inner.convertValueToCacheData env.codecs
        ((GoMap.lookup valueMap k).getD .nil) option).2 = none := by
      intro k hk
      obtain ⟨⟨k', v⟩, hkv, rfl⟩ := List.mem_map.mp hk
      rw [GoMap.lookup_of_mem valueMap k' v hnd hkv]
      exact hconv k' v hkv
    have hnone := setManyLoop_err_none env inner now valueMap (inner.translateExpire expire)
      option hmem (GoMap.keys valueMap) [] option.hardExpiration [] [] (List.nil_append _) hconv'
    cases hl : setManyLoop env inner now valueMap (inner.translateExpire expire)
        (GoMap.keys valueMap) (GoMap.keys valueMap) 0
        { err := none, option := option, newValueMap := [], expirationMap := [] } with
    | ret st =>
      rw [hl, Outcome.ret_bind] at hr
      have hst : st.err = none := hnone st hl
      rw [hst] at hr
      cases hr
      rfl
    | fault f => rw [hl] at hr; cases hr
    | outOfFuel => rw [hl] at hr; cases hr

/-- C23: on an open, enabled in-memory snapshot, when the codec accepts every value of
the value map, `setMany` returns the nil error and every key `k` of the value map has
been written with the effective expiration `translateExpire(expirationMap[k])` when `k`
is in the option's `expirationMap` and `translateExpire(expire)` otherwise: the value
stored under `k` is what `encode` makes of the converted value with `hardExpiration`
set to that effective expiration (for an envelope, its hard timestamp is the one
`encode` computes from it), and the store holds it with that same effective expiration
as time to live (none when it is not positive); the keys outside the value map are
untouched. -/
theorem setMany_expirations (env : Env) (inner : cacheWrapperInner) (s : Store) (now : Time)
    (pooled : cacheOperationOptions) (valueMap : GoMap Value) (expire : Int)
    (opts : List OperationOption) (option : cacheOperationOptions)
    (hoption : option = applyOpts opts (newCacheOperationOptions env pooled))
    (hopen : inner.isClosed ≠ 1) (hen : inner.isDisabled = false)
    (hmem : inner.cacheType = inMemory) (hnd : (GoMap.keys valueMap).Nodup)
    (hconv : ∀ k v, (k, v) ∈ valueMap →
      (inner.convertValueToCacheData env.codecs v option).2 = none) :
    ∃ st, cacheWrapper.setMany env inner s now pooled valueMap expire opts = .ret (st, none)
      ∧ (∀ k v, (k, v) ∈ valueMap → ∃ data stored,
          inner.convertValueToCacheData env.codecs v option = (data, none)
          ∧ inner.encode env.lib now data { option with hardExpiration := (effectiveExpiration inner option.expirationMap expire k) }
              = .ret (stored, none)
          ∧ (option.skipEncodeDecode = false →
              stored = .item ⟨encodeSoftTimeoutTs now { option with hardExpiration := (effectiveExpiration inner option.expirationMap expire k) },
                  encodeHardTimeoutTs now { option with hardExpiration := (effectiveExpiration inner option.expirationMap expire k) }⟩ data)
          ∧ st k = some ⟨stored,
              if effectiveExpiration inner option.expirationMap expire k ≤ 0 then none
              else some (now.Add (effectiveExpiration inner option.expirationMap expire k))⟩)
      ∧ ∀ k, k ∉ GoMap.keys valueMap → st k = s k := by
  obtain ⟨r, hr, hspec⟩ := setMany_written env inner s now pooled valueMap expire opts option
    hoption hopen hen hmem hnd
  have herr := setMany_err_none env inner s now pooled valueMap expire opts option
    hoption hopen hen hmem hnd hconv r hr
  obtain ⟨st, e⟩ := r
  cases herr
  exact ⟨st, hr, hspec rfl⟩

/-- Witness of C23: two keys, a shared expiration of 10 s and an override of 7200 s for
"b", on a wrapper capped at one hour. -/
theorem setMany_expirations_witness :
    ∃ st, cacheWrapper.setMany sampleEnv cappedInner emptyStore ⟨0⟩ zeroOptions
          [("a", .bytes [1]), ("b", .bytes [2])] (10 * Second)
          [WithExpirationMap (some [("b", 7200 * Second)])] = .ret (st, none)
      ∧ (∀ k v, (k, v) ∈ ([("a", .bytes [1]), ("b", .bytes [2])] : GoMap Value) →
            ∃ data stored,
              cappedInner.convertValueToCacheData sampleEnv.codecs v
                  (applyOpts [WithExpirationMap (some [("b", 7200 * Second)])]
                    (newCacheOperationOptions sampleEnv zeroOptions)) = (data, none)
              ∧ cappedInner.encode sampleEnv.lib ⟨0⟩ data
                  { applyOpts [WithExpirationMap (some [("b", 7200 * Second)])]
                      (newCacheOperationOptions sampleEnv zeroOptions) with
                    hardExpiration := (effectiveExpiration cappedInner
                      (applyOpts [WithExpirationMap (some [("b", 7200 * Second)])]
                        (newCacheOperationOptions sampleEnv zeroOptions)).expirationMap
                      (10 * Second) k) }
                  = .ret (stored, none)
              ∧ ((applyOpts [WithExpirationMap (some [("b", 7200 * Second)])]
                    (newCacheOperationOptions sampleEnv zeroOptions)).skipEncodeDecode = false →
                  stored = .item ⟨encodeSoftTimeoutTs ⟨0⟩
                      { applyOpts [WithExpirationMap (some [("b", 7200 * Second)])]
                          (newCacheOperationOptions sampleEnv zeroOptions) with
                        hardExpiration := (effectiveExpiration cappedInner
                          (applyOpts [WithExpirationMap (some [("b", 7200 * Second)])]
                            (newCacheOperationOptions sampleEnv zeroOptions)).expirationMap
                          (10 * Second) k) },
                    encodeHardTimeoutTs ⟨0⟩
                      { applyOpts [WithExpirationMap (some [("b", 7200 * Second)])]
                          (newCacheOperationOptions sampleEnv zeroOptions) with
                        hardExpiration := (effectiveExpiration cappedInner
                          (applyOpts [WithExpirationMap (some [("b", 7200 * Second)])]
                            (newCacheOperationOptions sampleEnv zeroOptions)).expirationMap
                          (10 * Second) k) }⟩ data)
              ∧ st k = some ⟨stored,
                  if effectiveExpiration cappedInner
                      (applyOpts [WithExpirationMap (some [("b", 7200 * Second)])]
                        (newCacheOperationOptions sampleEnv zeroOptions)).expirationMap
                      (10 * Second) k ≤ 0 then none
                  else some (Time.Add ⟨0⟩ (effectiveExpiration cappedInner
                      (applyOpts [WithExpirationMap (some [("b", 7200 * Second)])]
                        (newCacheOperationOptions sampleEnv zeroOptions)).expirationMap
                      (10 * Second) k))⟩)
      ∧ ∀ k, k ∉ GoMap.keys ([("a", .bytes [1]), ("b", .bytes [2])] : GoMap Value) →
          st k = emptyStore k :=
  setMany_expirations sampleEnv cappedInner emptyStore ⟨0⟩ zeroOptions
    [("a", .bytes [1]), ("b", .bytes [2])] (10 * Second)
    [WithExpirationMap (some [("b", 7200 * Second)])]
    (applyOpts [WithExpirationMap (some [("b", 7200 * Second)])]
      (newCacheOperationOptions sampleEnv zeroOptions))
    rfl (by decide) rfl rfl (by decide)
    (by
      intro k v h
      simp only [List.mem_cons, List.mem_singleton, Prod.mk.injEq, List.not_mem_nil,
        or_false] at h
      rcases h with ⟨_, rfl⟩ | ⟨_, rfl⟩ <;> rfl)

set_option maxRecDepth 100000 in
/-- The two expirations on a concrete call: with a shared expiration of 10 s and an
override of 7200 s for "b" on a wrapper capped at one hour, "a" is stored with hard
timestamp 10 and a time to live of 10 s, "b" with hard timestamp 3600 and one hour. -/
theorem setMany_expirations_example :
    ∃ st, cacheWrapper.setMany sampleEnv cappedInner emptyStore ⟨0⟩ zeroOptions
          [("a", .bytes [1]), ("b", .bytes [2])] (10 * Second)
          [WithExpirationMap (some [("b", 7200 * Second)])] = .ret (st, none)
      ∧ st "a" = some ⟨.item ⟨0, 10⟩ (.bytes [1]), some (Time.Add ⟨0⟩ (10 * Second))⟩
      ∧ st "b" = some ⟨.item ⟨0, 3600⟩ (.bytes [2]), some (Time.Add ⟨0⟩ (3600 * Second))⟩ :=
  ⟨_, rfl, by decide, by decide⟩

/-! ## Validation of the stampede strategy -/

set_option maxRecDepth 100000 in
/-- C31, the failing input: `ManufacturerConfig.Validate(InMemory)` rejects every
configuration that selects `AcrossInstanceSignal`, but `Config.Validate` of an
in-memory configuration gives the same answer whatever its `ManufacturerConfig` is;
the configuration `acrossInstanceConfig`, which selects `AcrossInstanceSignal`, passes
`Config.Validate`, `NewInMemoryCache` returns a cache for it and `UpdateConfig`
accepts it. -/
theorem across_instance_signal_not_validated :
    (∀ a : AcrossInstanceSignalConfig,
        ManufacturerConfig.Validate (some ⟨AcrossInstanceSignal, a⟩) InMemory
          = some (.cacheErr
              "across_instance_strategy_does_not_support_inmemory_or_multilayer_with_outermost_inmemory"))
      ∧ (∀ (c : InMemoryCacheConfig) (mc : ManufacturerConfig),
          ({ c with ManufacturerConfig := mc } : InMemoryCacheConfig).Config.Validate
            = c.Config.Validate)
      ∧ acrossInstanceConfig.ManufacturerConfig.CacheStampedeMitigation = AcrossInstanceSignal
      ∧ ManufacturerConfig.Validate (some acrossInstanceConfig.ManufacturerConfig) InMemory ≠ none
      ∧ acrossInstanceConfig.Config.Validate = none
      ∧ (NewInMemoryCache "c" acrossInstanceConfig).2 = none
      ∧ (NewInMemoryCache "c" acrossInstanceConfig).1.isSome = true
      ∧ (InMemoryCache.UpdateConfig cappedWrapper acrossInstanceConfig).2 = none := by
  refine ⟨fun a => rfl, fun c mc => rfl, rfl, by decide, rfl, rfl, rfl, rfl⟩

/-! ## In-memory record -/

/-- C32: for every value `v` and all timestamps, `inMemoryEncode` returns the record
`{header: {soft_ts, hard_ts}, value: v}` without error and `inMemoryDecode` of that
record returns `v` with the header `{soft_ts, hard_ts}` and no error; `inMemoryDecode`
of a stored value that is not an in-memory record returns the nil value, the empty
header and the error `unknown_data_from_inMemoryCache`. -/
theorem inMemory_round_trip (v : Value) (soft hard : Int) (value : Value)
    (hnot : ∀ h x, value ≠ .item h x) :
    inMemoryEncode v [withSoftTimeoutTs soft, withHardTimeoutTs hard]
        = (.item ⟨soft, hard⟩ v, none)
      ∧ inMemoryDecode (inMemoryEncode v [withSoftTimeoutTs soft, withHardTimeoutTs hard]).1
        = (v, ⟨soft, hard⟩, none)
      ∧ inMemoryDecode value
        = (.nil, {}, some (.cacheErr "unknown_data_from_inMemoryCache")) := by
  have henc : inMemoryEncode v [withSoftTimeoutTs soft, withHardTimeoutTs hard]
      = (.item ⟨soft, hard⟩ v, none) := by
    unfold inMemoryEncode
    have ho : applyOpts [withSoftTimeoutTs soft, withHardTimeoutTs hard] newProtocolOption
        = { softTimeoutTs := soft, hardTimeoutTs := hard } := rfl
    rw [ho]
    dsimp only
    by_cases hs : soft = 0 <;> by_cases hh : hard = 0 <;> simp [hs, hh]
  refine ⟨henc, ?_, ?_⟩
  · rw [henc]; rfl
  · cases value with
    | item h x => exact absurd rfl (hnot h x)
    | nil => rfl
    | bytes b => rfl
    | obj tag => rfl

/-- Witness of C32: the bytes `[7]` with the timestamps 5 and 0; the stored value that
is not a record is a byte slice. -/
theorem inMemory_round_trip_witness :
    inMemoryEncode (.bytes [7]) [withSoftTimeoutTs 5, withHardTimeoutTs 0]
        = (.item ⟨5, 0⟩ (.bytes [7]), none)
      ∧ inMemoryDecode (inMemoryEncode (.bytes [7]) [withSoftTimeoutTs 5, withHardTimeoutTs 0]).1
        = (.bytes [7], ⟨5, 0⟩, none)
      ∧ inMemoryDecode (.bytes [1])
        = (.nil, {}, some (.cacheErr "unknown_data_from_inMemoryCache")) :=
  inMemory_round_trip (.bytes [7]) 5 0 (.bytes [1]) (fun _ _ h => Value.noConfusion h)

/-! ## Receiver errors -/

/-- C33: `setCacheDataToReceiver` with a nil receiver returns `receiver_is_nil` for
every datum and option record and sets nothing; with a receiver that is not nil,
outside the in-memory `skipCodec` path, it returns `pass_non_bytes_to_codec` for every
datum that is not a byte slice and sets nothing. -/
theorem setCacheDataToReceiver_errors (codecs : CodecLib) (c : cacheWrapperInner)
    (data : Value) (receiver : Receiver) (option : cacheOperationOptions)
    (hpath : ¬ (c.cacheType = inMemory ∧ option.skipCodec = true))
    (hdata : ∀ b, data ≠ .bytes b) :
    (∀ (data1 : Value) (option1 : cacheOperationOptions),
        c.setCacheDataToReceiver codecs data1 none option1 = (some errNilReceiver, none))
      ∧ c.setCacheDataToReceiver codecs data (some receiver) option
        = (some errPassNonBytesToCodec, none) := by
  refine ⟨fun _ _ => rfl, ?_⟩
  unfold cacheWrapperInner.setCacheDataToReceiver
  dsimp only
  rw [if_neg hpath]
  cases data with
  | bytes b => exact absurd rfl (hdata b)
  | nil => rfl
  | obj tag => rfl
  | item h x => rfl

/-- Witness of C33: an in-memory snapshot, options without `skipCodec`, and a datum
that is an object. -/
theorem setCacheDataToReceiver_errors_witness :
    (∀ (data1 : Value) (option1 : cacheOperationOptions),
        cappedInner.setCacheDataToReceiver bytesCodecs data1 none option1
          = (some errNilReceiver, none))
      ∧ cappedInner.setCacheDataToReceiver bytesCodecs (.obj 1) (some anyReceiver) zeroOptions
        = (some errPassNonBytesToCodec, none) :=
  setCacheDataToReceiver_errors bytesCodecs cappedInner (.obj 1) anyReceiver zeroOptions
    (by decide) (fun _ h => Value.noConfusion h)

/-! ## Expirations of a snapshot -/

theorem mulInt64_of_bounds (a b : Int) (h0 : 0 ≤ a * b) (h1 : a * b < 2 ^ 63) :
    mulInt64 a b = a * b := by
  unfold mulInt64
  exact toInt64_toUint64 ⟨by omega, h1⟩

theorem translateExpire_fixed (c : cacheWrapperInner) (x : Int) (hx : x ≠ DefaultExpiration)
    (hb : c.maxExpiration = 0 ∨ x ≤ c.maxExpiration) : c.translateExpire x = x := by
  unfold cacheWrapperInner.translateExpire
  unfold DefaultExpiration at hx
  unfold DefaultExpiration NoExpiration
  dsimp only
  split_ifs <;> omega

theorem translateExpire_range (c : cacheWrapperInner) (e : Int) (hd : 0 < c.defaultExpiration)
    (hm : 0 ≤ c.maxExpiration) :
    c.translateExpire e ≠ DefaultExpiration
      ∧ (c.maxExpiration = 0 ∨ c.translateExpire e ≤ c.maxExpiration) := by
  unfold cacheWrapperInner.translateExpire
  unfold DefaultExpiration NoExpiration
  dsimp only
  split_ifs <;> omega

/-- C38: for every in-memory configuration that passes `Validate` and whose two
expirations in seconds, taken to nanoseconds, stay below 2^63, every snapshot filled
from it (by `newCacheWrapperInner` or by `updateConfig`) has a positive default
expiration, 86400 s when `DefaultExpirationSecs` is 0, and a `translateExpire` that
never returns `DefaultExpiration` and is idempotent. -/
theorem translateExpire_idempotent (name : String) (config : Config)
    (hvalid : config.Validate = none)
    (hD : config.InMemory.DefaultExpirationSecs * Second < 2 ^ 63)
    (hM : config.InMemory.MaxExpirationSecs * Second < 2 ^ 63) :
    newCacheWrapperInner name config
        = (some (fillCacheWrapperInnerFieldsWithInMemConfig config.InMemory
            { name := name, isClosed := 0 }), none)
      ∧ ∀ base : cacheWrapperInner,
          0 < (fillCacheWrapperInnerFieldsWithInMemConfig config.InMemory base).defaultExpiration
          ∧ (config.InMemory.DefaultExpirationSecs = 0 →
              (fillCacheWrapperInnerFieldsWithInMemConfig config.InMemory base).defaultExpiration
                = 86400 * Second)
          ∧ ∀ e : Int,
              (fillCacheWrapperInnerFieldsWithInMemConfig config.InMemory base).translateExpire e
                ≠ DefaultExpiration
              ∧ (fillCacheWrapperInnerFieldsWithInMemConfig config.InMemory base).translateExpire
                  ((fillCacheWrapperInnerFieldsWithInMemConfig config.InMemory base).translateExpire e)
                = (fillCacheWrapperInnerFieldsWithInMemConfig config.InMemory base).translateExpire e := by
  have htype : config.Type_ = InMemory := by
    by_contra hne
    unfold Config.Validate at hvalid
    rw [if_neg hne] at hvalid
    cases hvalid
  have hin : config.InMemory.Validate = none := by
    unfold Config.Validate at hvalid
    rw [if_pos htype] at hvalid
    exact hvalid
  have hDnn : 0 ≤ config.InMemory.DefaultExpirationSecs := by
    unfold InMemoryCacheConfig.Validate at hin
    by_contra hlt
    rw [if_pos (by omega)] at hin
    cases hin
  have hMnn : 0 ≤ config.InMemory.MaxExpirationSecs := by
    unfold InMemoryCacheConfig.Validate at hin
    by_contra hlt
    rw [if_neg (by omega), if_pos (by omega)] at hin
    cases hin
  have hsec : Second = 1000000000 := rfl
  rw [hsec] at hD hM
  have hdef : config.InMemory.defaultExpiration
      = if config.InMemory.DefaultExpirationSecs = 0 then 86400 * 1000000000
        else config.InMemory.DefaultExpirationSecs * 1000000000 := by
    unfold InMemoryCacheConfig.defaultExpiration defaultInMemoryExpiration DefaultExpiration
    rw [mulInt64_of_bounds _ _ (by rw [hsec]; omega) (by rw [hsec]; exact hD),
      mulInt64_of_bounds 86400 Second (by decide) (by decide), hsec]
    dsimp only
    by_cases hz : config.InMemory.DefaultExpirationSecs = 0
    · rw [if_pos hz, if_pos (by omega)]
    · rw [if_neg hz, if_neg (by omega)]
  have hmax : mulInt64 config.InMemory.MaxExpirationSecs Second
      = config.InMemory.MaxExpirationSecs * 1000000000 := by
    rw [mulInt64_of_bounds _ _ (by rw [hsec]; omega) (by rw [hsec]; exact hM), hsec]
  constructor
  · unfold newCacheWrapperInner
    rw [hvalid]
    dsimp only
    rw [if_pos htype]
  · intro base
    have hfd : (fillCacheWrapperInnerFieldsWithInMemConfig config.InMemory base).defaultExpiration
        = config.InMemory.defaultExpiration := rfl
    have hfm : (fillCacheWrapperInnerFieldsWithInMemConfig config.InMemory base).maxExpiration
        = mulInt64 config.InMemory.MaxExpirationSecs Second := rfl
    have hdpos : 0 < config.InMemory.defaultExpiration := by
      rw [hdef]
      by_cases hz : config.InMemory.DefaultExpirationSecs = 0
      · rw [if_pos hz]; decide
      · rw [if_neg hz]; omega
    refine ⟨by rw [hfd]; exact hdpos, ?_, ?_⟩
    · intro hz
      rw [hfd, hdef, if_pos hz, hsec]
    · intro e
      have hm0 : 0 ≤ (fillCacheWrapperInnerFieldsWithInMemConfig config.InMemory
          base).maxExpiration := by
        rw [hfm, hmax]; omega
      have hd0 : 0 < (fillCacheWrapperInnerFieldsWithInMemConfig config.InMemory
          base).defaultExpiration := by
        rw [hfd]; exact hdpos
      obtain ⟨h1, h2⟩ := translateExpire_range _ e hd0 hm0
      exact ⟨h1, translateExpire_fixed _ _ h1 h2⟩

/-- Witness of C38: the configuration capped at one hour. -/
theorem translateExpire_idempotent_witness :
    newCacheWrapperInner "c" cappedConfig
        = (some (fillCacheWrapperInnerFieldsWithInMemConfig cappedConfig.InMemory
            { name := "c", isClosed := 0 }), none)
      ∧ ∀ base : cacheWrapperInner,
          0 < (fillCacheWrapperInnerFieldsWithInMemConfig cappedConfig.InMemory base).defaultExpiration
          ∧ (cappedConfig.InMemory.DefaultExpirationSecs = 0 →
              (fillCacheWrapperInnerFieldsWithInMemConfig cappedConfig.InMemory base).defaultExpiration
                = 86400 * Second)
          ∧ ∀ e : Int,
              (fillCacheWrapperInnerFieldsWithInMemConfig cappedConfig.InMemory base).translateExpire e
                ≠ DefaultExpiration
              ∧ (fillCacheWrapperInnerFieldsWithInMemConfig cappedConfig.InMemory base).translateExpire
                  ((fillCacheWrapperInnerFieldsWithInMemConfig cappedConfig.InMemory base).translateExpire e)
                = (fillCacheWrapperInnerFieldsWithInMemConfig cappedConfig.InMemory base).translateExpire e :=
  translateExpire_idempotent "c" cappedConfig (by decide) (by decide) (by decide)

/-! ## Singleflight group: the precondition of `CompleteCalls` -/

theorem CompleteCalls_fault_of_missing :
    ∀ (vm : GoMap Value) (g : Group), g.Inv → (∃ k ∈ GoMap.keys vm, g.m k = none) →
      g.CompleteCalls vm = .fault .nilDereference := by
  intro vm
  induction vm with
  | nil => intro g _ h; obtain ⟨k, hk, _⟩ := h; cases hk
  | cons kv rest ih =>
    intro g hinv h
    obtain ⟨k, v⟩ := kv
    rw [Group.CompleteCalls]
    cases hm : g.m k with
    | none =>
      have : g.completeCall (k, v) = .fault .nilDereference := by
        unfold Group.completeCall
        dsimp only
        rw [hm]
      rw [this]
      rfl
    | some p =>
      obtain ⟨g1, hc, hinv1, hm1, _⟩ := completeCall_spec g k v p hinv hm
      rw [hc, Outcome.ret_bind]
      apply ih g1 hinv1
      obtain ⟨k1, hk1, hnone⟩ := h
      have hne : k1 ≠ k := fun e => by rw [e, hm] at hnone; cases hnone
      have hk1r : k1 ∈ GoMap.keys rest := by
        have : k1 ∈ k :: GoMap.keys rest := hk1
        rcases List.mem_cons.mp this with e | hr
        · exact absurd e hne
        · exact hr
      exact ⟨k1, hk1r, by rw [hm1 k1, if_neg hne]; exact hnone⟩

/-- C36: in every state `g` that a group reaches by calls of `AddCalls` and
`CompleteCalls`, and for every `valueMap`, `CompleteCalls(valueMap)` returns if and only
if every key of `valueMap` is in the map of the group; when a key of `valueMap` is not
in the map (never added, or completed before) the call panics on the nil `*Call`, so
that a second `CompleteCalls` of the same non-empty `valueMap` panics. -/
theorem CompleteCalls_precondition (steps : List GroupStep) (g : Group)
    (valueMap : GoMap Value) (hreach : Group.run NewGroup steps = .ret g)
    (hnodup : (GoMap.keys valueMap).Nodup) :
    ((∃ g1, g.CompleteCalls valueMap = .ret g1)
        ↔ ∀ k ∈ GoMap.keys valueMap, (g.m k).isSome = true)
      ∧ ((∃ k ∈ GoMap.keys valueMap, g.m k = none) →
          g.CompleteCalls valueMap = .fault .nilDereference)
      ∧ (∀ k, NewGroup.m k = none)
      ∧ ∀ g1, g.CompleteCalls valueMap = .ret g1 →
          (∀ k ∈ GoMap.keys valueMap, g1.m k = none)
          ∧ (valueMap ≠ [] → g1.CompleteCalls valueMap = .fault .nilDereference) := by
  have hinv : g.Inv := Inv_run steps NewGroup g Inv_NewGroup hreach
  have hfault := CompleteCalls_fault_of_missing valueMap g hinv
  have hall : (∃ g1, g.CompleteCalls valueMap = .ret g1) →
      ∀ k ∈ GoMap.keys valueMap, (g.m k).isSome = true := by
    intro hret k hk
    cases hm : g.m k with
    | some p => rfl
    | none =>
      obtain ⟨g1, hg1⟩ := hret
      rw [hfault ⟨k, hk, hm⟩] at hg1
      cases hg1
  refine ⟨⟨hall, ?_⟩, hfault, fun _ => rfl, ?_⟩
  · intro hin
    obtain ⟨g1, hc, _⟩ := CompleteCalls_of_Inv valueMap g hinv hnodup hin
    exact ⟨g1, hc⟩
  · intro g1 hc
    obtain ⟨g2, hc2, hinv2, hm2, _⟩ :=
      CompleteCalls_of_Inv valueMap g hinv hnodup (hall ⟨g1, hc⟩)
    rw [hc] at hc2
    cases hc2
    have hnone : ∀ k ∈ GoMap.keys valueMap, g1.m k = none := by
      intro k hk
      rw [hm2 k, if_pos hk]
    refine ⟨hnone, ?_⟩
    intro hne
    cases hvm : valueMap with
    | nil => exact absurd hvm hne
    | cons kv rest =>
      rw [← hvm]
      apply CompleteCalls_fault_of_missing valueMap g1 hinv2
      exact ⟨kv.1, by rw [hvm]; exact List.mem_cons_self _ _,
        hnone kv.1 (by rw [hvm]; exact List.mem_cons_self _ _)⟩

/-- Witness of C36: the group after `AddCalls(a, b)` and the completion of "a". -/
theorem CompleteCalls_precondition_witness :
    ((∃ g1, groupAB.CompleteCalls [("a", .obj 1)] = .ret g1)
        ↔ ∀ k ∈ GoMap.keys [("a", Value.obj 1)], (groupAB.m k).isSome = true)
      ∧ ((∃ k ∈ GoMap.keys [("a", Value.obj 1)], groupAB.m k = none) →
          groupAB.CompleteCalls [("a", .obj 1)] = .fault .nilDereference)
      ∧ (∀ k, NewGroup.m k = none)
      ∧ ∀ g1, groupAB.CompleteCalls [("a", .obj 1)] = .ret g1 →
          (∀ k ∈ GoMap.keys [("a", Value.obj 1)], g1.m k = none)
          ∧ (([("a", .obj 1)] : GoMap Value) ≠ [] →
              g1.CompleteCalls [("a", .obj 1)] = .fault .nilDereference) :=
  CompleteCalls_precondition [.add ["a", "b"]] groupAB [("a", .obj 1)] rfl (by decide)

/-- Two calls of `CompleteCalls` that panic: for a key that was never added, and for a
key that is completed a second time. -/
theorem CompleteCalls_panics :
    NewGroup.CompleteCalls [("a", .obj 1)] = .fault .nilDereference
      ∧ Group.run NewGroup [.add ["a"], .complete [("a", .obj 1)], .complete [("a", .obj 1)]]
          = .fault .nilDereference
      ∧ groupAB.CompleteCalls [("a", .obj 1), ("c", .obj 2)] = .fault .nilDereference :=
  ⟨rfl, rfl, rfl⟩

/-! ## Singleflight group: the error of a call -/

theorem completeCall_val (g g1 : Group) (kv : String × Value)
    (h : g.completeCall kv = .ret g1) :
    ∀ p, (g1.calls p).val = (g.calls p).val ∨ (g1.calls p).val = kv.2 := by
  unfold Group.completeCall at h
  cases hm : g.m kv.1 with
  | none => rw [hm] at h; cases h
  | some q =>
    rw [hm] at h
    dsimp only at h
    split at h
    · cases h
    · cases h
      intro p
      dsimp only
      by_cases hp : p = q
      · rw [if_pos hp]; exact Or.inr rfl
      · rw [if_neg hp]; exact Or.inl rfl

theorem CompleteCalls_val :
    ∀ (vm : GoMap Value) (g g1 : Group), g.CompleteCalls vm = .ret g1 →
      ∀ p, (g1.calls p).val = (g.calls p).val ∨ ∃ k, (k, (g1.calls p).val) ∈ vm := by
  intro vm
  induction vm with
  | nil => intro g g1 h p; cases h; exact Or.inl rfl
  | cons kv rest ih =>
    intro g g1 h p
    rw [Group.CompleteCalls] at h
    cases hc : g.completeCall kv with
    | ret g' =>
      rw [hc, Outcome.ret_bind] at h
      rcases ih g' g1 h p with h1 | ⟨k, hk⟩
      · rcases completeCall_val g g' kv hc p with h2 | h2
        · exact Or.inl (h1.trans h2)
        · right
          refine ⟨kv.1, ?_⟩
          rw [h1, h2]
          exact List.mem_cons_self _ _
      · exact Or.inr ⟨k, List.mem_cons_of_mem _ hk⟩
    | fault f => rw [hc] at h; cases h
    | outOfFuel => rw [hc] at h; cases h

theorem addCall_val (st : AddCallsState) (key : String) (p : CallPtr) :
    ((Group.addCall st key).g.calls p).val = (st.g.calls p).val
      ∨ ((Group.addCall st key).g.calls p).val = .nil := by
  cases hk : st.g.m key with
  | some c => rw [addCall_of_some st key c hk]; exact Or.inl rfl
  | none =>
    rw [addCall_of_none st key hk]
    dsimp only
    by_cases hp : p = st.g.next
    · rw [if_pos hp]; exact Or.inr rfl
    · rw [if_neg hp]; exact Or.inl rfl

theorem foldl_addCall_val :
    ∀ (ks : List String) (st : AddCallsState) (p : CallPtr),
      ((ks.foldl Group.addCall st).g.calls p).val = (st.g.calls p).val
        ∨ ((ks.foldl Group.addCall st).g.calls p).val = .nil := by
  intro ks
  induction ks with
  | nil => intro st p; exact Or.inl rfl
  | cons key ks ih =>
    intro st p
    rw [List.foldl_cons]
    rcases ih (Group.addCall st key) p with h | h
    · rcases addCall_val st key p with h2 | h2
      · exact Or.inl (h.trans h2)
      · exact Or.inr (h.trans h2)
    · exact Or.inr h

theorem run_val :
    ∀ (steps : List GroupStep) (g g1 : Group), Group.run g steps = .ret g1 →
      ∀ p, (g1.calls p).val = (g.calls p).val ∨ (g1.calls p).val = .nil
        ∨ ∃ vm k, GroupStep.complete vm ∈ steps ∧ (k, (g1.calls p).val) ∈ vm := by
  intro steps
  induction steps with
  | nil => intro g g1 h p; cases h; exact Or.inl rfl
  | cons step rest ih =>
    intro g g1 h p
    have lift : (∃ vm k, GroupStep.complete vm ∈ rest ∧ (k, (g1.calls p).val) ∈ vm) →
        ∃ vm k, GroupStep.complete vm ∈ step :: rest ∧ (k, (g1.calls p).val) ∈ vm :=
      fun ⟨vm, k, h1, h2⟩ => ⟨vm, k, List.mem_cons_of_mem _ h1, h2⟩
    cases step with
    | add keys =>
      rw [Group.run] at h
      rcases ih _ g1 h p with h1 | h1 | h1
      · rcases foldl_addCall_val keys
          { g := g, waitingCallsMap := fun _ => none, toHandleKeys := [] } p with h2 | h2
        · exact Or.inl (h1.trans h2)
        · exact Or.inr (Or.inl (h1.trans h2))
      · exact Or.inr (Or.inl h1)
      · exact Or.inr (Or.inr (lift h1))
    | complete vm =>
      rw [Group.run] at h
      cases hc : g.CompleteCalls vm with
      | ret g' =>
        rw [hc, Outcome.ret_bind] at h
        rcases ih g' g1 h p with h1 | h1 | h1
        · rcases CompleteCalls_val vm g g' hc p with h2 | ⟨k, hk⟩
          · exact Or.inl (h1.trans h2)
          · exact Or.inr (Or.inr ⟨vm, k, List.mem_cons_self _ _, by rw [h1]; exact hk⟩)
        · exact Or.inr (Or.inl h1)
        · exact Or.inr (Or.inr (lift h1))
      | fault f => rw [hc] at h; cases h
      | outOfFuel => rw [hc] at h; cases h

/-- C37: in every state `g` that a group reaches by calls of `AddCalls` and
`CompleteCalls`, no call holds an error: for every call, `WaitCall`, when it returns,
returns the value of the call with a nil error, and so does `wait` of every
manufacturer handler; the value is nil or a value that one of the `CompleteCalls`
steps was given. -/
theorem WaitCall_error_is_nil (steps : List GroupStep) (g : Group) (call : CallPtr)
    (hreach : Group.run NewGroup steps = .ret g) :
    (g.calls call).err = none
      ∧ (∀ r, g.WaitCall call = some r → r = ((g.calls call).val, none))
      ∧ (∀ (h : manufacturerHandler) r, h.wait g call = some r → r.2 = none)
      ∧ ((g.calls call).val = .nil
          ∨ ∃ vm k, GroupStep.complete vm ∈ steps ∧ (k, (g.calls call).val) ∈ vm) := by
  have hinv : g.Inv := Inv_run steps NewGroup g Inv_NewGroup hreach
  have herr : (g.calls call).err = none := hinv.2.2 call
  have hwait : ∀ r, g.WaitCall call = some r → r = ((g.calls call).val, none) := by
    intro r hr
    unfold Group.WaitCall at hr
    dsimp only at hr
    split at hr
    · rw [herr] at hr
      exact (Option.some.inj hr).symm
    · cases hr
  refine ⟨herr, hwait, ?_, ?_⟩
  · intro h r hr
    unfold manufacturerHandler.wait at hr
    split at hr
    · rw [hwait r hr]
    · cases hr; rfl
  · rcases run_val steps NewGroup g hreach call with h | h | h
    · exact Or.inl h
    · exact Or.inl h
    · exact Or.inr h

/-- Witness of C37: the group after `AddCalls(a, b)` and the completion of "a", and the
call of "a". -/
theorem WaitCall_error_is_nil_witness :
    (((Group.run NewGroup [.add ["a", "b"], .complete [("a", .obj 1)]]).retD NewGroup).calls
        0).err = none
      ∧ (∀ r, ((Group.run NewGroup [.add ["a", "b"], .complete [("a", .obj 1)]]).retD
            NewGroup).WaitCall 0 = some r →
          r = ((((Group.run NewGroup [.add ["a", "b"], .complete [("a", .obj 1)]]).retD
            NewGroup).calls 0).val, none))
      ∧ (∀ (h : manufacturerHandler) r,
          h.wait ((Group.run NewGroup [.add ["a", "b"], .complete [("a", .obj 1)]]).retD
            NewGroup) 0 = some r → r.2 = none)
      ∧ ((((Group.run NewGroup [.add ["a", "b"], .complete [("a", .obj 1)]]).retD NewGroup).calls
            0).val = .nil
          ∨ ∃ vm k, GroupStep.complete vm ∈ [GroupStep.add ["a", "b"], .complete [("a", .obj 1)]]
              ∧ (k, (((Group.run NewGroup [.add ["a", "b"], .complete [("a", .obj 1)]]).retD
                  NewGroup).calls 0).val) ∈ vm) :=
  WaitCall_error_is_nil [.add ["a", "b"], .complete [("a", .obj 1)]]
    ((Group.run NewGroup [.add ["a", "b"], .complete [("a", .obj 1)]]).retD NewGroup) 0 rfl

/-- The call of "a" after `AddCalls(a, b)` and the completion of "a" with the object 1:
`WaitCall` returns the object and a nil error; the call of "b" still blocks. -/
theorem WaitCall_examples :
    ((Group.run NewGroup [.add ["a", "b"], .complete [("a", .obj 1)]]).retD NewGroup).WaitCall 0
        = some (.obj 1, none)
      ∧ ((Group.run NewGroup [.add ["a", "b"], .complete [("a", .obj 1)]]).retD NewGroup).WaitCall 1
        = none :=
  ⟨rfl, rfl⟩

/-! ## Loading with the empty key -/

/-- C34: `LoadWithExpiration` with the key "" calls the loader once, on the key list
`[""]` (the loader state afterwards is the one after that call), leaves the store as it
was and does not depend on the cache client; it hands the first value to
`SetValueByJSON` exactly when the loader returned no error and a first value that is
not nil, and then returns what `SetValueByJSON` returns; in every other case, also when
the loader returned an error, it returns nil and sets nothing. -/
theorem LoadWithExpiration_empty_key {L : Type} (json : JSONLib) (client : CacheClient L)
    (l : L) (s : Store) (loader : DataLoader L) (receiver : Option PtrReceiver)
    (soft hard : Int) :
    (∀ client1 : CacheClient L,
        internalUnifiedCacheClient.LoadWithExpiration json client1 l s loader "" receiver soft hard
          = internalUnifiedCacheClient.LoadWithExpiration json client l s loader "" receiver
              soft hard)
      ∧ (∀ r, internalUnifiedCacheClient.LoadWithExpiration json client l s loader "" receiver
            soft hard = .ret r →
          r.loaderState = (loader l [""]).1 ∧ r.store = s)
      ∧ (∀ v vs, (loader l [""]).2 = (v :: vs, none) → v ≠ .nil →
          internalUnifiedCacheClient.LoadWithExpiration json client l s loader "" receiver
              soft hard
            = (SetValueByJSON json v receiver).bind fun r =>
                .ret ⟨(loader l [""]).1, s, r.2, r.1⟩)
      ∧ ((loader l [""]).2.2 ≠ none ∨ (loader l [""]).2.1 = []
            ∨ (loader l [""]).2.1.head? = some .nil →
          internalUnifiedCacheClient.LoadWithExpiration json client l s loader "" receiver
              soft hard
            = .ret ⟨(loader l [""]).1, s, none, none⟩) := by
  have hcopy : ∀ v vs, (loader l [""]).2 = (v :: vs, none) → v ≠ .nil →
      internalUnifiedCacheClient.LoadWithExpiration json client l s loader "" receiver soft hard
        = (SetValueByJSON json v receiver).bind fun r =>
            .ret ⟨(loader l [""]).1, s, r.2, r.1⟩ := by
    intro v vs hl hv
    unfold internalUnifiedCacheClient.LoadWithExpiration
    dsimp only
    rw [if_pos rfl]
    rcases hres : loader l [""] with ⟨l1, value, err⟩
    rw [hres] at hl
    dsimp only at hl ⊢
    cases hl
    have hc : (none : Option Err) = none ∧ (v :: vs).length > 0
        ∧ (v :: vs).head? ≠ some Value.nil := by
      refine ⟨rfl, by simp, ?_⟩
      intro h
      exact hv (Option.some.inj h)
    rw [if_pos hc]
    show (SetValueByJSON json v receiver).bind _ = (SetValueByJSON json v receiver).bind _
    congr 1
    funext r
    cases r.1 <;> rfl
  have hother : ((loader l [""]).2.2 ≠ none ∨ (loader l [""]).2.1 = []
        ∨ (loader l [""]).2.1.head? = some .nil) →
      internalUnifiedCacheClient.LoadWithExpiration json client l s loader "" receiver soft hard
        = .ret ⟨(loader l [""]).1, s, none, none⟩ := by
    intro h
    unfold internalUnifiedCacheClient.LoadWithExpiration
    dsimp only
    rw [if_pos rfl]
    rcases hres : loader l [""] with ⟨l1, value, err⟩
    rw [hres] at h
    dsimp only at h ⊢
    have hc : ¬ (err = none ∧ value.length > 0 ∧ value.head? ≠ some Value.nil) := by
      rintro ⟨h1, h2, h3⟩
      rcases h with h | h | h
      · exact h h1
      · rw [h] at h2; simp at h2
      · exact h3 h
    rw [if_neg hc]
  refine ⟨fun _ => rfl, ?_, hcopy, hother⟩
  intro r hr
  by_cases hc : (loader l [""]).2.2 ≠ none ∨ (loader l [""]).2.1 = []
      ∨ (loader l [""]).2.1.head? = some .nil
  · rw [hother hc] at hr
    cases hr
    exact ⟨rfl, rfl⟩
  · have h1 : (loader l [""]).2.2 = none := by
      by_contra h; exact hc (Or.inl h)
    cases hvs : (loader l [""]).2.1 with
    | nil => exact absurd (Or.inr (Or.inl hvs)) hc
    | cons v vs =>
      have hv : v ≠ .nil := by
        intro e
        exact hc (Or.inr (Or.inr (by rw [hvs, e]; rfl)))
      have hl : (loader l [""]).2 = (v :: vs, none) := by
        rw [← hvs, ← h1]
      rw [hcopy v vs hl hv] at hr
      cases hj : SetValueByJSON json v receiver with
      | ret x =>
        rw [hj] at hr
        cases hr
        exact ⟨rfl, rfl⟩
      | fault f => rw [hj] at hr; cases hr
      | outOfFuel => rw [hj] at hr; cases hr

/-- Witness of C34: a loader that fails, on a client whose `Load` would panic. -/
theorem LoadWithExpiration_empty_key_witness :
    (∀ client1 : CacheClient (List (List String)),
        internalUnifiedCacheClient.LoadWithExpiration sampleJSON client1 [] emptyStore
            failingLoader "" (some settablePtr) 2 60
          = internalUnifiedCacheClient.LoadWithExpiration sampleJSON noClient [] emptyStore
              failingLoader "" (some settablePtr) 2 60)
      ∧ (∀ r, internalUnifiedCacheClient.LoadWithExpiration sampleJSON noClient [] emptyStore
            failingLoader "" (some settablePtr) 2 60 = .ret r →
          r.loaderState = (failingLoader [] [""]).1 ∧ r.store = emptyStore)
      ∧ (∀ v vs, (failingLoader [] [""]).2 = (v :: vs, none) → v ≠ .nil →
          internalUnifiedCacheClient.LoadWithExpiration sampleJSON noClient [] emptyStore
              failingLoader "" (some settablePtr) 2 60
            = (SetValueByJSON sampleJSON v (some settablePtr)).bind fun r =>
                .ret ⟨(failingLoader [] [""]).1, emptyStore, r.2, r.1⟩)
      ∧ ((failingLoader [] [""]).2.2 ≠ none ∨ (failingLoader [] [""]).2.1 = []
            ∨ (failingLoader [] [""]).2.1.head? = some .nil →
          internalUnifiedCacheClient.LoadWithExpiration sampleJSON noClient [] emptyStore
              failingLoader "" (some settablePtr) 2 60
            = .ret ⟨(failingLoader [] [""]).1, emptyStore, none, none⟩) :=
  LoadWithExpiration_empty_key sampleJSON noClient [] emptyStore failingLoader
    (some settablePtr) 2 60

/-- Three calls with the empty key, on a client whose `Load` would panic: a loader that
returns a value (the receiver is set through JSON), a loader that fails (nil is
returned, nothing is set), and a nil receiver with a loader that returns a value
(`SetValueByJSON` panics). Each call records the one key list `[""]`. -/
theorem LoadWithExpiration_empty_key_examples :
    (∃ r, internalUnifiedCacheClient.LoadWithExpiration sampleJSON noClient [] emptyStore
          recordingLoader "" (some settablePtr) 2 60 = .ret r
        ∧ r.loaderState = [[""]] ∧ r.received = some (.obj 2) ∧ r.err = none)
      ∧ (∃ r, internalUnifiedCacheClient.LoadWithExpiration sampleJSON noClient [] emptyStore
          failingLoader "" (some settablePtr) 2 60 = .ret r
        ∧ r.loaderState = [[""]] ∧ r.received = none ∧ r.err = none)
      ∧ internalUnifiedCacheClient.LoadWithExpiration sampleJSON noClient [] emptyStore
          recordingLoader "" none 2 60
        = .fault (.logic "reflect: call of reflect.Value.Type on zero Value") :=
  ⟨⟨_, rfl, rfl, rfl, rfl⟩, ⟨_, rfl, rfl, rfl, rfl⟩, rfl⟩

/-! ## Distributed lock: reclassification -/

theorem reclassify_round (A : List String) (k : String) (K : List String) :
    (A ++ k :: K).get? A.length = some k
      ∧ ∃ last K1, (A ++ k :: K).getLast? = some last
          ∧ ((A ++ k :: K).set A.length last).dropLast = A ++ K1 ∧ K1.Perm K := by
  constructor
  · rw [List.get?_eq_getElem?, List.getElem?_append_right (Nat.le_refl _), Nat.sub_self]
    exact List.getElem?_cons_zero
  · have hset : ∀ (x : String) (R : List String),
        (A ++ k :: R).set A.length x = A ++ x :: R := by
      intro x R
      rw [List.set_append_right _ _ (Nat.le_refl _), Nat.sub_self]
      rfl
    rcases List.eq_nil_or_concat K with hK | ⟨K0, l, hK⟩
    · subst hK
      refine ⟨k, [], List.getLast?_concat A, ?_, List.Perm.refl _⟩
      rw [hset, List.dropLast_concat, List.append_nil]
    · rw [List.concat_eq_append] at hK
      subst hK
      have e : ∀ x : String, A ++ x :: (K0 ++ [l]) = (A ++ x :: K0) ++ [l] := by
        intro x; simp
      refine ⟨l, l :: K0, ?_, ?_, (List.perm_append_singleton l K0).symm⟩
      · rw [e]; exact List.getLast?_concat _
      · rw [hset, e, List.dropLast_concat]

theorem reclassifyLoop_spec :
    ∀ (ps : List (String × Bool)) (accRest : List Bool) (K W : List String),
      ∃ kept, reclassifyLoop (ps.map Prod.snd ++ accRest) ps.length (ps.map Prod.fst ++ K) W
          = .ret (kept, W ++ ((ps.filter fun p => p.2 = false).map Prod.fst).reverse)
        ∧ kept.Perm ((ps.filter fun p => p.2 = true).map Prod.fst ++ K) := by
  intro ps
  induction ps using List.reverseRecOn with
  | nil =>
    intro accRest K W
    exact ⟨K, by simp [reclassifyLoop], List.Perm.refl _⟩
  | append_singleton ps x ih =>
    intro accRest K W
    obtain ⟨k, a⟩ := x
    have hlen : (ps ++ [(k, a)]).length = ps.length + 1 := by simp
    have hacq : (List.map Prod.snd (ps ++ [(k, a)]) ++ accRest)
        = List.map Prod.snd ps ++ (a :: accRest) := by simp
    have hks : (List.map Prod.fst (ps ++ [(k, a)]) ++ K)
        = List.map Prod.fst ps ++ (k :: K) := by simp
    have hget : (List.map Prod.snd ps ++ (a :: accRest)).get? ps.length = some a := by
      rw [List.get?_eq_getElem?, List.getElem?_append_right (by simp)]
      simp
    rw [hlen, hacq, hks, reclassifyLoop, hget]
    cases a with
    | true =>
      dsimp only
      obtain ⟨kept, hrun, hperm⟩ := ih (true :: accRest) (k :: K) W
      refine ⟨kept, ?_, ?_⟩
      · rw [hrun]
        simp
      · refine hperm.trans ?_
        simp
    | false =>
      dsimp only
      obtain ⟨hk, last, K1, hlast, hdrop, hK1⟩ := reclassify_round (List.map Prod.fst ps) k K
      rw [List.length_map] at hk hdrop
      rw [hk, hlast]
      dsimp only
      rw [hdrop]
      obtain ⟨kept, hrun, hperm⟩ := ih (false :: accRest) K1 (W ++ [k])
      refine ⟨kept, ?_, ?_⟩
      · rw [hrun]
        simp
      · refine hperm.trans ?_
        simp only [List.filter_append, List.map_append]
        simp
        exact List.Perm.append_left _ hK1

theorem reclassifyLoop_zip (ks : List String) (acq : List Bool) (h : acq.length = ks.length) :
    ∃ kept, reclassifyLoop acq ks.length ks []
        = .ret (kept, (keysWith false ks acq).reverse)
      ∧ kept.Perm (keysWith true ks acq) := by
  obtain ⟨kept, hrun, hperm⟩ := reclassifyLoop_spec (ks.zip acq) [] [] []
  have h1 : (ks.zip acq).map Prod.snd = acq := List.map_snd_zip _ _ (Nat.le_of_eq h)
  have h2 : (ks.zip acq).map Prod.fst = ks := List.map_fst_zip _ _ (Nat.le_of_eq h.symm)
  have h3 : (ks.zip acq).length = ks.length := by
    rw [List.length_zip, h, Nat.min_self]
  rw [h1, h2, h3, List.append_nil, List.append_nil, List.nil_append] at hrun
  rw [List.append_nil] at hperm
  exact ⟨kept, hrun, hperm⟩

theorem keysWith_perm (ks : List String) (acq : List Bool) (h : acq.length = ks.length) :
    (keysWith true ks acq ++ keysWith false ks acq).Perm ks := by
  have h2 : (ks.zip acq).map Prod.fst = ks := List.map_fst_zip _ _ (Nat.le_of_eq h.symm)
  have hp : ((ks.zip acq).filter (fun p => decide (p.2 = true))
        ++ (ks.zip acq).filter (fun p => decide (p.2 = false))).Perm (ks.zip acq) := by
    have := List.filter_append_perm (fun p : String × Bool => decide (p.2 = true)) (ks.zip acq)
    have e : (fun p : String × Bool => decide (p.2 = false))
        = fun p => !(decide (p.2 = true)) := by
      funext p; cases p.2 <;> rfl
    rw [e]
    exact this
  unfold keysWith
  rw [← List.map_append]
  have := hp.map Prod.fst
  rw [h2] at this
  exact this

theorem acquireDlockLoop_spec {σ : Type} (add : InnerAdd σ) (value : List Byte) (expire : Int) :
    ∀ (keys : List String) (s : σ) (acc : List Bool),
      ((acquireDlockLoop add value expire keys s acc).2.2 = none →
          (acquireDlockLoop add value expire keys s acc).2.1.length = acc.length + keys.length)
        ∧ (acquireDlockLoop add value expire keys s acc).2.2 ≠ some ErrNotStored := by
  intro keys
  induction keys with
  | nil =>
    intro s acc
    exact ⟨fun _ => rfl, fun h => by cases h⟩
  | cons key keys ih =>
    intro s acc
    rw [acquireDlockLoop]
    rcases hadd : add s (addDlockPrefix key) (.bytes value) expire with ⟨s1, err⟩
    dsimp only
    by_cases hc : err ≠ none ∧ err ≠ some ErrNotStored
    · rw [if_pos hc]
      exact ⟨fun h => absurd h hc.1, hc.2⟩
    · rw [if_neg hc]
      obtain ⟨h1, h2⟩ := ih s1 (acc ++ [decide (err = none)])
      refine ⟨fun h => ?_, h2⟩
      rw [h1 h, List.length_append, List.length_singleton, List.length_cons]
      omega

/-- C39: for every key list `ks` and every acquisition vector `acq` of the same length,
the loop of `reclassifyToHandleKeys` returns `(kept, waiting)` where `kept` is a
permutation of the keys `ks[i]` with `acq[i]` true, `waiting` holds the keys `ks[i]`
with `acq[i]` false (last index first), and `kept ++ waiting` is a permutation of `ks`;
when `acquireDlock` returns without error its vector has the length of `ks` and
`reclassifyToHandleKeys` returns that partition with a nil error; when `acquireDlock`
returns an error, the error is not `not_stored` and `reclassifyToHandleKeys` returns
the original `ks`, no waiting keys and that error. -/
theorem reclassify_partition {σ : Type} (add : InnerAdd σ) (s : σ) (ks : List String)
    (value : List Byte) (expire : Int) :
    (∀ acq : List Bool, acq.length = ks.length →
        ∃ kept, reclassifyLoop acq ks.length ks []
            = .ret (kept, (keysWith false ks acq).reverse)
          ∧ kept.Perm (keysWith true ks acq)
          ∧ (kept ++ (keysWith false ks acq).reverse).Perm ks)
      ∧ (∀ s1 acq, acquireDlock add s ks value expire = (s1, acq, none) →
          acq.length = ks.length
          ∧ ∃ kept, reclassifyToHandleKeys add s ks value expire
              = .ret (s1, kept, (keysWith false ks acq).reverse, none)
            ∧ kept.Perm (keysWith true ks acq)
            ∧ (kept ++ (keysWith false ks acq).reverse).Perm ks)
      ∧ ∀ s1 acq err, acquireDlock add s ks value expire = (s1, acq, some err) →
          err ≠ ErrNotStored
          ∧ reclassifyToHandleKeys add s ks value expire = .ret (s1, ks, [], some err) := by
  have hloop : ∀ acq : List Bool, acq.length = ks.length →
      ∃ kept, reclassifyLoop acq ks.length ks []
          = .ret (kept, (keysWith false ks acq).reverse)
        ∧ kept.Perm (keysWith true ks acq)
        ∧ (kept ++ (keysWith false ks acq).reverse).Perm ks := by
    intro acq hlen
    obtain ⟨kept, hrun, hperm⟩ := reclassifyLoop_zip ks acq hlen
    refine ⟨kept, hrun, hperm, ?_⟩
    exact (List.Perm.append hperm (List.reverse_perm _)).trans (keysWith_perm ks acq hlen)
  have hspec := acquireDlockLoop_spec add value expire ks s []
  refine ⟨hloop, ?_, ?_⟩
  · intro s1 acq hacq
    have hlen : acq.length = ks.length := by
      have h1 := hspec.1
      unfold acquireDlock at hacq
      rw [hacq] at h1
      have := h1 rfl
      simpa using this
    obtain ⟨kept, hrun, hperm, hall⟩ := hloop acq hlen
    refine ⟨hlen, kept, ?_, hperm, hall⟩
    unfold reclassifyToHandleKeys
    rw [hacq]
    dsimp only
    rw [hrun]
    rfl
  · intro s1 acq err hacq
    constructor
    · have h2 := hspec.2
      unfold acquireDlock at hacq
      rw [hacq] at h2
      intro e
      exact h2 (by rw [e])
    · unfold reclassifyToHandleKeys
      rw [hacq]

set_option maxRecDepth 100000 in
/-- Two calls of `reclassifyToHandleKeys` on the keys "a" to "e": with the locks of "b"
and "d" held by another instance, the call keeps "a", "e", "c" and waits for "d", "b";
with an adapter that fails on the lock of "b", it returns the five keys, no waiting
key and the error. -/
theorem reclassify_examples :
    reclassifyToHandleKeys lockAdd ["dlock.b", "dlock.d"] ["a", "b", "c", "d", "e"] [1] 5
        = .ret (["dlock.e", "dlock.c", "dlock.a", "dlock.b", "dlock.d"],
            ["a", "e", "c"], ["d", "b"], none)
      ∧ (acquireDlock lockAdd ["dlock.b", "dlock.d"] ["a", "b", "c", "d", "e"] [1] 5).2.1
        = [true, false, true, false, true]
      ∧ reclassifyToHandleKeys brokenAdd [] ["a", "b", "c", "d", "e"] [1] 5
        = .ret (["dlock.a"], ["a", "b", "c", "d", "e"], [], some (.external 7)) := by
  refine ⟨by decide, by decide, by decide⟩

/-- Witness of C39: the keys "a", "b", "c" with the lock of "b" held by another
instance. -/
theorem reclassify_partition_witness :
    (∀ acq : List Bool, acq.length = ["a", "b", "c"].length →
        ∃ kept, reclassifyLoop acq ["a", "b", "c"].length ["a", "b", "c"] []
            = .ret (kept, (keysWith false ["a", "b", "c"] acq).reverse)
          ∧ kept.Perm (keysWith true ["a", "b", "c"] acq)
          ∧ (kept ++ (keysWith false ["a", "b", "c"] acq).reverse).Perm ["a", "b", "c"])
      ∧ (∀ s1 acq, acquireDlock lockAdd ["dlock.b"] ["a", "b", "c"] [1] 5 = (s1, acq, none) →
          acq.length = ["a", "b", "c"].length
          ∧ ∃ kept, reclassifyToHandleKeys lockAdd ["dlock.b"] ["a", "b", "c"] [1] 5
              = .ret (s1, kept, (keysWith false ["a", "b", "c"] acq).reverse, none)
            ∧ kept.Perm (keysWith true ["a", "b", "c"] acq)
            ∧ (kept ++ (keysWith false ["a", "b", "c"] acq).reverse).Perm ["a", "b", "c"])
      ∧ ∀ s1 acq err,
          acquireDlock lockAdd ["dlock.b"] ["a", "b", "c"] [1] 5 = (s1, acq, some err) →
          err ≠ ErrNotStored
          ∧ reclassifyToHandleKeys lockAdd ["dlock.b"] ["a", "b", "c"] [1] 5
            = .ret (s1, ["a", "b", "c"], [], some err) :=
  reclassify_partition lockAdd ["dlock.b"] ["a", "b", "c"] [1] 5

/-! ## Header parsing: varints and termination -/

theorem readVarint_shift_ge (rest : List Byte) (shift acc n : Nat) (h : 64 ≤ shift) :
    readVarint rest shift acc n = .error .intOverflowHeader := by
  cases rest <;> rw [readVarint, if_pos h]

theorem readVarint_nil (shift acc n : Nat) (h : shift < 64) :
    readVarint [] shift acc n = .error .unexpectedEOF := by
  rw [readVarint, if_neg (by omega)]

theorem readVarint_bounds :
    ∀ (rest : List Byte) (shift acc n v k : Nat),
      readVarint rest shift acc n = .ok (v, k) → n + 1 ≤ k ∧ k ≤ n + rest.length := by
  intro rest
  induction rest with
  | nil =>
    intro shift acc n v k h
    by_cases hs : 64 ≤ shift
    · rw [readVarint_shift_ge _ _ _ _ hs] at h; cases h
    · rw [readVarint_nil _ _ _ (by omega)] at h; cases h
  | cons b rest ih =>
    intro shift acc n v k h
    by_cases hs : 64 ≤ shift
    · rw [readVarint_shift_ge _ _ _ _ hs] at h; cases h
    · rw [readVarint_cons _ _ _ _ _ (by omega)] at h
      split at h
      · cases h
        rw [List.length_cons]
        omega
      · have := ih _ _ _ _ _ h
        rw [List.length_cons]
        omega

theorem readVarint_cut :
    ∀ (cs : List Byte) (shift acc n : Nat), (∀ b ∈ cs, isContinuation b) →
      shift + 7 * cs.length < 64 → readVarint cs shift acc n = .error .unexpectedEOF := by
  intro cs
  induction cs with
  | nil => intro shift acc n _ h; exact readVarint_nil _ _ _ (by simpa using h)
  | cons b cs ih =>
    intro shift acc n hc h
    rw [List.length_cons] at h
    rw [readVarint_cons _ _ _ _ _ (by omega)]
    have hb : ¬ b.val < 0x80 := by
      have := hc b (List.mem_cons_self _ _)
      unfold isContinuation at this
      omega
    rw [if_neg hb]
    exact ih _ _ _ (fun x hx => hc x (List.mem_cons_of_mem _ hx)) (by omega)

theorem readVarint_long :
    ∀ (cs rest : List Byte) (shift acc n : Nat), (∀ b ∈ cs, isContinuation b) →
      64 ≤ shift + 7 * cs.length →
      readVarint (cs ++ rest) shift acc n = .error .intOverflowHeader := by
  intro cs
  induction cs with
  | nil => intro rest shift acc n _ h; exact readVarint_shift_ge _ _ _ _ (by simpa using h)
  | cons b cs ih =>
    intro rest shift acc n hc h
    rw [List.length_cons] at h
    by_cases hs : 64 ≤ shift
    · exact readVarint_shift_ge _ _ _ _ hs
    · rw [List.cons_append, readVarint_cons _ _ _ _ _ (by omega)]
      have hb : ¬ b.val < 0x80 := by
        have := hc b (List.mem_cons_self _ _)
        unfold isContinuation at this
        omega
      rw [if_neg hb]
      exact ih _ _ _ _ (fun x hx => hc x (List.mem_cons_of_mem _ hx)) (by omega)

theorem skipVarint_shift_ge (rest : List Byte) (shift n : Nat) (h : 64 ≤ shift) :
    skipVarint rest shift n = .error .intOverflowHeader := by
  cases rest <;> rw [skipVarint, if_pos h]

theorem skipVarint_nil (shift n : Nat) (h : shift < 64) :
    skipVarint [] shift n = .error .unexpectedEOF := by
  rw [skipVarint, if_neg (by omega)]

theorem skipVarint_cons (b : Byte) (rest : List Byte) (shift n : Nat) (hs : shift < 64) :
    skipVarint (b :: rest) shift n
      = if b.val < 0x80 then .ok (n + 1) else skipVarint rest (shift + 7) (n + 1) := by
  rw [skipVarint]
  rw [if_neg (by omega)]

theorem skipVarint_bounds :
    ∀ (rest : List Byte) (shift n k : Nat),
      skipVarint rest shift n = .ok k → n + 1 ≤ k ∧ k ≤ n + rest.length := by
  intro rest
  induction rest with
  | nil =>
    intro shift n k h
    by_cases hs : 64 ≤ shift
    · rw [skipVarint_shift_ge _ _ _ hs] at h; cases h
    · rw [skipVarint_nil _ _ (by omega)] at h; cases h
  | cons b rest ih =>
    intro shift n k h
    by_cases hs : 64 ≤ shift
    · rw [skipVarint_shift_ge _ _ _ hs] at h; cases h
    · rw [skipVarint_cons _ _ _ _ (by omega)] at h
      split at h
      · cases h
        rw [List.length_cons]
        omega
      · have := ih _ _ _ h
        rw [List.length_cons]
        omega

theorem skipVarint_cut :
    ∀ (cs : List Byte) (shift n : Nat), (∀ b ∈ cs, isContinuation b) →
      shift + 7 * cs.length < 64 → skipVarint cs shift n = .error .unexpectedEOF := by
  intro cs
  induction cs with
  | nil => intro shift n _ h; exact skipVarint_nil _ _ (by simpa using h)
  | cons b cs ih =>
    intro shift n hc h
    rw [List.length_cons] at h
    rw [skipVarint_cons _ _ _ _ (by omega)]
    have hb : ¬ b.val < 0x80 := by
      have := hc b (List.mem_cons_self _ _)
      unfold isContinuation at this
      omega
    rw [if_neg hb]
    exact ih _ _ (fun x hx => hc x (List.mem_cons_of_mem _ hx)) (by omega)

theorem skipVarint_long :
    ∀ (cs rest : List Byte) (shift n : Nat), (∀ b ∈ cs, isContinuation b) →
      64 ≤ shift + 7 * cs.length →
      skipVarint (cs ++ rest) shift n = .error .intOverflowHeader := by
  intro cs
  induction cs with
  | nil => intro rest shift n _ h; exact skipVarint_shift_ge _ _ _ (by simpa using h)
  | cons b cs ih =>
    intro rest shift n hc h
    rw [List.length_cons] at h
    by_cases hs : 64 ≤ shift
    · exact skipVarint_shift_ge _ _ _ hs
    · rw [List.cons_append, skipVarint_cons _ _ _ _ (by omega)]
      have hb : ¬ b.val < 0x80 := by
        have := hc b (List.mem_cons_self _ _)
        unfold isContinuation at this
        omega
      rw [if_neg hb]
      exact ih _ _ _ (fun x hx => hc x (List.mem_cons_of_mem _ hx)) (by omega)

theorem toInt64_lt (x : Nat) : toInt64 x < 2 ^ 63 := by
  unfold toInt64
  split_ifs <;> omega

theorem toInt64_toUint64_of_range (S : Int) (h0 : 0 ≤ S) (h1 : S < 2 ^ 64) :
    toInt64 (toUint64 S) = if S < 2 ^ 63 then S else S - 2 ^ 64 := by
  unfold toInt64 toUint64
  split_ifs <;> omega

theorem skipHeaderLoop_total (dAtA : List Byte) (hlen : dAtA.length < 2 ^ 63) :
    ∀ (fuel : Nat) (iNdEx : Int) (depth : Nat), 0 ≤ iNdEx → 1 ≤ fuel →
      (iNdEx < dAtA.length → (dAtA.length : Int) + 1 ≤ fuel + iNdEx) →
      ∃ r, skipHeaderLoop dAtA fuel iNdEx depth = .ret r ∧ (r.2 = none → iNdEx < r.1) := by
  intro fuel
  induction fuel with
  | zero => intro _ _ _ h _; omega
  | succ fuel ih =>
    intro iNdEx depth h0 _ hb
    rw [skipHeaderLoop]
    by_cases hi : iNdEx < dAtA.length
    · rw [if_pos hi]
      have hb1 := hb hi
      cases hrv : readVarint (dAtA.drop iNdEx.toNat) 0 0 0 with
      | error e => exact ⟨_, rfl, fun h => by cases h⟩
      | ok p =>
        obtain ⟨wire, n⟩ := p
        obtain ⟨hn1, hn2⟩ := readVarint_bounds _ _ _ _ _ _ hrv
        rw [List.length_drop] at hn2
        dsimp only
        split
        · exact ⟨_, rfl, fun h => by cases h⟩
        · rename_i iNdEx2 depth2 hstep
          have hbound : iNdEx2 < 0 ∨ iNdEx + 1 ≤ iNdEx2 := by
            split at hstep
            · split at hstep
              · cases hstep
              · rename_i k hk
                obtain ⟨hk1, _⟩ := skipVarint_bounds _ _ _ _ hk
                cases hstep
                right; omega
            · split at hstep
              · cases hstep; right; omega
              · split at hstep
                · split at hstep
                  · cases hstep
                  · rename_i bits k hk
                    obtain ⟨hk1, hk2⟩ := readVarint_bounds _ _ _ _ _ _ hk
                    rw [List.length_drop] at hk2
                    split at hstep
                    · cases hstep
                    · rename_i hlen0
                      cases hstep
                      have hl63 := toInt64_lt bits
                      have hr := toInt64_toUint64_of_range
                        (iNdEx + (n : Int) + (k : Int) + toInt64 bits) (by omega) (by omega)
                      rw [hr]
                      split_ifs <;> omega
                · split at hstep
                  · cases hstep; right; omega
                  · split at hstep
                    · split at hstep
                      · cases hstep
                      · cases hstep; right; omega
                    · split at hstep
                      · cases hstep; right; omega
                      · cases hstep
          by_cases hneg : iNdEx2 < 0
          · rw [if_pos hneg]
            exact ⟨_, rfl, fun h => by cases h⟩
          · rw [if_neg hneg]
            by_cases hd : depth2 = 0
            · rw [if_pos hd]
              exact ⟨_, rfl, fun _ => by show iNdEx < iNdEx2; omega⟩
            · rw [if_neg hd]
              obtain ⟨r, hr, hr2⟩ := ih iNdEx2 depth2 (by omega) (by omega) (by intro _; omega)
              exact ⟨r, hr, fun h => by have := hr2 h; omega⟩
    · rw [if_neg hi]
      exact ⟨_, rfl, fun h => by cases h⟩

theorem slice_to_end (dAtA : List Byte) (i : Nat) (h : i ≤ dAtA.length) :
    slice dAtA i dAtA.length = .ret (dAtA.drop i) := by
  unfold slice
  rw [if_pos ⟨h, le_refl _⟩, List.take_of_length_le (by rw [List.length_drop])]

theorem slice_drop_take (dAtA : List Byte) (i k : Nat) (h : i + k ≤ dAtA.length) :
    slice dAtA i (i + k) = .ret ((dAtA.drop i).take k) := by
  unfold slice
  rw [if_pos ⟨by omega, h⟩, Nat.add_sub_cancel_left]

theorem slice_fault_of_lt (dAtA : List Byte) (lo hi : Nat) (h : dAtA.length < hi) :
    slice dAtA lo hi = .fault .sliceBounds := by
  unfold slice
  rw [if_neg (by omega)]

theorem unmarshalLoop_total (dAtA : List Byte) (hlen : dAtA.length < 2 ^ 63) :
    ∀ (fuel iNdEx : Nat) (m : Header), iNdEx ≤ dAtA.length →
      dAtA.length + 1 ≤ fuel + iNdEx → ∃ r, unmarshalLoop dAtA fuel iNdEx m = .ret r := by
  intro fuel
  induction fuel with
  | zero => intro _ _ h1 h2; omega
  | succ fuel ih =>
    intro iNdEx m h1 h2
    rw [unmarshalLoop]
    by_cases hi : iNdEx < dAtA.length
    · rw [if_pos hi]
      dsimp only
      cases hrv : readVarint (dAtA.drop iNdEx) 0 0 0 with
      | error e => exact ⟨_, rfl⟩
      | ok p =>
        obtain ⟨wire, n⟩ := p
        obtain ⟨hn1, hn2⟩ := readVarint_bounds _ _ _ _ _ _ hrv
        rw [List.length_drop] at hn2
        dsimp only
        by_cases h4 : wire &&& 0x7 = 4
        · rw [if_pos h4]; exact ⟨_, rfl⟩
        · rw [if_neg h4]
          by_cases hf : toInt32 (wire >>> 3) ≤ 0
          · rw [if_pos hf]; exact ⟨_, rfl⟩
          · rw [if_neg hf]
            by_cases h123 : toInt32 (wire >>> 3) = 1 ∨ toInt32 (wire >>> 3) = 2
                ∨ toInt32 (wire >>> 3) = 3
            · rw [if_pos h123]
              by_cases hw : wire &&& 0x7 ≠ 0
              · rw [if_pos hw]; exact ⟨_, rfl⟩
              · rw [if_neg hw]
                cases hrv2 : readVarint (dAtA.drop (iNdEx + n)) 0 0 0 with
                | error e => exact ⟨_, rfl⟩
                | ok q =>
                  obtain ⟨bits, k⟩ := q
                  obtain ⟨hk1, hk2⟩ := readVarint_bounds _ _ _ _ _ _ hrv2
                  rw [List.length_drop] at hk2
                  dsimp only
                  exact ih _ _ (by omega) (by omega)
            · rw [if_neg h123]
              obtain ⟨r, hr, hr2⟩ := skipHeaderLoop_total (dAtA.drop iNdEx)
                (by rw [List.length_drop]; omega) ((dAtA.drop iNdEx).length + 1) 0 0
                (le_refl _) (by omega) (by intro _; omega)
              rw [slice_to_end dAtA iNdEx h1, Outcome.ret_bind]
              unfold skipHeader
              rw [hr, Outcome.ret_bind]
              cases hr2e : r.2 with
              | some e => exact ⟨_, rfl⟩
              | none =>
                dsimp only
                have hpos := hr2 hr2e
                split_ifs with c1 c2
                · exact ⟨_, rfl⟩
                · exact ⟨_, rfl⟩
                · rw [slice_drop_take dAtA iNdEx r.1.toNat (by omega), Outcome.ret_bind]
                  exact ih _ _ (by omega) (by omega)
    · rw [if_neg hi]
      split_ifs
      · exact ⟨_, rfl⟩
      · exact ⟨_, rfl⟩

theorem drop_succ_of_drop_cons (dAtA : List Byte) (i : Nat) (b : Byte) (tail : List Byte)
    (h : dAtA.drop i = b :: tail) : i < dAtA.length ∧ dAtA.drop (i + 1) = tail := by
  constructor
  · by_contra hge
    rw [List.drop_of_length_le (by omega)] at h
    cases h
  · have : dAtA.drop (i + 1) = (dAtA.drop i).drop 1 := by
      rw [List.drop_drop, Nat.add_comm]
    rw [this, h]
    rfl

theorem unmarshalLoop_tag_error (dAtA : List Byte) (fuel i : Nat) (m : Header) (e : Err)
    (hi : i < dAtA.length) (h : readVarint (dAtA.drop i) 0 0 0 = .error e) :
    unmarshalLoop dAtA (fuel + 1) i m = .ret (m, some e) := by
  rw [unmarshalLoop, if_pos hi]
  dsimp only
  rw [h]

theorem unmarshalLoop_value_error (dAtA : List Byte) (fuel i : Nat) (m : Header) (e : Err)
    (tag : Byte) (tail : List Byte) (hd : dAtA.drop i = tag :: tail)
    (htag : tag = 0x08 ∨ tag = 0x10 ∨ tag = 0x18) (h : readVarint tail 0 0 0 = .error e) :
    unmarshalLoop dAtA (fuel + 1) i m = .ret (m, some e) := by
  obtain ⟨hi, hd1⟩ := drop_succ_of_drop_cons dAtA i tag tail hd
  have htv : tag.val < 128 := by rcases htag with h | h | h <;> subst h <;> decide
  rw [unmarshalLoop, if_pos hi]
  dsimp only
  rw [hd, readVarint_tag tag _ htv]
  dsimp only
  rw [hd1, h]
  rcases htag with h | h | h <;> subst h <;> rfl

theorem skipHeader_varint_error (tag : Byte) (tail : List Byte) (e : Err)
    (htag : tag.val < 0x80) (hw : tag.val &&& 0x7 = 0) (h : skipVarint tail 0 0 = .error e) :
    skipHeader (tag :: tail) = .ret (0, some e) := by
  unfold skipHeader
  rw [skipHeaderLoop]
  have hlt : (0 : Int) < (((tag :: tail).length : Nat) : Int) := by
    rw [List.length_cons]; omega
  rw [if_pos hlt]
  have hd0 : (tag :: tail).drop (0 : Int).toNat = tag :: tail := rfl
  rw [hd0, readVarint_tag tag _ htag]
  dsimp only
  rw [if_pos hw]
  have hd1 : (tag :: tail).drop ((0 : Int) + ((1 : Nat) : Int)).toNat = tail := rfl
  rw [hd1, h]

theorem skipHeader_length_error (tag : Byte) (tail : List Byte) (e : Err)
    (htag : tag.val < 0x80) (hw : tag.val &&& 0x7 = 2) (h : readVarint tail 0 0 0 = .error e) :
    skipHeader (tag :: tail) = .ret (0, some e) := by
  unfold skipHeader
  rw [skipHeaderLoop]
  have hlt : (0 : Int) < (((tag :: tail).length : Nat) : Int) := by
    rw [List.length_cons]; omega
  rw [if_pos hlt]
  have hd0 : (tag :: tail).drop (0 : Int).toNat = tag :: tail := rfl
  rw [hd0, readVarint_tag tag _ htag]
  dsimp only
  rw [if_neg (by omega), if_neg (by omega), if_pos hw]
  have hd1 : (tag :: tail).drop ((0 : Int) + ((1 : Nat) : Int)).toNat = tail := rfl
  rw [hd1, h]

theorem unmarshalLoop_skip_error (dAtA : List Byte) (fuel i : Nat) (m : Header) (e : Err)
    (tag : Byte) (tail : List Byte) (hd : dAtA.drop i = tag :: tail)
    (htag : tag.val < 0x80) (hfield : 4 ≤ tag.val >>> 3) (hw : tag.val &&& 0x7 ≠ 4)
    (h : skipHeader (tag :: tail) = .ret (0, some e)) :
    unmarshalLoop dAtA (fuel + 1) i m = .ret (m, some e) := by
  obtain ⟨hi, _⟩ := drop_succ_of_drop_cons dAtA i tag tail hd
  have hdiv : tag.val >>> 3 = tag.val / 8 := Nat.shiftRight_eq_div_pow _ 3
  have hf : toInt32 (tag.val >>> 3) = ((tag.val >>> 3 : Nat) : Int) := by
    unfold toInt32
    rw [hdiv] at hfield ⊢
    split_ifs <;> omega
  rw [unmarshalLoop, if_pos hi]
  dsimp only
  rw [hd, readVarint_tag tag _ htag]
  dsimp only
  rw [if_neg hw, hf, if_neg (by omega), if_neg (by omega), slice_to_end dAtA i (le_of_lt hi),
    Outcome.ret_bind, hd, h]
  rfl

theorem readVarint_count :
    ∀ (rest : List Byte) (shift acc n : Nat),
      readVarint rest shift acc n = shiftCount n (readVarint rest shift acc 0) := by
  intro rest
  induction rest with
  | nil =>
    intro shift acc n
    by_cases hs : 64 ≤ shift
    · rw [readVarint_shift_ge _ _ _ _ hs, readVarint_shift_ge _ _ _ _ hs]; rfl
    · rw [readVarint, if_neg (by omega), readVarint, if_neg (by omega)]; rfl
  | cons b rest ih =>
    intro shift acc n
    by_cases hs : 64 ≤ shift
    · rw [readVarint_shift_ge _ _ _ _ hs, readVarint_shift_ge _ _ _ _ hs]; rfl
    · rw [readVarint_cons _ _ _ _ _ (by omega), readVarint_cons _ _ _ _ _ (by omega)]
      by_cases hb : b.val < 0x80
      · rw [if_pos hb, if_pos hb]; simp [shiftCount]
      · rw [if_neg hb, if_neg hb, ih _ _ (n + 1), ih _ _ (0 + 1)]
        cases readVarint rest (shift + 7) _ 0 with
        | error e => rfl
        | ok p => obtain ⟨v, k⟩ := p; simp [shiftCount]; omega

theorem readVarintAt_eq (dAtA : List Byte) :
    ∀ (fuel iNdEx shift acc : Nat), 64 ≤ shift + 7 * fuel →
      readVarintAt dAtA (fuel + 1) iNdEx shift acc
        = .ret (shiftCount iNdEx (readVarint (dAtA.drop iNdEx) shift acc 0)) := by
  intro fuel
  induction fuel with
  | zero =>
    intro iNdEx shift acc h
    have hs : shift ≥ 64 := by omega
    rw [readVarintAt, if_pos hs, readVarint_shift_ge _ _ _ _ hs]; rfl
  | succ fuel ih =>
    intro iNdEx shift acc h
    rw [readVarintAt]
    by_cases hs : shift ≥ 64
    · rw [if_pos hs, readVarint_shift_ge _ _ _ _ hs]; rfl
    · rw [if_neg hs]
      by_cases hi : iNdEx ≥ dAtA.length
      · rw [if_pos hi, List.drop_of_length_le hi, readVarint, if_neg (by omega)]; rfl
      · rw [if_neg hi]
        have hlt : iNdEx < dAtA.length := by omega
        have hget : dAtA.get? iNdEx = some (dAtA.get ⟨iNdEx, hlt⟩) := List.get?_eq_get hlt
        have hdrop : dAtA.drop iNdEx = dAtA.get ⟨iNdEx, hlt⟩ :: dAtA.drop (iNdEx + 1) :=
          List.drop_eq_getElem_cons hlt
        rw [hget, hdrop, readVarint_cons _ _ _ _ _ (by omega)]
        dsimp only
        by_cases hb : (dAtA.get ⟨iNdEx, hlt⟩).val < 0x80
        · rw [if_pos hb, if_pos hb]; rfl
        · rw [if_neg hb, if_neg hb, ih _ _ _ (by omega), readVarint_count _ _ _ (0 + 1)]
          cases readVarint (dAtA.drop (iNdEx + 1)) (shift + 7) _ 0 with
          | error e => rfl
          | ok p => obtain ⟨v, k⟩ := p; simp [shiftCount]; omega

theorem skipVarint_count :
    ∀ (rest : List Byte) (shift n : Nat),
      skipVarint rest shift n = shiftSkip n (skipVarint rest shift 0) := by
  intro rest
  induction rest with
  | nil =>
    intro shift n
    by_cases hs : 64 ≤ shift
    · rw [skipVarint_shift_ge _ _ _ hs, skipVarint_shift_ge _ _ _ hs]; rfl
    · rw [skipVarint, if_neg (by omega), skipVarint, if_neg (by omega)]; rfl
  | cons b rest ih =>
    intro shift n
    by_cases hs : 64 ≤ shift
    · rw [skipVarint_shift_ge _ _ _ hs, skipVarint_shift_ge _ _ _ hs]; rfl
    · rw [skipVarint_cons _ _ _ _ (by omega), skipVarint_cons _ _ _ _ (by omega)]
      by_cases hb : b.val < 0x80
      · rw [if_pos hb, if_pos hb]; simp [shiftSkip]
      · rw [if_neg hb, if_neg hb, ih _ (n + 1), ih _ (0 + 1)]
        cases skipVarint rest (shift + 7) 0 with
        | error e => rfl
        | ok p => simp [shiftSkip]; omega

theorem skipVarintAt_eq (dAtA : List Byte) :
    ∀ (fuel iNdEx shift : Nat), 64 ≤ shift + 7 * fuel →
      skipVarintAt dAtA (fuel + 1) iNdEx shift
        = .ret (shiftSkip iNdEx (skipVarint (dAtA.drop iNdEx) shift 0)) := by
  intro fuel
  induction fuel with
  | zero =>
    intro iNdEx shift h
    have hs : shift ≥ 64 := by omega
    rw [skipVarintAt, if_pos hs, skipVarint_shift_ge _ _ _ hs]; rfl
  | succ fuel ih =>
    intro iNdEx shift h
    rw [skipVarintAt]
    by_cases hs : shift ≥ 64
    · rw [if_pos hs, skipVarint_shift_ge _ _ _ hs]; rfl
    · rw [if_neg hs]
      by_cases hi : iNdEx ≥ dAtA.length
      · rw [if_pos hi, List.drop_of_length_le hi, skipVarint, if_neg (by omega)]; rfl
      · rw [if_neg hi]
        have hlt : iNdEx < dAtA.length := by omega
        have hget : dAtA.get? (iNdEx + 1 - 1) = some (dAtA.get ⟨iNdEx, hlt⟩) :=
          List.get?_eq_get hlt
        have hdrop : dAtA.drop iNdEx = dAtA.get ⟨iNdEx, hlt⟩ :: dAtA.drop (iNdEx + 1) :=
          List.drop_eq_getElem_cons hlt
        rw [hget, hdrop, skipVarint_cons _ _ _ _ (by omega)]
        dsimp only
        by_cases hb : (dAtA.get ⟨iNdEx, hlt⟩).val < 0x80
        · rw [if_pos hb, if_pos hb]; rfl
        · rw [if_neg hb, if_neg hb, ih _ _ (by omega), skipVarint_count _ _ (0 + 1)]
          cases skipVarint (dAtA.drop (iNdEx + 1)) (shift + 7) 0 with
          | error e => rfl
          | ok p => simp [shiftSkip]; omega

theorem skipHeaderLoopAt_eq (dAtA : List Byte) :
    ∀ (fuel : Nat) (iNdEx : Int) (depth : Nat), 0 ≤ iNdEx →
      skipHeaderLoopAt dAtA fuel iNdEx depth = skipHeaderLoop dAtA fuel iNdEx depth := by
  intro fuel
  induction fuel with
  | zero => intro _ _ _; rfl
  | succ fuel ih =>
    intro iNdEx depth h0
    rw [skipHeaderLoopAt, skipHeaderLoop]
    by_cases hi : iNdEx < dAtA.length
    · rw [if_pos hi, if_pos hi, if_neg (not_lt.2 h0), readVarintAt_eq dAtA 10 _ 0 0 (by omega),
        Outcome.ret_bind]
      cases hrv : readVarint (dAtA.drop iNdEx.toNat) 0 0 0 with
      | error e => rfl
      | ok p =>
        obtain ⟨wire, n⟩ := p
        have hcast : ((iNdEx.toNat + n : Nat) : Int) = iNdEx + n := by omega
        have htn : (iNdEx + (n : Int)).toNat = iNdEx.toNat + n := by omega
        have hfin : ∀ (i2 : Int) (d2 : Nat),
            (if i2 < 0 then Outcome.ret ((0 : Int), some Err.invalidLengthHeader)
              else if d2 = 0 then Outcome.ret (i2, none) else skipHeaderLoopAt dAtA fuel i2 d2)
            = (if i2 < 0 then Outcome.ret ((0 : Int), some Err.invalidLengthHeader)
              else if d2 = 0 then Outcome.ret (i2, none) else skipHeaderLoop dAtA fuel i2 d2) := by
          intro i2 d2
          by_cases h : i2 < 0
          · rw [if_pos h, if_pos h]
          · rw [if_neg h, if_neg h, ih i2 d2 (by omega)]
        simp only [shiftCount]
        rw [htn, hcast]
        by_cases w0 : wire &&& 7 = 0
        · rw [if_pos w0, if_pos w0, skipVarintAt_eq dAtA 10 _ 0 (by omega), Outcome.ret_bind]
          cases skipVarint (dAtA.drop (iNdEx.toNat + n)) 0 0 with
          | error e => rfl
          | ok k =>
            simp only [shiftSkip, Outcome.ret_bind, Nat.cast_add, Int.toNat_of_nonneg h0]
            exact hfin _ _
        · rw [if_neg w0, if_neg w0]
          by_cases w1 : wire &&& 7 = 1
          · rw [if_pos w1, if_pos w1]; exact hfin _ _
          · rw [if_neg w1, if_neg w1]
            by_cases w2 : wire &&& 7 = 2
            · rw [if_pos w2, if_pos w2, readVarintAt_eq dAtA 10 _ 0 0 (by omega),
                Outcome.ret_bind]
              cases readVarint (dAtA.drop (iNdEx.toNat + n)) 0 0 0 with
              | error e => rfl
              | ok q =>
                obtain ⟨bits, k⟩ := q
                simp only [shiftCount, Nat.cast_add, Int.toNat_of_nonneg h0]
                by_cases hl : toInt64 bits < 0
                · rw [if_pos hl, if_pos hl]; rfl
                · rw [if_neg hl, if_neg hl]; exact hfin _ _
            · rw [if_neg w2, if_neg w2]
              by_cases w3 : wire &&& 7 = 3
              · rw [if_pos w3, if_pos w3]; exact hfin _ _
              · rw [if_neg w3, if_neg w3]
                by_cases w4 : wire &&& 7 = 4
                · rw [if_pos w4, if_pos w4]
                  by_cases hd : depth = 0
                  · rw [if_pos hd, if_pos hd]; rfl
                  · rw [if_neg hd, if_neg hd]; exact hfin _ _
                · rw [if_neg w4, if_neg w4]
                  by_cases w5 : wire &&& 7 = 5
                  · rw [if_pos w5, if_pos w5]; exact hfin _ _
                  · rw [if_neg w5, if_neg w5]; rfl
    · rw [if_neg hi, if_neg hi]

theorem skipHeaderAt_eq (dAtA : List Byte) : skipHeaderAt dAtA = skipHeader dAtA :=
  skipHeaderLoopAt_eq dAtA _ 0 0 (le_refl _)

theorem unmarshalLoopAt_eq (dAtA : List Byte) :
    ∀ (fuel iNdEx : Nat) (m : Header),
      unmarshalLoopAt dAtA fuel iNdEx m = unmarshalLoop dAtA fuel iNdEx m := by
  intro fuel
  induction fuel with
  | zero => intro _ _; rfl
  | succ fuel ih =>
    intro iNdEx m
    rw [unmarshalLoopAt, unmarshalLoop]
    by_cases hi : iNdEx < dAtA.length
    · rw [if_pos hi, if_pos hi]
      dsimp only
      rw [readVarintAt_eq dAtA 10 _ 0 0 (by omega), Outcome.ret_bind]
      cases hrv : readVarint (dAtA.drop iNdEx) 0 0 0 with
      | error e => rfl
      | ok p =>
        obtain ⟨wire, n⟩ := p
        simp only [shiftCount]
        by_cases h4 : wire &&& 0x7 = 4
        · rw [if_pos h4, if_pos h4]
        · rw [if_neg h4, if_neg h4]
          by_cases hf : toInt32 (wire >>> 3) ≤ 0
          · rw [if_pos hf, if_pos hf]
          · rw [if_neg hf, if_neg hf]
            by_cases h123 : toInt32 (wire >>> 3) = 1 ∨ toInt32 (wire >>> 3) = 2
                ∨ toInt32 (wire >>> 3) = 3
            · rw [if_pos h123, if_pos h123]
              by_cases hw : wire &&& 0x7 ≠ 0
              · rw [if_pos hw, if_pos hw]
              · rw [if_neg hw, if_neg hw, readVarintAt_eq dAtA 10 _ 0 0 (by omega),
                  Outcome.ret_bind]
                cases readVarint (dAtA.drop (iNdEx + n)) 0 0 0 with
                | error e => rfl
                | ok q =>
                  obtain ⟨bits, k⟩ := q
                  simp only [shiftCount]
                  rw [ih]
            · rw [if_neg h123, if_neg h123]
              cases slice dAtA iNdEx dAtA.length with
              | fault f => rfl
              | outOfFuel => rfl
              | ret rest =>
                rw [Outcome.ret_bind, Outcome.ret_bind, skipHeaderAt_eq]
                cases skipHeader rest with
                | fault f => rfl
                | outOfFuel => rfl
                | ret r =>
                  rw [Outcome.ret_bind, Outcome.ret_bind]
                  cases r.2 with
                  | some e => rfl
                  | none =>
                    dsimp only
                    split_ifs
                    · rfl
                    · rfl
                    · cases slice dAtA iNdEx (iNdEx + r.1.toNat) with
                      | fault f => rfl
                      | outOfFuel => rfl
                      | ret u => rw [Outcome.ret_bind, Outcome.ret_bind, ih]
    · rw [if_neg hi, if_neg hi]

theorem UnmarshalAt_eq (m : Header) (dAtA : List Byte) :
    Header.UnmarshalAt m dAtA = Header.Unmarshal m dAtA :=
  unmarshalLoopAt_eq dAtA _ 0 m

/-- C35: for every buffer (of a length that fits an `int`), `Header.Unmarshal` and
`skipHeader`, as the source writes them on indices into the buffer, return: the loops
end within the step budget `len + 1`, and the result is success or an error, never a
panic, so that no read `dAtA[iNdEx]` and no slice expression leaves the buffer. The
functions on indices return what the functions on the rest of the buffer return, for
every buffer and from every position. Wherever the loop of `Unmarshal` stands in a
buffer, a varint with fewer than ten bytes, all with the continuation bit, that ends
with the buffer gives `io.ErrUnexpectedEOF`, and a varint whose first ten bytes all
have the continuation bit gives `ErrIntOverflowHeader`; this holds for the tag, for the
value of a known field (tags 0x08, 0x10, 0x18), and for the varint and the length of
a field that is skipped. -/
theorem Unmarshal_total (m : Header) (dAtA : List Byte) (hlen : dAtA.length < 2 ^ 63) :
    (∃ r, Header.UnmarshalAt m dAtA = .ret r)
      ∧ (∃ r, skipHeaderAt dAtA = .ret r)
      ∧ (∃ r, Header.Unmarshal m dAtA = .ret r)
      ∧ (∃ r, skipHeader dAtA = .ret r)
      ∧ Header.UnmarshalAt m dAtA = unmarshalLoopAt dAtA (dAtA.length + 1) 0 m
      ∧ Header.Unmarshal m dAtA = unmarshalLoop dAtA (dAtA.length + 1) 0 m
      ∧ (∀ (d : List Byte) (fuel i : Nat) (m1 : Header),
          unmarshalLoopAt d fuel i m1 = unmarshalLoop d fuel i m1)
      ∧ (∀ (d : List Byte) (fuel : Nat) (i : Int) (depth : Nat), 0 ≤ i →
          skipHeaderLoopAt d fuel i depth = skipHeaderLoop d fuel i depth)
      ∧ (∀ (d : List Byte) (i : Nat),
          readVarintAt d 11 i 0 0 = .ret (shiftCount i (readVarint (d.drop i) 0 0 0)))
      ∧ (∀ (d : List Byte) (i : Nat),
          skipVarintAt d 11 i 0 = .ret (shiftSkip i (skipVarint (d.drop i) 0 0)))
      ∧ ∀ (d : List Byte) (fuel i : Nat) (m1 : Header) (cs rest : List Byte),
          (∀ b ∈ cs, isContinuation b) →
          (cs.length < 10 →
              (cs ≠ [] → d.drop i = cs →
                unmarshalLoopAt d (fuel + 1) i m1 = .ret (m1, some .unexpectedEOF))
              ∧ (∀ tag : Byte, tag = 0x08 ∨ tag = 0x10 ∨ tag = 0x18 → d.drop i = tag :: cs →
                  unmarshalLoopAt d (fuel + 1) i m1 = .ret (m1, some .unexpectedEOF))
              ∧ (∀ tag : Byte, tag.val < 0x80 → 4 ≤ tag.val >>> 3 →
                  tag.val &&& 0x7 = 0 ∨ tag.val &&& 0x7 = 2 → d.drop i = tag :: cs →
                  unmarshalLoopAt d (fuel + 1) i m1 = .ret (m1, some .unexpectedEOF)))
          ∧ (cs.length = 10 →
              (d.drop i = cs ++ rest →
                unmarshalLoopAt d (fuel + 1) i m1 = .ret (m1, some .intOverflowHeader))
              ∧ (∀ tag : Byte, tag = 0x08 ∨ tag = 0x10 ∨ tag = 0x18 →
                  d.drop i = tag :: (cs ++ rest) →
                  unmarshalLoopAt d (fuel + 1) i m1 = .ret (m1, some .intOverflowHeader))
              ∧ (∀ tag : Byte, tag.val < 0x80 → 4 ≤ tag.val >>> 3 →
                  tag.val &&& 0x7 = 0 ∨ tag.val &&& 0x7 = 2 → d.drop i = tag :: (cs ++ rest) →
                  unmarshalLoopAt d (fuel + 1) i m1 = .ret (m1, some .intOverflowHeader))) := by
  have htot : ∃ r, Header.Unmarshal m dAtA = .ret r := by
    unfold Header.Unmarshal
    exact unmarshalLoop_total dAtA hlen _ 0 m (Nat.zero_le _) (by omega)
  have hskip : ∃ r, skipHeader dAtA = .ret r := by
    obtain ⟨r, hr, _⟩ := skipHeaderLoop_total dAtA hlen (dAtA.length + 1) 0 0 (le_refl _)
      (by omega) (by intro _; omega)
    exact ⟨r, hr⟩
  refine ⟨by rw [UnmarshalAt_eq]; exact htot, by rw [skipHeaderAt_eq]; exact hskip, htot, hskip,
    rfl, rfl, unmarshalLoopAt_eq, skipHeaderLoopAt_eq,
    fun d i => readVarintAt_eq d 10 i 0 0 (by omega),
    fun d i => skipVarintAt_eq d 10 i 0 (by omega), ?_⟩
  intro d fuel i m1 cs rest hc
  simp only [unmarshalLoopAt_eq]
  constructor
  · intro hlt
    have hr : readVarint cs 0 0 0 = .error .unexpectedEOF :=
      readVarint_cut cs 0 0 0 hc (by omega)
    have hs : skipVarint cs 0 0 = .error .unexpectedEOF :=
      skipVarint_cut cs 0 0 hc (by omega)
    refine ⟨?_, ?_, ?_⟩
    · intro hne hd
      have hi : i < d.length := by
        by_contra hge
        rw [List.drop_of_length_le (by omega)] at hd
        exact hne hd.symm
      exact unmarshalLoop_tag_error d fuel i m1 _ hi (by rw [hd]; exact hr)
    · intro tag htag hd
      exact unmarshalLoop_value_error d fuel i m1 _ tag cs hd htag hr
    · intro tag htag hfield hw hd
      rcases hw with hw | hw
      · exact unmarshalLoop_skip_error d fuel i m1 _ tag cs hd htag hfield (by omega)
          (skipHeader_varint_error tag cs _ htag hw hs)
      · exact unmarshalLoop_skip_error d fuel i m1 _ tag cs hd htag hfield (by omega)
          (skipHeader_length_error tag cs _ htag hw hr)
  · intro hlen10
    have hr : readVarint (cs ++ rest) 0 0 0 = .error .intOverflowHeader :=
      readVarint_long cs rest 0 0 0 hc (by omega)
    have hs : skipVarint (cs ++ rest) 0 0 = .error .intOverflowHeader :=
      skipVarint_long cs rest 0 0 hc (by omega)
    refine ⟨?_, ?_, ?_⟩
    · intro hd
      have hi : i < d.length := by
        by_contra hge
        rw [List.drop_of_length_le (by omega)] at hd
        have := congrArg List.length hd
        rw [List.length_append, hlen10, List.length_nil] at this
        omega
      exact unmarshalLoop_tag_error d fuel i m1 _ hi (by rw [hd]; exact hr)
    · intro tag htag hd
      exact unmarshalLoop_value_error d fuel i m1 _ tag _ hd htag hr
    · intro tag htag hfield hw hd
      rcases hw with hw | hw
      · exact unmarshalLoop_skip_error d fuel i m1 _ tag _ hd htag hfield (by omega)
          (skipHeader_varint_error tag _ _ htag hw hs)
      · exact unmarshalLoop_skip_error d fuel i m1 _ tag _ hd htag hfield (by omega)
          (skipHeader_length_error tag _ _ htag hw hr)

/-- Witness of C35: the buffer of a tag followed by one continuation byte. -/
theorem Unmarshal_total_witness :
    (∃ r, Header.UnmarshalAt {} [0x08, 0x80] = .ret r)
      ∧ (∃ r, skipHeaderAt [0x08, 0x80] = .ret r)
      ∧ (∃ r, Header.Unmarshal {} [0x08, 0x80] = .ret r)
      ∧ (∃ r, skipHeader [0x08, 0x80] = .ret r)
      ∧ Header.UnmarshalAt {} [0x08, 0x80]
          = unmarshalLoopAt [0x08, 0x80] (([0x08, 0x80] : List Byte).length + 1) 0 {}
      ∧ Header.Unmarshal {} [0x08, 0x80]
          = unmarshalLoop [0x08, 0x80] (([0x08, 0x80] : List Byte).length + 1) 0 {}
      ∧ (∀ (d : List Byte) (fuel i : Nat) (m1 : Header),
          unmarshalLoopAt d fuel i m1 = unmarshalLoop d fuel i m1)
      ∧ (∀ (d : List Byte) (fuel : Nat) (i : Int) (depth : Nat), 0 ≤ i →
          skipHeaderLoopAt d fuel i depth = skipHeaderLoop d fuel i depth)
      ∧ (∀ (d : List Byte) (i : Nat),
          readVarintAt d 11 i 0 0 = .ret (shiftCount i (readVarint (d.drop i) 0 0 0)))
      ∧ (∀ (d : List Byte) (i : Nat),
          skipVarintAt d 11 i 0 = .ret (shiftSkip i (skipVarint (d.drop i) 0 0)))
      ∧ ∀ (d : List Byte) (fuel i : Nat) (m1 : Header) (cs rest : List Byte),
          (∀ b ∈ cs, isContinuation b) →
          (cs.length < 10 →
              (cs ≠ [] → d.drop i = cs →
                unmarshalLoopAt d (fuel + 1) i m1 = .ret (m1, some .unexpectedEOF))
              ∧ (∀ tag : Byte, tag = 0x08 ∨ tag = 0x10 ∨ tag = 0x18 → d.drop i = tag :: cs →
                  unmarshalLoopAt d (fuel + 1) i m1 = .ret (m1, some .unexpectedEOF))
              ∧ (∀ tag : Byte, tag.val < 0x80 → 4 ≤ tag.val >>> 3 →
                  tag.val &&& 0x7 = 0 ∨ tag.val &&& 0x7 = 2 → d.drop i = tag :: cs →
                  unmarshalLoopAt d (fuel + 1) i m1 = .ret (m1, some .unexpectedEOF)))
          ∧ (cs.length = 10 →
              (d.drop i = cs ++ rest →
                unmarshalLoopAt d (fuel + 1) i m1 = .ret (m1, some .intOverflowHeader))
              ∧ (∀ tag : Byte, tag = 0x08 ∨ tag = 0x10 ∨ tag = 0x18 →
                  d.drop i = tag :: (cs ++ rest) →
                  unmarshalLoopAt d (fuel + 1) i m1 = .ret (m1, some .intOverflowHeader))
              ∧ (∀ tag : Byte, tag.val < 0x80 → 4 ≤ tag.val >>> 3 →
                  tag.val &&& 0x7 = 0 ∨ tag.val &&& 0x7 = 2 → d.drop i = tag :: (cs ++ rest) →
                  unmarshalLoopAt d (fuel + 1) i m1 = .ret (m1, some .intOverflowHeader))) :=
  Unmarshal_total {} [0x08, 0x80] (by decide)

/-- Buffers with a malformed varint, parsed by `Header.Unmarshal`: a value cut off
after one byte, a tag of ten continuation bytes, a value of ten continuation bytes
after a complete field, a skipped varint that is cut off, and a skipped length of ten
continuation bytes. -/
theorem Unmarshal_malformed_examples :
    Header.Unmarshal {} [0x08, 0x80] = .ret ({}, some .unexpectedEOF)
      ∧ Header.Unmarshal {} (List.replicate 10 0x80 ++ [0x01])
          = .ret ({}, some .intOverflowHeader)
      ∧ Header.Unmarshal {} ([0x08, 0x02, 0x10] ++ List.replicate 10 0xFF ++ [0x01])
          = .ret ({ CompressionType := some 2 }, some .intOverflowHeader)
      ∧ Header.Unmarshal {} [0x20, 0x80, 0x80] = .ret ({}, some .unexpectedEOF)
      ∧ Header.Unmarshal {} (0x22 :: List.replicate 10 0x80)
          = .ret ({}, some .intOverflowHeader) := by
  refine ⟨by decide, by decide, by decide, by decide, by decide⟩

/-- Buffers parsed by `Header.Unmarshal` on indices: a value cut off after one byte, a
tag of ten continuation bytes, a skipped length that points behind the buffer (the
check before the slice expression `dAtA[iNdEx:iNdEx+skippy]` answers), a skipped field
of eight bytes that the buffer does not hold, and an unknown field that is kept. -/
theorem UnmarshalAt_examples :
    Header.UnmarshalAt {} [0x08, 0x80] = .ret ({}, some .unexpectedEOF)
      ∧ Header.UnmarshalAt {} (List.replicate 10 0x80 ++ [0x01])
          = .ret ({}, some .intOverflowHeader)
      ∧ Header.UnmarshalAt {} [0x22, 0x05, 0x01] = .ret ({}, some .unexpectedEOF)
      ∧ Header.UnmarshalAt {} [0x21, 0x01] = .ret ({}, some .unexpectedEOF)
      ∧ Header.UnmarshalAt {} [0x22, 0x01, 0x07, 0x08, 0x02]
          = .ret ({ CompressionType := some 2, XXX_unrecognized := [0x22, 0x01, 0x07] }, none)
      ∧ slice [0x22, 0x05, 0x01] 0 7 = .fault .sliceBounds := by
  refine ⟨by decide, by decide, by decide, by decide, by decide, by decide⟩

end Cache
